import Mathlib

/-!
# Halo exchange engine (`ghosts.c`): shallow embedding and verification

The C module keeps its state in global variables.  The embedding splits them into

* `Env`        : per-rank constants of the process grid (`this_node`, `neighbors`, ...),
* `GhostCells` : the send/recv cell lists built once by `ghost_init`,
* `State`      : everything an exchange routine mutates.

C arrays are reached through pointers, so an array is a total map from `Int` offsets to
values (`Int → α`); a write is `Function.update`.  C `int` is `Int` (the routines are
modelled on executions without signed overflow, which is undefined in C), and `double`
is an arbitrary linearly ordered commutative ring `F`, i.e. forces and coordinates are
exact numbers.  `sub_grid_indices`, whose guard is itself `int` arithmetic on its
arguments, is also embedded with 32-bit `int` (`sub_grid_indices_int`);
`sub_grid_indices_int_exact` shows the two embeddings equal on every call in which no
value leaves the range of `int`.

Runs on several ranks are worlds `Int → State F`: all ranks execute a sweep in lock step
and the message a rank receives in direction `dir` is the one `neighbors[r_dir]` sent.
-/

set_option autoImplicit false

namespace Ghosts

/-! ## Loops -/

/-- The C loop `for (x = lo; x < hi; x++) s = body(x, s);` whose body changes neither
`x` nor the bounds. -/
def forLoop {σ : Type} (lo hi : Int) (body : Int → σ → σ) (s : σ) : σ :=
  (List.range (hi - lo).toNat).foldl (fun acc (k : Nat) => body (lo + (k : Int)) acc) s

/-! ## `sub_grid_indices` -/

/-- Loop state of the triple loop of `sub_grid_indices`: the write cursor `i`, the
index array `list`, and the `(i, max)` pairs printed by the "Array overflow"
diagnostic. -/
structure FillState where
  i : Int
  list : Int → Int
  overflow : List (Int × Int)

/-- Result of `sub_grid_indices`: the return value, the index array after the call and
the diagnostics printed. -/
structure SubGrid where
  ret : Int
  list : Int → Int
  overflow : List (Int × Int)

/-- The per-axis sanity check of `sub_grid_indices` (the three `return 0` tests). -/
def sub_grid_insane (lc hc gs : Fin 3 → Int) (i : Fin 3) : Bool :=
  (decide (lc i < 0) || decide (lc i ≥ gs i)) ||
  (decide (hc i < 0) || decide (hc i ≥ gs i)) ||
  decide (lc i > hc i)

/-- The `size` computed by `sub_grid_indices`:
`size = hc[0]+1-lc[0]; for (i=1;i<3;i++) size *= hc[i]+1-lc[i];`, in exact arithmetic
(`sub_grid_size_int` is the value the `int` variable holds). -/
def sub_grid_size (lc hc : Fin 3 → Int) : Int :=
  ([1, 2] : List (Fin 3)).foldl (fun size i => size * (hc i + 1 - lc i)) (hc 0 + 1 - lc 0)

/-- Body of the innermost loop of `sub_grid_indices`. `get_linear_index` is declared
outside `ghosts.c` and is a parameter. -/
def sub_grid_body (get_linear_index : Int → Int → Int → Int → Int → Int → Int)
    (max : Int) (gs : Fin 3 → Int) (p0 p1 p2 : Int) (s : FillState) : FillState :=
  { i := s.i + 1
    list := Function.update s.list s.i (get_linear_index p0 p1 p2 (gs 0) (gs 1) (gs 2))
    overflow := if s.i > max then s.overflow ++ [(s.i, max)] else s.overflow }

/-- `int sub_grid_indices(int* list, int start, int max, int lc[3], int hc[3], int gs[3])`
in exact arithmetic: the calls in which `size`, `size+start` and `i` stay in the range of
`int` (`sub_grid_indices_int` is the function with 32-bit `int`). -/
def sub_grid_indices (get_linear_index : Int → Int → Int → Int → Int → Int → Int)
    (list : Int → Int) (start max : Int) (lc hc gs : Fin 3 → Int) : SubGrid :=
  if ([0, 1, 2] : List (Fin 3)).any (sub_grid_insane lc hc gs) then
    { ret := 0, list := list, overflow := [] }
  else
    let size := sub_grid_size lc hc
    if size + start > max then
      { ret := -1, list := list, overflow := [] }
    else
      let s := forLoop (lc 0) (hc 0 + 1) (fun p0 =>
                 forLoop (lc 1) (hc 1 + 1) (fun p1 =>
                   forLoop (lc 2) (hc 2 + 1) (fun p2 =>
                     sub_grid_body get_linear_index max gs p0 p1 p2)))
                 { i := start, list := list, overflow := [] }
      { ret := size, list := s.list, overflow := s.overflow }

/-- The bounds `0 <= lc[i] <= hc[i] < gs[i]` on all three axes. -/
def BoxValid (lc hc gs : Fin 3 → Int) : Prop :=
  ∀ i : Fin 3, 0 ≤ lc i ∧ lc i ≤ hc i ∧ hc i < gs i

instance (lc hc gs : Fin 3 → Int) : Decidable (BoxValid lc hc gs) := by
  unfold BoxValid; infer_instance

/-- The product `(hc[0]+1-lc[0])*(hc[1]+1-lc[1])*(hc[2]+1-lc[2])`. -/
def boxSize (lc hc : Fin 3 → Int) : Int :=
  (hc 0 + 1 - lc 0) * (hc 1 + 1 - lc 1) * (hc 2 + 1 - lc 2)

/-- A state transformer that writes one block of `m` consecutive entries at the cursor:
the cursor advances by `m`, nothing outside the block changes, and the block (read
relative to its start) satisfies `C`. -/
def BlockWriter (m : Int) (C : (Int → Int) → Prop) (f : FillState → FillState) : Prop :=
  ∀ t : FillState, (f t).i = t.i + m ∧
    (∀ j, j < t.i ∨ t.i + m ≤ j → (f t).list j = t.list j) ∧
    C (fun k => (f t).list (t.i + k))

/-! ## Data model -/

/-- Modelled from the spec: the `Particle` record is declared outside `ghosts.c`; the
fields are those of the spec's data model under the names the source uses (`identity`,
`type`, position `p`, image `i`, velocity `v`, force `f`, charge `q`, `n_bonds`, `bonds`).
`bonds` is the heap block the `bonds` pointer refers to, `[]` when the pointer refers to
no live block (freed, or received from another address space). -/
structure Particle (F : Type) where
  identity : Int
  type : Int
  p : Fin 3 → F
  i : Fin 3 → Int
  v : Fin 3 → F
  f : Fin 3 → F
  q : F
  n_bonds : Int
  bonds : List Int

/-- Modelled from the spec: the `Ghost` record (identity, type, position, charge). -/
structure Ghost (F : Type) where
  identity : Int
  type : Int
  p : Fin 3 → F
  q : F

/-- Modelled from the spec: a cell of the cell table, holding slot indices into the
particle array. -/
structure Cell where
  n_particles : Int
  max_particles : Int
  particles : Int → Int

/-- Lines printed to the diagnostic stream. -/
inductive Diag (F : Type) where
  | illegal_identity (node identity part : Int)
  | illegal_position (node : Int) (dir : Fin 3) (pos : F) (part : Int)

/-- Everything `ghosts.c` consumes from its collaborators and never writes: the rank's
place in the process grid, its sub-box, and the constants and helpers declared in other
modules. -/
structure Env (F : Type) where
  this_node : Int
  neighbors : Fin 6 → Int
  pe_pos : Fin 3 → Int
  boundary : Fin 6 → F
  my_left : Fin 3 → F
  my_right : Fin 3 → F
  box_l : Fin 3 → F
  n_total_particles : Int
  PART_INCREMENT : Int
  fold_particle : (Fin 3 → F) → (Fin 3 → Int) → (Fin 3 → F) × (Fin 3 → Int)
  aa_ghost : Ghost F

/-- The cell index lists built once by `ghost_init` and read by the ghost routines. -/
structure GhostCells where
  max_send_cells : Int
  n_send_cells : Fin 6 → Int
  n_recv_cells : Fin 6 → Int
  cell_start : Fin 6 → Int
  ntot_send_cells : Int
  send_cells : Int → Int
  recv_cells : Int → Int

/-- The mutable state of one rank: the particle store and cell table (owned by other
modules, written here) and the buffers of `ghosts.c`.  Array capacities of the external
particle store (`max_particles`, `realloc_particles`) are not tracked: arrays are
unbounded maps, so growing one changes no content. -/
structure State (F : Type) where
  particles : Int → Particle F
  n_particles : Int
  n_ghosts : Int
  local_index : Int → Int
  cells : Int → Cell
  n_p_send_buf : Int
  max_p_send_buf : Int
  p_send_buf : Int → Particle F
  n_p_recv_buf : Int
  max_p_recv_buf : Int
  p_recv_buf : Int → Particle F
  n_b_send_buf : Int
  max_b_send_buf : Int
  b_send_buf : Int → Int
  n_b_recv_buf : Int
  max_b_recv_buf : Int
  b_recv_buf : Int → Int
  n_send_ghosts : Int → Int
  n_recv_ghosts : Int → Int
  n_g_send_buf : Int
  max_g_send_buf : Int
  g_send_buf : Int → Ghost F
  n_g_recv_buf : Int
  max_g_recv_buf : Int
  g_recv_buf : Int → Ghost F
  ghost_send_size : Fin 6 → Int
  ghost_recv_size : Fin 6 → Int
  send_buf : Int → F
  max_send_buf : Int
  recv_buf : Int → F
  max_recv_buf : Int
  diag : List (Diag F)

/-- Axis `dir/2` of a direction. -/
def axis_of (dir : Fin 6) : Fin 3 := ⟨dir.val / 2, by omega⟩

/-- Direction `2*d + lr`. -/
def dir_of (d : Fin 3) (lr : Fin 2) : Fin 6 := ⟨2 * d.val + lr.val, by omega⟩

/-- The receive direction: `if (s_dir%2 == 0) r_dir = s_dir+1; else r_dir = s_dir-1;`. -/
def r_dir_of (s_dir : Fin 6) : Fin 6 :=
  if s_dir.val % 2 = 0 then ⟨(s_dir.val + 1) % 6, by omega⟩ else ⟨s_dir.val - 1, by omega⟩

/-- `memcpy(&dst[off], src, n*sizeof(T))` from another array. -/
def memcpy {α : Type} (dst : Int → α) (off : Int) (src : Int → α) (n : Int) : Int → α :=
  forLoop 0 n (fun k m => Function.update m (off + k) (src k)) dst

/-- A heap block read as an array (entries past its end read as 0). -/
def block (l : List Int) : Int → Int := fun k => l.getD k.toNat 0

/-- The `n` ints found at `src[off..off+n)`, as a fresh heap block. -/
def read_block (src : Int → Int) (off n : Int) : List Int :=
  (List.range n.toNat).map (fun (k : Nat) => src (off + (k : Int)))

/-! ## Particle migration -/

/-- The bond counting loop `for(i=0;i<n_bonds;i++) bonds++;`. -/
def count_bonds (n_bonds : Int) : Int :=
  forLoop 0 n_bonds (fun _ bonds => bonds + 1) 0

/-- `int move_to_p_buf(int ind)`: returns the new state and the returned cursor. -/
def move_to_p_buf {F : Type} (env : Env F) (st : State F) (ind : Int) : State F × Int :=
  let bonds := count_bonds (st.particles ind).n_bonds
  -- check buffer sizes
  let st1 : State F :=
    if st.n_p_send_buf ≥ st.max_p_send_buf then
      { st with max_p_send_buf := st.max_p_send_buf + env.PART_INCREMENT }
    else st
  let st2 : State F :=
    if bonds > 0 ∧ st1.n_b_send_buf + bonds ≥ st1.max_b_send_buf then
      { st1 with max_b_send_buf := st1.n_b_send_buf + bonds + env.PART_INCREMENT }
    else st1
  -- copy particle from local array to send buffer
  let st3 : State F :=
    if bonds > 0 then
      { st2 with
        b_send_buf := memcpy st2.b_send_buf st2.n_b_send_buf
                        (block (st2.particles ind).bonds) bonds
        n_b_send_buf := st2.n_b_send_buf + bonds
        -- free(particles[ind].bonds)
        particles := Function.update st2.particles ind
                        { (st2.particles ind) with bonds := [] } }
    else st2
  let st4 : State F :=
    { st3 with
      p_send_buf := Function.update st3.p_send_buf st3.n_p_send_buf (st3.particles ind)
      n_p_send_buf := st3.n_p_send_buf + 1 }
  -- delete particle
  let st5 : State F :=
    { st4 with local_index := Function.update st4.local_index (st4.particles ind).identity (-1) }
  if ind < st5.n_particles - 1 then
    let st6 : State F :=
      { st5 with
        local_index := Function.update st5.local_index
          (st5.particles (st5.n_particles - 1)).identity ind }
    let st7 : State F :=
      { st6 with
        particles := Function.update st6.particles ind (st6.particles (st6.n_particles - 1)) }
    ({ st7 with n_particles := st7.n_particles - 1 }, ind - 1)
  else
    ({ st5 with n_particles := st5.n_particles - 1 }, ind)

/-- What one `send_particles` call puts on the wire: the two sizes, the particle records
and the bond stream. -/
structure PartMsg (F : Type) where
  n_p : Int
  n_b : Int
  p_buf : Int → Particle F
  b_buf : Int → Int

/-- The message a rank sends in `send_particles`. -/
def part_msg {F : Type} (st : State F) : PartMsg F :=
  { n_p := st.n_p_send_buf
    n_b := st.n_b_send_buf
    p_buf := st.p_send_buf
    b_buf := st.b_send_buf }

/-- The receive half of `send_particles` (the `else` branch of the even/odd loop), given
the message sent by `neighbors[r_dir]`.  A record received from another address space
carries a `bonds` pointer that refers to no block. -/
def recv_particles {F : Type} (st : State F) (msg : PartMsg F) : State F :=
  let st1 : State F := { st with n_p_recv_buf := msg.n_p, n_b_recv_buf := msg.n_b }
  let st2 : State F :=
    if st1.n_p_recv_buf ≥ st1.max_p_recv_buf then
      { st1 with max_p_recv_buf := st1.n_p_recv_buf }
    else st1
  let st3 : State F :=
    if st2.n_b_recv_buf ≥ st2.max_b_recv_buf then
      { st2 with max_b_recv_buf := st2.n_b_recv_buf }
    else st2
  let st4 : State F :=
    { st3 with
      p_recv_buf := memcpy st3.p_recv_buf 0
        (fun k => { (msg.p_buf k) with bonds := [] }) st3.n_p_recv_buf }
  if st4.n_b_recv_buf > 0 then
    { st4 with b_recv_buf := memcpy st4.b_recv_buf 0 msg.b_buf st4.n_b_recv_buf }
  else st4

/-- `void send_particles(int s_dir)`; `msg` is what `neighbors[r_dir]` sends to this
rank in the same call.  Sending leaves the local state unchanged. -/
def send_particles {F : Type} (env : Env F) (st : State F) (s_dir : Fin 6)
    (msg : PartMsg F) : State F :=
  if env.neighbors s_dir ≠ env.this_node then
    ([0, 1] : List Int).foldl (fun acc evenodd =>
      if (env.pe_pos (axis_of s_dir) + evenodd) % 2 = 0 then acc
      else recv_particles acc msg) st
  else
    { st with
      n_p_send_buf := st.n_p_recv_buf
      n_p_recv_buf := st.n_p_send_buf
      max_p_send_buf := st.max_p_recv_buf
      max_p_recv_buf := st.max_p_send_buf
      p_send_buf := st.p_recv_buf
      p_recv_buf := st.p_send_buf
      n_b_send_buf := st.n_b_recv_buf
      n_b_recv_buf := st.n_b_send_buf
      max_b_send_buf := st.max_b_recv_buf
      max_b_recv_buf := st.max_b_send_buf
      b_send_buf := st.b_recv_buf
      b_recv_buf := st.b_send_buf }

/-- Body of the loop of `append_particles`; the loop state is the rank state and `b_ind`. -/
def append_body {F : Type} (n : Int) (s : State F × Int) : State F × Int :=
  let st1 : State F :=
    { s.1 with local_index := Function.update s.1.local_index (s.1.particles n).identity n }
  let bonds := count_bonds (st1.particles n).n_bonds
  if bonds > 0 then
    ({ st1 with
       particles := Function.update st1.particles n
          { (st1.particles n) with bonds := read_block st1.b_recv_buf s.2 bonds } },
     s.2 + bonds)
  else (st1, s.2)

/-- `void append_particles(void)`. -/
def append_particles {F : Type} (st : State F) : State F :=
  let st1 : State F :=
    { st with particles := memcpy st.particles st.n_particles st.p_recv_buf st.n_p_recv_buf }
  let st2 : State F :=
    (forLoop st1.n_particles (st1.n_particles + st1.n_p_recv_buf) append_body (st1, 0)).1
  { st2 with n_particles := st2.n_particles + st2.n_p_recv_buf }

/-- The scan loops of `exchange_part`,
`for(n=0;n<n_particles;n++) if (out(particles[n])) n = move_to_p_buf(n);`,
run for at most `fuel` iterations; returns the state and the cursor reached. -/
def scan_loop {F : Type} (env : Env F) (out : Particle F → Bool) :
    Nat → State F → Int → State F × Int
  | 0, st, n => (st, n)
  | fuel + 1, st, n =>
    if n < st.n_particles then
      if out (st.particles n) then
        scan_loop env out fuel (move_to_p_buf env st n).1 ((move_to_p_buf env st n).2 + 1)
      else scan_loop env out fuel st (n + 1)
    else (st, n)

/-- A particle after `fold_particle(particles[n].p, particles[n].i)`. -/
def folded {F : Type} (env : Env F) (x : Particle F) : Particle F :=
  { x with p := (env.fold_particle x.p x.i).1, i := (env.fold_particle x.p x.i).2 }

/-- The first loop of `exchange_part`: fold coordinates to the primary box. -/
def exchange_part_fold {F : Type} (env : Env F) (st : State F) : State F :=
  forLoop 0 st.n_particles (fun n acc =>
    { acc with particles := Function.update acc.particles n (folded env (acc.particles n)) }) st

/-- Body of the validation scan of `exchange_part` for slot `n`. -/
def check_body {F : Type} [LinearOrderedCommRing F] (env : Env F) (n : Int) (acc : State F) :
    State F :=
  let acc1 : State F :=
    if (acc.particles n).identity < 0 ∨ (acc.particles n).identity > env.n_total_particles
    then { acc with diag := acc.diag ++
            [Diag.illegal_identity env.this_node (acc.particles n).identity n] }
    else acc
  ([0, 1, 2] : List (Fin 3)).foldl (fun a dir =>
    if (a.particles n).p dir < 0 ∨ (a.particles n).p dir > env.box_l dir
    then { a with diag := a.diag ++
            [Diag.illegal_position env.this_node dir ((a.particles n).p dir) n] }
    else a) acc1

/-- The validation scan of `exchange_part` ("check part array"). -/
def exchange_part_check {F : Type} [LinearOrderedCommRing F] (env : Env F) (st : State F) :
    State F :=
  forLoop 0 st.n_particles (check_body env) st

/-- The test of the scan loop of direction `2*d + lr`:
`p[d] < my_left[d]` for `lr = 0` and `p[d] >= my_right[d]` for `lr = 1`. -/
def out_of_box {F : Type} [LinearOrderedCommRing F] (env : Env F) (d : Fin 3) (lr : Fin 2)
    (x : Particle F) : Bool :=
  if lr = 0 then decide (x.p d < env.my_left d) else decide (x.p d ≥ env.my_right d)

/-- The resets at the top of the double loop of `exchange_part`:
`n_p_send_buf = n_p_recv_buf = 0; n_b_send_buf = n_b_recv_buf = 0;`. -/
def reset_counters {F : Type} (st : State F) : State F :=
  { st with n_p_send_buf := 0, n_p_recv_buf := 0, n_b_send_buf := 0, n_b_recv_buf := 0 }

/-- One pass of the body of the double loop of `exchange_part` up to `send_particles`:
reset the four counters and scan.  The variant `n_particles - n` of the scan loop drops
by one in every iteration, so `n_particles` iterations are enough
(`scan_loop_exit` below proves that the loop leaves through its guard). -/
def exchange_part_scan {F : Type} [LinearOrderedCommRing F] (env : Env F) (st : State F)
    (d : Fin 3) (lr : Fin 2) : State F :=
  (scan_loop env (out_of_box env d lr) (reset_counters st).n_particles.toNat
    (reset_counters st) 0).1

/-- One direction of `exchange_part` on all ranks in lock step: every rank scans, then
the transport hands every rank the message of `neighbors[r_dir]` unchanged, then every
rank appends. -/
def exchange_part_sweep {F : Type} [LinearOrderedCommRing F] (env : Int → Env F)
    (w : Int → State F) (d : Fin 3) (lr : Fin 2) : Int → State F :=
  fun r =>
    append_particles
      (send_particles (env r) (exchange_part_scan (env r) (w r) d lr) (dir_of d lr)
        (part_msg (exchange_part_scan (env ((env r).neighbors (r_dir_of (dir_of d lr))))
          (w ((env r).neighbors (r_dir_of (dir_of d lr)))) d lr)))

/-- `void exchange_part()` on all ranks: fold, validation scan, then the six sweeps
`for d in 0..2, lr in 0..1`. -/
def exchange_part {F : Type} [LinearOrderedCommRing F] (env : Int → Env F)
    (w : Int → State F) : Int → State F :=
  ([0, 1, 2] : List (Fin 3)).foldl (fun w1 d =>
    ([0, 1] : List (Fin 2)).foldl (fun w2 lr => exchange_part_sweep env w2 d lr) w1)
    (fun r => exchange_part_check (env r) (exchange_part_fold (env r) (w r)))

/-! ## Ghost exchange -/

/-- The running state of the direction loop of `ghost_init`. -/
structure InitLoop where
  lc : Fin 3 → Int
  hc : Fin 3 → Int
  done : Fin 3 → Int
  n_send_cells : Fin 6 → Int
  n_recv_cells : Fin 6 → Int
  send_cells : Int → Int
  recv_cells : Int → Int

/-- Body of the direction loop of `ghost_init` for axis `i`. -/
def ghost_init_body (get_linear_index : Int → Int → Int → Int → Int → Int → Int)
    (cg gcg : Fin 3 → Int) (cell_start : Fin 6 → Int) (ntot_send_cells : Int)
    (i : Fin 3) (s : InitLoop) : InitLoop :=
  let lc1 := Function.update s.lc (i + 1) (1 - s.done (i + 1))
  let hc1 := Function.update s.hc (i + 1) (cg (i + 1) + s.done (i + 1))
  let lc2 := Function.update lc1 (i + 2) (1 - s.done (i + 2))
  let hc2 := Function.update hc1 (i + 2) (cg (i + 2) + s.done (i + 2))
  -- send to :   left, down, for
  let lc3 := Function.update lc2 i 1
  let hc3 := Function.update hc2 i 1
  let r1 := sub_grid_indices get_linear_index s.send_cells (cell_start (dir_of i 0))
    ntot_send_cells lc3 hc3 gcg
  -- recv from : right, up, back
  let lc4 := Function.update lc3 i 0
  let hc4 := Function.update hc3 i 0
  let r2 := sub_grid_indices get_linear_index s.recv_cells (cell_start (dir_of i 1))
    ntot_send_cells lc4 hc4 gcg
  -- send to :   right, up, back
  let lc5 := Function.update lc4 i (cg i)
  let hc5 := Function.update hc4 i (cg i)
  let r3 := sub_grid_indices get_linear_index r1.list (cell_start (dir_of i 1))
    ntot_send_cells lc5 hc5 gcg
  -- recv from : left, down, for
  let lc6 := Function.update lc5 i (cg i + 1)
  let hc6 := Function.update hc5 i (cg i + 1)
  let r4 := sub_grid_indices get_linear_index r2.list (cell_start (dir_of i 0))
    ntot_send_cells lc6 hc6 gcg
  { lc := lc6
    hc := hc6
    done := Function.update s.done i 1
    n_send_cells := Function.update (Function.update s.n_send_cells (dir_of i 0) r1.ret)
      (dir_of i 1) r3.ret
    n_recv_cells := Function.update (Function.update s.n_recv_cells (dir_of i 1) r2.ret)
      (dir_of i 0) r4.ret
    send_cells := r3.list
    recv_cells := r4.list }

/-- The cell lists `ghost_init` builds for `cell_grid = cg` and `ghost_cell_grid = gcg`.
`send0`, `recv0` are the contents of the freshly allocated lists, `lc0`, `hc0` those of
the uninitialised locals. -/
def ghost_init_cells (get_linear_index : Int → Int → Int → Int → Int → Int → Int)
    (cg gcg : Fin 3 → Int) (send0 recv0 : Int → Int) (lc0 hc0 : Fin 3 → Int) : GhostCells :=
  let anz : Fin 3 → Int := ![cg 1 * cg 2, cg 2 * gcg 0, gcg 0 * gcg 1]
  let ntot := 2 * (anz 0 + anz 1 + anz 2)
  let cell_start : Fin 6 → Int :=
    ([1, 2, 3, 4, 5] : List (Fin 6)).foldl
      (fun cs i => Function.update cs i (cs (i - 1) + anz (axis_of (i - 1))))
      (Function.update (fun _ => 0) 0 0)
  let s := ([0, 1, 2] : List (Fin 3)).foldl
    (fun acc i => ghost_init_body get_linear_index cg gcg cell_start ntot i acc)
    { lc := lc0, hc := hc0, done := fun _ => 0
      n_send_cells := fun _ => 0, n_recv_cells := fun _ => 0
      send_cells := send0, recv_cells := recv0 }
  { max_send_cells := ([0, 1, 2] : List (Fin 3)).foldl
      (fun m i => if anz i > m then anz i else m) 0
    n_send_cells := s.n_send_cells
    n_recv_cells := s.n_recv_cells
    cell_start := cell_start
    ntot_send_cells := ntot
    send_cells := s.send_cells
    recv_cells := s.recv_cells }

/-- The cell index `c_ind = send_cells[cell_start[dir]+c]`. -/
def send_cell (gc : GhostCells) (dir : Fin 6) (c : Int) : Int :=
  gc.send_cells (gc.cell_start dir + c)

/-- The cell index `c_ind = recv_cells[cell_start[dir]+c]`. -/
def recv_cell (gc : GhostCells) (dir : Fin 6) (c : Int) : Int :=
  gc.recv_cells (gc.cell_start dir + c)

/-- `void pack_ghost(Ghost *g_array, int g_ind, Particle *p_array, int p_ind)`. -/
def pack_ghost {F : Type} (g_array : Int → Ghost F) (g_ind : Int)
    (p_array : Int → Particle F) (p_ind : Int) : Int → Ghost F :=
  Function.update g_array g_ind
    { (g_array g_ind) with
      identity := (p_array p_ind).identity
      type := (p_array p_ind).type
      p := (p_array p_ind).p
      q := (p_array p_ind).q }

/-- `void unpack_ghost(Particle *p_array, int p_ind, Ghost *g_array, int g_ind)`. -/
def unpack_ghost {F : Type} (p_array : Int → Particle F) (p_ind : Int)
    (g_array : Int → Ghost F) (g_ind : Int) : Int → Particle F :=
  Function.update p_array p_ind
    { (p_array p_ind) with
      identity := (g_array g_ind).identity
      type := (g_array g_ind).type
      p := (g_array g_ind).p
      q := (g_array g_ind).q }

/-- The start of `exchange_ghost`: release the identities of the old ghost slots and
reset `n_ghosts`. -/
def exchange_ghost_release {F : Type} (st : State F) : State F :=
  let st1 : State F :=
    forLoop st.n_particles (st.n_particles + st.n_ghosts) (fun n acc =>
      { acc with
        local_index := Function.update acc.local_index (acc.particles n).identity (-1) }) st
  { st1 with n_ghosts := 0 }

/-- "send cell loop - number of ghosts to send" of `exchange_ghost`, with the two resets
before it. -/
def ghost_count {F : Type} (gc : GhostCells) (st : State F) (dir : Fin 6) : State F :=
  forLoop 0 (gc.n_send_cells dir) (fun c acc =>
    { acc with
      n_send_ghosts :=
        Function.update
          (Function.update acc.n_send_ghosts c
            (acc.cells (send_cell gc dir c)).n_particles)
          gc.max_send_cells
          ((Function.update acc.n_send_ghosts c
              (acc.cells (send_cell gc dir c)).n_particles)
              gc.max_send_cells
            + (acc.cells (send_cell gc dir c)).n_particles) })
    { st with
      n_send_ghosts := Function.update st.n_send_ghosts gc.max_send_cells 0
      n_g_send_buf := 0 }

/-- "check buffer size" of `exchange_ghost`: grow the ghost send buffer and fill the new
part with the byte `0xaa`. -/
def ghost_grow {F : Type} (env : Env F) (gc : GhostCells) (st : State F) : State F :=
  if st.n_send_ghosts gc.max_send_cells > st.max_g_send_buf then
    { st with
      max_g_send_buf := st.n_send_ghosts gc.max_send_cells
      g_send_buf := forLoop st.max_g_send_buf (st.n_send_ghosts gc.max_send_cells)
        (fun k m => Function.update m k env.aa_ghost) st.g_send_buf }
  else st

/-- "send cell loop - pack ghosts" of `exchange_ghost`. -/
def ghost_pack {F : Type} (gc : GhostCells) (st : State F) (dir : Fin 6) : State F :=
  forLoop 0 (gc.n_send_cells dir) (fun c acc =>
    forLoop 0 (acc.cells (send_cell gc dir c)).n_particles (fun n a =>
      { a with
        g_send_buf := pack_ghost a.g_send_buf a.n_g_send_buf a.particles
          ((a.cells (send_cell gc dir c)).particles n)
        n_g_send_buf := a.n_g_send_buf + 1 }) acc) st

/-- "fold ghost coordinates if they cross the boundary" of `exchange_ghost`. -/
def ghost_fold {F : Type} [LinearOrderedCommRing F] (env : Env F) (st : State F)
    (dir : Fin 6) : State F :=
  if env.boundary dir ≠ 0 then
    forLoop 0 st.n_g_send_buf (fun n a =>
      { a with
        g_send_buf := Function.update a.g_send_buf n
          { (a.g_send_buf n) with
            p := Function.update (a.g_send_buf n).p (axis_of dir)
              ((a.g_send_buf n).p (axis_of dir) + env.boundary dir) } }) st
  else st

/-- Everything a rank does in one direction of `exchange_ghost` before `send_ghosts`. -/
def ghost_prepare {F : Type} [LinearOrderedCommRing F] (env : Env F) (gc : GhostCells)
    (st : State F) (dir : Fin 6) : State F :=
  ghost_fold env (ghost_pack gc (ghost_grow env gc (ghost_count gc st dir)) dir) dir

/-- What one `send_ghosts` call puts on the wire: the count array (`max_send_cells + 1`
ints) and the ghost records. -/
structure GhostMsg (F : Type) where
  counts : Int → Int
  g_buf : Int → Ghost F

/-- The message a rank sends in `send_ghosts`. -/
def ghost_msg {F : Type} (st : State F) : GhostMsg F :=
  { counts := st.n_send_ghosts, g_buf := st.g_send_buf }

/-- The receive half of `send_ghosts`, given the message sent by `neighbors[r_dir]`. -/
def recv_ghosts {F : Type} (gc : GhostCells) (st : State F) (msg : GhostMsg F) : State F :=
  let st1 : State F :=
    { st with n_recv_ghosts := memcpy st.n_recv_ghosts 0 msg.counts (gc.max_send_cells + 1) }
  let st2 : State F :=
    if st1.n_recv_ghosts gc.max_send_cells ≥ st1.max_g_recv_buf then
      { st1 with max_g_recv_buf := st1.n_recv_ghosts gc.max_send_cells }
    else st1
  { st2 with
    g_recv_buf := memcpy st2.g_recv_buf 0 msg.g_buf (st2.n_recv_ghosts gc.max_send_cells) }

/-- `void send_ghosts(int s_dir)`; `msg` is what `neighbors[r_dir]` sends to this rank in
the same call. -/
def send_ghosts {F : Type} (env : Env F) (gc : GhostCells) (st : State F) (s_dir : Fin 6)
    (msg : GhostMsg F) : State F :=
  let st1 : State F :=
    if env.neighbors s_dir ≠ env.this_node then
      ([0, 1] : List Int).foldl (fun acc evenodd =>
        if (env.pe_pos (axis_of s_dir) + evenodd) % 2 = 0 then acc
        else recv_ghosts gc acc msg) st
    else
      { st with
        n_recv_ghosts := memcpy st.n_recv_ghosts 0 st.n_send_ghosts (gc.max_send_cells + 1)
        g_send_buf := st.g_recv_buf
        g_recv_buf := st.g_send_buf
        max_g_send_buf := st.max_g_recv_buf
        max_g_recv_buf := st.max_g_send_buf
        n_g_send_buf := st.n_g_recv_buf
        n_g_recv_buf := st.n_g_send_buf }
  -- store number of ghosts to send in direction s_dir
  let st2 : State F :=
    { st1 with
      ghost_send_size :=
        Function.update st1.ghost_send_size s_dir (st1.n_send_ghosts gc.max_send_cells) }
  let st3 : State F :=
    if st2.ghost_send_size s_dir > st2.max_send_buf then
      { st2 with max_send_buf := st2.ghost_send_size s_dir }
    else st2
  -- store number of ghosts to recieve from direction s_dir
  let st4 : State F :=
    { st3 with
      ghost_recv_size :=
        Function.update st3.ghost_recv_size s_dir (st3.n_recv_ghosts gc.max_send_cells) }
  if st4.ghost_recv_size s_dir > st4.max_recv_buf then
    { st4 with max_recv_buf := st4.ghost_recv_size s_dir }
  else st4

/-- Loop state of "cell loop - unpack ghosts": the rank state, the next particle slot `m`
and the next record `n` of `g_recv_buf`. -/
structure Unpack (F : Type) where
  st : State F
  m : Int
  n : Int

/-- Body of the inner loop of "cell loop - unpack ghosts" for recv cell `c_ind`. -/
def unpack_one {F : Type} (c_ind : Int) (i : Int) (u : Unpack F) : Unpack F :=
  let parts := unpack_ghost u.st.particles u.m u.st.g_recv_buf u.n
  { st :=
      { u.st with
        particles := parts
        local_index := Function.update u.st.local_index (parts u.m).identity u.m
        cells := Function.update u.st.cells c_ind
          { (u.st.cells c_ind) with
            particles := Function.update (u.st.cells c_ind).particles i u.m } }
    m := u.m + 1
    n := u.n + 1 }

/-- Body of "cell loop - unpack ghosts" for the `c`-th recv cell of direction `dir`. -/
def unpack_cell {F : Type} (gc : GhostCells) (dir : Fin 6) (c : Int) (u : Unpack F) :
    Unpack F :=
  let c_ind := recv_cell gc dir c
  let st1 : State F :=
    if u.st.n_recv_ghosts c ≥ (u.st.cells c_ind).max_particles then
      { u.st with
        cells := Function.update u.st.cells c_ind
          { (u.st.cells c_ind) with max_particles := u.st.n_recv_ghosts c } }
    else u.st
  let u2 := forLoop 0 (st1.n_recv_ghosts c) (unpack_one c_ind) { st := st1, m := u.m, n := u.n }
  { st :=
      { u2.st with
        cells := Function.update u2.st.cells c_ind
          { (u2.st.cells c_ind) with n_particles := u2.st.n_recv_ghosts c } }
    m := u2.m
    n := u2.n }

/-- "sort recieved ghosts into cells" of `exchange_ghost`. -/
def ghost_unpack {F : Type} (gc : GhostCells) (st : State F) (dir : Fin 6) : State F :=
  (forLoop 0 (gc.n_recv_cells dir) (unpack_cell gc dir)
    { st := { st with n_ghosts := st.n_ghosts + st.n_recv_ghosts gc.max_send_cells }
      m := st.n_particles + st.n_ghosts
      n := 0 }).st

/-- "resize pos/force buffer if necessary" at the end of `exchange_ghost`. -/
def exchange_ghost_finish {F : Type} (st : State F) : State F :=
  if st.max_send_buf > st.max_recv_buf then { st with max_recv_buf := st.max_send_buf }
  else { st with max_send_buf := st.max_recv_buf }

/-- One direction of `exchange_ghost` on all ranks in lock step (all ranks use the cell
lists `gc` of the one cell grid). -/
def exchange_ghost_sweep {F : Type} [LinearOrderedCommRing F] (env : Int → Env F)
    (gc : GhostCells) (w : Int → State F) (dir : Fin 6) : Int → State F :=
  fun r =>
    ghost_unpack gc
      (send_ghosts (env r) gc (ghost_prepare (env r) gc (w r) dir) dir
        (ghost_msg (ghost_prepare (env ((env r).neighbors (r_dir_of dir))) gc
          (w ((env r).neighbors (r_dir_of dir))) dir)))
      dir

/-- `void exchange_ghost()` on all ranks. -/
def exchange_ghost {F : Type} [LinearOrderedCommRing F] (env : Int → Env F)
    (gc : GhostCells) (w : Int → State F) : Int → State F :=
  fun r => exchange_ghost_finish
    ((([0, 1, 2, 3, 4, 5] : List (Fin 6)).foldl (fun w1 dir => exchange_ghost_sweep env gc w1 dir)
      (fun r1 => exchange_ghost_release (w r1))) r)

/-! ## Ghost refresh -/

/-- Loop state of the pack loops of `update_ghost_pos` and `collect_ghost_forces`: the
rank state and the buffer cursor `g`. -/
structure Packing (F : Type) where
  st : State F
  g : Int

/-- The buffer of doubles one `send_posforce` call puts on the wire, with its length. -/
structure PosMsg (F : Type) where
  len : Int
  buf : Int → F

/-- `void send_posforce(int s_dir, int send_size, int recv_size)`; `msg` is what
`neighbors[r_dir]` sends to this rank in the same call.  The receive stores the message
(at most `recv_size` doubles) at the start of `recv_buf`. -/
def send_posforce {F : Type} (env : Env F) (st : State F) (s_dir : Fin 6)
    (_send_size recv_size : Int) (msg : PosMsg F) : State F :=
  if env.neighbors s_dir ≠ env.this_node then
    ([0, 1] : List Int).foldl (fun acc evenodd =>
      if (env.pe_pos (axis_of s_dir) + evenodd) % 2 = 0 then acc
      else { acc with recv_buf := memcpy acc.recv_buf 0 msg.buf (min msg.len recv_size) }) st
  else
    { st with send_buf := st.recv_buf, recv_buf := st.send_buf }

/-- "loop send cells - copy positions to buffer" of `update_ghost_pos`. -/
def pos_pack {F : Type} (gc : GhostCells) (st : State F) (dir : Fin 6) : Packing F :=
  forLoop 0 (gc.n_send_cells dir) (fun c (acc : Packing F) =>
    forLoop 0 (acc.st.cells (send_cell gc dir c)).n_particles (fun n (a : Packing F) =>
      { st := ([0, 1, 2] : List (Fin 3)).foldl (fun s i =>
          { s with
            send_buf := Function.update s.send_buf (a.g + (i.val : Int))
              ((s.particles ((s.cells (send_cell gc dir c)).particles n)).p i) })
          a.st
        g := a.g + 3 }) acc)
    { st := st, g := 0 }

/-- The C loop `for (n = lo; n < hi; n += 3) s = body(n, s);`. -/
def forStride3 {σ : Type} (lo hi : Int) (body : Int → σ → σ) (s : σ) : σ :=
  forLoop 0 ((hi - lo + 2) / 3) (fun k acc => body (lo + 3 * k) acc) s

/-- "fold positions if they cross the boundary" of `update_ghost_pos`. -/
def pos_fold {F : Type} [LinearOrderedCommRing F] (env : Env F) (u : Packing F)
    (dir : Fin 6) : State F :=
  if env.boundary dir ≠ 0 then
    forStride3 ((axis_of dir).val : Int) u.g (fun n s =>
      { s with send_buf := Function.update s.send_buf n (s.send_buf n + env.boundary dir) })
      u.st
  else u.st

/-- "loop recv cells - copy positions from buffer" of `update_ghost_pos`. -/
def pos_unpack {F : Type} (gc : GhostCells) (st : State F) (dir : Fin 6) : State F :=
  (forLoop 0 (gc.n_recv_cells dir) (fun c (acc : Packing F) =>
    forLoop 0 (acc.st.cells (recv_cell gc dir c)).n_particles (fun n (a : Packing F) =>
      { st := ([0, 1, 2] : List (Fin 3)).foldl (fun s i =>
          { s with
            particles := Function.update s.particles
              ((s.cells (recv_cell gc dir c)).particles n)
              { (s.particles ((s.cells (recv_cell gc dir c)).particles n)) with
                p := Function.update
                  (s.particles ((s.cells (recv_cell gc dir c)).particles n)).p
                  i (s.recv_buf (a.g + (i.val : Int))) } })
          a.st
        g := a.g + 3 }) acc)
    ({ st := st, g := 0 } : Packing F)).st

/-- Everything a rank does in one direction of `update_ghost_pos` before
`send_posforce`. -/
def pos_prepare {F : Type} [LinearOrderedCommRing F] (env : Env F) (gc : GhostCells)
    (st : State F) (dir : Fin 6) : State F :=
  pos_fold env (pos_pack gc st dir) dir

/-- The message a rank sends in `send_posforce(dir, send_size, ..)`. -/
def pos_msg {F : Type} (st : State F) (send_size : Int) : PosMsg F :=
  { len := send_size, buf := st.send_buf }

/-- One direction of `update_ghost_pos` on all ranks in lock step. -/
def update_ghost_pos_sweep {F : Type} [LinearOrderedCommRing F] (env : Int → Env F)
    (gc : GhostCells) (w : Int → State F) (dir : Fin 6) : Int → State F :=
  fun r =>
    pos_unpack gc
      (send_posforce (env r) (pos_prepare (env r) gc (w r) dir) dir
        (3 * (w r).ghost_send_size dir) (3 * (w r).ghost_recv_size dir)
        (pos_msg (pos_prepare (env ((env r).neighbors (r_dir_of dir))) gc
            (w ((env r).neighbors (r_dir_of dir))) dir)
          (3 * (w ((env r).neighbors (r_dir_of dir))).ghost_send_size dir)))
      dir

/-- `void update_ghost_pos()` on all ranks. -/
def update_ghost_pos {F : Type} [LinearOrderedCommRing F] (env : Int → Env F)
    (gc : GhostCells) (w : Int → State F) : Int → State F :=
  ([0, 1, 2, 3, 4, 5] : List (Fin 6)).foldl (fun w1 dir => update_ghost_pos_sweep env gc w1 dir) w

/-- "loop recv cells - copy forces to buffer" of `collect_ghost_forces`. -/
def force_pack {F : Type} (gc : GhostCells) (st : State F) (dir : Fin 6) : State F :=
  (forLoop 0 (gc.n_recv_cells dir) (fun c (acc : Packing F) =>
    forLoop 0 (acc.st.cells (recv_cell gc dir c)).n_particles (fun n (a : Packing F) =>
      { st := ([0, 1, 2] : List (Fin 3)).foldl (fun s i =>
          { s with
            send_buf := Function.update s.send_buf (a.g + (i.val : Int))
              ((s.particles ((s.cells (recv_cell gc dir c)).particles n)).f i) })
          a.st
        g := a.g + 3 }) acc)
    ({ st := st, g := 0 } : Packing F)).st

/-- "loop send cells - add buffer forces to local forces" of `collect_ghost_forces`. -/
def force_add {F : Type} [LinearOrderedCommRing F] (gc : GhostCells) (st : State F)
    (dir : Fin 6) : State F :=
  (forLoop 0 (gc.n_send_cells dir) (fun c (acc : Packing F) =>
    forLoop 0 (acc.st.cells (send_cell gc dir c)).n_particles (fun n (a : Packing F) =>
      { st := ([0, 1, 2] : List (Fin 3)).foldl (fun s i =>
          { s with
            particles := Function.update s.particles
              ((s.cells (send_cell gc dir c)).particles n)
              { (s.particles ((s.cells (send_cell gc dir c)).particles n)) with
                f := Function.update
                  (s.particles ((s.cells (send_cell gc dir c)).particles n)).f
                  i ((s.particles
                      ((s.cells (send_cell gc dir c)).particles n)).f i
                    + s.recv_buf (a.g + (i.val : Int))) } })
          a.st
        g := a.g + 3 }) acc)
    ({ st := st, g := 0 } : Packing F)).st

/-- One direction of `collect_ghost_forces` on all ranks in lock step.  As in the source,
`send_posforce(dir, ..)` sends to `neighbors[dir]` and receives from `neighbors[r_dir]`. -/
def collect_ghost_forces_sweep {F : Type} [LinearOrderedCommRing F] (env : Int → Env F)
    (gc : GhostCells) (w : Int → State F) (dir : Fin 6) : Int → State F :=
  fun r =>
    force_add gc
      (send_posforce (env r) (force_pack gc (w r) dir) dir
        (3 * (w r).ghost_recv_size dir) (3 * (w r).ghost_send_size dir)
        (pos_msg (force_pack gc (w ((env r).neighbors (r_dir_of dir))) dir)
          (3 * (w ((env r).neighbors (r_dir_of dir))).ghost_recv_size dir)))
      dir

/-- `void collect_ghost_forces()` on all ranks (directions 5 down to 0). -/
def collect_ghost_forces {F : Type} [LinearOrderedCommRing F] (env : Int → Env F)
    (gc : GhostCells) (w : Int → State F) : Int → State F :=
  ([5, 4, 3, 2, 1, 0] : List (Fin 6)).foldl
    (fun w1 dir => collect_ghost_forces_sweep env gc w1 dir) w

/-! ## Specification vocabulary -/

/-- A particle record with the `bonds` pointer disregarded. -/
def Particle.core {F : Type} (x : Particle F) : Particle F := { x with bonds := [] }

/-- The record `move_to_p_buf` copies into the send buffer: the particle, whose bond
block has been freed when it had bonds. -/
def Particle.detach {F : Type} (x : Particle F) : Particle F :=
  if count_bonds x.n_bonds > 0 then { x with bonds := [] } else x

/-- The identity map is right on every owned slot:
`local_index[particles[s].identity] == s` for `0 <= s < n_particles`. -/
def OwnedIndexed {F : Type} (st : State F) : Prop :=
  ∀ s : Int, 0 ≤ s → s < st.n_particles → st.local_index (st.particles s).identity = s

/-! ## Concrete configurations used to instantiate the theorems -/

/-- A particle at position `(x, y, z)` with identity `id`, no bonds and nothing else set. -/
def mk_particle (id : Int) (x y z : Int) : Particle Int :=
  { identity := id, type := 0, p := ![x, y, z], i := fun _ => 0, v := fun _ => 0,
    f := fun _ => 0, q := 0, n_bonds := 0, bonds := [] }

/-- A particle with the given bond partners. -/
def mk_bonded (id : Int) (x y z : Int) (partners : List Int) : Particle Int :=
  { mk_particle id x y z with n_bonds := partners.length, bonds := partners }

/-- A rank state with no particles, empty cells and empty buffers of capacity 0. -/
def idle_state : State Int :=
  { particles := fun _ => mk_particle 0 0 0 0
    n_particles := 0, n_ghosts := 0
    local_index := fun _ => -1
    cells := fun _ => { n_particles := 0, max_particles := 0, particles := fun _ => 0 }
    n_p_send_buf := 0, max_p_send_buf := 0, p_send_buf := fun _ => mk_particle 0 0 0 0
    n_p_recv_buf := 0, max_p_recv_buf := 0, p_recv_buf := fun _ => mk_particle 0 0 0 0
    n_b_send_buf := 0, max_b_send_buf := 0, b_send_buf := fun _ => 0
    n_b_recv_buf := 0, max_b_recv_buf := 0, b_recv_buf := fun _ => 0
    n_send_ghosts := fun _ => 0, n_recv_ghosts := fun _ => 0
    n_g_send_buf := 0, max_g_send_buf := 0
    g_send_buf := fun _ => { identity := 0, type := 0, p := fun _ => 0, q := 0 }
    n_g_recv_buf := 0, max_g_recv_buf := 0
    g_recv_buf := fun _ => { identity := 0, type := 0, p := fun _ => 0, q := 0 }
    ghost_send_size := fun _ => 0, ghost_recv_size := fun _ => 0
    send_buf := fun _ => 0, max_send_buf := 0
    recv_buf := fun _ => 0, max_recv_buf := 0
    diag := [] }

/-- The particle array holding the listed particles in slots `0, 1, ...`. -/
def slots_of (l : List (Particle Int)) : Int → Particle Int :=
  fun k => l.getD k.toNat (mk_particle 0 0 0 0)

/-- The identity map of the listed particles: identity of slot `k` maps to `k`. -/
def index_of (l : List (Particle Int)) : Int → Int :=
  fun id => match l.findIdx? (fun x => x.identity == id) with
    | some k => (k : Int)
    | none => -1

/-- A rank state owning exactly the listed particles. -/
def state_of (l : List (Particle Int)) : State Int :=
  { idle_state with
    particles := slots_of l
    n_particles := l.length
    local_index := index_of l }

/-- The constants of a rank of a 1x1x1 process grid with box `[0,10)^3`: every neighbour
is the rank itself and every face is periodic. -/
def solo_env : Env Int :=
  { this_node := 0, neighbors := fun _ => 0, pe_pos := fun _ => 0
    boundary := ![10, -10, 10, -10, 10, -10]
    my_left := fun _ => 0, my_right := fun _ => 10, box_l := fun _ => 10
    n_total_particles := 100, PART_INCREMENT := 8
    fold_particle := fun p i => (fun d => p d % 10, fun d => i d + p d / 10)
    aa_ghost := { identity := -1431655766, type := -1431655766, p := fun _ => 0, q := 0 } }

/-- Three owned particles; the middle one has three bond partners. -/
def three_particles : State Int :=
  state_of [mk_particle 7 1 1 1, mk_bonded 3 2 2 2 [11, 12, 13], mk_particle 5 3 3 3]

/-- The removals of one sweep: `move_to_p_buf` applied to the listed slots in turn.
Returns the final state and the particles removed, in order of removal. -/
def sweep_removals {F : Type} (env : Env F) : State F → List Int → State F × List (Particle F)
  | st, [] => (st, [])
  | st, ind :: rest =>
    ((sweep_removals env (move_to_p_buf env st ind).1 rest).1,
     st.particles ind :: (sweep_removals env (move_to_p_buf env st ind).1 rest).2)

/-- Offset of the bonds of record `k` in the bond stream of the records `P 0, P 1, ...`:
the bond counts of the records before it, summed up as the loops of `ghosts.c` do. -/
def bond_off {F : Type} (P : Int → Particle F) (k : Int) : Int :=
  forLoop 0 k (fun i acc => acc + count_bonds (P i).n_bonds) 0

/-- The receive buffers of `rs` hold the particle stream and the bond stream that are in
the send buffers of `ss` (record for record up to the `bonds` pointer, which is not
meaningful in transit). -/
def SameStreams {F : Type} (ss rs : State F) : Prop :=
  rs.n_p_recv_buf = ss.n_p_send_buf ∧ rs.n_b_recv_buf = ss.n_b_send_buf ∧
  (∀ k : Int, 0 ≤ k → k < ss.n_p_send_buf →
    (rs.p_recv_buf k).core = (ss.p_send_buf k).core) ∧
  (∀ j : Int, 0 ≤ j → j < ss.n_b_send_buf → rs.b_recv_buf j = ss.b_send_buf j)

/-- The record `append_particles` leaves in the particle array for a received record `x`
whose bonds start at offset `off` of the received bond stream `b`. -/
def Particle.attach {F : Type} (x : Particle F) (b : Int → Int) (off : Int) : Particle F :=
  if count_bonds x.n_bonds > 0 then
    { x with bonds := read_block b off (count_bonds x.n_bonds) }
  else x

/-- Invariant of the send buffers during a sweep in which the particles `R` have been
removed so far: record `k` is `R[k]` without its bond block, and the bond stream holds
the bonds of `R[k]` at the offset of record `k`. -/
def SendInv {F : Type} (s : State F) (R : List (Particle F)) : Prop :=
  s.n_p_send_buf = R.length ∧
  (∀ (k : Nat) (x : Particle F), R[k]? = some x → s.p_send_buf k = x.detach) ∧
  s.n_b_send_buf = bond_off s.p_send_buf R.length ∧
  (∀ (k : Nat) (x : Particle F), R[k]? = some x → ∀ j : Int, 0 ≤ j →
    j < count_bonds x.n_bonds → s.b_send_buf (bond_off s.p_send_buf k + j) = block x.bonds j)

/-- The entries `a[0], ..., a[n-1]` of an array, as a multiset. -/
def seg {α : Type} (a : Int → α) (n : Int) : Multiset α :=
  (Multiset.range n.toNat).map (fun k : Nat => a (k : Int))

/-- The owned particles of a rank: slots `[0, n_particles)`. -/
def owned {F : Type} (st : State F) : Multiset (Particle F) := seg st.particles st.n_particles

/-- The records in the particle send buffer: entries `[0, n_p_send_buf)`. -/
def sent {F : Type} (st : State F) : Multiset (Particle F) := seg st.p_send_buf st.n_p_send_buf

/-- The identities of the owned particles of a rank, with multiplicity. -/
def owned_ids {F : Type} (st : State F) : Multiset Int := (owned st).map Particle.identity

/-- The identities of the owned particles of all ranks, with multiplicity. -/
def world_ids {F : Type} (ranks : Finset Int) (w : Int → State F) : Multiset Int :=
  ∑ r ∈ ranks, owned_ids (w r)

/-- The process grid as `ghosts.c` sees it through `this_node` and `neighbors`: every
rank knows its own number, neighbours are ranks, and going to the neighbour in direction
`dir` and from there to its neighbour in the opposite direction leads back (true of
every periodic grid, also when a neighbour is the rank itself). -/
def ProcessGrid {F : Type} (env : Int → Env F) (ranks : Finset Int) : Prop :=
  ∀ r ∈ ranks, (env r).this_node = r ∧
    ∀ dir : Fin 6, (env r).neighbors dir ∈ ranks ∧
      (env ((env r).neighbors dir)).neighbors (r_dir_of dir) = r

instance {F : Type} (env : Int → Env F) (ranks : Finset Int) :
    Decidable (ProcessGrid env ranks) := by
  unfold ProcessGrid; infer_instance

/-- Coordinate `t` lies in the sub-box of the rank along axis `e`:
`my_left[e] <= t < my_right[e]`. -/
def InBox {F : Type} [LinearOrderedCommRing F] (env : Env F) (e : Fin 3) (t : F) : Prop :=
  env.my_left e ≤ t ∧ t < env.my_right e

/-- Coordinate `t` lies along axis `e` in the sub-box of rank `r` or of one of its two
neighbours along that axis. -/
def NearAny {F : Type} [LinearOrderedCommRing F] (env : Int → Env F) (r : Int) (e : Fin 3)
    (t : F) : Prop :=
  InBox (env r) e t ∨ InBox (env ((env r).neighbors (dir_of e 0))) e t ∨
    InBox (env ((env r).neighbors (dir_of e 1))) e t

/-- Coordinate `t` lies along axis `e` in the sub-box of rank `r`, or below it and in the
sub-box of the neighbour `neighbors[2e]` the low sweep sends to, or at/above it and in
the sub-box of the neighbour `neighbors[2e+1]` the high sweep sends to. -/
def NearSide {F : Type} [LinearOrderedCommRing F] (env : Int → Env F) (r : Int) (e : Fin 3)
    (t : F) : Prop :=
  InBox (env r) e t ∨
    (t < (env r).my_left e ∧ InBox (env ((env r).neighbors (dir_of e 0))) e t) ∨
    ((env r).my_right e ≤ t ∧ InBox (env ((env r).neighbors (dir_of e 1))) e t)

/-- The sub-boxes of a rectangular decomposition: moving to a neighbour along one axis
changes neither bound along the other axes, steps along different axes commute, and no
sub-box is inverted. -/
def RectGrid {F : Type} [LinearOrderedCommRing F] (env : Int → Env F) (ranks : Finset Int) :
    Prop :=
  ∀ r ∈ ranks, (∀ e : Fin 3, (env r).my_left e ≤ (env r).my_right e) ∧
    ∀ dir : Fin 6, ∀ e : Fin 3, e ≠ axis_of dir →
      (env ((env r).neighbors dir)).my_left e = (env r).my_left e ∧
      (env ((env r).neighbors dir)).my_right e = (env r).my_right e ∧
      ∀ lr : Fin 2, (env ((env r).neighbors dir)).neighbors (dir_of e lr) =
        (env ((env r).neighbors (dir_of e lr))).neighbors dir

instance {F : Type} [LinearOrderedCommRing F] (env : Env F) (e : Fin 3) (t : F) :
    Decidable (InBox env e t) := by
  unfold InBox; infer_instance

instance {F : Type} [LinearOrderedCommRing F] (env : Int → Env F) (r : Int) (e : Fin 3)
    (t : F) : Decidable (NearAny env r e t) := by
  unfold NearAny; infer_instance

instance {F : Type} [LinearOrderedCommRing F] (env : Int → Env F) (r : Int) (e : Fin 3)
    (t : F) : Decidable (NearSide env r e t) := by
  unfold NearSide; infer_instance

instance {F : Type} [LinearOrderedCommRing F] (env : Int → Env F) (ranks : Finset Int) :
    Decidable (RectGrid env ranks) := by
  unfold RectGrid; infer_instance

/-- Modelled from the spec: the position `pe_pos` of rank `r` in a process grid of
extents `dims` (ranks numbered with axis 0 running fastest). -/
def grid_pos (dims : Fin 3 → Int) (r : Int) : Fin 3 → Int :=
  ![r % dims 0, (r / dims 0) % dims 1, r / (dims 0 * dims 1)]

/-- Modelled from the spec: the rank at position `pos` of the process grid. -/
def grid_rank (dims : Fin 3 → Int) (pos : Fin 3 → Int) : Int :=
  pos 0 + dims 0 * (pos 1 + dims 1 * pos 2)

/-- Modelled from the spec: the topology `calc_neighbors` and the grid module set up for
rank `r` of a fully periodic process grid of extents `dims` whose sub-boxes are cubes of
edge `side`: `neighbors[2d]` is one step down along axis `d` and `neighbors[2d+1]` one
step up, both wrapping around; `boundary[2d]` is `+box_l[d]` on the low edge,
`boundary[2d+1]` is `-box_l[d]` on the high edge, zero elsewhere. -/
def grid_env (dims : Fin 3 → Int) (side : Int) (r : Int) : Env Int :=
  { this_node := r
    neighbors := fun dir =>
      grid_rank dims (Function.update (grid_pos dims r) (axis_of dir)
        ((grid_pos dims r (axis_of dir) + (if dir.val % 2 = 0 then -1 else 1))
          % dims (axis_of dir)))
    pe_pos := grid_pos dims r
    boundary := fun dir =>
      if dir.val % 2 = 0 then
        (if grid_pos dims r (axis_of dir) = 0 then side * dims (axis_of dir) else 0)
      else
        (if grid_pos dims r (axis_of dir) = dims (axis_of dir) - 1
          then -(side * dims (axis_of dir)) else 0)
    my_left := fun d => side * grid_pos dims r d
    my_right := fun d => side * (grid_pos dims r d + 1)
    box_l := fun d => side * dims d
    n_total_particles := 100
    PART_INCREMENT := 8
    fold_particle := fun p i =>
      (fun d => p d % (side * dims d), fun d => i d + p d / (side * dims d))
    aa_ghost := { identity := -1431655766, type := -1431655766, p := fun _ => 0, q := 0 } }

/-- A world of ranks `0, 1, ...` owning the listed particles (no particles elsewhere). -/
def world_of (l : List (List (Particle Int))) : Int → State Int :=
  fun r => if 0 ≤ r then state_of (l.getD r.toNat []) else idle_state

/-- What is known of a coordinate along axis `e` on rank `r` after `k` of the six sweeps
of `exchange_part`: in the sub-box once both sweeps of the axis are done; in the sub-box
or above it in the upper neighbour's after the low sweep; as at entry before. -/
def Stage {F : Type} [LinearOrderedCommRing F] (env : Int → Env F) (k : Nat) (r : Int)
    (e : Fin 3) (t : F) : Prop :=
  if 2 * e.val + 2 ≤ k then InBox (env r) e t
  else if 2 * e.val + 1 ≤ k then
    InBox (env r) e t ∨
      ((env r).my_right e ≤ t ∧ InBox (env ((env r).neighbors (dir_of e 1))) e t)
  else NearSide env r e t

/-- Modelled from the spec: the lattice mapping `get_linear_index` (declared outside
`ghosts.c`), first coordinate running fastest. -/
def lattice_index (a b c adim bdim _cdim : Int) : Int := a + adim * (b + bdim * c)

/-- The cell lists `ghost_init` builds for `cell_grid = cg`, `ghost_cell_grid = cg + 2`
from zeroed memory. -/
def cells_of_grid (cg : Fin 3 → Int) : GhostCells :=
  ghost_init_cells lattice_index cg (fun i => cg i + 2) (fun _ => 0) (fun _ => 0)
    (fun _ => 0) (fun _ => 0)

/-- The state `st` with cell `c_ind` holding the listed slots. -/
def with_cell (st : State Int) (c_ind : Int) (slots : List Int) : State Int :=
  { st with
    cells := Function.update st.cells c_ind
      { n_particles := slots.length, max_particles := slots.length
        particles := fun k => slots.getD k.toNat 0 } }

/-- The state `st` with the force of `slot` set to `f` (a force written by the force
kernels between `exchange_ghost` and `collect_ghost_forces`). -/
def with_force (st : State Int) (slot : Int) (f : Fin 3 → Int) : State Int :=
  { st with particles := Function.update st.particles slot { (st.particles slot) with f := f } }

/-- A rank of the 1x1x1 grid with `cell_grid = (3,3,3)`: the owned particle 7 sits in the
interior cell (2,2,2) (index 62 of the 5x5x5 lattice); slot 1 is a stale ghost copy of it
left by an earlier halo build, when the particle was in a boundary cell. -/
def stale_ghost_state : State Int :=
  with_cell
    { state_of [mk_particle 7 5 5 5] with
      particles := slots_of [mk_particle 7 5 5 5, mk_particle 7 5 5 5]
      n_ghosts := 1 }
    62 [0]

/-- Two ranks of a 2x1x1 grid with `cell_grid = (1,1,1)`, one particle each in the one
owned cell (1,1,1) (index 13 of the 3x3x3 lattice): identity 7 on rank 0, 5 on rank 1. -/
def pair_world : Int → State Int := fun r =>
  with_cell (world_of [[mk_particle 7 0 0 0], [mk_particle 5 1 0 0]] r) 13 [0]

/-- Three ranks of a 3x1x1 grid with `cell_grid = (1,1,1)`, one particle each in the one
owned cell: identity 7 on rank 0, 5 on rank 1, 9 on rank 2. -/
def triple_world : Int → State Int := fun r =>
  with_cell
    (world_of [[mk_particle 7 0 0 0], [mk_particle 5 1 0 0], [mk_particle 9 2 0 0]] r) 13 [0]

/-- The halo of `triple_world` built by `exchange_ghost`, with force (1,0,0) written to
ghost slot 1 of rank 0 and zero force everywhere else. -/
def triple_forced : Int → State Int := fun r =>
  if r = 0 then
    with_force (exchange_ghost (grid_env ![3, 1, 1] 1) (cells_of_grid ![1, 1, 1]) triple_world r)
      1 ![1, 0, 0]
  else exchange_ghost (grid_env ![3, 1, 1] 1) (cells_of_grid ![1, 1, 1]) triple_world r

/-- The running sum `f 0 + ... + f (c-1)`, summed up as the cursors of `ghosts.c` are. -/
def psum (f : Int → Int) (c : Int) : Int :=
  forLoop 0 c (fun i acc => acc + f i) 0

/-- Occupancy `cells[x].n_particles` of cell `x`. -/
def occ {F : Type} (st : State F) (x : Int) : Int := (st.cells x).n_particles

/-- The slot `cells[x].particles[n]`. -/
def slot_of {F : Type} (st : State F) (x n : Int) : Int := (st.cells x).particles n

/-- The ghost record of a particle: identity, type, position, charge. -/
def ghost_rec {F : Type} (x : Particle F) : Ghost F :=
  { identity := x.identity, type := x.type, p := x.p, q := x.q }

/-- A ghost record with `boundary[dir]` added to coordinate `dir/2` when it is not zero. -/
def shifted {F : Type} [LinearOrderedCommRing F] (env : Env F) (dir : Fin 6) (g : Ghost F) :
    Ghost F :=
  if env.boundary dir ≠ 0 then
    { g with p := Function.update g.p (axis_of dir) (g.p (axis_of dir) + env.boundary dir) }
  else g

/-- A particle slot after `unpack_ghost` stored the record `g` in it. -/
def installed {F : Type} (x : Particle F) (g : Ghost F) : Particle F :=
  { x with identity := g.identity, type := g.type, p := g.p, q := g.q }

/-- The fields the exchange routines keep between calls are the same in both states. -/
def Persist {F : Type} (a b : State F) : Prop :=
  b.particles = a.particles ∧ b.n_particles = a.n_particles ∧ b.n_ghosts = a.n_ghosts ∧
  b.cells = a.cells ∧ b.local_index = a.local_index ∧
  b.ghost_send_size = a.ghost_send_size ∧ b.ghost_recv_size = a.ghost_recv_size

/-- The fields "cell loop - unpack ghosts" leaves alone. -/
def UnpackFrame {F : Type} (a b : State F) : Prop :=
  b.n_particles = a.n_particles ∧ b.n_ghosts = a.n_ghosts ∧
  b.ghost_send_size = a.ghost_send_size ∧ b.ghost_recv_size = a.ghost_recv_size ∧
  b.n_recv_ghosts = a.n_recv_ghosts ∧ b.g_recv_buf = a.g_recv_buf


/-! ## Halo structure -/

/-- The recv cells of direction `dir`: `recv_cells[cell_start[dir] + c]` for
`c < n_recv_cells[dir]`. -/
def recv_list (gc : GhostCells) (dir : Fin 6) : List Int :=
  (List.range (gc.n_recv_cells dir).toNat).map (fun k : Nat => recv_cell gc dir (k : Int))

/-- The send cells of direction `dir`: `send_cells[cell_start[dir] + c]` for
`c < n_send_cells[dir]`. -/
def send_list (gc : GhostCells) (dir : Fin 6) : List Int :=
  (List.range (gc.n_send_cells dir).toNat).map (fun k : Nat => send_cell gc dir (k : Int))

/-- What the loops of `exchange_ghost` need of the cell lists: every direction has as many
recv cells as send cells, at most `max_send_cells`, and no cell is listed twice among the
recv cells of one direction. -/
def CellsOK (gc : GhostCells) : Prop :=
  0 ≤ gc.max_send_cells ∧
  ∀ dir : Fin 6, 0 ≤ gc.n_send_cells dir ∧ gc.n_send_cells dir ≤ gc.max_send_cells ∧
    gc.n_recv_cells dir = gc.n_send_cells dir ∧ (recv_list gc dir).Nodup

instance (gc : GhostCells) : Decidable (CellsOK gc) := by
  unfold CellsOK; infer_instance

/-- Cell `x` is an inner cell: no direction receives ghosts into it. -/
def InnerCell (gc : GhostCells) (x : Int) : Prop := ∀ dir : Fin 6, x ∉ recv_list gc dir

instance (gc : GhostCells) (x : Int) : Decidable (InnerCell gc x) := by
  unfold InnerCell; infer_instance

/-- The occupancy `n_particles` of every send cell of the rank is a count (not negative). -/
def CountsOK {F : Type} (gc : GhostCells) (st : State F) : Prop :=
  ∀ dir : Fin 6, ∀ x ∈ send_list gc dir, 0 ≤ occ st x

instance {F : Type} (gc : GhostCells) (st : State F) : Decidable (CountsOK gc st) := by
  unfold CountsOK; infer_instance

/-- State `b` continues the halo of state `a`: the same owned particles, at least as many
ghosts, the slots `a` uses and the inner cells untouched. -/
def HaloGrows {F : Type} (gc : GhostCells) (a b : State F) : Prop :=
  b.n_particles = a.n_particles ∧ a.n_ghosts ≤ b.n_ghosts ∧
  (∀ s : Int, s < a.n_particles + a.n_ghosts → b.particles s = a.particles s) ∧
  ∀ y : Int, InnerCell gc y → b.cells y = a.cells y

/-- The cell lists keep the directions apart: the recv cells of two directions are
disjoint, and a send cell of direction `d` is no recv cell of `d` or of a later
direction (it is an inner cell or a ghost cell filled by an earlier direction). -/
def HaloCells (gc : GhostCells) : Prop :=
  CellsOK gc ∧
  (∀ d d1 : Fin 6, d ≠ d1 → ∀ x ∈ recv_list gc d, x ∉ recv_list gc d1) ∧
  ∀ d d1 : Fin 6, d ≤ d1 → ∀ x ∈ send_list gc d, x ∉ recv_list gc d1

instance (gc : GhostCells) : Decidable (HaloCells gc) := by
  unfold HaloCells; infer_instance

/-- The inner send cells of the rank list owned slots only (slots below `n_particles`). -/
def InnerOwned {F : Type} (gc : GhostCells) (st : State F) : Prop :=
  ∀ d : Fin 6, ∀ x ∈ send_list gc d, InnerCell gc x →
    ∀ k ∈ List.range (occ st x).toNat, slot_of st x (k : Int) < st.n_particles

instance {F : Type} (gc : GhostCells) (st : State F) : Decidable (InnerOwned gc st) := by
  unfold InnerOwned; infer_instance

/-- Entry `i` of the `c`-th recv cell of direction `d` exists on the rank. -/
def RecvEntry {F : Type} (gc : GhostCells) (st : State F) (d : Fin 6) (c i : Int) : Prop :=
  0 ≤ c ∧ c < gc.n_send_cells d ∧ 0 ≤ i ∧ i < occ st (recv_cell gc d c)

/-- Entry `i` of the `c`-th send cell of direction `d` exists on the rank. -/
def SendEntry {F : Type} (gc : GhostCells) (st : State F) (d : Fin 6) (c i : Int) : Prop :=
  0 ≤ c ∧ c < gc.n_send_cells d ∧ 0 ≤ i ∧ i < occ st (send_cell gc d c)

/-- The halo structure after the sweeps of `exchange_ghost` for the directions below `k`:
what the cells, counters and message sizes of all ranks satisfy. -/
structure HaloUpTo {F : Type} (env : Int → Env F) (ranks : Finset Int) (gc : GhostCells)
    (k : Nat) (w : Int → State F) : Prop where
  ghosts_nonneg : ∀ r ∈ ranks, 0 ≤ (w r).n_ghosts
  counts : ∀ r ∈ ranks, CountsOK gc (w r)
  inner_owned : ∀ r ∈ ranks, ∀ (d : Fin 6) (c i : Int), SendEntry gc (w r) d c i →
    InnerCell gc (send_cell gc d c) → slot_of (w r) (send_cell gc d c) i < (w r).n_particles
  occ_match : ∀ r ∈ ranks, ∀ d : Fin 6, d.val < k → ∀ c : Int, 0 ≤ c → c < gc.n_send_cells d →
    occ (w r) (recv_cell gc d c) = occ (w ((env r).neighbors (r_dir_of d))) (send_cell gc d c)
  sizes : ∀ r ∈ ranks, ∀ d : Fin 6, d.val < k →
    (w r).ghost_recv_size d =
      psum (fun c => occ (w ((env r).neighbors (r_dir_of d))) (send_cell gc d c))
        (gc.n_send_cells d) ∧
    (w r).ghost_send_size d =
      psum (fun c => occ (w r) (send_cell gc d c)) (gc.n_send_cells d)
  recv_range : ∀ r ∈ ranks, ∀ (d : Fin 6) (c i : Int), d.val < k → RecvEntry gc (w r) d c i →
    (w r).n_particles ≤ slot_of (w r) (recv_cell gc d c) i ∧
    slot_of (w r) (recv_cell gc d c) i < (w r).n_particles + (w r).n_ghosts
  recv_inj : ∀ r ∈ ranks, ∀ (d : Fin 6) (c i : Int) (d1 : Fin 6) (c1 i1 : Int),
    d.val < k → d1.val < k → RecvEntry gc (w r) d c i → RecvEntry gc (w r) d1 c1 i1 →
    slot_of (w r) (recv_cell gc d c) i = slot_of (w r) (recv_cell gc d1 c1) i1 →
    d = d1 ∧ c = c1 ∧ i = i1
  send_range : ∀ r ∈ ranks, ∀ (d : Fin 6) (c i : Int), d.val < k → SendEntry gc (w r) d c i →
    slot_of (w r) (send_cell gc d c) i < (w r).n_particles + (w r).n_ghosts
  send_recv : ∀ r ∈ ranks, ∀ (d : Fin 6) (c i : Int) (d1 : Fin 6) (c1 i1 : Int),
    d ≤ d1 → d1.val < k → SendEntry gc (w r) d c i → RecvEntry gc (w r) d1 c1 i1 →
    slot_of (w r) (send_cell gc d c) i ≠ slot_of (w r) (recv_cell gc d1 c1) i1

/-- The fields `update_ghost_pos` reads besides the particle array are the same in both
states. -/
def SameHalo {F : Type} (a b : State F) : Prop :=
  b.cells = a.cells ∧ b.n_particles = a.n_particles ∧ b.n_ghosts = a.n_ghosts ∧
  b.ghost_send_size = a.ghost_send_size ∧ b.ghost_recv_size = a.ghost_recv_size

/-- A position with `boundary[dir]` added to coordinate `dir/2`. -/
def shift_pos {F : Type} [LinearOrderedCommRing F] (env : Env F) (dir : Fin 6)
    (p : Fin 3 → F) : Fin 3 → F :=
  Function.update p (axis_of dir) (p (axis_of dir) + env.boundary dir)

/-- State `b` differs from state `a` in the send buffer at most. -/
def BufFrame {F : Type} (a b : State F) : Prop :=
  b.particles = a.particles ∧ SameHalo a b ∧ b.recv_buf = a.recv_buf

/-- A particle slot after the refresh stored the position `q` in it. -/
def with_p {F : Type} (x : Particle F) (q : Fin 3 → F) : Particle F :=
  { x with p := q }

/-- The recv entries of direction `d` on rank `r` already hold the (shifted) positions of
the matching send entries of `neighbors[r_dir]`. -/
def PosFixed {F : Type} [LinearOrderedCommRing F] (env : Int → Env F) (gc : GhostCells)
    (w : Int → State F) (d : Fin 6) (r : Int) : Prop :=
  ∀ c i : Int, RecvEntry gc (w r) d c i →
    ((w r).particles (slot_of (w r) (recv_cell gc d c) i)).p =
      shift_pos (env ((env r).neighbors (r_dir_of d))) d
        ((w ((env r).neighbors (r_dir_of d))).particles
          (slot_of (w ((env r).neighbors (r_dir_of d))) (send_cell gc d c) i)).p

/-- The state `st` with the position of `slot` set to `p` (a position written by the
integrator between `exchange_ghost` and `update_ghost_pos`). -/
def with_pos (st : State Int) (slot : Int) (p : Fin 3 → Int) : State Int :=
  { st with particles := Function.update st.particles slot (with_p (st.particles slot) p) }

/-- The halo of `pair_world` built by `exchange_ghost`, after the owned particle of rank 0
moved to (3,4,5) and that of rank 1 to (6,7,8). -/
def pair_moved : Int → State Int := fun r =>
  with_pos (exchange_ghost (grid_env ![2, 1, 1] 1) (cells_of_grid ![1, 1, 1]) pair_world r) 0
    (if r = 0 then ![3, 4, 5] else ![6, 7, 8])

/-! ## Geometry of the cell lists -/

/-- The lattice point stored at position `k` of the row-major block of the box `lc..hc`
(first coordinate outermost, as the loops of `sub_grid_indices` run). -/
def decode_in (lc hc : Fin 3 → Int) (k : Int) : Fin 3 → Int :=
  ![lc 0 + k / (hc 2 + 1 - lc 2) / (hc 1 + 1 - lc 1),
    lc 1 + (k / (hc 2 + 1 - lc 2)) % (hc 1 + 1 - lc 1),
    lc 2 + k % (hc 2 + 1 - lc 2)]

/-- The point `p` lies in the box `lc..hc`. -/
def InBoxP (lc hc p : Fin 3 → Int) : Prop := ∀ i : Fin 3, lc i ≤ p i ∧ p i ≤ hc i

/-- Lower corner of the layer `x` of direction `d` in `ghost_init`: coordinate `d/2` is
`x`; the axes before `d/2` start at the ghost layer 0, the axes after it at 1. -/
def layer_lo (d : Fin 6) (x : Int) : Fin 3 → Int :=
  fun j => if j = axis_of d then x else if j < axis_of d then 0 else 1

/-- Upper corner of the layer `x` of direction `d` in `ghost_init`: the axes before `d/2`
end at the ghost layer `cg+1`, the axes after it at `cg`. -/
def layer_hi (cg : Fin 3 → Int) (d : Fin 6) (x : Int) : Fin 3 → Int :=
  fun j => if j = axis_of d then x else if j < axis_of d then cg j + 1 else cg j

/-- Coordinate `d/2` of the send cells of direction `d`: 1 for the even direction, `cg`
for the odd one. -/
def send_layer (cg : Fin 3 → Int) (d : Fin 6) : Int :=
  if d.val % 2 = 0 then 1 else cg (axis_of d)

/-- Coordinate `d/2` of the recv cells of direction `d`: `cg+1` for the even direction, 0
for the odd one. -/
def recv_layer (cg : Fin 3 → Int) (d : Fin 6) : Int :=
  if d.val % 2 = 0 then cg (axis_of d) + 1 else 0

/-- The lattice mapping is one-to-one on the lattice of shape `gs`. -/
def LatticeInj (get_linear_index : Int → Int → Int → Int → Int → Int → Int)
    (gs : Fin 3 → Int) : Prop :=
  ∀ p q : Fin 3 → Int, (∀ i : Fin 3, 0 ≤ p i ∧ p i < gs i) → (∀ i : Fin 3, 0 ≤ q i ∧ q i < gs i) →
    get_linear_index (p 0) (p 1) (p 2) (gs 0) (gs 1) (gs 2) =
      get_linear_index (q 0) (q 1) (q 2) (gs 0) (gs 1) (gs 2) → p = q

/-- The list sizes `anz[i]` of `ghost_init` for `ghost_cell_grid = cell_grid + 2`. -/
def init_anz (cg : Fin 3 → Int) : Fin 3 → Int :=
  ![cg 1 * cg 2, cg 2 * (cg 0 + 2), (cg 0 + 2) * (cg 1 + 2)]

/-- The cell lists after the direction loop of `ghost_init` has run for the axes below
`k`: the counts and the list segments of the directions of these axes. -/
structure ListsUpTo (get_linear_index : Int → Int → Int → Int → Int → Int → Int)
    (cg gcg : Fin 3 → Int) (cell_start : Fin 6 → Int) (k : Nat) (s : InitLoop) : Prop where
  done : ∀ j : Fin 3, s.done j = if j.val < k then 1 else 0
  n_send : ∀ d : Fin 6, (axis_of d).val < k → s.n_send_cells d = init_anz cg (axis_of d)
  n_recv : ∀ d : Fin 6, (axis_of d).val < k → s.n_recv_cells d = init_anz cg (axis_of d)
  send : ∀ d : Fin 6, (axis_of d).val < k → ∀ m : Int, 0 ≤ m → m < init_anz cg (axis_of d) →
    s.send_cells (cell_start d + m) =
      get_linear_index
        (decode_in (layer_lo d (send_layer cg d)) (layer_hi cg d (send_layer cg d)) m 0)
        (decode_in (layer_lo d (send_layer cg d)) (layer_hi cg d (send_layer cg d)) m 1)
        (decode_in (layer_lo d (send_layer cg d)) (layer_hi cg d (send_layer cg d)) m 2)
        (gcg 0) (gcg 1) (gcg 2)
  recv : ∀ d : Fin 6, (axis_of d).val < k → ∀ m : Int, 0 ≤ m → m < init_anz cg (axis_of d) →
    s.recv_cells (cell_start d + m) =
      get_linear_index
        (decode_in (layer_lo d (recv_layer cg d)) (layer_hi cg d (recv_layer cg d)) m 0)
        (decode_in (layer_lo d (recv_layer cg d)) (layer_hi cg d (recv_layer cg d)) m 1)
        (decode_in (layer_lo d (recv_layer cg d)) (layer_hi cg d (recv_layer cg d)) m 2)
        (gcg 0) (gcg 1) (gcg 2)

/-- The offsets `cell_start[d]` of `ghost_init` for `ghost_cell_grid = cell_grid + 2`:
two lists for each axis before `d/2`, and one more list for an odd direction. -/
def init_start (cg : Fin 3 → Int) (d : Fin 6) : Int :=
  (if 1 ≤ (axis_of d).val then 2 * init_anz cg 0 else 0) +
  (if 2 ≤ (axis_of d).val then 2 * init_anz cg 1 else 0) +
  (if d.val % 2 = 1 then init_anz cg (axis_of d) else 0)

/-! ## Vocabulary of the layer and layout statements -/

/-- The point `p` lies in the layer `x` of direction `d`: coordinate `d/2` is `x`, the
coordinates of the axes after `d/2` lie in the owned range `[1, cg]` and those of the axes
before `d/2` in the full range `[0, cg+1]`. -/
def InLayer (cg : Fin 3 → Int) (d : Fin 6) (x : Int) (p : Fin 3 → Int) : Prop :=
  p (axis_of d) = x ∧
  ∀ j : Fin 3, (axis_of d < j → 1 ≤ p j ∧ p j ≤ cg j) ∧
    (j < axis_of d → 0 ≤ p j ∧ p j ≤ cg j + 1)

instance (cg : Fin 3 → Int) (d : Fin 6) (x : Int) (p : Fin 3 → Int) :
    Decidable (InLayer cg d x p) := by
  unfold InLayer; infer_instance

/-- The particle slot a diagnostic line is about (its last `%d`). -/
def Diag.part {F : Type} : Diag F → Int
  | Diag.illegal_identity _ _ part => part
  | Diag.illegal_position _ _ _ part => part

/-- What the validation scan of `exchange_part` tests of a particle: the identity against
`[0, n_total_particles]` and each coordinate against `[0, box_l]`, both ends included. -/
def check_fails {F : Type} [LinearOrderedCommRing F] (env : Env F) (x : Particle F) : Prop :=
  x.identity < 0 ∨ x.identity > env.n_total_particles ∨
  ∃ dir : Fin 3, x.p dir < 0 ∨ x.p dir > env.box_l dir

/-- The lines the validation scan of `exchange_part` prints for slot `n` holding the
particle `x`, in the order printed. -/
def check_diags {F : Type} [LinearOrderedCommRing F] (env : Env F) (x : Particle F)
    (n : Int) : List (Diag F) :=
  (if x.identity < 0 ∨ x.identity > env.n_total_particles
    then [Diag.illegal_identity env.this_node x.identity n] else []) ++
  ((if x.p 0 < 0 ∨ x.p 0 > env.box_l 0
    then [Diag.illegal_position env.this_node 0 (x.p 0) n] else []) ++
  ((if x.p 1 < 0 ∨ x.p 1 > env.box_l 1
    then [Diag.illegal_position env.this_node 1 (x.p 1) n] else []) ++
  (if x.p 2 < 0 ∨ x.p 2 > env.box_l 2
    then [Diag.illegal_position env.this_node 2 (x.p 2) n] else [])))

/-- The constants of the rank of a 1x1x1 process grid with box `[0,1000)^3` (coordinates
in hundredths of the length unit of a box of length 10). -/
def fine_env : Env Int :=
  { solo_env with
    boundary := ![1000, -1000, 1000, -1000, 1000, -1000]
    my_right := fun _ => 1000
    box_l := fun _ => 1000
    fold_particle := fun p i => (fun d => p d % 1000, fun d => i d + p d / 1000) }

/-- Direction number `j` as a direction. -/
def dir_at (j : Int) : Fin 6 := ⟨j.toNat % 6, Nat.mod_lt _ (by decide)⟩

/-- The number of ghosts received in the directions below `k`:
`ghost_recv_size[0] + ... + ghost_recv_size[k-1]`. -/
def recv_before {F : Type} (st : State F) (k : Int) : Int :=
  psum (fun j => st.ghost_recv_size (dir_at j)) k

/-- The layout of the halo after the sweeps of `exchange_ghost` for the directions below
`k`: counts, message sizes and the slots listed in the recv cells, on all ranks. -/
structure LayoutUpTo {F : Type} (env : Int → Env F) (ranks : Finset Int) (gc : GhostCells)
    (k : Nat) (w : Int → State F) : Prop where
  ghosts_nonneg : ∀ r ∈ ranks, 0 ≤ (w r).n_ghosts
  counts : ∀ r ∈ ranks, CountsOK gc (w r)
  occ_match : ∀ r ∈ ranks, ∀ d : Fin 6, d.val < k → ∀ c : Int, 0 ≤ c → c < gc.n_send_cells d →
    occ (w r) (recv_cell gc d c) = occ (w ((env r).neighbors (r_dir_of d))) (send_cell gc d c)
  send_size : ∀ r ∈ ranks, ∀ d : Fin 6, d.val < k →
    (w r).ghost_send_size d =
      psum (fun c => occ (w r) (send_cell gc d c)) (gc.n_send_cells d)
  recv_size : ∀ r ∈ ranks, ∀ d : Fin 6, d.val < k →
    (w r).ghost_recv_size d =
      psum (fun c => occ (w r) (recv_cell gc d c)) (gc.n_send_cells d)
  ghosts : ∀ r ∈ ranks, (w r).n_ghosts = recv_before (w r) k
  slots : ∀ r ∈ ranks, ∀ (d : Fin 6) (c i : Int), d.val < k → RecvEntry gc (w r) d c i →
    slot_of (w r) (recv_cell gc d c) i =
      (w r).n_particles + recv_before (w r) d.val +
        psum (fun c => occ (w r) (recv_cell gc d c)) c + i

/-- State `b` has the message sizes and the buffer sizes of state `a`. -/
def SizesKept {F : Type} (a b : State F) : Prop :=
  b.ghost_send_size = a.ghost_send_size ∧ b.ghost_recv_size = a.ghost_recv_size ∧
  b.max_send_buf = a.max_send_buf ∧ b.max_recv_buf = a.max_recv_buf

/-- Allocated lengths, in doubles, of `send_buf` and `recv_buf`. -/
structure BufCaps where
  send_cap : Int
  recv_cap : Int
  deriving DecidableEq

/-- The two `realloc` calls at the end of `exchange_ghost`: `old_max_send` and
`old_max_recv` are the values saved at its start, `st` is the state after the buffer sizes
were unified. -/
def exchange_ghost_realloc {F : Type} (old_max_send old_max_recv : Int) (st : State F)
    (caps : BufCaps) : BufCaps :=
  let caps1 : BufCaps :=
    if st.max_send_buf > old_max_send then { caps with send_cap := 3 * st.max_send_buf }
    else caps
  if st.max_recv_buf > old_max_recv then { caps1 with recv_cap := 3 * st.max_recv_buf }
  else caps1

/-- The allocated lengths of `send_buf` and `recv_buf` of rank `r` after `exchange_ghost`,
from the lengths `caps` before it. -/
def exchange_ghost_caps {F : Type} [LinearOrderedCommRing F] (env : Int → Env F)
    (gc : GhostCells) (w : Int → State F) (r : Int) (caps : BufCaps) : BufCaps :=
  exchange_ghost_realloc (exchange_ghost_release (w r)).max_send_buf
    (exchange_ghost_release (w r)).max_recv_buf (exchange_ghost env gc w r) caps

/-- The buffer sizes of a rank after the sweeps of the directions below `k`: they are at
least the sizes `old_s`, `old_r` the rank started with and the message sizes of these
directions, and each equals one of them. -/
def SizesUpTo {F : Type} (old_s old_r : Int) (k : Nat) (st : State F) : Prop :=
  old_s ≤ st.max_send_buf ∧ old_r ≤ st.max_recv_buf ∧
  (∀ d : Fin 6, d.val < k →
    st.ghost_send_size d ≤ st.max_send_buf ∧ st.ghost_recv_size d ≤ st.max_recv_buf) ∧
  (st.max_send_buf = old_s ∨ ∃ d : Fin 6, d.val < k ∧ st.max_send_buf = st.ghost_send_size d) ∧
  (st.max_recv_buf = old_r ∨ ∃ d : Fin 6, d.val < k ∧ st.max_recv_buf = st.ghost_recv_size d)

/-- The recv entries of direction `d` on rank `r` hold the (shifted) ghost records of the
matching send entries of `neighbors[r_dir]`: identity, type, position and charge. -/
def RecFixed {F : Type} [LinearOrderedCommRing F] (env : Int → Env F) (gc : GhostCells)
    (w : Int → State F) (d : Fin 6) (r : Int) : Prop :=
  ∀ c i : Int, RecvEntry gc (w r) d c i →
    ghost_rec ((w r).particles (slot_of (w r) (recv_cell gc d c) i)) =
      shifted (env ((env r).neighbors (r_dir_of d))) d
        (ghost_rec ((w ((env r).neighbors (r_dir_of d))).particles
          (slot_of (w ((env r).neighbors (r_dir_of d))) (send_cell gc d c) i)))

/-- A particle slot after the force collection stored the force `g` in it. -/
def with_f {F : Type} (x : Particle F) (g : Fin 3 → F) : Particle F :=
  { x with f := g }

/-- The one rank of the 1x1x1 grid with `cell_grid = (1,1,1)` and one particle in the owned
cell 13, after `exchange_ghost` built its 26 ghosts and a force kernel wrote the force
(1,2,3) to the last ghost slot. -/
def solo_forced : Int → State Int := fun r =>
  with_force
    (exchange_ghost (fun _ => solo_env) (cells_of_grid ![1, 1, 1])
      (fun _ => with_cell (state_of [mk_particle 7 0 0 0]) 13 [0]) r)
    26 ![1, 2, 3]

/-! ## Vocabulary of the cell-list and frame statements -/

/-- A state transformer that advances the cursor by `m` and, started without a
diagnostic and with `m` entries of room below `max`, prints no "Array overflow" line. -/
def NoOverflow (max m : Int) (f : FillState → FillState) : Prop :=
  ∀ t : FillState, t.overflow = [] → t.i + m ≤ max → (f t).overflow = [] ∧ (f t).i = t.i + m

/-- The four `sub_grid_indices` calls of one pass of the direction loop of `ghost_init`
(axis `i`), in program order, each with all it returns. -/
def ghost_init_body_calls (get_linear_index : Int → Int → Int → Int → Int → Int → Int)
    (cg gcg : Fin 3 → Int) (cell_start : Fin 6 → Int) (ntot_send_cells : Int)
    (i : Fin 3) (s : InitLoop) : List SubGrid :=
  let lc1 := Function.update s.lc (i + 1) (1 - s.done (i + 1))
  let hc1 := Function.update s.hc (i + 1) (cg (i + 1) + s.done (i + 1))
  let lc2 := Function.update lc1 (i + 2) (1 - s.done (i + 2))
  let hc2 := Function.update hc1 (i + 2) (cg (i + 2) + s.done (i + 2))
  -- send to :   left, down, for
  let lc3 := Function.update lc2 i 1
  let hc3 := Function.update hc2 i 1
  let r1 := sub_grid_indices get_linear_index s.send_cells (cell_start (dir_of i 0))
    ntot_send_cells lc3 hc3 gcg
  -- recv from : right, up, back
  let lc4 := Function.update lc3 i 0
  let hc4 := Function.update hc3 i 0
  let r2 := sub_grid_indices get_linear_index s.recv_cells (cell_start (dir_of i 1))
    ntot_send_cells lc4 hc4 gcg
  -- send to :   right, up, back
  let lc5 := Function.update lc4 i (cg i)
  let hc5 := Function.update hc4 i (cg i)
  let r3 := sub_grid_indices get_linear_index r1.list (cell_start (dir_of i 1))
    ntot_send_cells lc5 hc5 gcg
  -- recv from : left, down, for
  let lc6 := Function.update lc5 i (cg i + 1)
  let hc6 := Function.update hc5 i (cg i + 1)
  let r4 := sub_grid_indices get_linear_index r2.list (cell_start (dir_of i 0))
    ntot_send_cells lc6 hc6 gcg
  [r1, r2, r3, r4]

/-- The twelve `sub_grid_indices` calls of `ghost_init` in program order: the direction
loop run as in `ghost_init_cells`, collecting what every call returns. -/
def ghost_init_calls (get_linear_index : Int → Int → Int → Int → Int → Int → Int)
    (cg gcg : Fin 3 → Int) (send0 recv0 : Int → Int) (lc0 hc0 : Fin 3 → Int) :
    List SubGrid :=
  let anz : Fin 3 → Int := ![cg 1 * cg 2, cg 2 * gcg 0, gcg 0 * gcg 1]
  let ntot := 2 * (anz 0 + anz 1 + anz 2)
  let cell_start : Fin 6 → Int :=
    ([1, 2, 3, 4, 5] : List (Fin 6)).foldl
      (fun cs i => Function.update cs i (cs (i - 1) + anz (axis_of (i - 1))))
      (Function.update (fun _ => 0) 0 0)
  (([0, 1, 2] : List (Fin 3)).foldl
    (fun (acc : InitLoop × List SubGrid) i =>
      (ghost_init_body get_linear_index cg gcg cell_start ntot i acc.1,
        acc.2 ++ ghost_init_body_calls get_linear_index cg gcg cell_start ntot i acc.1))
    ({ lc := lc0, hc := hc0, done := fun _ => 0
       n_send_cells := fun _ => 0, n_recv_cells := fun _ => 0
       send_cells := send0, recv_cells := recv0 }, [])).2

/-- The lattice point `p` is an owned cell: every coordinate lies in `[1, cg]`. -/
def OwnedPoint (cg : Fin 3 → Int) (p : Fin 3 → Int) : Prop := ∀ i : Fin 3, 1 ≤ p i ∧ p i ≤ cg i

instance (cg p : Fin 3 → Int) : Decidable (OwnedPoint cg p) := by
  unfold OwnedPoint; infer_instance

/-- The lattice point `p` is a halo cell of the lattice of shape `cg + 2`: a point of the
lattice with some coordinate equal to 0 or `cg + 1`. -/
def HaloPoint (cg : Fin 3 → Int) (p : Fin 3 → Int) : Prop :=
  (∀ i : Fin 3, 0 ≤ p i ∧ p i ≤ cg i + 1) ∧ ∃ i : Fin 3, p i = 0 ∨ p i = cg i + 1

instance (cg p : Fin 3 → Int) : Decidable (HaloPoint cg p) := by
  unfold HaloPoint; infer_instance

/-- Slot `m` is listed by a recv cell of the rank: it is an entry below the occupancy of
some cell of some recv list. -/
def RecvListed {F : Type} (gc : GhostCells) (st : State F) (m : Int) : Prop :=
  ∃ (d : Fin 6) (c i : Int), 0 ≤ c ∧ c < gc.n_recv_cells d ∧ 0 ≤ i ∧
    i < occ st (recv_cell gc d c) ∧ slot_of st (recv_cell gc d c) i = m

/-- State `b` differs from state `a` at most in the buffers and in the position field of
the slots listed by recv cells: cells, counters and the identity map are the same, every
slot holds its particle of `a` with some position, and a slot no recv cell lists holds
it unchanged. -/
def PosOnly {F : Type} (gc : GhostCells) (a b : State F) : Prop :=
  b.cells = a.cells ∧ b.n_particles = a.n_particles ∧ b.n_ghosts = a.n_ghosts ∧
  b.local_index = a.local_index ∧
  (∀ m : Int, b.particles m = with_p (a.particles m) (b.particles m).p) ∧
  ∀ m : Int, ¬ RecvListed gc a m → b.particles m = a.particles m

/-- The linear index that `get_linear_index` gives the lattice point `p` of the ghost cell
grid `gcg`, as `sub_grid_indices` calls it. -/
def lattice_cell (get_linear_index : Int → Int → Int → Int → Int → Int → Int)
    (gcg p : Fin 3 → Int) : Int :=
  get_linear_index (p 0) (p 1) (p 2) (gcg 0) (gcg 1) (gcg 2)

/-! ## `sub_grid_indices` in 32-bit arithmetic -/

/-- The value a 32-bit two's-complement `int` holds after an operation whose exact result
is `x`. -/
def wrap_int (x : Int) : Int := (x + 2147483648) % 4294967296 - 2147483648

/-- The values of a C `int`: `INT_MIN <= x <= INT_MAX`. -/
def IsInt (x : Int) : Prop := -2147483648 ≤ x ∧ x ≤ 2147483647

instance (x : Int) : Decidable (IsInt x) := by
  unfold IsInt; infer_instance

/-- The `size` of `sub_grid_indices` as the `int` variable holds it:
`size = hc[0]+1-lc[0]; for (i=1;i<3;i++) size *= hc[i]+1-lc[i];`, every operation in
`int`. -/
def sub_grid_size_int (lc hc : Fin 3 → Int) : Int :=
  ([1, 2] : List (Fin 3)).foldl
    (fun size i => wrap_int (size * wrap_int (wrap_int (hc i + 1) - lc i)))
    (wrap_int (wrap_int (hc 0 + 1) - lc 0))

/-- Body of the innermost loop of `sub_grid_indices` with the cursor `i` an `int`. -/
def sub_grid_body_int (get_linear_index : Int → Int → Int → Int → Int → Int → Int)
    (max : Int) (gs : Fin 3 → Int) (p0 p1 p2 : Int) (s : FillState) : FillState :=
  { i := wrap_int (s.i + 1)
    list := Function.update s.list s.i (get_linear_index p0 p1 p2 (gs 0) (gs 1) (gs 2))
    overflow := if s.i > max then s.overflow ++ [(s.i, max)] else s.overflow }

/-- `int sub_grid_indices(int* list, int start, int max, int lc[3], int hc[3], int gs[3])`
with `size`, `size+start` and `i` computed in `int`; the arguments are values of `int`.
After the sanity check `hc[k] < gs[k] <= INT_MAX`, so the loop variables `p0`, `p1`, `p2`
do not wrap. -/
def sub_grid_indices_int (get_linear_index : Int → Int → Int → Int → Int → Int → Int)
    (list : Int → Int) (start max : Int) (lc hc gs : Fin 3 → Int) : SubGrid :=
  if ([0, 1, 2] : List (Fin 3)).any (sub_grid_insane lc hc gs) then
    { ret := 0, list := list, overflow := [] }
  else
    let size := sub_grid_size_int lc hc
    if wrap_int (size + start) > max then
      { ret := -1, list := list, overflow := [] }
    else
      let s := forLoop (lc 0) (hc 0 + 1) (fun p0 =>
                 forLoop (lc 1) (hc 1 + 1) (fun p1 =>
                   forLoop (lc 2) (hc 2 + 1) (fun p2 =>
                     sub_grid_body_int get_linear_index max gs p0 p1 p2)))
                 { i := start, list := list, overflow := [] }
      { ret := size, list := s.list, overflow := s.overflow }

/-- The writer `g` does what the writer `f` does, and `f` advances the cursor by `m`,
whenever the cursor is an `int` with `m` values of `int` left above it. -/
def SameFill (m : Int) (f g : FillState → FillState) : Prop :=
  ∀ t : FillState, -2147483648 ≤ t.i → t.i + m ≤ 2147483647 →
    g t = f t ∧ (f t).i = t.i + m
/-! ## Theorems -/


theorem forLoop_empty {σ : Type} (lo hi : Int) (body : Int → σ → σ) (s : σ) (h : hi ≤ lo) :
    forLoop lo hi body s = s := by
  have : (hi - lo).toNat = 0 := by omega
  simp [forLoop, this]

theorem forLoop_succ {σ : Type} (lo hi : Int) (body : Int → σ → σ) (s : σ) (h : lo ≤ hi) :
    forLoop lo (hi + 1) body s = body hi (forLoop lo hi body s) := by
  have h1 : (hi + 1 - lo).toNat = (hi - lo).toNat + 1 := by omega
  have h2 : lo + ((hi - lo).toNat : Int) = hi := by omega
  unfold forLoop
  rw [h1, List.range_succ, List.foldl_append, List.foldl_cons, List.foldl_nil, h2]

/-- Induction principle for `forLoop`: an invariant that holds at entry and is kept by
every iteration holds at exit. -/
theorem forLoop_induct {σ : Type} (lo hi : Int) (body : Int → σ → σ) (s : σ)
    (I : Int → σ → Prop) (h0 : I lo s)
    (hstep : ∀ x t, lo ≤ x → x < hi → I x t → I (x + 1) (body x t)) (h : lo ≤ hi) :
    I hi (forLoop lo hi body s) := by
  have key : ∀ n : Nat, lo + (n : Int) ≤ hi →
      I (lo + (n : Int)) (forLoop lo (lo + (n : Int)) body s) := by
    intro n
    induction n with
    | zero =>
      intro _
      simpa [forLoop_empty] using h0
    | succ k ih =>
      intro hk
      have hk1 : lo + (k : Int) ≤ hi := by push_cast at hk; omega
      have e : lo + ((k + 1 : Nat) : Int) = lo + (k : Int) + 1 := by push_cast; ring
      rw [e, forLoop_succ _ _ _ _ (by omega)]
      exact hstep _ _ (by omega) (by push_cast at hk; omega) (ih hk1)
  have e : lo + ((hi - lo).toNat : Int) = hi := by omega
  have := key (hi - lo).toNat (by omega)
  rwa [e] at this

/-! ### `sub_grid_indices` -/

theorem forLoop_block (lo hi m : Int) (hm : 0 ≤ m) (C : Int → (Int → Int) → Prop)
    (body : Int → FillState → FillState)
    (hloc : ∀ x g g', (∀ k, 0 ≤ k → k < m → g k = g' k) → C x g → C x g')
    (hbody : ∀ x, lo ≤ x → x < hi → BlockWriter m (C x) (body x)) (hle : lo ≤ hi) :
    BlockWriter ((hi - lo) * m)
      (fun g => ∀ x, lo ≤ x → x < hi → C x (fun k => g ((x - lo) * m + k)))
      (forLoop lo hi body) := by
  intro t
  refine forLoop_induct lo hi body t
    (fun y u => u.i = t.i + (y - lo) * m ∧
      (∀ j, j < t.i ∨ t.i + (y - lo) * m ≤ j → u.list j = t.list j) ∧
      (∀ x, lo ≤ x → x < y → C x (fun k => u.list (t.i + ((x - lo) * m + k))))) ?_ ?_ hle
  · refine ⟨by simp, fun j _ => rfl, fun x h1 h2 => by omega⟩
  · rintro y u hy1 hy2 ⟨hi1, hi2, hi3⟩
    obtain ⟨b1, b2, b3⟩ := hbody y hy1 hy2 u
    have hym : 0 ≤ (y - lo) * m := mul_nonneg (by omega) hm
    refine ⟨by rw [b1, hi1]; ring, ?_, ?_⟩
    · intro j hj
      have e : (y + 1 - lo) * m = (y - lo) * m + m := by ring
      rw [b2 j (by rw [hi1]; omega), hi2 j (by omega)]
    · intro x hx1 hx2
      by_cases hxy : x = y
      · subst hxy
        have : (fun k => (body x u).list (t.i + ((x - lo) * m + k))) =
            (fun k => (body x u).list (u.i + k)) := by
          funext k; rw [hi1]; congr 1; ring
        rw [this]; exact b3
      · have hlt : x < y := by omega
        refine hloc x _ _ ?_ (hi3 x hx1 hlt)
        intro k hk0 hkm
        have h1 : (x - lo) * m + m ≤ (y - lo) * m := by
          have : (x - lo + 1) * m ≤ (y - lo) * m :=
            mul_le_mul_of_nonneg_right (by omega) hm
          linarith
        rw [b2 _ (by rw [hi1]; omega)]

theorem sub_grid_body_block (gli : Int → Int → Int → Int → Int → Int → Int) (max : Int)
    (gs : Fin 3 → Int) (p0 p1 p2 : Int) :
    BlockWriter 1 (fun g => g 0 = gli p0 p1 p2 (gs 0) (gs 1) (gs 2))
      (sub_grid_body gli max gs p0 p1 p2) := by
  intro t
  refine ⟨rfl, ?_, ?_⟩
  · intro j hj
    have : j ≠ t.i := by omega
    simp [sub_grid_body, Function.update_noteq this]
  · simp [sub_grid_body]

theorem sub_grid_size_eq (lc hc : Fin 3 → Int) : sub_grid_size lc hc = boxSize lc hc := by
  simp [sub_grid_size, boxSize]

theorem sub_grid_insane_iff (lc hc gs : Fin 3 → Int) :
    (([0, 1, 2] : List (Fin 3)).any (sub_grid_insane lc hc gs) = true) ↔
      ¬ BoxValid lc hc gs := by
  have hall : BoxValid lc hc gs ↔
      (0 ≤ lc 0 ∧ lc 0 ≤ hc 0 ∧ hc 0 < gs 0) ∧ (0 ≤ lc 1 ∧ lc 1 ≤ hc 1 ∧ hc 1 < gs 1) ∧
        (0 ≤ lc 2 ∧ lc 2 ≤ hc 2 ∧ hc 2 < gs 2) := by
    constructor
    · intro h; exact ⟨h 0, h 1, h 2⟩
    · rintro ⟨h0, h1, h2⟩ i
      fin_cases i
      · exact h0
      · exact h1
      · exact h2
  rw [hall]
  simp only [sub_grid_insane, List.any_cons, List.any_nil, Bool.or_false,
    Bool.or_eq_true, decide_eq_true_eq]
  omega

/-- The triple loop of `sub_grid_indices` is a block writer for the whole box. -/
theorem sub_grid_loops_block (gli : Int → Int → Int → Int → Int → Int → Int) (max : Int)
    (lc hc gs : Fin 3 → Int) (hv : ∀ i : Fin 3, lc i ≤ hc i) :
    BlockWriter ((hc 0 + 1 - lc 0) * ((hc 1 + 1 - lc 1) * ((hc 2 + 1 - lc 2) * 1)))
      (fun g => ∀ p0, lc 0 ≤ p0 → p0 < hc 0 + 1 → ∀ p1, lc 1 ≤ p1 → p1 < hc 1 + 1 →
        ∀ p2, lc 2 ≤ p2 → p2 < hc 2 + 1 →
          g ((p0 - lc 0) * ((hc 1 + 1 - lc 1) * ((hc 2 + 1 - lc 2) * 1)) +
              ((p1 - lc 1) * ((hc 2 + 1 - lc 2) * 1) + ((p2 - lc 2) * 1 + 0)))
            = gli p0 p1 p2 (gs 0) (gs 1) (gs 2))
      (forLoop (lc 0) (hc 0 + 1) (fun p0 =>
        forLoop (lc 1) (hc 1 + 1) (fun p1 =>
          forLoop (lc 2) (hc 2 + 1) (fun p2 => sub_grid_body gli max gs p0 p1 p2)))) := by
  have h0 := hv 0
  have h1 := hv 1
  have h2 := hv 2
  have n2 : 0 ≤ (hc 2 + 1 - lc 2) * 1 := by omega
  have n1 : 0 ≤ (hc 1 + 1 - lc 1) * ((hc 2 + 1 - lc 2) * 1) := mul_nonneg (by omega) n2
  refine forLoop_block (lc 0) (hc 0 + 1) _ n1
    (fun p0 g => ∀ p1, lc 1 ≤ p1 → p1 < hc 1 + 1 → ∀ p2, lc 2 ≤ p2 → p2 < hc 2 + 1 →
      g ((p1 - lc 1) * ((hc 2 + 1 - lc 2) * 1) + ((p2 - lc 2) * 1 + 0))
        = gli p0 p1 p2 (gs 0) (gs 1) (gs 2)) _ ?_ ?_ (by omega)
  · intro p0 g g' hgg hC p1 hp1 hp1' p2 hp2 hp2'
    rw [← hgg _ ?_ ?_]
    · exact hC p1 hp1 hp1' p2 hp2 hp2'
    · have := mul_nonneg (show 0 ≤ p1 - lc 1 by omega) n2
      omega
    · have : (p1 - lc 1 + 1) * ((hc 2 + 1 - lc 2) * 1) ≤
          (hc 1 + 1 - lc 1) * ((hc 2 + 1 - lc 2) * 1) :=
        mul_le_mul_of_nonneg_right (by omega) n2
      linarith
  · intro p0 _ _
    refine forLoop_block (lc 1) (hc 1 + 1) _ n2
      (fun p1 g => ∀ p2, lc 2 ≤ p2 → p2 < hc 2 + 1 →
        g ((p2 - lc 2) * 1 + 0) = gli p0 p1 p2 (gs 0) (gs 1) (gs 2)) _ ?_ ?_ (by omega)
    · intro p1 g g' hgg hC p2 hp2 hp2'
      rw [← hgg _ (by omega) (by omega)]
      exact hC p2 hp2 hp2'
    · intro p1 _ _
      refine forLoop_block (lc 2) (hc 2 + 1) 1 (by omega)
        (fun p2 g => g 0 = gli p0 p1 p2 (gs 0) (gs 1) (gs 2)) _ ?_ ?_ (by omega)
      · intro p2 g g' hgg hC
        rw [← hgg 0 (by omega) (by omega)]; exact hC
      · intro p2 _ _
        exact sub_grid_body_block gli max gs p0 p1 p2

/-- C9: with valid bounds `0 <= lc[i] <= hc[i] < gs[i]` and `start + size <= max`,
`sub_grid_indices` returns `size`, stores `get_linear_index(p0,p1,p2,gs)` of every box
point at its row-major position (p0 outermost) from `start` on, and leaves every entry
of `list` outside `[start, start+size)` unchanged. -/
theorem sub_grid_indices_box (gli : Int → Int → Int → Int → Int → Int → Int)
    (list : Int → Int) (start max : Int) (lc hc gs : Fin 3 → Int)
    (hv : BoxValid lc hc gs) (hfit : start + boxSize lc hc ≤ max) :
    (sub_grid_indices gli list start max lc hc gs).ret = boxSize lc hc ∧
    (∀ p0 p1 p2 : Int, lc 0 ≤ p0 → p0 ≤ hc 0 → lc 1 ≤ p1 → p1 ≤ hc 1 →
        lc 2 ≤ p2 → p2 ≤ hc 2 →
        (sub_grid_indices gli list start max lc hc gs).list
            (start + ((p0 - lc 0) * (hc 1 + 1 - lc 1) + (p1 - lc 1)) * (hc 2 + 1 - lc 2)
              + (p2 - lc 2))
          = gli p0 p1 p2 (gs 0) (gs 1) (gs 2)) ∧
    (∀ j : Int, j < start ∨ start + boxSize lc hc ≤ j →
        (sub_grid_indices gli list start max lc hc gs).list j = list j) := by
  have hsane : ¬ (([0, 1, 2] : List (Fin 3)).any (sub_grid_insane lc hc gs) = true) := by
    rw [sub_grid_insane_iff]; exact fun h => h hv
  have hsz : ¬ (boxSize lc hc + start > max) := by omega
  obtain ⟨_, b2, b3⟩ := sub_grid_loops_block gli max lc hc gs (fun i => (hv i).2.1)
    { i := start, list := list, overflow := [] }
  simp only [sub_grid_indices, sub_grid_size_eq, if_neg hsane, if_neg hsz]
  refine ⟨trivial, ?_, ?_⟩
  · intro p0 p1 p2 h0 h0' h1 h1' h2 h2'
    have := b3 p0 h0 (by omega) p1 h1 (by omega) p2 h2 (by omega)
    simp only at this
    rw [← this]
    congr 1
    ring
  · intro j hj
    refine b2 j ?_
    have : (hc 0 + 1 - lc 0) * ((hc 1 + 1 - lc 1) * ((hc 2 + 1 - lc 2) * 1)) =
        boxSize lc hc := by simp [boxSize]; ring
    simp only [this]
    exact hj

/-- C9 at a concrete box: the 2x1x2 box from (1,0,1) to (2,0,2) in a 3x1x3 lattice with
`get_linear_index(a,b,c,..) = 100a+10b+c`, written from `start = 4` with `max = 8`. -/
theorem sub_grid_indices_box_witness :
    (sub_grid_indices (fun a b c _ _ _ => 100 * a + 10 * b + c) (fun _ => 0) 4 8
        ![1, 0, 1] ![2, 0, 2] ![3, 1, 3]).ret = boxSize ![1, 0, 1] ![2, 0, 2] ∧
    (sub_grid_indices (fun a b c _ _ _ => 100 * a + 10 * b + c) (fun _ => 0) 4 8
        ![1, 0, 1] ![2, 0, 2] ![3, 1, 3]).list 7 = 202 :=
  ⟨(sub_grid_indices_box (fun a b c _ _ _ => 100 * a + 10 * b + c) (fun _ => 0) 4 8
      ![1, 0, 1] ![2, 0, 2] ![3, 1, 3] (by decide) (by decide)).1,
   (sub_grid_indices_box (fun a b c _ _ _ => 100 * a + 10 * b + c) (fun _ => 0) 4 8
      ![1, 0, 1] ![2, 0, 2] ![3, 1, 3] (by decide) (by decide)).2.1 2 0 2
      (by decide) (by decide) (by decide) (by decide) (by decide) (by decide)⟩

theorem not_boxValid_iff (lc hc gs : Fin 3 → Int) :
    ¬ BoxValid lc hc gs ↔
      ∃ i : Fin 3, lc i < 0 ∨ gs i ≤ lc i ∨ hc i < 0 ∨ gs i ≤ hc i ∨ hc i < lc i := by
  unfold BoxValid
  constructor
  · intro h
    by_contra hne
    apply h
    intro i
    have h1 : ¬ (lc i < 0 ∨ gs i ≤ lc i ∨ hc i < 0 ∨ gs i ≤ hc i ∨ hc i < lc i) :=
      fun hh => hne ⟨i, hh⟩
    omega
  · rintro ⟨i, hi⟩ h
    have := h i
    omega

/-- The error paths of `sub_grid_indices` in exact arithmetic: it returns 0 when some bound
is out of range or `lc[i] > hc[i]`, returns -1 when the bounds are valid but
`start + size > max`, writes no entry of `list` in either case, and returns a positive
value only for valid bounds and a box that fits.  (`sub_grid_indices_int_errors` has the
same for 32-bit `int`, where the last two parts need a call without overflow.) -/
theorem sub_grid_indices_errors (gli : Int → Int → Int → Int → Int → Int → Int)
    (list : Int → Int) (start max : Int) (lc hc gs : Fin 3 → Int) :
    ((∃ i : Fin 3, lc i < 0 ∨ gs i ≤ lc i ∨ hc i < 0 ∨ gs i ≤ hc i ∨ hc i < lc i) →
        (sub_grid_indices gli list start max lc hc gs).ret = 0 ∧
        (sub_grid_indices gli list start max lc hc gs).list = list) ∧
    (BoxValid lc hc gs → start + boxSize lc hc > max →
        (sub_grid_indices gli list start max lc hc gs).ret = -1 ∧
        (sub_grid_indices gli list start max lc hc gs).list = list) ∧
    ((sub_grid_indices gli list start max lc hc gs).ret > 0 →
        BoxValid lc hc gs ∧ start + boxSize lc hc ≤ max) := by
  refine ⟨?_, ?_, ?_⟩
  · intro h
    have hins : ([0, 1, 2] : List (Fin 3)).any (sub_grid_insane lc hc gs) = true := by
      rw [sub_grid_insane_iff, not_boxValid_iff]; exact h
    simp only [sub_grid_indices, if_pos hins, and_self]
  · intro hv hbig
    have hsane : ¬ (([0, 1, 2] : List (Fin 3)).any (sub_grid_insane lc hc gs) = true) := by
      rw [sub_grid_insane_iff]; exact fun h => h hv
    have hsz : boxSize lc hc + start > max := by omega
    simp only [sub_grid_indices, sub_grid_size_eq, if_neg hsane, if_pos hsz, and_self]
  · intro hpos
    by_cases hins : ([0, 1, 2] : List (Fin 3)).any (sub_grid_insane lc hc gs) = true
    · simp only [sub_grid_indices, if_pos hins] at hpos
      omega
    · have hv : BoxValid lc hc gs := by
        by_contra hnv
        exact hins ((sub_grid_insane_iff lc hc gs).2 hnv)
      refine ⟨hv, ?_⟩
      by_cases hsz : boxSize lc hc + start > max
      · simp only [sub_grid_indices, sub_grid_size_eq, if_neg hins, if_pos hsz] at hpos
        omega
      · omega

/-- The error paths at concrete inputs: `hc[1] = 3` is outside `[0, gs[1]) = [0, 3)` (result 0); the
valid 2x1x2 box does not fit into `max = 7` from `start = 4` (result -1); and the same box
with `max = 8` returns 4, so its bounds are valid and it fits. -/
theorem sub_grid_indices_errors_witness :
    ((sub_grid_indices (fun a b c _ _ _ => 100 * a + 10 * b + c) (fun _ => 0) 4 8
        ![1, 0, 1] ![2, 3, 2] ![3, 3, 3]).ret = 0 ∧
     (sub_grid_indices (fun a b c _ _ _ => 100 * a + 10 * b + c) (fun _ => 0) 4 8
        ![1, 0, 1] ![2, 3, 2] ![3, 3, 3]).list = fun _ => 0) ∧
    ((sub_grid_indices (fun a b c _ _ _ => 100 * a + 10 * b + c) (fun _ => 0) 4 7
        ![1, 0, 1] ![2, 0, 2] ![3, 1, 3]).ret = -1 ∧
     (sub_grid_indices (fun a b c _ _ _ => 100 * a + 10 * b + c) (fun _ => 0) 4 7
        ![1, 0, 1] ![2, 0, 2] ![3, 1, 3]).list = fun _ => 0) ∧
    (BoxValid ![1, 0, 1] ![2, 0, 2] ![3, 1, 3] ∧ 4 + boxSize ![1, 0, 1] ![2, 0, 2] ≤ 8) :=
  ⟨(sub_grid_indices_errors (fun a b c _ _ _ => 100 * a + 10 * b + c) (fun _ => 0) 4 8
      ![1, 0, 1] ![2, 3, 2] ![3, 3, 3]).1 ⟨1, by decide⟩,
   (sub_grid_indices_errors (fun a b c _ _ _ => 100 * a + 10 * b + c) (fun _ => 0) 4 7
      ![1, 0, 1] ![2, 0, 2] ![3, 1, 3]).2.1 (by decide) (by decide),
   (sub_grid_indices_errors (fun a b c _ _ _ => 100 * a + 10 * b + c) (fun _ => 0) 4 8
      ![1, 0, 1] ![2, 0, 2] ![3, 1, 3]).2.2 (by decide)⟩

/-! ### `move_to_p_buf` -/

theorem count_bonds_eq (n : Int) : count_bonds n = max n 0 := by
  unfold count_bonds
  by_cases h : 0 ≤ n
  · have := forLoop_induct 0 n (fun _ bonds => bonds + 1) (0 : Int)
      (fun x b => b = x) rfl (fun x t _ _ hx => by simp [hx]) h
    rw [this]; omega
  · rw [forLoop_empty _ _ _ _ (by omega)]; omega

theorem count_bonds_pos (n : Int) : count_bonds n > 0 ↔ n > 0 := by
  rw [count_bonds_eq]; omega

theorem move_to_p_buf_n_particles {F : Type} (env : Env F) (st : State F) (ind : Int) :
    (move_to_p_buf env st ind).1.n_particles = st.n_particles - 1 := by
  unfold move_to_p_buf
  simp only
  split_ifs <;> rfl

theorem move_to_p_buf_ret {F : Type} (env : Env F) (st : State F) (ind : Int) :
    (move_to_p_buf env st ind).2 = if ind < st.n_particles - 1 then ind - 1 else ind := by
  unfold move_to_p_buf
  simp only
  split_ifs <;> rfl

theorem move_to_p_buf_n_p_send_buf {F : Type} (env : Env F) (st : State F) (ind : Int) :
    (move_to_p_buf env st ind).1.n_p_send_buf = st.n_p_send_buf + 1 := by
  unfold move_to_p_buf
  simp only
  split_ifs <;> rfl

theorem move_to_p_buf_n_b_send_buf {F : Type} (env : Env F) (st : State F) (ind : Int) :
    (move_to_p_buf env st ind).1.n_b_send_buf =
      st.n_b_send_buf + max (st.particles ind).n_bonds 0 := by
  have hc := count_bonds_eq (st.particles ind).n_bonds
  unfold move_to_p_buf
  simp only
  split_ifs <;> simp only [] <;> omega

theorem move_to_p_buf_p_send_buf {F : Type} (env : Env F) (st : State F) (ind : Int) :
    (move_to_p_buf env st ind).1.p_send_buf =
      Function.update st.p_send_buf st.n_p_send_buf (st.particles ind).detach := by
  unfold move_to_p_buf Particle.detach
  simp only
  split_ifs <;> simp

theorem move_to_p_buf_b_send_buf {F : Type} (env : Env F) (st : State F) (ind : Int) :
    (move_to_p_buf env st ind).1.b_send_buf =
      if count_bonds (st.particles ind).n_bonds > 0 then
        memcpy st.b_send_buf st.n_b_send_buf (block (st.particles ind).bonds)
          (count_bonds (st.particles ind).n_bonds)
      else st.b_send_buf := by
  unfold move_to_p_buf
  simp only
  split_ifs <;> rfl

theorem move_to_p_buf_particles {F : Type} (env : Env F) (st : State F) (ind : Int) :
    (move_to_p_buf env st ind).1.particles =
      if ind < st.n_particles - 1 then
        Function.update st.particles ind (st.particles (st.n_particles - 1))
      else Function.update st.particles ind (st.particles ind).detach := by
  by_cases hl : ind < st.n_particles - 1
  · have hne : st.n_particles - 1 ≠ ind := by omega
    unfold move_to_p_buf
    dsimp only
    split_ifs <;> dsimp only at * <;> simp [Function.update_noteq hne]
  · unfold move_to_p_buf Particle.detach
    dsimp only
    split_ifs <;> dsimp only at * <;> simp

theorem move_to_p_buf_local_index {F : Type} (env : Env F) (st : State F) (ind : Int) :
    (move_to_p_buf env st ind).1.local_index =
      if ind < st.n_particles - 1 then
        Function.update (Function.update st.local_index (st.particles ind).identity (-1))
          (st.particles (st.n_particles - 1)).identity ind
      else Function.update st.local_index (st.particles ind).identity (-1) := by
  by_cases hl : ind < st.n_particles - 1
  · have hne : st.n_particles - 1 ≠ ind := by omega
    unfold move_to_p_buf
    dsimp only
    split_ifs <;> dsimp only at * <;> simp [Function.update_noteq hne]
  · unfold move_to_p_buf
    dsimp only
    split_ifs <;> dsimp only at * <;> simp

/-- C7: `move_to_p_buf(ind)` on a store whose identity map is right on all owned slots
(which makes the owned identities pairwise distinct), for `0 <= ind < n_particles`:
`n_particles` drops by one, the removed identity maps to -1, slot `ind` takes the former
last particle (when `ind` was not last), the other remaining slots are unchanged, the
removed record is the newest send buffer entry, `n_p_send_buf` grows by one and
`n_b_send_buf` by `n_bonds`, and the identity map is right on all remaining slots. -/
theorem move_to_p_buf_spec {F : Type} (env : Env F) (st : State F) (ind : Int)
    (hidx : OwnedIndexed st) (h0 : 0 ≤ ind) (h1 : ind < st.n_particles) :
    (move_to_p_buf env st ind).1.n_particles = st.n_particles - 1 ∧
    (move_to_p_buf env st ind).1.local_index (st.particles ind).identity = -1 ∧
    (ind < st.n_particles - 1 →
      (move_to_p_buf env st ind).1.particles ind = st.particles (st.n_particles - 1)) ∧
    (∀ s : Int, 0 ≤ s → s < st.n_particles - 1 → s ≠ ind →
      (move_to_p_buf env st ind).1.particles s = st.particles s) ∧
    (move_to_p_buf env st ind).1.n_p_send_buf = st.n_p_send_buf + 1 ∧
    ((move_to_p_buf env st ind).1.p_send_buf st.n_p_send_buf).core = (st.particles ind).core ∧
    (0 ≤ (st.particles ind).n_bonds →
      (move_to_p_buf env st ind).1.n_b_send_buf =
        st.n_b_send_buf + (st.particles ind).n_bonds) ∧
    OwnedIndexed (move_to_p_buf env st ind).1 := by
  have hdist : ∀ s t : Int, 0 ≤ s → s < st.n_particles → 0 ≤ t → t < st.n_particles →
      (st.particles s).identity = (st.particles t).identity → s = t := by
    intro s t hs0 hs1 ht0 ht1 he
    have := hidx s hs0 hs1
    rw [he, hidx t ht0 ht1] at this
    exact this.symm
  refine ⟨move_to_p_buf_n_particles env st ind, ?_, ?_, ?_,
    move_to_p_buf_n_p_send_buf env st ind, ?_, ?_, ?_⟩
  · rw [move_to_p_buf_local_index]
    split_ifs with hl
    · have hne : (st.particles ind).identity ≠ (st.particles (st.n_particles - 1)).identity := by
        intro he
        have := hdist _ _ h0 h1 (by omega) (by omega) he
        omega
      rw [Function.update_noteq hne, Function.update_same]
    · rw [Function.update_same]
  · intro hl
    rw [move_to_p_buf_particles, if_pos hl, Function.update_same]
  · intro s hs0 hs1 hne
    rw [move_to_p_buf_particles]
    split_ifs <;> rw [Function.update_noteq hne]
  · rw [move_to_p_buf_p_send_buf, Function.update_same]
    unfold Particle.detach Particle.core
    split_ifs <;> rfl
  · intro hb
    rw [move_to_p_buf_n_b_send_buf, max_eq_left hb]
  · intro s hs0 hs1
    rw [move_to_p_buf_n_particles] at hs1
    rw [move_to_p_buf_particles, move_to_p_buf_local_index]
    by_cases hl : ind < st.n_particles - 1
    · simp only [if_pos hl]
      by_cases hs : s = ind
      · subst hs
        rw [Function.update_same, Function.update_same]
      · rw [Function.update_noteq hs]
        have hn1 : (st.particles s).identity ≠ (st.particles (st.n_particles - 1)).identity := by
          intro he
          have := hdist _ _ hs0 (by omega) (by omega) (by omega) he
          omega
        have hn2 : (st.particles s).identity ≠ (st.particles ind).identity := by
          intro he
          exact hs (hdist _ _ hs0 (by omega) h0 h1 he)
        rw [Function.update_noteq hn1, Function.update_noteq hn2]
        exact hidx s hs0 (by omega)
    · simp only [if_neg hl]
      have hs : s ≠ ind := by omega
      rw [Function.update_noteq hs]
      have hn2 : (st.particles s).identity ≠ (st.particles ind).identity := by
        intro he
        exact hs (hdist _ _ hs0 (by omega) h0 h1 he)
      rw [Function.update_noteq hn2]
      exact hidx s hs0 (by omega)

theorem three_particles_indexed : OwnedIndexed three_particles := by
  intro s h0 h1
  have h2 : s < 3 := h1
  interval_cases s <;> rfl

/-- C7 on three owned particles (identities 7, 3, 5; the middle one with three bonds),
removing slot 1: two particles remain, identity 3 maps to -1, slot 1 holds the former
last particle, one more record and three more bond partners are in the send buffers. -/
theorem move_to_p_buf_spec_witness :
    (move_to_p_buf solo_env three_particles 1).1.n_particles = 3 - 1 ∧
    (move_to_p_buf solo_env three_particles 1).1.local_index 3 = -1 ∧
    (move_to_p_buf solo_env three_particles 1).1.particles 1 = three_particles.particles 2 ∧
    (move_to_p_buf solo_env three_particles 1).1.n_b_send_buf = 0 + 3 ∧
    OwnedIndexed (move_to_p_buf solo_env three_particles 1).1 :=
  have h := move_to_p_buf_spec solo_env three_particles 1 three_particles_indexed
    (by decide) (by decide)
  ⟨h.1, h.2.1, h.2.2.1 (by decide), h.2.2.2.2.2.2.1 (by decide), h.2.2.2.2.2.2.2⟩
/-! ### Buffers -/

theorem memcpy_apply {α : Type} (dst : Int → α) (off : Int) (src : Int → α) (n j : Int) :
    memcpy dst off src n j = if off ≤ j ∧ j < off + n then src (j - off) else dst j := by
  by_cases hn : 0 ≤ n
  · have := forLoop_induct 0 n (fun k m => Function.update m (off + k) (src k)) dst
      (fun x m => ∀ j, m j = if off ≤ j ∧ j < off + x then src (j - off) else dst j)
      (by intro j; rw [if_neg (by omega)])
      (by
        intro x t hx0 hxn ht j
        beta_reduce
        by_cases hj : j = off + x
        · subst hj
          rw [Function.update_same, if_pos (by omega)]
          congr 1; omega
        · rw [Function.update_noteq hj, ht j]
          by_cases h1 : off ≤ j ∧ j < off + x
          · rw [if_pos h1, if_pos (by omega)]
          · rw [if_neg h1, if_neg (by omega)])
      hn
    exact this j
  · unfold memcpy
    rw [forLoop_empty _ _ _ _ (by omega), if_neg (by omega)]

theorem bond_off_zero {F : Type} (P : Int → Particle F) : bond_off P 0 = 0 := by
  unfold bond_off; exact forLoop_empty _ _ _ _ (le_refl _)

theorem bond_off_succ {F : Type} (P : Int → Particle F) (k : Int) (hk : 0 ≤ k) :
    bond_off P (k + 1) = bond_off P k + count_bonds (P k).n_bonds := by
  unfold bond_off; exact forLoop_succ _ _ _ _ hk

theorem count_bonds_nonneg (n : Int) : 0 ≤ count_bonds n := by
  rw [count_bonds_eq]; omega

theorem bond_off_congr {F : Type} (P Q : Int → Particle F) (k : Int)
    (h : ∀ i, 0 ≤ i → i < k → (P i).n_bonds = (Q i).n_bonds) :
    bond_off P k = bond_off Q k := by
  by_cases hk : 0 ≤ k
  · have := forLoop_induct 0 k (fun i acc => acc + count_bonds (P i).n_bonds) (0 : Int)
      (fun x a => x ≤ k → a = bond_off Q x)
      (by intro _; rw [bond_off_zero])
      (by
        intro x t hx0 hxk ht _
        beta_reduce
        rw [bond_off_succ Q x hx0, ht (by omega), h x hx0 hxk])
      hk
    exact this (le_refl _)
  · unfold bond_off
    rw [forLoop_empty _ _ _ _ (by omega), forLoop_empty _ _ _ _ (by omega)]

theorem bond_off_mono {F : Type} (P : Int → Particle F) (a b : Int) (ha : 0 ≤ a) (hab : a ≤ b) :
    bond_off P a ≤ bond_off P b := by
  have := forLoop_induct a b (fun _ (acc : Int) => acc) (0 : Int)
    (fun x _ => bond_off P a ≤ bond_off P x) (le_refl _)
    (by
      intro x t hx0 hxk ht
      rw [bond_off_succ P x (by omega)]
      have := count_bonds_nonneg (P x).n_bonds
      omega)
    hab
  exact this

theorem bond_off_nonneg {F : Type} (P : Int → Particle F) (k : Int) (hk : 0 ≤ k) :
    0 ≤ bond_off P k := by
  have := bond_off_mono P 0 k (le_refl _) hk
  rwa [bond_off_zero] at this
/-! ### Bond streams -/

theorem detach_n_bonds {F : Type} (x : Particle F) : x.detach.n_bonds = x.n_bonds := by
  unfold Particle.detach; split_ifs <;> rfl

theorem detach_core {F : Type} (x : Particle F) : x.detach.core = x.core := by
  unfold Particle.detach Particle.core; split_ifs <;> rfl

theorem sendInv_step {F : Type} (env : Env F) (s : State F) (R : List (Particle F))
    (ind : Int) (h : SendInv s R) :
    SendInv (move_to_p_buf env s ind).1 (R ++ [s.particles ind]) := by
  obtain ⟨h1, h2, h3, h4⟩ := h
  have hoff : ∀ k : Int, 0 ≤ k → k ≤ R.length →
      bond_off (Function.update s.p_send_buf s.n_p_send_buf (s.particles ind).detach) k =
        bond_off s.p_send_buf k := by
    intro k hk0 hk1
    refine bond_off_congr _ _ _ ?_
    intro i hi0 hi1
    rw [Function.update_noteq (by omega)]
  have hlast : bond_off (Function.update s.p_send_buf s.n_p_send_buf (s.particles ind).detach)
      ((R.length : Int) + 1) = s.n_b_send_buf + count_bonds (s.particles ind).n_bonds := by
    rw [bond_off_succ _ _ (by omega), hoff _ (by omega) (le_refl _), ← h3, ← h1,
      Function.update_same, detach_n_bonds]
  refine ⟨?_, ?_, ?_, ?_⟩
  · rw [move_to_p_buf_n_p_send_buf, h1]; simp
  · intro k x hk
    rw [move_to_p_buf_p_send_buf]
    by_cases hlt : k < R.length
    · rw [List.getElem?_append_left hlt] at hk
      rw [Function.update_noteq (by omega)]
      exact h2 k x hk
    · have hlen := (List.getElem?_eq_some.1 hk).1
      simp only [List.length_append, List.length_singleton] at hlen
      have hke : k = R.length := by omega
      subst hke
      rw [List.getElem?_append_right (le_refl _)] at hk
      simp at hk
      subst hk
      rw [h1, Function.update_same]
  · rw [move_to_p_buf_n_b_send_buf, move_to_p_buf_p_send_buf]
    simp only [List.length_append, List.length_singleton, Nat.cast_add, Nat.cast_one]
    rw [hlast, count_bonds_eq]
  · intro k x hk j hj0 hj1
    rw [move_to_p_buf_p_send_buf, move_to_p_buf_b_send_buf]
    by_cases hlt : k < R.length
    · rw [List.getElem?_append_left hlt] at hk
      rw [hoff _ (by omega) (by omega)]
      have hup : bond_off s.p_send_buf k + j < s.n_b_send_buf := by
        have e1 := bond_off_succ s.p_send_buf k (by omega)
        rw [h2 k x hk, detach_n_bonds] at e1
        have e2 := bond_off_mono s.p_send_buf ((k : Int) + 1) R.length (by omega) (by omega)
        omega
      split_ifs
      · rw [memcpy_apply, if_neg (by omega)]
        exact h4 k x hk j hj0 hj1
      · exact h4 k x hk j hj0 hj1
    · have hlen := (List.getElem?_eq_some.1 hk).1
      simp only [List.length_append, List.length_singleton] at hlen
      have hke : k = R.length := by omega
      subst hke
      rw [List.getElem?_append_right (le_refl _)] at hk
      simp at hk
      subst hk
      rw [hoff _ (by omega) (le_refl _), ← h3, if_pos (by omega), memcpy_apply,
        if_pos (by omega)]
      congr 1; omega

theorem sendInv_sweep {F : Type} (env : Env F) (inds : List Int) :
    ∀ (s : State F) (R : List (Particle F)), SendInv s R →
      SendInv (sweep_removals env s inds).1 (R ++ (sweep_removals env s inds).2) := by
  induction inds with
  | nil => intro s R h; simpa [sweep_removals] using h
  | cons ind rest ih =>
    intro s R h
    have := ih _ _ (sendInv_step env s R ind h)
    simpa [sweep_removals] using this

theorem sendInv_start {F : Type} (s : State F) (h1 : s.n_p_send_buf = 0)
    (h2 : s.n_b_send_buf = 0) : SendInv s [] := by
  refine ⟨by simpa using h1, by simp, ?_, by simp⟩
  rw [h2]; simp [bond_off_zero]
/-! ### `append_particles` -/

theorem append_body_snd {F : Type} (n : Int) (s : State F × Int) :
    (append_body n s).2 = s.2 + count_bonds (s.1.particles n).n_bonds := by
  have := count_bonds_nonneg (s.1.particles n).n_bonds
  unfold append_body
  dsimp only
  split_ifs <;> omega

theorem append_body_particles {F : Type} (n : Int) (s : State F × Int) :
    (append_body n s).1.particles =
      Function.update s.1.particles n ((s.1.particles n).attach s.1.b_recv_buf s.2) := by
  unfold append_body Particle.attach
  dsimp only
  split_ifs <;> dsimp only at * <;> simp

theorem append_body_local_index {F : Type} (n : Int) (s : State F × Int) :
    (append_body n s).1.local_index =
      Function.update s.1.local_index (s.1.particles n).identity n := by
  unfold append_body
  dsimp only
  split_ifs <;> rfl

theorem append_body_frame {F : Type} (n : Int) (s : State F × Int) :
    (append_body n s).1.n_particles = s.1.n_particles ∧
    (append_body n s).1.n_p_recv_buf = s.1.n_p_recv_buf ∧
    (append_body n s).1.b_recv_buf = s.1.b_recv_buf ∧
    (append_body n s).1.p_recv_buf = s.1.p_recv_buf := by
  unfold append_body
  dsimp only
  split_ifs <;> exact ⟨rfl, rfl, rfl, rfl⟩

/-- What `append_particles` leaves in the particle array: slot `n_particles + k` holds
received record `k` with its bonds rebuilt from the received bond stream; no other slot
changes. -/
theorem append_particles_spec {F : Type} (rs : State F) :
    (append_particles rs).n_particles = rs.n_particles + rs.n_p_recv_buf ∧
    ∀ j : Int, (append_particles rs).particles j =
      if rs.n_particles ≤ j ∧ j < rs.n_particles + rs.n_p_recv_buf then
        (rs.p_recv_buf (j - rs.n_particles)).attach rs.b_recv_buf
          (bond_off rs.p_recv_buf (j - rs.n_particles))
      else rs.particles j := by
  by_cases hm : 0 ≤ rs.n_p_recv_buf
  · have key := forLoop_induct rs.n_particles (rs.n_particles + rs.n_p_recv_buf) append_body
      (({ rs with particles :=
            memcpy rs.particles rs.n_particles rs.p_recv_buf rs.n_p_recv_buf } : State F), (0 : Int))
      (fun x s => s.1.n_particles = rs.n_particles ∧ s.1.n_p_recv_buf = rs.n_p_recv_buf ∧
        s.1.b_recv_buf = rs.b_recv_buf ∧
        s.2 = bond_off rs.p_recv_buf (x - rs.n_particles) ∧
        ∀ j : Int, s.1.particles j =
          if rs.n_particles ≤ j ∧ j < x then
            (rs.p_recv_buf (j - rs.n_particles)).attach rs.b_recv_buf
              (bond_off rs.p_recv_buf (j - rs.n_particles))
          else memcpy rs.particles rs.n_particles rs.p_recv_buf rs.n_p_recv_buf j)
      (by
        refine ⟨rfl, rfl, rfl, ?_, ?_⟩
        · simp [bond_off_zero]
        · intro j; rw [if_neg (by omega)])
      (by
        rintro x s hx0 hx1 ⟨i1, i2, i3, i4, i5⟩
        obtain ⟨f1, f2, f3, _⟩ := append_body_frame x s
        have hsx : s.1.particles x = rs.p_recv_buf (x - rs.n_particles) := by
          rw [i5 x, if_neg (by omega), memcpy_apply, if_pos (by omega)]
        refine ⟨by rw [f1, i1], by rw [f2, i2], by rw [f3, i3], ?_, ?_⟩
        · rw [append_body_snd, i4, hsx]
          have e : x + 1 - rs.n_particles = (x - rs.n_particles) + 1 := by ring
          rw [e, bond_off_succ _ _ (by omega)]
        · intro j
          rw [append_body_particles]
          by_cases hj : j = x
          · subst hj
            rw [Function.update_same, if_pos (by omega), hsx, i3, i4]
          · rw [Function.update_noteq hj, i5 j]
            by_cases h1 : rs.n_particles ≤ j ∧ j < x
            · rw [if_pos h1, if_pos (by omega)]
            · rw [if_neg h1, if_neg (by omega)])
      (by omega)
    obtain ⟨k1, k2, _, _, k5⟩ := key
    unfold append_particles
    dsimp only
    refine ⟨by rw [k1, k2], ?_⟩
    intro j
    rw [k5 j]
    by_cases h1 : rs.n_particles ≤ j ∧ j < rs.n_particles + rs.n_p_recv_buf
    · rw [if_pos h1, if_pos h1]
    · rw [if_neg h1, if_neg h1, memcpy_apply, if_neg h1]
  · unfold append_particles
    dsimp only
    rw [forLoop_empty _ _ _ _ (by omega)]
    dsimp only
    refine ⟨rfl, ?_⟩
    intro j
    rw [memcpy_apply, if_neg (by omega), if_neg (by omega)]
theorem read_block_eq (b : Int → Int) (off n : Int) (l : List Int)
    (hlen : (l.length : Int) = n)
    (h : ∀ j : Int, 0 ≤ j → j < n → b (off + j) = block l j) : read_block b off n = l := by
  unfold read_block
  apply List.ext_getElem
  · simp; omega
  · intro k h1 h2
    simp only [List.getElem_map, List.getElem_range]
    rw [h k (by omega) (by omega)]
    unfold block
    simp [List.getElem?_eq_getElem h2]

theorem core_n_bonds {F : Type} (x y : Particle F) (h : x.core = y.core) :
    x.n_bonds = y.n_bonds := by
  have := congrArg Particle.n_bonds h
  simpa [Particle.core] using this

theorem attach_core {F : Type} (x : Particle F) (b : Int → Int) (off : Int) :
    (x.attach b off).core = x.core := by
  unfold Particle.attach Particle.core; split_ifs <;> rfl

/-- C6 (bond round trip): let the particles `R` be removed by `move_to_p_buf` in one sweep
(send counters reset at its start), each with `n_bonds >= 0` and a bond list of that
length.  If the receive buffers of a rank hold the same particle and bond streams as the
send buffers, `append_particles` appends `R.length` records, and the `k`-th appended
particle equals `R[k]` (up to the `bonds` pointer), has the same `n_bonds`, and its bond
list is that of `R[k]`, element by element in the same order. -/
theorem bond_round_trip {F : Type} (env : Env F) (st : State F) (inds : List Int)
    (rs : State F) (hp : st.n_p_send_buf = 0) (hb : st.n_b_send_buf = 0)
    (hR : ∀ x ∈ (sweep_removals env st inds).2,
      0 ≤ x.n_bonds ∧ (x.bonds.length : Int) = x.n_bonds)
    (hs : SameStreams (sweep_removals env st inds).1 rs) :
    (append_particles rs).n_particles =
      rs.n_particles + ((sweep_removals env st inds).2.length : Int) ∧
    ∀ (k : Nat) (x : Particle F), (sweep_removals env st inds).2[k]? = some x →
      ((append_particles rs).particles (rs.n_particles + k)).core = x.core ∧
      ((append_particles rs).particles (rs.n_particles + k)).n_bonds = x.n_bonds ∧
      ((append_particles rs).particles (rs.n_particles + k)).bonds.take x.n_bonds.toNat
        = x.bonds := by
  have hinv := sendInv_sweep env inds st [] (sendInv_start st hp hb)
  rw [List.nil_append] at hinv
  obtain ⟨i1, i2, i3, i4⟩ := hinv
  obtain ⟨s1, s2, s3, s4⟩ := hs
  obtain ⟨a1, a2⟩ := append_particles_spec rs
  refine ⟨by rw [a1, s1, i1], ?_⟩
  intro k x hk
  have hklt : k < (sweep_removals env st inds).2.length := (List.getElem?_eq_some.1 hk).1
  have hx := hR x (List.getElem?_mem hk)
  have hrec : (rs.p_recv_buf k).core = x.core := by
    rw [s3 k (by omega) (by rw [i1]; omega), i2 k x hk, detach_core]
  have hnb : (rs.p_recv_buf k).n_bonds = x.n_bonds := by
    have := core_n_bonds _ _ hrec
    simpa [Particle.core] using this
  have hoff : bond_off rs.p_recv_buf k =
      bond_off (sweep_removals env st inds).1.p_send_buf k := by
    refine bond_off_congr _ _ _ ?_
    intro i hi0 hi1
    exact core_n_bonds _ _ (s3 i hi0 (by rw [i1]; omega))
  have hslot := a2 (rs.n_particles + k)
  rw [if_pos (by omega)] at hslot
  have e : rs.n_particles + (k : Int) - rs.n_particles = k := by ring
  rw [e] at hslot
  rw [hslot]
  refine ⟨by rw [attach_core, hrec], ?_, ?_⟩
  · rw [core_n_bonds _ _ (attach_core _ _ _), hnb]
  · unfold Particle.attach
    rw [hnb]
    split_ifs with hc
    · dsimp only
      have hcb : count_bonds x.n_bonds = x.n_bonds := by rw [count_bonds_eq]; omega
      have hrb : read_block rs.b_recv_buf (bond_off rs.p_recv_buf k) (count_bonds x.n_bonds)
          = x.bonds := by
        refine read_block_eq _ _ _ _ (by rw [hcb]; exact hx.2) ?_
        intro j hj0 hj1
        have hup : bond_off (sweep_removals env st inds).1.p_send_buf k + j <
            (sweep_removals env st inds).1.n_b_send_buf := by
          have e1 := bond_off_succ (sweep_removals env st inds).1.p_send_buf k (by omega)
          rw [i2 k x hk, detach_n_bonds] at e1
          have e2 := bond_off_mono (sweep_removals env st inds).1.p_send_buf ((k : Int) + 1)
            (sweep_removals env st inds).2.length (by omega) (by omega)
          omega
        have hlo := bond_off_nonneg (sweep_removals env st inds).1.p_send_buf k (by omega)
        rw [hoff, s4 _ (by omega) hup]
        exact i4 k x hk j hj0 hj1
      rw [hrb]
      exact List.take_of_length_le (by omega)
    · have hz : x.n_bonds = 0 := by
        have := (count_bonds_pos x.n_bonds).not.1 hc
        omega
      have hl : x.bonds = [] := by
        apply List.eq_nil_of_length_eq_zero
        have := hx.2
        omega
      rw [hz, hl]
      simp
/-! ### `send_particles` -/

theorem send_particles_self {F : Type} (env : Env F) (st : State F) (s_dir : Fin 6)
    (msg : PartMsg F) (h : env.neighbors s_dir = env.this_node) :
    send_particles env st s_dir msg =
      { st with
        n_p_send_buf := st.n_p_recv_buf
        n_p_recv_buf := st.n_p_send_buf
        max_p_send_buf := st.max_p_recv_buf
        max_p_recv_buf := st.max_p_send_buf
        p_send_buf := st.p_recv_buf
        p_recv_buf := st.p_send_buf
        n_b_send_buf := st.n_b_recv_buf
        n_b_recv_buf := st.n_b_send_buf
        max_b_send_buf := st.max_b_recv_buf
        max_b_recv_buf := st.max_b_send_buf
        b_send_buf := st.b_recv_buf
        b_recv_buf := st.b_send_buf } := by
  unfold send_particles
  rw [if_neg (by simpa using h)]

theorem send_particles_remote {F : Type} (env : Env F) (st : State F) (s_dir : Fin 6)
    (msg : PartMsg F) (h : env.neighbors s_dir ≠ env.this_node) :
    send_particles env st s_dir msg = recv_particles st msg := by
  unfold send_particles
  rw [if_pos h]
  simp only [List.foldl_cons, List.foldl_nil, add_zero]
  by_cases hp : env.pe_pos (axis_of s_dir) % 2 = 0
  · rw [if_pos hp, if_neg (by omega)]
  · rw [if_neg hp, if_pos (by omega)]

theorem recv_particles_fields {F : Type} (st : State F) (msg : PartMsg F) :
    (recv_particles st msg).particles = st.particles ∧
    (recv_particles st msg).n_particles = st.n_particles ∧
    (recv_particles st msg).local_index = st.local_index ∧
    (recv_particles st msg).n_p_recv_buf = msg.n_p ∧
    (recv_particles st msg).n_b_recv_buf = msg.n_b ∧
    (recv_particles st msg).p_recv_buf =
      memcpy st.p_recv_buf 0 (fun k => { (msg.p_buf k) with bonds := [] }) msg.n_p ∧
    (recv_particles st msg).b_recv_buf =
      if msg.n_b > 0 then memcpy st.b_recv_buf 0 msg.b_buf msg.n_b else st.b_recv_buf := by
  unfold recv_particles
  dsimp only
  split_ifs <;> exact ⟨rfl, rfl, rfl, rfl, rfl, rfl, rfl⟩

/-- Either path of `send_particles` leaves in the receive buffers the streams that the
sending rank `ss` has in its send buffers: the buffer swap when the neighbour is the rank
itself (`ss` is then the rank's own state), the transport otherwise. -/
theorem send_particles_sameStreams {F : Type} (env : Env F) (st ss : State F)
    (s_dir : Fin 6) (hself : env.neighbors s_dir = env.this_node → ss = st) :
    SameStreams ss (send_particles env st s_dir (part_msg ss)) := by
  by_cases h : env.neighbors s_dir = env.this_node
  · rw [send_particles_self _ _ _ _ h, hself h]
    exact ⟨rfl, rfl, fun _ _ _ => rfl, fun _ _ _ => rfl⟩
  · rw [send_particles_remote _ _ _ _ h]
    obtain ⟨_, _, _, f4, f5, f6, f7⟩ := recv_particles_fields st (part_msg ss)
    refine ⟨f4, f5, ?_, ?_⟩
    · intro k hk0 hk1
      rw [f6, memcpy_apply, if_pos ⟨by omega, by simpa [part_msg] using hk1⟩]
      simp [part_msg, Particle.core]
    · intro j hj0 hj1
      have hpos : (part_msg ss).n_b > 0 := by simp only [part_msg]; omega
      rw [f7, if_pos hpos, memcpy_apply, if_pos ⟨by omega, by simpa [part_msg] using hj1⟩]
      simp [part_msg]

/-- C6 on the test case of the spec: the particle with identity 3 and bond partners
11, 12, 13 is removed from slot 1 and comes back through the self-neighbour swap with
the same three partners in the same order. -/
theorem bond_round_trip_witness :
    ((append_particles (send_particles solo_env
        (sweep_removals solo_env three_particles [1]).1 0
        (part_msg (sweep_removals solo_env three_particles [1]).1))).particles (2 + 0)).n_bonds
      = 3 ∧
    ((append_particles (send_particles solo_env
        (sweep_removals solo_env three_particles [1]).1 0
        (part_msg (sweep_removals solo_env three_particles [1]).1))).particles
          (2 + 0)).bonds.take 3 = [11, 12, 13] :=
  have h := (bond_round_trip solo_env three_particles [1]
    (send_particles solo_env (sweep_removals solo_env three_particles [1]).1 0
      (part_msg (sweep_removals solo_env three_particles [1]).1))
    rfl rfl (by decide)
    (send_particles_sameStreams solo_env _ _ 0 (fun _ => rfl))).2 0
      (mk_bonded 3 2 2 2 [11, 12, 13]) rfl
  ⟨h.2.1, h.2.2⟩
/-! ### Array segments as multisets -/

theorem seg_of_nonpos {α : Type} (a : Int → α) (n : Int) (h : n ≤ 0) : seg a n = 0 := by
  have : n.toNat = 0 := by omega
  simp [seg, this]

theorem seg_succ {α : Type} (a : Int → α) (n : Int) (h : 0 ≤ n) :
    seg a (n + 1) = a n ::ₘ seg a n := by
  have e : (n + 1).toNat = n.toNat + 1 := by omega
  have e2 : ((n.toNat : Nat) : Int) = n := by omega
  simp [seg, e, Multiset.range_succ, e2]

theorem mem_seg {α : Type} (a : Int → α) (n : Int) (x : α) :
    x ∈ seg a n ↔ ∃ k : Int, 0 ≤ k ∧ k < n ∧ a k = x := by
  simp only [seg, Multiset.mem_map, Multiset.mem_range]
  constructor
  · rintro ⟨k, hk, rfl⟩
    exact ⟨k, by omega, by omega, rfl⟩
  · rintro ⟨k, h0, h1, rfl⟩
    refine ⟨k.toNat, by omega, ?_⟩
    congr 1; omega

theorem seg_congr {α : Type} (a b : Int → α) (n : Int)
    (h : ∀ k : Int, 0 ≤ k → k < n → a k = b k) : seg a n = seg b n := by
  unfold seg
  refine Multiset.map_congr rfl ?_
  intro k hk
  rw [Multiset.mem_range] at hk
  exact h k (by omega) (by omega)

theorem seg_map {α β : Type} (f : α → β) (a : Int → α) (n : Int) :
    (seg a n).map f = seg (fun k => f (a k)) n := by
  simp [seg, Multiset.map_map, Function.comp]

theorem seg_update_ge {α : Type} (a : Int → α) (n i : Int) (v : α) (h : n ≤ i) :
    seg (Function.update a i v) n = seg a n :=
  seg_congr _ _ _ (fun k _ hk => Function.update_noteq (by omega) _ _)

theorem seg_update_lt {α : Type} (a : Int → α) (n i : Int) (v : α) (h0 : 0 ≤ i) (h1 : i < n) :
    a i ::ₘ seg (Function.update a i v) n = v ::ₘ seg a n := by
  have key : ∀ m : Nat, i < m →
      a i ::ₘ seg (Function.update a i v) m = v ::ₘ seg a m := by
    intro m
    induction m with
    | zero => intro h; simp at h; omega
    | succ k ih =>
      intro hk
      have e : (((k + 1 : Nat)) : Int) = (k : Int) + 1 := by push_cast; ring
      rw [e, seg_succ _ _ (by omega), seg_succ _ _ (by omega)]
      by_cases hik : i = k
      · rw [seg_update_ge _ _ _ _ (by omega), ← hik, Function.update_same, Multiset.cons_swap]
      · rw [Function.update_noteq (by omega), Multiset.cons_swap, ih (by omega),
          Multiset.cons_swap]
  have := key n.toNat (by omega)
  have e : ((n.toNat : Nat) : Int) = n := by omega
  rwa [e] at this

theorem seg_append {α : Type} (a g : Int → α) (n m : Int) (hn : 0 ≤ n) (hm : 0 ≤ m) :
    seg (fun j => if n ≤ j ∧ j < n + m then g (j - n) else a j) (n + m) =
      seg a n + seg g m := by
  have key : ∀ t : Nat, (t : Int) ≤ m →
      seg (fun j => if n ≤ j ∧ j < n + m then g (j - n) else a j) (n + t) =
        seg a n + seg g t := by
    intro t
    induction t with
    | zero =>
      intro _
      simp only [Nat.cast_zero, add_zero, seg_of_nonpos g 0 (le_refl _)]
      refine seg_congr _ _ _ ?_
      intro k hk0 hk1
      rw [if_neg (by omega)]
    | succ k ih =>
      intro hk
      have e : n + (((k + 1 : Nat)) : Int) = (n + k) + 1 := by push_cast; ring
      have e' : (((k + 1 : Nat)) : Int) = (k : Int) + 1 := by push_cast; ring
      rw [e, seg_succ _ _ (by omega), e', seg_succ _ _ (by omega), ih (by omega),
        if_pos (by omega)]
      have : n + (k : Int) - n = k := by ring
      rw [this, Multiset.add_cons]
  have := key m.toNat (by omega)
  have e : ((m.toNat : Nat) : Int) = m := by omega
  rwa [e] at this
/-! ### The scan loop of `exchange_part` -/

theorem move_to_p_buf_owned {F : Type} (env : Env F) (st : State F) (ind : Int)
    (h0 : 0 ≤ ind) (h1 : ind < st.n_particles) :
    owned st = st.particles ind ::ₘ owned (move_to_p_buf env st ind).1 := by
  unfold owned
  rw [move_to_p_buf_n_particles, move_to_p_buf_particles]
  have e : st.n_particles = (st.n_particles - 1) + 1 := by ring
  conv_lhs => rw [e, seg_succ _ _ (by omega)]
  split_ifs with hl
  · rw [← seg_update_lt _ _ _ _ h0 hl]
  · have hi : ind = st.n_particles - 1 := by omega
    rw [seg_update_ge _ _ _ _ (by omega), ← hi]

theorem move_to_p_buf_sent {F : Type} (env : Env F) (st : State F) (ind : Int)
    (hp : 0 ≤ st.n_p_send_buf) :
    sent (move_to_p_buf env st ind).1 = (st.particles ind).detach ::ₘ sent st := by
  unfold sent
  rw [move_to_p_buf_n_p_send_buf, move_to_p_buf_p_send_buf, seg_succ _ _ hp,
    Function.update_same, seg_update_ge _ _ _ _ (le_refl _)]

theorem scan_loop_spec {F : Type} (env : Env F) (out : Particle F → Bool) :
    ∀ (fuel : Nat) (st : State F) (n : Int), 0 ≤ n → 0 ≤ st.n_p_send_buf →
      (st.n_particles - n).toNat ≤ fuel →
      ∃ R : Multiset (Particle F),
        owned st = owned (scan_loop env out fuel st n).1 + R ∧
        sent (scan_loop env out fuel st n).1 = sent st + R.map Particle.detach ∧
        (∀ x ∈ R, out x = true) ∧
        (∀ k : Int, n ≤ k → k < (scan_loop env out fuel st n).1.n_particles →
          out ((scan_loop env out fuel st n).1.particles k) = false) ∧
        (∀ k : Int, 0 ≤ k → k < n →
          (scan_loop env out fuel st n).1.particles k = st.particles k) ∧
        (scan_loop env out fuel st n).1.n_particles ≤ (scan_loop env out fuel st n).2 ∧
        0 ≤ (scan_loop env out fuel st n).1.n_p_send_buf ∧
        (0 ≤ st.n_particles → 0 ≤ (scan_loop env out fuel st n).1.n_particles) := by
  intro fuel
  induction fuel with
  | zero =>
    intro st n hn hp hf
    refine ⟨0, by simp [scan_loop], by simp [scan_loop], by simp, ?_, ?_, ?_, ?_, ?_⟩
    · intro k hk1 hk2
      simp only [scan_loop] at hk2
      omega
    · intro k _ _; rfl
    · simp only [scan_loop]; omega
    · simpa [scan_loop] using hp
    · intro h; simpa [scan_loop] using h
  | succ fuel ih =>
    intro st n hn hp hf
    by_cases hlt : n < st.n_particles
    · by_cases ho : out (st.particles n) = true
      · have hrw : scan_loop env out (fuel + 1) st n =
            scan_loop env out fuel (move_to_p_buf env st n).1
              ((move_to_p_buf env st n).2 + 1) := by
          simp only [scan_loop, if_pos hlt, if_pos ho]
        rw [hrw]
        have hnp := move_to_p_buf_n_particles env st n
        have hret := move_to_p_buf_ret env st n
        have hpart := move_to_p_buf_particles env st n
        obtain ⟨R, r1, r2, r3, r4, r5, r6, r7, r8⟩ :=
          ih (move_to_p_buf env st n).1 ((move_to_p_buf env st n).2 + 1)
            (by rw [hret]; split_ifs <;> omega)
            (by rw [move_to_p_buf_n_p_send_buf]; omega)
            (by rw [hnp, hret]; split_ifs <;> omega)
        refine ⟨st.particles n ::ₘ R, ?_, ?_, ?_, ?_, ?_, r6, r7, ?_⟩
        · rw [move_to_p_buf_owned env st n hn hlt, r1, Multiset.add_cons]
        · rw [r2, move_to_p_buf_sent env st n hp, Multiset.map_cons, Multiset.add_cons,
            Multiset.cons_add]
        · intro x hx
          rcases Multiset.mem_cons.1 hx with h | h
          · rw [h]; exact ho
          · exact r3 x h
        · intro k hk1 hk2
          by_cases hl : n < st.n_particles - 1
          · exact r4 k (by rw [hret, if_pos hl]; omega) hk2
          · exfalso
            have hcontra : scan_loop env out fuel (move_to_p_buf env st n).1
                ((move_to_p_buf env st n).2 + 1) =
                ((move_to_p_buf env st n).1, (move_to_p_buf env st n).2 + 1) := by
              cases fuel with
              | zero => rfl
              | succ f =>
                simp only [scan_loop]
                rw [if_neg (by rw [hnp, hret, if_neg hl]; omega)]
            rw [hcontra] at hk2
            simp only at hk2
            rw [hnp] at hk2
            omega
        · intro k hk0 hk1
          rw [r5 k hk0 (by rw [hret]; split_ifs <;> omega), hpart]
          split_ifs <;> rw [Function.update_noteq (by omega)]
        · intro h
          apply r8
          rw [hnp]; omega
      · have hrw : scan_loop env out (fuel + 1) st n = scan_loop env out fuel st (n + 1) := by
          simp only [scan_loop, if_pos hlt, if_neg ho]
        rw [hrw]
        obtain ⟨R, r1, r2, r3, r4, r5, r6, r7, r8⟩ :=
          ih st (n + 1) (by omega) hp (by omega)
        refine ⟨R, r1, r2, r3, ?_, ?_, r6, r7, r8⟩
        · intro k hk1 hk2
          by_cases hkn : k = n
          · rw [hkn, r5 n hn (by omega)]
            simpa using ho
          · exact r4 k (by omega) hk2
        · intro k hk0 hk1
          exact r5 k hk0 (by omega)
    · have hrw : scan_loop env out (fuel + 1) st n = (st, n) := by
        simp only [scan_loop, if_neg hlt]
      rw [hrw]
      refine ⟨0, by simp, by simp, by simp, ?_, ?_, ?_, hp, ?_⟩
      · intro k hk1 hk2
        simp only at hk2
        omega
      · intro k _ _; rfl
      · simp only; omega
      · intro h; exact h
theorem exchange_part_scan_spec {F : Type} [LinearOrderedCommRing F] (env : Env F)
    (st : State F) (d : Fin 3) (lr : Fin 2) (hn : 0 ≤ st.n_particles) :
    owned (exchange_part_scan env st d lr) =
      (owned st).filter (fun x => out_of_box env d lr x = false) ∧
    sent (exchange_part_scan env st d lr) =
      ((owned st).filter (fun x => out_of_box env d lr x = true)).map Particle.detach ∧
    0 ≤ (exchange_part_scan env st d lr).n_particles ∧
    0 ≤ (exchange_part_scan env st d lr).n_p_send_buf := by
  obtain ⟨R, r1, r2, r3, r4, _, _, r7, r8⟩ :=
    scan_loop_spec env (out_of_box env d lr) (reset_counters st).n_particles.toNat
      (reset_counters st) 0 (le_refl _) (le_refl _) (by simp)
  have hkeep : ∀ x ∈ owned (exchange_part_scan env st d lr), out_of_box env d lr x = false := by
    intro x hx
    obtain ⟨k, hk0, hk1, rfl⟩ := (mem_seg _ _ _).1 hx
    exact r4 k hk0 hk1
  have ho : owned st = owned (exchange_part_scan env st d lr) + R := r1
  have hs : sent (exchange_part_scan env st d lr) = R.map Particle.detach := by
    have : sent (reset_counters st) = 0 := seg_of_nonpos _ _ (le_refl _)
    rw [this, zero_add] at r2
    exact r2
  have hR : (owned st).filter (fun x => out_of_box env d lr x = true) = R := by
    rw [ho, Multiset.filter_add, Multiset.filter_eq_self.2 r3,
      Multiset.filter_eq_nil.2 (fun x hx => by simp [hkeep x hx]), zero_add]
  refine ⟨?_, by rw [hs, hR], r8 hn, r7⟩
  rw [ho, Multiset.filter_add, Multiset.filter_eq_self.2 hkeep,
    Multiset.filter_eq_nil.2 (fun x hx => by simp [r3 x hx]), add_zero]

theorem send_particles_frame {F : Type} (env : Env F) (st : State F) (s_dir : Fin 6)
    (msg : PartMsg F) :
    (send_particles env st s_dir msg).particles = st.particles ∧
    (send_particles env st s_dir msg).n_particles = st.n_particles ∧
    (send_particles env st s_dir msg).local_index = st.local_index := by
  by_cases h : env.neighbors s_dir = env.this_node
  · rw [send_particles_self _ _ _ _ h]
    exact ⟨rfl, rfl, rfl⟩
  · rw [send_particles_remote _ _ _ _ h]
    obtain ⟨f1, f2, f3, _⟩ := recv_particles_fields st msg
    exact ⟨f1, f2, f3⟩

theorem r_dir_of_invol (dir : Fin 6) : r_dir_of (r_dir_of dir) = dir := by
  revert dir; decide

/-- The source of what a rank receives in direction `dir` is a rank, and that rank sends
to this one. -/
theorem processGrid_src {F : Type} (env : Int → Env F) (ranks : Finset Int)
    (hg : ProcessGrid env ranks) (r : Int) (hr : r ∈ ranks) (dir : Fin 6) :
    (env r).neighbors (r_dir_of dir) ∈ ranks ∧
    (env ((env r).neighbors (r_dir_of dir))).neighbors dir = r ∧
    ((env r).neighbors dir = (env r).this_node → (env r).neighbors (r_dir_of dir) = r) := by
  obtain ⟨h1, h2⟩ := hg r hr
  refine ⟨(h2 _).1, ?_, ?_⟩
  · have := (h2 (r_dir_of dir)).2
    rwa [r_dir_of_invol] at this
  · intro hself
    have := (h2 dir).2
    rw [hself, h1] at this
    exact this

/-- Receiving and appending: the rank owns what it owned plus the records its source rank
`B` had in the send buffer (records compared up to the `bonds` pointer). -/
theorem append_after_send {F : Type} (env : Env F) (A B : State F) (s_dir : Fin 6)
    (hself : env.neighbors s_dir = env.this_node → B = A)
    (hA : 0 ≤ A.n_particles) (hB : 0 ≤ B.n_p_send_buf) :
    (owned (append_particles (send_particles env A s_dir (part_msg B)))).map Particle.core =
      (owned A).map Particle.core + (sent B).map Particle.core ∧
    (append_particles (send_particles env A s_dir (part_msg B))).n_particles =
      A.n_particles + B.n_p_send_buf := by
  obtain ⟨s1, _, s3, _⟩ := send_particles_sameStreams env A B s_dir hself
  obtain ⟨f1, f2, _⟩ := send_particles_frame env A s_dir (part_msg B)
  obtain ⟨p1, p2⟩ := append_particles_spec (send_particles env A s_dir (part_msg B))
  refine ⟨?_, by rw [p1, f2, s1]⟩
  unfold owned sent
  rw [p1, (funext p2 : (append_particles _).particles = _), f2, s1,
    seg_append _ (fun k => (Particle.attach _ _ _)) _ _ hA hB, Multiset.map_add, f1,
    seg_map, seg_map, seg_map]
  refine congrArg₂ (· + ·) rfl ?_
  refine seg_congr _ _ _ ?_
  intro k hk0 hk1
  rw [attach_core, s3 k hk0 hk1]

/-- The sweep equation: after one direction of `exchange_part`, a rank owns the particles
it kept and the particles its source rank moved out (records compared up to the `bonds`
pointer). -/
theorem exchange_part_sweep_cores {F : Type} [LinearOrderedCommRing F] (env : Int → Env F)
    (ranks : Finset Int) (hg : ProcessGrid env ranks) (w : Int → State F)
    (hw : ∀ r ∈ ranks, 0 ≤ (w r).n_particles) (d : Fin 3) (lr : Fin 2)
    (r : Int) (hr : r ∈ ranks) :
    (owned (exchange_part_sweep env w d lr r)).map Particle.core =
      ((owned (w r)).filter (fun x => out_of_box (env r) d lr x = false)).map Particle.core +
      ((owned (w ((env r).neighbors (r_dir_of (dir_of d lr))))).filter
        (fun x => out_of_box (env ((env r).neighbors (r_dir_of (dir_of d lr)))) d lr x = true)).map
          Particle.core ∧
    0 ≤ (exchange_part_sweep env w d lr r).n_particles := by
  obtain ⟨hsrc, _, hself⟩ := processGrid_src env ranks hg r hr (dir_of d lr)
  obtain ⟨a1, _, a3, _⟩ := exchange_part_scan_spec (env r) (w r) d lr (hw r hr)
  obtain ⟨_, b2, _, b4⟩ := exchange_part_scan_spec
    (env ((env r).neighbors (r_dir_of (dir_of d lr))))
    (w ((env r).neighbors (r_dir_of (dir_of d lr)))) d lr (hw _ hsrc)
  obtain ⟨c1, c2⟩ := append_after_send (env r) (exchange_part_scan (env r) (w r) d lr)
    (exchange_part_scan (env ((env r).neighbors (r_dir_of (dir_of d lr))))
      (w ((env r).neighbors (r_dir_of (dir_of d lr)))) d lr) (dir_of d lr)
    (by intro h; rw [hself h]) a3 b4
  refine ⟨?_, ?_⟩
  · unfold exchange_part_sweep
    rw [c1, a1, b2, Multiset.map_map]
    refine congrArg₂ (· + ·) rfl ?_
    refine Multiset.map_congr rfl ?_
    intro x _
    exact detach_core x
  · unfold exchange_part_sweep
    rw [c2]; omega
/-! ### Fold and validation scan -/

theorem exchange_part_fold_spec {F : Type} (env : Env F) (st : State F) :
    (exchange_part_fold env st).n_particles = st.n_particles ∧
    ∀ k : Int, (exchange_part_fold env st).particles k =
      if 0 ≤ k ∧ k < st.n_particles then folded env (st.particles k) else st.particles k := by
  by_cases hn : 0 ≤ st.n_particles
  · exact forLoop_induct 0 st.n_particles _ st
      (fun x acc => acc.n_particles = st.n_particles ∧
        ∀ k : Int, acc.particles k =
          if 0 ≤ k ∧ k < x then folded env (st.particles k) else st.particles k)
      ⟨rfl, fun k => by rw [if_neg (by omega)]⟩
      (by
        rintro x t hx0 hx1 ⟨i1, i2⟩
        refine ⟨i1, ?_⟩
        intro k
        dsimp only
        by_cases hk : k = x
        · subst hk
          rw [Function.update_same, if_pos (by omega), i2 k, if_neg (by omega)]
        · rw [Function.update_noteq hk, i2 k]
          by_cases h1 : 0 ≤ k ∧ k < x
          · rw [if_pos h1, if_pos (by omega)]
          · rw [if_neg h1, if_neg (by omega)])
      hn
  · unfold exchange_part_fold
    rw [forLoop_empty _ _ _ _ (by omega)]
    exact ⟨rfl, fun k => by rw [if_neg (by omega)]⟩

theorem check_body_frame {F : Type} [LinearOrderedCommRing F] (env : Env F) (n : Int)
    (acc : State F) :
    (check_body env n acc).particles = acc.particles ∧
    (check_body env n acc).n_particles = acc.n_particles ∧
    (check_body env n acc).local_index = acc.local_index := by
  unfold check_body
  simp only [List.foldl_cons, List.foldl_nil]
  split_ifs <;> exact ⟨rfl, rfl, rfl⟩

theorem exchange_part_check_frame {F : Type} [LinearOrderedCommRing F] (env : Env F)
    (st : State F) :
    (exchange_part_check env st).particles = st.particles ∧
    (exchange_part_check env st).n_particles = st.n_particles ∧
    (exchange_part_check env st).local_index = st.local_index := by
  by_cases hn : 0 ≤ st.n_particles
  · exact forLoop_induct 0 st.n_particles (check_body env) st
      (fun _ acc => acc.particles = st.particles ∧ acc.n_particles = st.n_particles ∧
        acc.local_index = st.local_index)
      ⟨rfl, rfl, rfl⟩
      (by
        rintro x t _ _ ⟨i1, i2, i3⟩
        obtain ⟨c1, c2, c3⟩ := check_body_frame env x t
        exact ⟨c1.trans i1, c2.trans i2, c3.trans i3⟩)
      hn
  · unfold exchange_part_check
    rw [forLoop_empty _ _ _ _ (by omega)]
    exact ⟨rfl, rfl, rfl⟩

/-- The owned particles after the fold and the validation scan are the folded owned
particles. -/
theorem owned_after_fold_check {F : Type} [LinearOrderedCommRing F] (env : Env F)
    (st : State F) :
    owned (exchange_part_check env (exchange_part_fold env st)) = (owned st).map (folded env) ∧
    (exchange_part_check env (exchange_part_fold env st)).n_particles = st.n_particles := by
  obtain ⟨c1, c2, _⟩ := exchange_part_check_frame env (exchange_part_fold env st)
  obtain ⟨f1, f2⟩ := exchange_part_fold_spec env st
  refine ⟨?_, by rw [c2, f1]⟩
  unfold owned
  rw [c1, c2, f1, seg_map]
  refine seg_congr _ _ _ ?_
  intro k hk0 hk1
  rw [f2 k, if_pos ⟨hk0, hk1⟩]
/-! ### Conservation of identities -/

theorem owned_ids_eq_cores {F : Type} (st : State F) :
    owned_ids st = ((owned st).map Particle.core).map Particle.identity := by
  unfold owned_ids
  rw [Multiset.map_map]
  rfl

theorem filter_out_split {α : Type} (out : α → Bool) (s : Multiset α) :
    s.filter (fun x => out x = false) + s.filter (fun x => out x = true) = s := by
  have h := Multiset.filter_add_not (fun x => out x = true) s
  have e : s.filter (fun x => ¬ out x = true) = s.filter (fun x => out x = false) :=
    Multiset.filter_congr (fun x _ => by simp)
  rw [e, add_comm] at h
  exact h

theorem exchange_part_sweep_ids {F : Type} [LinearOrderedCommRing F] (env : Int → Env F)
    (ranks : Finset Int) (hg : ProcessGrid env ranks) (w : Int → State F)
    (hw : ∀ r ∈ ranks, 0 ≤ (w r).n_particles) (d : Fin 3) (lr : Fin 2) :
    world_ids ranks (exchange_part_sweep env w d lr) = world_ids ranks w ∧
    ∀ r ∈ ranks, 0 ≤ (exchange_part_sweep env w d lr r).n_particles := by
  refine ⟨?_, fun r hr => (exchange_part_sweep_cores env ranks hg w hw d lr r hr).2⟩
  unfold world_ids
  have h1 : ∀ r ∈ ranks, owned_ids (exchange_part_sweep env w d lr r) =
      (((owned (w r)).filter (fun x => out_of_box (env r) d lr x = false)).map
          Particle.core).map Particle.identity +
        (fun q => (((owned (w q)).filter (fun x => out_of_box (env q) d lr x = true)).map
          Particle.core).map Particle.identity) ((env r).neighbors (r_dir_of (dir_of d lr))) := by
    intro r hr
    rw [owned_ids_eq_cores, (exchange_part_sweep_cores env ranks hg w hw d lr r hr).1,
      Multiset.map_add]
  rw [Finset.sum_congr rfl h1, Finset.sum_add_distrib]
  have h2 : ∑ r ∈ ranks, (fun q => (((owned (w q)).filter
        (fun x => out_of_box (env q) d lr x = true)).map Particle.core).map Particle.identity)
        ((env r).neighbors (r_dir_of (dir_of d lr))) =
      ∑ r ∈ ranks, (fun q => (((owned (w q)).filter
        (fun x => out_of_box (env q) d lr x = true)).map Particle.core).map Particle.identity) r := by
    refine Finset.sum_nbij' (fun r => (env r).neighbors (r_dir_of (dir_of d lr)))
      (fun r => (env r).neighbors (dir_of d lr)) ?_ ?_ ?_ ?_ ?_
    · intro r hr
      exact (processGrid_src env ranks hg r hr _).1
    · intro r hr
      exact ((hg r hr).2 _).1
    · intro r hr
      exact (processGrid_src env ranks hg r hr _).2.1
    · intro r hr
      exact ((hg r hr).2 _).2
    · intro r _
      rfl
  rw [h2, ← Finset.sum_add_distrib]
  refine Finset.sum_congr rfl ?_
  intro r _
  dsimp only
  rw [← Multiset.map_add, ← Multiset.map_add, filter_out_split, owned_ids_eq_cores]

theorem exchange_part_ids {F : Type} [LinearOrderedCommRing F] (env : Int → Env F)
    (ranks : Finset Int) (hg : ProcessGrid env ranks) (w : Int → State F)
    (hw : ∀ r ∈ ranks, 0 ≤ (w r).n_particles) :
    world_ids ranks (exchange_part env w) = world_ids ranks w ∧
    ∀ r ∈ ranks, 0 ≤ (exchange_part env w r).n_particles := by
  have h0 : world_ids ranks
        (fun r => exchange_part_check (env r) (exchange_part_fold (env r) (w r))) =
      world_ids ranks w ∧
      ∀ r ∈ ranks, 0 ≤ (exchange_part_check (env r) (exchange_part_fold (env r) (w r))).n_particles := by
    refine ⟨?_, ?_⟩
    · unfold world_ids
      refine Finset.sum_congr rfl ?_
      intro r _
      unfold owned_ids
      rw [(owned_after_fold_check (env r) (w r)).1, Multiset.map_map]
      rfl
    · intro r hr
      rw [(owned_after_fold_check (env r) (w r)).2]
      exact hw r hr
  have step : ∀ (w1 : Int → State F) (d : Fin 3) (lr : Fin 2),
      (world_ids ranks w1 = world_ids ranks w ∧ ∀ r ∈ ranks, 0 ≤ (w1 r).n_particles) →
      (world_ids ranks (exchange_part_sweep env w1 d lr) = world_ids ranks w ∧
        ∀ r ∈ ranks, 0 ≤ (exchange_part_sweep env w1 d lr r).n_particles) := by
    intro w1 d lr h
    obtain ⟨e1, e2⟩ := exchange_part_sweep_ids env ranks hg w1 h.2 d lr
    exact ⟨e1.trans h.1, e2⟩
  unfold exchange_part
  simp only [List.foldl_cons, List.foldl_nil]
  exact step _ _ _ (step _ _ _ (step _ _ _ (step _ _ _ (step _ _ _ (step _ _ _ h0)))))

/-- C2: on every process grid, any number of `exchange_part` rounds (transport delivering
every buffer unchanged) leaves the multiset of the identities of the owned particles of
all ranks as it was: no particle is lost, none is duplicated. -/
theorem exchange_part_conserves_ids {F : Type} [LinearOrderedCommRing F]
    (env : Int → Env F) (ranks : Finset Int) (hg : ProcessGrid env ranks)
    (w : Int → State F) (hw : ∀ r ∈ ranks, 0 ≤ (w r).n_particles) (rounds : Nat) :
    world_ids ranks ((exchange_part env)^[rounds] w) = world_ids ranks w := by
  have key : ∀ n : Nat, world_ids ranks ((exchange_part env)^[n] w) = world_ids ranks w ∧
      ∀ r ∈ ranks, 0 ≤ ((exchange_part env)^[n] w r).n_particles := by
    intro n
    induction n with
    | zero => exact ⟨rfl, hw⟩
    | succ k ih =>
      rw [Function.iterate_succ_apply']
      obtain ⟨e1, e2⟩ := exchange_part_ids env ranks hg _ ih.2
      exact ⟨e1.trans ih.1, e2⟩
  exact (key rounds).1

set_option maxRecDepth 100000 in
/-- C2 on a 3x1x1 periodic grid with four particles, two rounds. -/
theorem exchange_part_conserves_ids_witness :
    ProcessGrid (grid_env ![3, 1, 1] 1) {0, 1, 2} ∧
    world_ids {0, 1, 2} ((exchange_part (grid_env ![3, 1, 1] 1))^[2]
      (world_of [[mk_particle 7 1 0 0, mk_bonded 3 0 0 0 [5, 7]], [mk_particle 5 2 0 0],
        [mk_particle 9 0 0 0]])) =
    world_ids {0, 1, 2}
      (world_of [[mk_particle 7 1 0 0, mk_bonded 3 0 0 0 [5, 7]], [mk_particle 5 2 0 0],
        [mk_particle 9 0 0 0]]) :=
  ⟨by decide, exchange_part_conserves_ids (grid_env ![3, 1, 1] 1) {0, 1, 2} (by decide)
    (world_of [[mk_particle 7 1 0 0, mk_bonded 3 0 0 0 [5, 7]], [mk_particle 5 2 0 0],
        [mk_particle 9 0 0 0]]) (by decide) 2⟩

/-! ### Ownership after migration -/

theorem axis_of_dir_of (d : Fin 3) (lr : Fin 2) : axis_of (dir_of d lr) = d := by
  revert d lr; decide

theorem r_dir_of_dir_of (d : Fin 3) :
    r_dir_of (dir_of d 0) = dir_of d 1 ∧ r_dir_of (dir_of d 1) = dir_of d 0 := by
  revert d; decide

theorem exchange_part_sweep_mem {F : Type} [LinearOrderedCommRing F] (env : Int → Env F)
    (ranks : Finset Int) (hg : ProcessGrid env ranks) (w : Int → State F)
    (hw : ∀ r ∈ ranks, 0 ≤ (w r).n_particles) (d : Fin 3) (lr : Fin 2)
    (r : Int) (hr : r ∈ ranks) (x : Particle F)
    (hx : x ∈ owned (exchange_part_sweep env w d lr r)) :
    ∃ y : Particle F, y.p = x.p ∧
      ((y ∈ owned (w r) ∧ out_of_box (env r) d lr y = false) ∨
       (y ∈ owned (w ((env r).neighbors (r_dir_of (dir_of d lr)))) ∧
        out_of_box (env ((env r).neighbors (r_dir_of (dir_of d lr)))) d lr y = true)) := by
  have hc : x.core ∈ (owned (exchange_part_sweep env w d lr r)).map Particle.core :=
    Multiset.mem_map_of_mem _ hx
  rw [(exchange_part_sweep_cores env ranks hg w hw d lr r hr).1, Multiset.mem_add] at hc
  rcases hc with hc | hc
  · obtain ⟨y, hy, hyc⟩ := Multiset.mem_map.1 hc
    rw [Multiset.mem_filter] at hy
    exact ⟨y, by simpa [Particle.core] using congrArg Particle.p hyc, Or.inl hy⟩
  · obtain ⟨y, hy, hyc⟩ := Multiset.mem_map.1 hc
    rw [Multiset.mem_filter] at hy
    exact ⟨y, by simpa [Particle.core] using congrArg Particle.p hyc, Or.inr hy⟩

theorem inBox_transfer {F : Type} [LinearOrderedCommRing F] (env : Int → Env F)
    (ranks : Finset Int) (hrect : RectGrid env ranks) (s : Int)
    (hs : s ∈ ranks) (dir : Fin 6) (e : Fin 3) (he : e ≠ axis_of dir) (t : F) :
    InBox (env ((env s).neighbors dir)) e t ↔ InBox (env s) e t := by
  obtain ⟨g1, g2, _⟩ := (hrect s hs).2 dir e he
  unfold InBox
  rw [g1, g2]

theorem stage_transfer {F : Type} [LinearOrderedCommRing F] (env : Int → Env F)
    (ranks : Finset Int) (hg : ProcessGrid env ranks) (hrect : RectGrid env ranks) (s : Int)
    (hs : s ∈ ranks) (dir : Fin 6) (e : Fin 3) (he : e ≠ axis_of dir) (k : Nat) (t : F) :
    Stage env k ((env s).neighbors dir) e t ↔ Stage env k s e t := by
  obtain ⟨g1, g2, g3⟩ := (hrect s hs).2 dir e he
  have hin := inBox_transfer env ranks hrect s hs dir e he t
  have hnb : ∀ lr : Fin 2, InBox (env ((env ((env s).neighbors dir)).neighbors (dir_of e lr))) e t ↔
      InBox (env ((env s).neighbors (dir_of e lr))) e t := by
    intro lr
    rw [g3 lr]
    exact inBox_transfer env ranks hrect _ ((hg s hs).2 _).1 dir e he t
  unfold Stage NearSide
  rw [hin, hnb 0, hnb 1, g1, g2]

theorem out_of_box_low {F : Type} [LinearOrderedCommRing F] (env : Env F) (d : Fin 3)
    (x : Particle F) : out_of_box env d 0 x = true ↔ x.p d < env.my_left d := by
  simp [out_of_box]

theorem out_of_box_high {F : Type} [LinearOrderedCommRing F] (env : Env F) (d : Fin 3)
    (x : Particle F) : out_of_box env d 1 x = true ↔ env.my_right d ≤ x.p d := by
  simp [out_of_box]

theorem exchange_part_sweep_stage {F : Type} [LinearOrderedCommRing F] (env : Int → Env F)
    (ranks : Finset Int) (hg : ProcessGrid env ranks) (hrect : RectGrid env ranks)
    (w : Int → State F) (hw : ∀ r ∈ ranks, 0 ≤ (w r).n_particles) (d : Fin 3) (lr : Fin 2)
    (h : ∀ r ∈ ranks, ∀ x ∈ owned (w r), ∀ e : Fin 3,
      Stage env (2 * d.val + lr.val) r e (x.p e)) :
    ∀ r ∈ ranks, ∀ x ∈ owned (exchange_part_sweep env w d lr r), ∀ e : Fin 3,
      Stage env (2 * d.val + lr.val + 1) r e (x.p e) := by
  intro r hr x hx e
  obtain ⟨hsrc, hback, _⟩ := processGrid_src env ranks hg r hr (dir_of d lr)
  obtain ⟨y, hyp, hy⟩ := exchange_part_sweep_mem env ranks hg w hw d lr r hr x hx
  rw [← hyp]
  have hlr : lr.val = 0 ∨ lr.val = 1 := by omega
  by_cases hed : e = d
  · subst hed
    rcases hy with ⟨hy1, hy2⟩ | ⟨hy1, hy2⟩
    · have hst := h r hr y hy1 e
      rcases hlr with h0 | h1
      · have : lr = 0 := Fin.ext h0
        subst this
        have hno : ¬ (y.p e < (env r).my_left e) := by
          rw [← out_of_box_low]; simp [hy2]
        unfold Stage at hst ⊢
        rw [if_neg (by simp), if_neg (by simp)] at hst
        rw [if_neg (by simp), if_pos (by simp)]
        unfold NearSide at hst
        rcases hst with h1 | h2 | h3
        · exact Or.inl h1
        · exact absurd h2.1 hno
        · exact Or.inr h3
      · have : lr = 1 := Fin.ext h1
        subst this
        have hno : ¬ ((env r).my_right e ≤ y.p e) := by
          rw [← out_of_box_high]; simp [hy2]
        unfold Stage at hst ⊢
        rw [if_neg (by simp), if_pos (by simp)] at hst
        rw [if_pos (by simp)]
        rcases hst with h1 | h2
        · exact h1
        · exact absurd h2.1 hno
    · have hst := h _ hsrc y hy1 e
      have hle := (hrect _ hsrc).1 e
      rcases hlr with h0 | h1
      · have : lr = 0 := Fin.ext h0
        subst this
        rw [out_of_box_low] at hy2
        rw [(r_dir_of_dir_of e).1] at hst hy2 hsrc hback hle
        unfold Stage at hst ⊢
        rw [if_neg (by simp), if_neg (by simp)] at hst
        rw [if_neg (by simp), if_pos (by simp)]
        unfold NearSide at hst
        rcases hst with h1 | h2 | h3
        · exact absurd hy2 (not_lt.2 h1.1)
        · rw [hback] at h2
          exact Or.inl h2.2
        · exact absurd (lt_of_lt_of_le hy2 hle) (not_lt.2 h3.1)
      · have : lr = 1 := Fin.ext h1
        subst this
        rw [out_of_box_high] at hy2
        rw [(r_dir_of_dir_of e).2] at hst hy2 hsrc hback hle
        unfold Stage at hst ⊢
        rw [if_neg (by simp), if_pos (by simp)] at hst
        rw [if_pos (by simp)]
        rcases hst with h1 | h2
        · exact absurd hy2 (not_le.2 h1.2)
        · rw [hback] at h2
          exact h2.2
  · have hax : e ≠ axis_of (dir_of d lr) := by rw [axis_of_dir_of]; exact hed
    have hidx : Stage env (2 * d.val + lr.val + 1) r e (y.p e) ↔
        Stage env (2 * d.val + lr.val) r e (y.p e) := by
      have hne : e.val ≠ d.val := fun hh => hed (Fin.ext hh)
      unfold Stage
      have c1 : (2 * e.val + 2 ≤ 2 * d.val + lr.val + 1) ↔ (2 * e.val + 2 ≤ 2 * d.val + lr.val) := by
        omega
      have c2 : (2 * e.val + 1 ≤ 2 * d.val + lr.val + 1) ↔ (2 * e.val + 1 ≤ 2 * d.val + lr.val) := by
        omega
      simp only [c1, c2]
    rw [hidx]
    rcases hy with ⟨hy1, _⟩ | ⟨hy1, _⟩
    · exact h r hr y hy1 e
    · have hst := h _ hsrc y hy1 e
      have := stage_transfer env ranks hg hrect _ hsrc (dir_of d lr) e hax
        (2 * d.val + lr.val) (y.p e)
      rw [hback] at this
      exact this.2 hst

/-- Where one hop per axis does deliver: on a periodic rectangular process grid, if after
folding every particle lies on every axis in the sub-box of its rank, or below it and in
the sub-box of the neighbour the low sweep sends to, or at/above it and in the sub-box of
the neighbour the high sweep sends to (every interior face, and the periodic face of an
axis with one or two ranks), then after one `exchange_part` round every owned particle on
every rank satisfies `my_left[d] <= p[d] < my_right[d]` on all three axes. -/
theorem exchange_part_one_hop {F : Type} [LinearOrderedCommRing F] (env : Int → Env F)
    (ranks : Finset Int) (hg : ProcessGrid env ranks) (hrect : RectGrid env ranks)
    (w : Int → State F) (hw : ∀ r ∈ ranks, 0 ≤ (w r).n_particles)
    (hnear : ∀ r ∈ ranks, ∀ x ∈ owned (w r), ∀ e : Fin 3,
      NearSide env r e ((folded (env r) x).p e)) :
    ∀ r ∈ ranks, ∀ x ∈ owned (exchange_part env w r), ∀ e : Fin 3,
      InBox (env r) e (x.p e) := by
  have h0 : (∀ r ∈ ranks, 0 ≤
        (exchange_part_check (env r) (exchange_part_fold (env r) (w r))).n_particles) ∧
      ∀ r ∈ ranks, ∀ x ∈ owned (exchange_part_check (env r) (exchange_part_fold (env r) (w r))),
        ∀ e : Fin 3, Stage env 0 r e (x.p e) := by
    refine ⟨?_, ?_⟩
    · intro r hr
      rw [(owned_after_fold_check (env r) (w r)).2]
      exact hw r hr
    · intro r hr x hx e
      rw [(owned_after_fold_check (env r) (w r)).1] at hx
      obtain ⟨y, hy, rfl⟩ := Multiset.mem_map.1 hx
      unfold Stage
      rw [if_neg (by omega), if_neg (by omega)]
      exact hnear r hr y hy e
  have step : ∀ (w1 : Int → State F) (d : Fin 3) (lr : Fin 2) (k : Nat),
      k = 2 * d.val + lr.val →
      ((∀ r ∈ ranks, 0 ≤ (w1 r).n_particles) ∧
        ∀ r ∈ ranks, ∀ x ∈ owned (w1 r), ∀ e : Fin 3, Stage env k r e (x.p e)) →
      ((∀ r ∈ ranks, 0 ≤ (exchange_part_sweep env w1 d lr r).n_particles) ∧
        ∀ r ∈ ranks, ∀ x ∈ owned (exchange_part_sweep env w1 d lr r), ∀ e : Fin 3,
          Stage env (k + 1) r e (x.p e)) := by
    intro w1 d lr k hk h
    subst hk
    exact ⟨fun r hr => (exchange_part_sweep_cores env ranks hg w1 h.1 d lr r hr).2,
      exchange_part_sweep_stage env ranks hg hrect w1 h.1 d lr h.2⟩
  have h6 := step _ 2 1 5 rfl (step _ 2 0 4 rfl (step _ 1 1 3 rfl (step _ 1 0 2 rfl
    (step _ 0 1 1 rfl (step _ 0 0 0 rfl h0)))))
  intro r hr x hx e
  have := h6.2 r hr x hx e
  unfold Stage at this
  rw [if_pos (by omega)] at this
  exact this

set_option maxRecDepth 100000 in
/-- One hop on a 3x1x1 periodic grid of unit sub-boxes, across interior faces: rank 0
holds a particle at x = 1 (just above its sub-box, in that of its upper neighbour 1),
rank 1 one at x = 0 (below, in the sub-box of its lower neighbour 0) and rank 2 one at
x = 1 (below its sub-box, in that of its lower neighbour 1).  After the round, slot 0 of
rank 0 holds the particle with identity 5 inside the sub-box of rank 0. -/
theorem exchange_part_one_hop_witness :
    ((exchange_part (grid_env ![3, 1, 1] 1)
        (world_of [[mk_particle 7 1 0 0], [mk_particle 5 0 0 0], [mk_particle 9 1 0 0]])
        0).particles 0).identity = 5 ∧
    InBox (grid_env ![3, 1, 1] 1 0) 0
      (((exchange_part (grid_env ![3, 1, 1] 1)
        (world_of [[mk_particle 7 1 0 0], [mk_particle 5 0 0 0], [mk_particle 9 1 0 0]])
        0).particles 0).p 0) :=
  ⟨by decide!,
   exchange_part_one_hop (grid_env ![3, 1, 1] 1) {0, 1, 2} (by decide) (by decide)
    (world_of [[mk_particle 7 1 0 0], [mk_particle 5 0 0 0], [mk_particle 9 1 0 0]])
    (by decide) (by decide) 0 (by decide) _
    ((mem_seg _ _ _).2 ⟨0, by decide, by decide!, rfl⟩) 0⟩

set_option maxRecDepth 100000 in
/-- C1, evaluated on a 3x1x1 periodic grid of unit sub-boxes (a process grid, rectangular):
rank 0 owns one particle, identity 7, folded to x = 2.  It lies in the sub-box `[2,3)` of
rank 2, the lower neighbour of rank 0 across the periodic face, so the claim's condition
holds.  The low scan keeps it (`2 < my_left = 0` is false), the high scan sends it to
`neighbors[1]`, rank 1 (`2 >= my_right = 1`), and no later sweep moves it: after the round
rank 1 owns it at x = 2, outside its sub-box `[1,2)`, and rank 2 owns nothing. -/
theorem exchange_part_three_ranks :
    ProcessGrid (grid_env ![3, 1, 1] 1) {0, 1, 2} ∧
    RectGrid (grid_env ![3, 1, 1] 1) {0, 1, 2} ∧
    (∀ r ∈ ({0, 1, 2} : Finset Int), ∀ x ∈ owned (world_of [[mk_particle 7 2 0 0]] r),
      ∀ e : Fin 3, NearAny (grid_env ![3, 1, 1] 1) r e
        ((folded (grid_env ![3, 1, 1] 1 r) x).p e)) ∧
    InBox (grid_env ![3, 1, 1] 1 2) 0 2 ∧
    (grid_env ![3, 1, 1] 1 0).neighbors 0 = 2 ∧
    (grid_env ![3, 1, 1] 1 0).neighbors 1 = 1 ∧
    (exchange_part (grid_env ![3, 1, 1] 1) (world_of [[mk_particle 7 2 0 0]]) 0).n_particles
      = 0 ∧
    (exchange_part (grid_env ![3, 1, 1] 1) (world_of [[mk_particle 7 2 0 0]]) 2).n_particles
      = 0 ∧
    (exchange_part (grid_env ![3, 1, 1] 1) (world_of [[mk_particle 7 2 0 0]]) 1).n_particles
      = 1 ∧
    ((exchange_part (grid_env ![3, 1, 1] 1) (world_of [[mk_particle 7 2 0 0]])
      1).particles 0).identity = 7 ∧
    ((exchange_part (grid_env ![3, 1, 1] 1) (world_of [[mk_particle 7 2 0 0]])
      1).particles 0).p 0 = 2 ∧
    ¬ InBox (grid_env ![3, 1, 1] 1 1) 0 2 ∧
    ¬ (∀ r ∈ ({0, 1, 2} : Finset Int),
        ∀ x ∈ owned (exchange_part (grid_env ![3, 1, 1] 1) (world_of [[mk_particle 7 2 0 0]]) r),
        ∀ e : Fin 3, InBox (grid_env ![3, 1, 1] 1 r) e (x.p e)) := by
  decide!

/-! ### Running sums -/

theorem psum_zero (f : Int → Int) : psum f 0 = 0 := by
  unfold psum; exact forLoop_empty _ _ _ _ (le_refl _)

theorem psum_succ (f : Int → Int) (c : Int) (hc : 0 ≤ c) : psum f (c + 1) = psum f c + f c := by
  unfold psum; exact forLoop_succ _ _ _ _ hc

theorem psum_congr (f g : Int → Int) (c : Int) (h : ∀ i, 0 ≤ i → i < c → f i = g i) :
    psum f c = psum g c := by
  by_cases hc : 0 ≤ c
  · have := forLoop_induct 0 c (fun i acc => acc + f i) (0 : Int)
      (fun x a => x ≤ c → a = psum g x)
      (by intro _; rw [psum_zero])
      (by
        intro x t hx0 hxk ht _
        beta_reduce
        rw [psum_succ g x hx0, ht (by omega), h x hx0 hxk])
      hc
    exact this (le_refl _)
  · unfold psum
    rw [forLoop_empty _ _ _ _ (by omega), forLoop_empty _ _ _ _ (by omega)]

theorem psum_mono (f : Int → Int) (a b : Int) (ha : 0 ≤ a) (hab : a ≤ b)
    (hf : ∀ i, a ≤ i → i < b → 0 ≤ f i) : psum f a ≤ psum f b := by
  have := forLoop_induct a b (fun _ (acc : Int) => acc) (0 : Int)
    (fun x _ => x ≤ b → psum f a ≤ psum f x) (fun _ => le_refl _)
    (by
      intro x t hx0 hxk ht _
      rw [psum_succ f x (by omega)]
      have := hf x hx0 hxk
      have := ht (by omega)
      omega)
    hab
  exact this (le_refl _)

theorem psum_nonneg (f : Int → Int) (c : Int) (hc : 0 ≤ c)
    (hf : ∀ i, 0 ≤ i → i < c → 0 ≤ f i) : 0 ≤ psum f c := by
  have := psum_mono f 0 c (le_refl _) hc hf
  rwa [psum_zero] at this

/-- Entry `n` of block `c` lies below the start of every later block. -/
theorem psum_entry_lt (f : Int → Int) (c c' n : Int) (hc : 0 ≤ c) (hcc : c < c')
    (hn : n < f c) (hf : ∀ i, 0 ≤ i → i < c' → 0 ≤ f i) : psum f c + n < psum f c' := by
  have h1 := psum_succ f c hc
  have h2 := psum_mono f (c + 1) c' (by omega) (by omega) (fun i hi1 hi2 => hf i (by omega) hi2)
  omega

/-- Entries of the blocks are numbered without collision. -/
theorem psum_entry_inj (f : Int → Int) (C c c' n n' : Int) (hc : 0 ≤ c) (hc' : 0 ≤ c')
    (hcC : c < C) (hcC' : c' < C) (hn0 : 0 ≤ n) (hn : n < f c) (hn0' : 0 ≤ n') (hn' : n' < f c')
    (hf : ∀ i, 0 ≤ i → i < C → 0 ≤ f i) (h : psum f c + n = psum f c' + n') :
    c = c' ∧ n = n' := by
  rcases lt_trichotomy c c' with hlt | heq | hgt
  · have := psum_entry_lt f c c' n hc hlt hn (fun i hi1 hi2 => hf i hi1 (by omega))
    omega
  · subst heq
    exact ⟨rfl, by omega⟩
  · have := psum_entry_lt f c' c n' hc' hgt hn' (fun i hi1 hi2 => hf i hi1 (by omega))
    omega

/-! ### One direction of `exchange_ghost`, phase by phase -/

theorem persist_refl {F : Type} (a : State F) : Persist a a :=
  ⟨rfl, rfl, rfl, rfl, rfl, rfl, rfl⟩

theorem persist_trans {F : Type} {a b c : State F} (h1 : Persist a b) (h2 : Persist b c) :
    Persist a c :=
  ⟨h2.1.trans h1.1, h2.2.1.trans h1.2.1, h2.2.2.1.trans h1.2.2.1,
    h2.2.2.2.1.trans h1.2.2.2.1, h2.2.2.2.2.1.trans h1.2.2.2.2.1,
    h2.2.2.2.2.2.1.trans h1.2.2.2.2.2.1, h2.2.2.2.2.2.2.trans h1.2.2.2.2.2.2⟩

theorem ghost_count_spec {F : Type} (gc : GhostCells) (st : State F) (dir : Fin 6)
    (hC : 0 ≤ gc.n_send_cells dir) (hM : gc.n_send_cells dir ≤ gc.max_send_cells) :
    Persist st (ghost_count gc st dir) ∧
    (ghost_count gc st dir).n_g_send_buf = 0 ∧
    (∀ c : Int, 0 ≤ c → c < gc.n_send_cells dir →
      (ghost_count gc st dir).n_send_ghosts c = occ st (send_cell gc dir c)) ∧
    (ghost_count gc st dir).n_send_ghosts gc.max_send_cells =
      psum (fun c => occ st (send_cell gc dir c)) (gc.n_send_cells dir) := by
  unfold ghost_count
  refine forLoop_induct 0 (gc.n_send_cells dir) _ _
    (fun x acc => Persist st acc ∧ acc.n_g_send_buf = 0 ∧
      (∀ c : Int, 0 ≤ c → c < x → acc.n_send_ghosts c = occ st (send_cell gc dir c)) ∧
      acc.n_send_ghosts gc.max_send_cells = psum (fun c => occ st (send_cell gc dir c)) x)
    ?_ ?_ hC
  · refine ⟨⟨rfl, rfl, rfl, rfl, rfl, rfl, rfl⟩, rfl, fun c h0 h1 => by omega, ?_⟩
    simp [psum_zero]
  · rintro x acc hx0 hx1 ⟨hp, h1, h2, h3⟩
    have hcells : acc.cells = st.cells := hp.2.2.2.1
    have hxM : x ≠ gc.max_send_cells := by omega
    refine ⟨persist_trans hp ⟨rfl, rfl, rfl, rfl, rfl, rfl, rfl⟩, h1, ?_, ?_⟩
    · intro c hc0 hc1
      dsimp only
      have hcM : c ≠ gc.max_send_cells := by omega
      rw [Function.update_noteq hcM]
      by_cases hcx : c = x
      · subst hcx
        rw [Function.update_same, hcells]; rfl
      · rw [Function.update_noteq hcx]
        exact h2 c hc0 (by omega)
    · dsimp only
      rw [Function.update_same, Function.update_noteq (Ne.symm hxM), h3, psum_succ _ _ hx0,
        hcells]
      rfl
theorem ghost_grow_spec {F : Type} (env : Env F) (gc : GhostCells) (st : State F) :
    Persist st (ghost_grow env gc st) ∧
    (ghost_grow env gc st).n_g_send_buf = st.n_g_send_buf ∧
    (ghost_grow env gc st).n_send_ghosts = st.n_send_ghosts := by
  unfold ghost_grow
  split_ifs
  · exact ⟨⟨rfl, rfl, rfl, rfl, rfl, rfl, rfl⟩, rfl, rfl⟩
  · exact ⟨persist_refl _, rfl, rfl⟩

theorem pack_ghost_eq {F : Type} (g : Int → Ghost F) (gi : Int) (p : Int → Particle F)
    (pi : Int) : pack_ghost g gi p pi = Function.update g gi (ghost_rec (p pi)) := rfl

theorem unpack_ghost_eq {F : Type} (p : Int → Particle F) (pi : Int) (g : Int → Ghost F)
    (gi : Int) : unpack_ghost p pi g gi = Function.update p pi (installed (p pi) (g gi)) := rfl

/-- The inner loop of "pack ghosts" for one cell `x`. -/
theorem ghost_pack_cell {F : Type} (x : Int) (a : State F) (cnt : Int) (hcnt : 0 ≤ cnt) :
    Persist a (forLoop 0 cnt (fun n (a' : State F) =>
      { a' with
        g_send_buf := pack_ghost a'.g_send_buf a'.n_g_send_buf a'.particles
          ((a'.cells x).particles n)
        n_g_send_buf := a'.n_g_send_buf + 1 }) a) ∧
    (forLoop 0 cnt (fun n (a' : State F) =>
      { a' with
        g_send_buf := pack_ghost a'.g_send_buf a'.n_g_send_buf a'.particles
          ((a'.cells x).particles n)
        n_g_send_buf := a'.n_g_send_buf + 1 }) a).n_send_ghosts = a.n_send_ghosts ∧
    (forLoop 0 cnt (fun n (a' : State F) =>
      { a' with
        g_send_buf := pack_ghost a'.g_send_buf a'.n_g_send_buf a'.particles
          ((a'.cells x).particles n)
        n_g_send_buf := a'.n_g_send_buf + 1 }) a).n_g_send_buf = a.n_g_send_buf + cnt ∧
    (∀ n : Int, 0 ≤ n → n < cnt →
      (forLoop 0 cnt (fun n (a' : State F) =>
        { a' with
          g_send_buf := pack_ghost a'.g_send_buf a'.n_g_send_buf a'.particles
            ((a'.cells x).particles n)
          n_g_send_buf := a'.n_g_send_buf + 1 }) a).g_send_buf (a.n_g_send_buf + n) =
        ghost_rec (a.particles (slot_of a x n))) ∧
    (∀ j : Int, j < a.n_g_send_buf →
      (forLoop 0 cnt (fun n (a' : State F) =>
        { a' with
          g_send_buf := pack_ghost a'.g_send_buf a'.n_g_send_buf a'.particles
            ((a'.cells x).particles n)
          n_g_send_buf := a'.n_g_send_buf + 1 }) a).g_send_buf j = a.g_send_buf j) := by
  refine forLoop_induct 0 cnt _ a
    (fun y a' => Persist a a' ∧ a'.n_send_ghosts = a.n_send_ghosts ∧
      a'.n_g_send_buf = a.n_g_send_buf + y ∧
      (∀ n : Int, 0 ≤ n → n < y →
        a'.g_send_buf (a.n_g_send_buf + n) = ghost_rec (a.particles (slot_of a x n))) ∧
      (∀ j : Int, j < a.n_g_send_buf → a'.g_send_buf j = a.g_send_buf j))
    ?_ ?_ hcnt
  · exact ⟨persist_refl _, rfl, by simp, fun n h0 h1 => by omega, fun j _ => rfl⟩
  · rintro y a' hy0 hy1 ⟨hp, h1, h2, h3, h4⟩
    refine ⟨persist_trans hp ⟨rfl, rfl, rfl, rfl, rfl, rfl, rfl⟩, h1, ?_, ?_, ?_⟩
    · dsimp only; rw [h2]; ring
    · intro n hn0 hn1
      dsimp only
      rw [pack_ghost_eq, h2]
      by_cases hny : n = y
      · subst hny
        rw [Function.update_same, hp.1, hp.2.2.2.1]; rfl
      · rw [Function.update_noteq (by omega)]
        exact h3 n hn0 (by omega)
    · intro j hj
      dsimp only
      rw [pack_ghost_eq, h2, Function.update_noteq (by omega)]
      exact h4 j hj

theorem ghost_pack_spec {F : Type} (gc : GhostCells) (st : State F) (dir : Fin 6)
    (hC : 0 ≤ gc.n_send_cells dir) (h0 : st.n_g_send_buf = 0)
    (hocc : ∀ c : Int, 0 ≤ c → c < gc.n_send_cells dir → 0 ≤ occ st (send_cell gc dir c)) :
    Persist st (ghost_pack gc st dir) ∧
    (ghost_pack gc st dir).n_send_ghosts = st.n_send_ghosts ∧
    (ghost_pack gc st dir).n_g_send_buf =
      psum (fun c => occ st (send_cell gc dir c)) (gc.n_send_cells dir) ∧
    (∀ c n : Int, 0 ≤ c → c < gc.n_send_cells dir → 0 ≤ n → n < occ st (send_cell gc dir c) →
      (ghost_pack gc st dir).g_send_buf (psum (fun c => occ st (send_cell gc dir c)) c + n) =
        ghost_rec (st.particles (slot_of st (send_cell gc dir c) n))) := by
  unfold ghost_pack
  refine forLoop_induct 0 (gc.n_send_cells dir) _ st
    (fun x acc => Persist st acc ∧ acc.n_send_ghosts = st.n_send_ghosts ∧
      acc.n_g_send_buf = psum (fun c => occ st (send_cell gc dir c)) x ∧
      (∀ c n : Int, 0 ≤ c → c < x → 0 ≤ n → n < occ st (send_cell gc dir c) →
        acc.g_send_buf (psum (fun c => occ st (send_cell gc dir c)) c + n) =
          ghost_rec (st.particles (slot_of st (send_cell gc dir c) n))))
    ?_ ?_ hC
  · exact ⟨persist_refl _, rfl, by rw [h0, psum_zero], fun c n h0 h1 => by omega⟩
  · rintro x acc hx0 hx1 ⟨hp, h1, h2, h3⟩
    have hcells : acc.cells = st.cells := hp.2.2.2.1
    have hcnt : (acc.cells (send_cell gc dir x)).n_particles = occ st (send_cell gc dir x) := by
      rw [hcells]; rfl
    obtain ⟨q1, q2, q3, q4, q5⟩ := ghost_pack_cell (send_cell gc dir x) acc
      (acc.cells (send_cell gc dir x)).n_particles (by rw [hcnt]; exact hocc x hx0 hx1)
    refine ⟨persist_trans hp q1, q2.trans h1, ?_, ?_⟩
    · rw [q3, h2, psum_succ _ _ hx0, hcnt]
    · intro c n hc0 hc1 hn0 hn1
      by_cases hcx : c = x
      · subst hcx
        have := q4 n hn0 (by rw [hcnt]; exact hn1)
        rw [h2] at this
        rw [this, hp.1]
        unfold slot_of
        rw [hcells]
      · have hlt := psum_entry_lt (fun c => occ st (send_cell gc dir c)) c x n hc0 (by omega)
          hn1 (fun i hi0 hi1 => hocc i hi0 (by omega))
        rw [q5 _ (by rw [h2]; exact hlt)]
        exact h3 c n hc0 (by omega) hn0 hn1
theorem ghost_fold_spec {F : Type} [LinearOrderedCommRing F] (env : Env F) (st : State F)
    (dir : Fin 6) (hn : 0 ≤ st.n_g_send_buf) :
    Persist st (ghost_fold env st dir) ∧
    (ghost_fold env st dir).n_send_ghosts = st.n_send_ghosts ∧
    (∀ k : Int, 0 ≤ k → k < st.n_g_send_buf →
      (ghost_fold env st dir).g_send_buf k = shifted env dir (st.g_send_buf k)) := by
  unfold ghost_fold
  by_cases hb : env.boundary dir ≠ 0
  · rw [if_pos hb]
    have := forLoop_induct 0 st.n_g_send_buf
      (fun n (a : State F) =>
        { a with
          g_send_buf := Function.update a.g_send_buf n
            { (a.g_send_buf n) with
              p := Function.update (a.g_send_buf n).p (axis_of dir)
                ((a.g_send_buf n).p (axis_of dir) + env.boundary dir) } }) st
      (fun y a => Persist st a ∧ a.n_send_ghosts = st.n_send_ghosts ∧
        (∀ k : Int, 0 ≤ k → k < y → a.g_send_buf k = shifted env dir (st.g_send_buf k)) ∧
        (∀ k : Int, y ≤ k → a.g_send_buf k = st.g_send_buf k))
      ⟨persist_refl _, rfl, fun k h0 h1 => by omega, fun k _ => rfl⟩
      (by
        rintro y a hy0 hy1 ⟨hp, h1, h2, h3⟩
        refine ⟨persist_trans hp ⟨rfl, rfl, rfl, rfl, rfl, rfl, rfl⟩, h1, ?_, ?_⟩
        · intro k hk0 hk1
          dsimp only
          by_cases hky : k = y
          · subst hky
            rw [Function.update_same, h3 k (le_refl _)]
            unfold shifted
            rw [if_pos hb]
          · rw [Function.update_noteq hky]
            exact h2 k hk0 (by omega)
        · intro k hk
          dsimp only
          rw [Function.update_noteq (by omega)]
          exact h3 k (by omega))
      hn
    exact ⟨this.1, this.2.1, this.2.2.1⟩
  · rw [if_neg hb]
    refine ⟨persist_refl _, rfl, ?_⟩
    intro k _ _
    unfold shifted
    rw [if_neg hb]

/-- What a rank has ready to send in direction `dir` of `exchange_ghost`: the occupancy
of every send cell, their total, and one (shifted) ghost record per listed slot in
cell-major order. -/
theorem ghost_prepare_spec {F : Type} [LinearOrderedCommRing F] (env : Env F)
    (gc : GhostCells) (st : State F) (dir : Fin 6)
    (hC : 0 ≤ gc.n_send_cells dir) (hM : gc.n_send_cells dir ≤ gc.max_send_cells)
    (hocc : ∀ c : Int, 0 ≤ c → c < gc.n_send_cells dir → 0 ≤ occ st (send_cell gc dir c)) :
    Persist st (ghost_prepare env gc st dir) ∧
    (∀ c : Int, 0 ≤ c → c < gc.n_send_cells dir →
      (ghost_prepare env gc st dir).n_send_ghosts c = occ st (send_cell gc dir c)) ∧
    (ghost_prepare env gc st dir).n_send_ghosts gc.max_send_cells =
      psum (fun c => occ st (send_cell gc dir c)) (gc.n_send_cells dir) ∧
    (∀ c n : Int, 0 ≤ c → c < gc.n_send_cells dir → 0 ≤ n → n < occ st (send_cell gc dir c) →
      (ghost_prepare env gc st dir).g_send_buf
          (psum (fun c => occ st (send_cell gc dir c)) c + n) =
        shifted env dir (ghost_rec (st.particles (slot_of st (send_cell gc dir c) n)))) := by
  obtain ⟨c1, c2, c3, c4⟩ := ghost_count_spec gc st dir hC hM
  obtain ⟨g1, g2, g3⟩ := ghost_grow_spec env gc (ghost_count gc st dir)
  have hcells : (ghost_grow env gc (ghost_count gc st dir)).cells = st.cells :=
    (persist_trans c1 g1).2.2.2.1
  have hocc' : ∀ c : Int, occ (ghost_grow env gc (ghost_count gc st dir)) c = occ st c := by
    intro c; unfold occ; rw [hcells]
  obtain ⟨p1, p2, p3, p4⟩ := ghost_pack_spec gc (ghost_grow env gc (ghost_count gc st dir)) dir
    hC (by rw [g2, c2]) (by intro c h0 h1; rw [hocc']; exact hocc c h0 h1)
  simp only [hocc'] at p3 p4
  have hT : 0 ≤ (ghost_pack gc (ghost_grow env gc (ghost_count gc st dir)) dir).n_g_send_buf := by
    rw [p3]; exact psum_nonneg _ _ hC hocc
  obtain ⟨f1, f2, f3⟩ := ghost_fold_spec env
    (ghost_pack gc (ghost_grow env gc (ghost_count gc st dir)) dir) dir hT
  unfold ghost_prepare
  refine ⟨persist_trans (persist_trans (persist_trans c1 g1) p1) f1, ?_, ?_, ?_⟩
  · intro c h0 h1
    rw [f2, p2, g3]; exact c3 c h0 h1
  · rw [f2, p2, g3]; exact c4
  · intro c n hc0 hc1 hn0 hn1
    have hlt : psum (fun c => occ st (send_cell gc dir c)) c + n <
        psum (fun c => occ st (send_cell gc dir c)) (gc.n_send_cells dir) := by
      have h1 := psum_succ (fun c => occ st (send_cell gc dir c)) c hc0
      have h2 := psum_mono (fun c => occ st (send_cell gc dir c)) (c + 1) (gc.n_send_cells dir)
        (by omega) (by omega) (fun i hi1 hi2 => hocc i (by omega) hi2)
      simp only at h1
      omega
    have hge : 0 ≤ psum (fun c => occ st (send_cell gc dir c)) c + n := by
      have := psum_nonneg (fun c => occ st (send_cell gc dir c)) c hc0
        (fun i hi0 hi1 => hocc i hi0 (by omega))
      omega
    rw [f3 _ hge (by rw [p3]; exact hlt), p4 c n hc0 hc1 hn0 hn1]
    have hparts : (ghost_grow env gc (ghost_count gc st dir)).particles = st.particles :=
      (persist_trans c1 g1).1
    unfold slot_of
    rw [hparts, hcells]
theorem recv_ghosts_spec {F : Type} (gc : GhostCells) (st : State F) (msg : GhostMsg F) :
    Persist st (recv_ghosts gc st msg) ∧
    (recv_ghosts gc st msg).n_send_ghosts = st.n_send_ghosts ∧
    (recv_ghosts gc st msg).max_send_buf = st.max_send_buf ∧
    (recv_ghosts gc st msg).max_recv_buf = st.max_recv_buf ∧
    (recv_ghosts gc st msg).n_recv_ghosts =
      memcpy st.n_recv_ghosts 0 msg.counts (gc.max_send_cells + 1) ∧
    (recv_ghosts gc st msg).g_recv_buf =
      memcpy st.g_recv_buf 0 msg.g_buf
        (memcpy st.n_recv_ghosts 0 msg.counts (gc.max_send_cells + 1) gc.max_send_cells) := by
  unfold recv_ghosts
  dsimp only
  split_ifs <;> exact ⟨⟨rfl, rfl, rfl, rfl, rfl, rfl, rfl⟩, rfl, rfl, rfl, rfl, rfl⟩

/-- The part of `send_ghosts` before the sizes are stored: the receive buffers hold what
the source rank `Q` had ready. -/
theorem send_ghosts_transfer {F : Type} (env : Env F) (gc : GhostCells) (P Q : State F)
    (s_dir : Fin 6) (hself : env.neighbors s_dir = env.this_node → Q = P)
    (hM : 0 ≤ gc.max_send_cells) :
    (send_ghosts env gc P s_dir (ghost_msg Q)).particles = P.particles ∧
    (send_ghosts env gc P s_dir (ghost_msg Q)).n_particles = P.n_particles ∧
    (send_ghosts env gc P s_dir (ghost_msg Q)).n_ghosts = P.n_ghosts ∧
    (send_ghosts env gc P s_dir (ghost_msg Q)).cells = P.cells ∧
    (send_ghosts env gc P s_dir (ghost_msg Q)).local_index = P.local_index ∧
    (send_ghosts env gc P s_dir (ghost_msg Q)).ghost_send_size =
      Function.update P.ghost_send_size s_dir (P.n_send_ghosts gc.max_send_cells) ∧
    (send_ghosts env gc P s_dir (ghost_msg Q)).ghost_recv_size =
      Function.update P.ghost_recv_size s_dir (Q.n_send_ghosts gc.max_send_cells) ∧
    (∀ c : Int, 0 ≤ c → c ≤ gc.max_send_cells →
      (send_ghosts env gc P s_dir (ghost_msg Q)).n_recv_ghosts c = Q.n_send_ghosts c) ∧
    (∀ k : Int, 0 ≤ k → k < Q.n_send_ghosts gc.max_send_cells →
      (send_ghosts env gc P s_dir (ghost_msg Q)).g_recv_buf k = Q.g_send_buf k) := by
  by_cases h : env.neighbors s_dir = env.this_node
  · have hQ := hself h
    subst hQ
    have hcnt : ∀ c : Int, 0 ≤ c → c ≤ gc.max_send_cells →
        memcpy Q.n_recv_ghosts 0 Q.n_send_ghosts (gc.max_send_cells + 1) c = Q.n_send_ghosts c := by
      intro c h0 h1
      rw [memcpy_apply, if_pos (by omega)]; simp
    have hn : ¬ (env.neighbors s_dir ≠ env.this_node) := by simpa using h
    unfold send_ghosts
    rw [if_neg hn]
    dsimp only
    split_ifs <;>
      exact ⟨rfl, rfl, rfl, rfl, rfl, rfl,
        by dsimp only; rw [hcnt _ hM (le_refl _)], hcnt, fun _ _ _ => rfl⟩
  · have hrecv : ([0, 1] : List Int).foldl (fun acc evenodd =>
        if (env.pe_pos (axis_of s_dir) + evenodd) % 2 = 0 then acc
        else recv_ghosts gc acc (ghost_msg Q)) P = recv_ghosts gc P (ghost_msg Q) := by
      simp only [List.foldl_cons, List.foldl_nil, add_zero]
      by_cases hp : env.pe_pos (axis_of s_dir) % 2 = 0
      · rw [if_pos hp, if_neg (by omega)]
      · rw [if_neg hp, if_pos (by omega)]
    obtain ⟨r1, r2, _, _, r5, r6⟩ := recv_ghosts_spec gc P (ghost_msg Q)
    have hcnt : ∀ c : Int, 0 ≤ c → c ≤ gc.max_send_cells →
        (recv_ghosts gc P (ghost_msg Q)).n_recv_ghosts c = Q.n_send_ghosts c := by
      intro c h0 h1
      rw [r5, memcpy_apply, if_pos (by omega)]; simp [ghost_msg]
    have hbuf : ∀ k : Int, 0 ≤ k → k < Q.n_send_ghosts gc.max_send_cells →
        (recv_ghosts gc P (ghost_msg Q)).g_recv_buf k = Q.g_send_buf k := by
      intro k h0 h1
      have e := hcnt _ hM (le_refl _)
      rw [r5] at e
      rw [r6, e, memcpy_apply, if_pos (by omega)]; simp [ghost_msg]
    obtain ⟨q1, q2, q3, q4, q5, q6, q7⟩ := r1
    unfold send_ghosts
    rw [if_pos h, hrecv]
    dsimp only
    split_ifs <;>
      exact ⟨q1, q2, q3, q4, q5, by dsimp only; rw [q6, r2],
        by dsimp only; rw [q7, hcnt _ hM (le_refl _)], hcnt, hbuf⟩
theorem unpackFrame_refl {F : Type} (a : State F) : UnpackFrame a a :=
  ⟨rfl, rfl, rfl, rfl, rfl, rfl⟩

theorem unpackFrame_trans {F : Type} {a b c : State F} (h1 : UnpackFrame a b)
    (h2 : UnpackFrame b c) : UnpackFrame a c :=
  ⟨h2.1.trans h1.1, h2.2.1.trans h1.2.1, h2.2.2.1.trans h1.2.2.1,
    h2.2.2.2.1.trans h1.2.2.2.1, h2.2.2.2.2.1.trans h1.2.2.2.2.1,
    h2.2.2.2.2.2.trans h1.2.2.2.2.2⟩

/-- The inner loop of "unpack ghosts" for one recv cell `x`. -/
theorem unpack_inner {F : Type} (x : Int) (u : Unpack F) (cnt : Int) (hcnt : 0 ≤ cnt) :
    (forLoop 0 cnt (unpack_one x) u).m = u.m + cnt ∧
    (forLoop 0 cnt (unpack_one x) u).n = u.n + cnt ∧
    UnpackFrame u.st (forLoop 0 cnt (unpack_one x) u).st ∧
    (∀ i : Int, 0 ≤ i → i < cnt →
      (forLoop 0 cnt (unpack_one x) u).st.particles (u.m + i) =
        installed (u.st.particles (u.m + i)) (u.st.g_recv_buf (u.n + i))) ∧
    (∀ s : Int, s < u.m ∨ u.m + cnt ≤ s →
      (forLoop 0 cnt (unpack_one x) u).st.particles s = u.st.particles s) ∧
    (∀ y : Int, y ≠ x → (forLoop 0 cnt (unpack_one x) u).st.cells y = u.st.cells y) ∧
    ((forLoop 0 cnt (unpack_one x) u).st.cells x).n_particles = (u.st.cells x).n_particles ∧
    (∀ i : Int, 0 ≤ i → i < cnt →
      ((forLoop 0 cnt (unpack_one x) u).st.cells x).particles i = u.m + i) := by
  refine forLoop_induct 0 cnt (unpack_one x) u
    (fun y u' => u'.m = u.m + y ∧ u'.n = u.n + y ∧ UnpackFrame u.st u'.st ∧
      (∀ i : Int, 0 ≤ i → i < y →
        u'.st.particles (u.m + i) =
          installed (u.st.particles (u.m + i)) (u.st.g_recv_buf (u.n + i))) ∧
      (∀ s : Int, s < u.m ∨ u.m + y ≤ s → u'.st.particles s = u.st.particles s) ∧
      (∀ z : Int, z ≠ x → u'.st.cells z = u.st.cells z) ∧
      (u'.st.cells x).n_particles = (u.st.cells x).n_particles ∧
      (∀ i : Int, 0 ≤ i → i < y → (u'.st.cells x).particles i = u.m + i))
    ?_ ?_ hcnt
  · exact ⟨by simp, by simp, unpackFrame_refl _, fun i h0 h1 => by omega, fun s _ => rfl,
      fun z _ => rfl, rfl, fun i h0 h1 => by omega⟩
  · rintro y u' hy0 hy1 ⟨h1, h2, h3, h4, h5, h6, h7, h8⟩
    refine ⟨?_, ?_, unpackFrame_trans h3 ⟨rfl, rfl, rfl, rfl, rfl, rfl⟩, ?_, ?_, ?_, ?_, ?_⟩
    · show u'.m + 1 = u.m + (y + 1)
      rw [h1]; ring
    · show u'.n + 1 = u.n + (y + 1)
      rw [h2]; ring
    · intro i hi0 hi1
      show unpack_ghost u'.st.particles u'.m u'.st.g_recv_buf u'.n (u.m + i) = _
      rw [unpack_ghost_eq, h1, h2]
      by_cases hiy : i = y
      · subst hiy
        rw [Function.update_same, h5 _ (Or.inr (le_refl _)), h3.2.2.2.2.2]
      · rw [Function.update_noteq (by omega)]
        exact h4 i hi0 (by omega)
    · intro s hs
      show unpack_ghost u'.st.particles u'.m u'.st.g_recv_buf u'.n s = _
      rw [unpack_ghost_eq, h1, Function.update_noteq (by omega)]
      exact h5 s (by omega)
    · intro z hz
      show Function.update u'.st.cells x _ z = _
      rw [Function.update_noteq hz]
      exact h6 z hz
    · show (Function.update u'.st.cells x _ x).n_particles = _
      rw [Function.update_same]
      exact h7
    · intro i hi0 hi1
      show (Function.update u'.st.cells x _ x).particles i = _
      rw [Function.update_same]
      dsimp only
      by_cases hiy : i = y
      · subst hiy
        rw [Function.update_same, h1]
      · rw [Function.update_noteq hiy]
        exact h8 i hi0 (by omega)
theorem unpack_cell_spec {F : Type} (gc : GhostCells) (dir : Fin 6) (c : Int) (u : Unpack F)
    (hcnt : 0 ≤ u.st.n_recv_ghosts c) :
    (unpack_cell gc dir c u).m = u.m + u.st.n_recv_ghosts c ∧
    (unpack_cell gc dir c u).n = u.n + u.st.n_recv_ghosts c ∧
    UnpackFrame u.st (unpack_cell gc dir c u).st ∧
    (∀ i : Int, 0 ≤ i → i < u.st.n_recv_ghosts c →
      (unpack_cell gc dir c u).st.particles (u.m + i) =
        installed (u.st.particles (u.m + i)) (u.st.g_recv_buf (u.n + i))) ∧
    (∀ s : Int, s < u.m ∨ u.m + u.st.n_recv_ghosts c ≤ s →
      (unpack_cell gc dir c u).st.particles s = u.st.particles s) ∧
    (∀ y : Int, y ≠ recv_cell gc dir c → (unpack_cell gc dir c u).st.cells y = u.st.cells y) ∧
    occ (unpack_cell gc dir c u).st (recv_cell gc dir c) = u.st.n_recv_ghosts c ∧
    (∀ i : Int, 0 ≤ i → i < u.st.n_recv_ghosts c →
      slot_of (unpack_cell gc dir c u).st (recv_cell gc dir c) i = u.m + i) := by
  have key : ∀ st1 : State F, UnpackFrame u.st st1 → st1.particles = u.st.particles →
      (∀ y : Int, y ≠ recv_cell gc dir c → st1.cells y = u.st.cells y) →
      (let u2 := forLoop 0 (st1.n_recv_ghosts c) (unpack_one (recv_cell gc dir c))
          { st := st1, m := u.m, n := u.n }
       let v : Unpack F :=
        { st := { u2.st with
                  cells := Function.update u2.st.cells (recv_cell gc dir c)
                    { (u2.st.cells (recv_cell gc dir c)) with
                      n_particles := u2.st.n_recv_ghosts c } }
          m := u2.m
          n := u2.n }
       v.m = u.m + u.st.n_recv_ghosts c ∧ v.n = u.n + u.st.n_recv_ghosts c ∧
       UnpackFrame u.st v.st ∧
       (∀ i : Int, 0 ≤ i → i < u.st.n_recv_ghosts c →
         v.st.particles (u.m + i) =
           installed (u.st.particles (u.m + i)) (u.st.g_recv_buf (u.n + i))) ∧
       (∀ s : Int, s < u.m ∨ u.m + u.st.n_recv_ghosts c ≤ s →
         v.st.particles s = u.st.particles s) ∧
       (∀ y : Int, y ≠ recv_cell gc dir c → v.st.cells y = u.st.cells y) ∧
       occ v.st (recv_cell gc dir c) = u.st.n_recv_ghosts c ∧
       (∀ i : Int, 0 ≤ i → i < u.st.n_recv_ghosts c →
         slot_of v.st (recv_cell gc dir c) i = u.m + i)) := by
    intro st1 hf hp hc
    have hn : st1.n_recv_ghosts c = u.st.n_recv_ghosts c := by rw [hf.2.2.2.2.1]
    rw [hn]
    obtain ⟨i1, i2, i3, i4, i5, i6, _, i8⟩ := unpack_inner (recv_cell gc dir c)
      { st := st1, m := u.m, n := u.n } (u.st.n_recv_ghosts c) hcnt
    dsimp only at i1 i2 i3 i4 i5 i6 i8
    dsimp only
    refine ⟨i1, i2, unpackFrame_trans (unpackFrame_trans hf i3) ⟨rfl, rfl, rfl, rfl, rfl, rfl⟩, ?_, ?_, ?_, ?_, ?_⟩
    · intro i h0 h1
      rw [i4 i h0 h1, hp, hf.2.2.2.2.2]
    · intro s hs
      rw [i5 s hs, hp]
    · intro y hy
      rw [Function.update_noteq hy, i6 y hy]
      exact hc y hy
    · unfold occ
      dsimp only
      rw [Function.update_same]
      dsimp only
      rw [i3.2.2.2.2.1, hn]
    · intro i h0 h1
      unfold slot_of
      dsimp only
      rw [Function.update_same]
      exact i8 i h0 h1
  unfold unpack_cell
  dsimp only
  split_ifs
  · refine key _ ⟨rfl, rfl, rfl, rfl, rfl, rfl⟩ rfl ?_
    intro y hy
    dsimp only
    rw [Function.update_noteq hy]
  · exact key _ (unpackFrame_refl _) rfl (fun _ _ => rfl)
/-- "sort recieved ghosts into cells": record `psum cnt c + i` of the receive buffer is
installed in slot `n_particles + n_ghosts + psum cnt c + i`, which becomes entry `i` of
the `c`-th recv cell; no other slot and no other cell changes. -/
theorem ghost_unpack_spec {F : Type} (gc : GhostCells) (R : State F) (dir : Fin 6)
    (hC : 0 ≤ gc.n_recv_cells dir)
    (hcnt : ∀ c : Int, 0 ≤ c → c < gc.n_recv_cells dir → 0 ≤ R.n_recv_ghosts c)
    (hdist : ∀ c c' : Int, 0 ≤ c → c < gc.n_recv_cells dir → 0 ≤ c' → c' < gc.n_recv_cells dir →
      recv_cell gc dir c = recv_cell gc dir c' → c = c') :
    (ghost_unpack gc R dir).n_particles = R.n_particles ∧
    (ghost_unpack gc R dir).n_ghosts = R.n_ghosts + R.n_recv_ghosts gc.max_send_cells ∧
    (ghost_unpack gc R dir).ghost_send_size = R.ghost_send_size ∧
    (ghost_unpack gc R dir).ghost_recv_size = R.ghost_recv_size ∧
    (∀ c i : Int, 0 ≤ c → c < gc.n_recv_cells dir → 0 ≤ i → i < R.n_recv_ghosts c →
      (ghost_unpack gc R dir).particles (R.n_particles + R.n_ghosts + psum R.n_recv_ghosts c + i) =
        installed (R.particles (R.n_particles + R.n_ghosts + psum R.n_recv_ghosts c + i))
          (R.g_recv_buf (psum R.n_recv_ghosts c + i))) ∧
    (∀ s : Int, s < R.n_particles + R.n_ghosts ∨
        R.n_particles + R.n_ghosts + psum R.n_recv_ghosts (gc.n_recv_cells dir) ≤ s →
      (ghost_unpack gc R dir).particles s = R.particles s) ∧
    (∀ y : Int, (∀ c : Int, 0 ≤ c → c < gc.n_recv_cells dir → recv_cell gc dir c ≠ y) →
      (ghost_unpack gc R dir).cells y = R.cells y) ∧
    (∀ c : Int, 0 ≤ c → c < gc.n_recv_cells dir →
      occ (ghost_unpack gc R dir) (recv_cell gc dir c) = R.n_recv_ghosts c ∧
      ∀ i : Int, 0 ≤ i → i < R.n_recv_ghosts c →
        slot_of (ghost_unpack gc R dir) (recv_cell gc dir c) i =
          R.n_particles + R.n_ghosts + psum R.n_recv_ghosts c + i) := by
  have key := forLoop_induct 0 (gc.n_recv_cells dir) (unpack_cell gc dir)
    ({ st := { R with n_ghosts := R.n_ghosts + R.n_recv_ghosts gc.max_send_cells }
       m := R.n_particles + R.n_ghosts
       n := 0 } : Unpack F)
    (fun x u => u.m = R.n_particles + R.n_ghosts + psum R.n_recv_ghosts x ∧
      u.n = psum R.n_recv_ghosts x ∧
      (u.st.n_particles = R.n_particles ∧
        u.st.n_ghosts = R.n_ghosts + R.n_recv_ghosts gc.max_send_cells ∧
        u.st.ghost_send_size = R.ghost_send_size ∧ u.st.ghost_recv_size = R.ghost_recv_size ∧
        u.st.n_recv_ghosts = R.n_recv_ghosts ∧ u.st.g_recv_buf = R.g_recv_buf) ∧
      (∀ c i : Int, 0 ≤ c → c < x → 0 ≤ i → i < R.n_recv_ghosts c →
        u.st.particles (R.n_particles + R.n_ghosts + psum R.n_recv_ghosts c + i) =
          installed (R.particles (R.n_particles + R.n_ghosts + psum R.n_recv_ghosts c + i))
            (R.g_recv_buf (psum R.n_recv_ghosts c + i))) ∧
      (∀ s : Int, s < R.n_particles + R.n_ghosts ∨
          R.n_particles + R.n_ghosts + psum R.n_recv_ghosts x ≤ s →
        u.st.particles s = R.particles s) ∧
      (∀ y : Int, (∀ c : Int, 0 ≤ c → c < x → recv_cell gc dir c ≠ y) →
        u.st.cells y = R.cells y) ∧
      (∀ c : Int, 0 ≤ c → c < x →
        occ u.st (recv_cell gc dir c) = R.n_recv_ghosts c ∧
        ∀ i : Int, 0 ≤ i → i < R.n_recv_ghosts c →
          slot_of u.st (recv_cell gc dir c) i =
            R.n_particles + R.n_ghosts + psum R.n_recv_ghosts c + i))
    ?_ ?_ hC
  · obtain ⟨k1, k2, k3, k4, k5, k6, k7⟩ := key
    exact ⟨k3.1, k3.2.1, k3.2.2.1, k3.2.2.2.1, k4, k5, k6, k7⟩
  · refine ⟨by simp [psum_zero], by simp [psum_zero], ⟨rfl, rfl, rfl, rfl, rfl, rfl⟩,
      fun c i h0 h1 => by omega, fun s _ => rfl, fun y _ => rfl, fun c h0 h1 => by omega⟩
  · rintro x u hx0 hx1 ⟨h1, h2, h3, h4, h5, h6, h7⟩
    have hn : u.st.n_recv_ghosts = R.n_recv_ghosts := h3.2.2.2.2.1
    have hcx : 0 ≤ u.st.n_recv_ghosts x := by rw [hn]; exact hcnt x hx0 hx1
    obtain ⟨q1, q2, q3, q4, q5, q6, q7, q8⟩ := unpack_cell_spec gc dir x u hcx
    rw [hn] at q1 q2 q4 q5 q7 q8
    have hps := psum_succ R.n_recv_ghosts x hx0
    have hnn : ∀ c : Int, 0 ≤ c → c < x + 1 → 0 ≤ R.n_recv_ghosts c :=
      fun c hc0 hc1 => hcnt c hc0 (by omega)
    refine ⟨by rw [q1, h1, hps]; ring, by rw [q2, h2, hps], ?_, ?_, ?_, ?_, ?_⟩
    · obtain ⟨f1, f2, f3, f4, f5, f6⟩ := q3
      obtain ⟨e1, e2, e3, e4, e5, e6⟩ := h3
      exact ⟨f1.trans e1, f2.trans e2, f3.trans e3, f4.trans e4, f5.trans e5, f6.trans e6⟩
    · intro c i hc0 hc1 hi0 hi1
      by_cases hcx' : c = x
      · subst hcx'
        have := q4 i hi0 hi1
        rw [h1, h2, h3.2.2.2.2.2, h5 _ (Or.inr (by omega))] at this
        exact this
      · have hlt := psum_entry_lt R.n_recv_ghosts c x i hc0 (by omega) hi1
          (fun j hj0 hj1 => hcnt j hj0 (by omega))
        rw [q5 _ (Or.inl (by rw [h1]; omega))]
        exact h4 c i hc0 (by omega) hi0 hi1
    · intro s hs
      have hge := hcnt x hx0 hx1
      have hpn := psum_nonneg R.n_recv_ghosts x hx0 (fun j hj0 hj1 => hcnt j hj0 (by omega))
      rw [q5 s (by rw [h1]; omega)]
      exact h5 s (by omega)
    · intro y hy
      rw [q6 y (Ne.symm (hy x hx0 (by omega)))]
      exact h6 y (fun c hc0 hc1 => hy c hc0 (by omega))
    · intro c hc0 hc1
      by_cases hcx' : c = x
      · subst hcx'
        refine ⟨q7, ?_⟩
        intro i hi0 hi1
        rw [q8 i hi0 hi1, h1]
      · have hne : recv_cell gc dir c ≠ recv_cell gc dir x := by
          intro he
          exact hcx' (hdist c x hc0 (by omega) hx0 hx1 he)
        obtain ⟨o1, o2⟩ := h7 c hc0 (by omega)
        unfold occ at o1 ⊢
        unfold slot_of at o2 ⊢
        rw [q6 _ hne]
        exact ⟨o1, o2⟩
/-- One direction of `exchange_ghost` seen from rank `r`: with `src = neighbors[r_dir]`
and `cnt c` the occupancy of the `c`-th send cell of `src`, the rank gets `psum cnt C` new
ghost slots after its last slot; slot `m0 + psum cnt c + i` holds the (shifted) record of
entry `i` of the `c`-th send cell of `src` and is entry `i` of the `c`-th recv cell. -/
theorem exchange_ghost_sweep_spec {F : Type} [LinearOrderedCommRing F] (env : Int → Env F)
    (ranks : Finset Int) (hg : ProcessGrid env ranks) (gc : GhostCells) (w : Int → State F)
    (dir : Fin 6) (hM : 0 ≤ gc.max_send_cells)
    (hC : 0 ≤ gc.n_send_cells dir) (hCM : gc.n_send_cells dir ≤ gc.max_send_cells)
    (hCeq : gc.n_recv_cells dir = gc.n_send_cells dir)
    (hdist : ∀ c c' : Int, 0 ≤ c → c < gc.n_recv_cells dir → 0 ≤ c' → c' < gc.n_recv_cells dir →
      recv_cell gc dir c = recv_cell gc dir c' → c = c')
    (hocc : ∀ q ∈ ranks, ∀ c : Int, 0 ≤ c → c < gc.n_send_cells dir →
      0 ≤ occ (w q) (send_cell gc dir c))
    (r : Int) (hr : r ∈ ranks) :
    (exchange_ghost_sweep env gc w dir r).n_particles = (w r).n_particles ∧
    (exchange_ghost_sweep env gc w dir r).n_ghosts = (w r).n_ghosts +
      psum (fun c => occ (w ((env r).neighbors (r_dir_of dir))) (send_cell gc dir c))
        (gc.n_send_cells dir) ∧
    (exchange_ghost_sweep env gc w dir r).ghost_send_size =
      Function.update (w r).ghost_send_size dir
        (psum (fun c => occ (w r) (send_cell gc dir c)) (gc.n_send_cells dir)) ∧
    (exchange_ghost_sweep env gc w dir r).ghost_recv_size =
      Function.update (w r).ghost_recv_size dir
        (psum (fun c => occ (w ((env r).neighbors (r_dir_of dir))) (send_cell gc dir c))
          (gc.n_send_cells dir)) ∧
    (∀ c i : Int, 0 ≤ c → c < gc.n_send_cells dir → 0 ≤ i →
      i < occ (w ((env r).neighbors (r_dir_of dir))) (send_cell gc dir c) →
      (exchange_ghost_sweep env gc w dir r).particles ((w r).n_particles + (w r).n_ghosts +
          psum (fun c => occ (w ((env r).neighbors (r_dir_of dir))) (send_cell gc dir c)) c + i) =
        installed ((w r).particles ((w r).n_particles + (w r).n_ghosts +
            psum (fun c => occ (w ((env r).neighbors (r_dir_of dir))) (send_cell gc dir c)) c + i))
          (shifted (env ((env r).neighbors (r_dir_of dir))) dir
            (ghost_rec ((w ((env r).neighbors (r_dir_of dir))).particles
              (slot_of (w ((env r).neighbors (r_dir_of dir))) (send_cell gc dir c) i))))) ∧
    (∀ s : Int, s < (w r).n_particles + (w r).n_ghosts ∨
        (w r).n_particles + (w r).n_ghosts +
          psum (fun c => occ (w ((env r).neighbors (r_dir_of dir))) (send_cell gc dir c))
            (gc.n_send_cells dir) ≤ s →
      (exchange_ghost_sweep env gc w dir r).particles s = (w r).particles s) ∧
    (∀ y : Int, (∀ c : Int, 0 ≤ c → c < gc.n_send_cells dir → recv_cell gc dir c ≠ y) →
      (exchange_ghost_sweep env gc w dir r).cells y = (w r).cells y) ∧
    (∀ c : Int, 0 ≤ c → c < gc.n_send_cells dir →
      occ (exchange_ghost_sweep env gc w dir r) (recv_cell gc dir c) =
        occ (w ((env r).neighbors (r_dir_of dir))) (send_cell gc dir c) ∧
      ∀ i : Int, 0 ≤ i → i < occ (w ((env r).neighbors (r_dir_of dir))) (send_cell gc dir c) →
        slot_of (exchange_ghost_sweep env gc w dir r) (recv_cell gc dir c) i =
          (w r).n_particles + (w r).n_ghosts +
            psum (fun c => occ (w ((env r).neighbors (r_dir_of dir))) (send_cell gc dir c)) c
            + i) := by
  obtain ⟨hsrc, _, hself⟩ := processGrid_src env ranks hg r hr dir
  generalize hq : (env r).neighbors (r_dir_of dir) = q at hsrc hself ⊢
  obtain ⟨p1, _, p3, _⟩ := ghost_prepare_spec (env r) gc (w r) dir hC hCM (hocc r hr)
  obtain ⟨q1, q2, q3, q4⟩ := ghost_prepare_spec (env q) gc (w q) dir hC hCM (hocc q hsrc)
  obtain ⟨t1, t2, t3, t4, _, t6, t7, t8, t9⟩ := send_ghosts_transfer (env r) gc
    (ghost_prepare (env r) gc (w r) dir) (ghost_prepare (env q) gc (w q) dir) dir
    (by
      intro h
      have := hself (by rw [h, (hg r hr).1])
      rw [this])
    hM
  have hexp : exchange_ghost_sweep env gc w dir r =
      ghost_unpack gc (send_ghosts (env r) gc (ghost_prepare (env r) gc (w r) dir) dir
        (ghost_msg (ghost_prepare (env q) gc (w q) dir))) dir := by
    unfold exchange_ghost_sweep
    rw [hq]
  generalize hR : send_ghosts (env r) gc (ghost_prepare (env r) gc (w r) dir) dir
      (ghost_msg (ghost_prepare (env q) gc (w q) dir)) = R at t1 t2 t3 t4 t6 t7 t8 t9 hexp
  have hcnt : ∀ c : Int, 0 ≤ c → c < gc.n_send_cells dir →
      R.n_recv_ghosts c = occ (w q) (send_cell gc dir c) := by
    intro c h0 h1
    rw [t8 c h0 (by omega), q2 c h0 h1]
  have hps : ∀ c : Int, c ≤ gc.n_send_cells dir →
      psum R.n_recv_ghosts c = psum (fun c => occ (w q) (send_cell gc dir c)) c := by
    intro c hc
    exact psum_congr _ _ _ (fun i hi0 hi1 => hcnt i hi0 (by omega))
  have hT : R.n_recv_ghosts gc.max_send_cells =
      psum (fun c => occ (w q) (send_cell gc dir c)) (gc.n_send_cells dir) := by
    rw [t8 _ hM (le_refl _), q3]
  obtain ⟨u1, u2, u3, u4, u5, u6, u7, u8⟩ := ghost_unpack_spec gc R dir (by rw [hCeq]; exact hC)
    (by intro c h0 h1; rw [hCeq] at h1; rw [hcnt c h0 h1]; exact hocc q hsrc c h0 h1) hdist
  rw [hCeq] at u5 u6 u7 u8
  have hRp : R.particles = (w r).particles := t1.trans p1.1
  have hRn : R.n_particles = (w r).n_particles := t2.trans p1.2.1
  have hRg : R.n_ghosts = (w r).n_ghosts := t3.trans p1.2.2.1
  have hRc : R.cells = (w r).cells := t4.trans p1.2.2.2.1
  rw [hexp]
  refine ⟨u1.trans hRn, by rw [u2, hRg, hT], ?_, ?_, ?_, ?_, ?_, ?_⟩
  · rw [u3, t6, p3, p1.2.2.2.2.2.1]
  · rw [u4, t7, q3, p1.2.2.2.2.2.2]
  · intro c i hc0 hc1 hi0 hi1
    have h := u5 c i hc0 hc1 hi0 (by rw [hcnt c hc0 hc1]; exact hi1)
    rw [hps c (by omega), hRn, hRg, hRp] at h
    rw [h]
    have hlt : psum (fun c => occ (w q) (send_cell gc dir c)) c + i <
        psum (fun c => occ (w q) (send_cell gc dir c)) (gc.n_send_cells dir) := by
      have h1 := psum_succ (fun c => occ (w q) (send_cell gc dir c)) c hc0
      have h2 := psum_mono (fun c => occ (w q) (send_cell gc dir c)) (c + 1) (gc.n_send_cells dir)
        (by omega) (by omega) (fun j hj1 hj2 => hocc q hsrc j (by omega) hj2)
      simp only at h1
      omega
    have hge : 0 ≤ psum (fun c => occ (w q) (send_cell gc dir c)) c + i := by
      have := psum_nonneg (fun c => occ (w q) (send_cell gc dir c)) c hc0
        (fun j hj0 hj1 => hocc q hsrc j hj0 (by omega))
      omega
    rw [t9 _ hge (by rw [q3]; exact hlt), q4 c i hc0 hc1 hi0 hi1]
  · intro s hs
    rw [u6 s (by rw [hps _ (le_refl _), hRn, hRg]; exact hs), hRp]
  · intro y hy
    rw [u7 y hy, hRc]
  · intro c hc0 hc1
    obtain ⟨o1, o2⟩ := u8 c hc0 hc1
    refine ⟨by rw [o1, hcnt c hc0 hc1], ?_⟩
    intro i hi0 hi1
    rw [o2 i hi0 (by rw [hcnt c hc0 hc1]; exact hi1), hps c (by omega), hRn, hRg]
theorem mem_recv_list (gc : GhostCells) (dir : Fin 6) (x : Int) :
    x ∈ recv_list gc dir ↔ ∃ c : Int, 0 ≤ c ∧ c < gc.n_recv_cells dir ∧ recv_cell gc dir c = x := by
  unfold recv_list
  simp only [List.mem_map, List.mem_range]
  constructor
  · rintro ⟨k, hk, rfl⟩
    exact ⟨k, by omega, by omega, rfl⟩
  · rintro ⟨c, h0, h1, rfl⟩
    exact ⟨c.toNat, by omega, by rw [Int.toNat_of_nonneg h0]⟩

theorem mem_send_list (gc : GhostCells) (dir : Fin 6) (x : Int) :
    x ∈ send_list gc dir ↔ ∃ c : Int, 0 ≤ c ∧ c < gc.n_send_cells dir ∧ send_cell gc dir c = x := by
  unfold send_list
  simp only [List.mem_map, List.mem_range]
  constructor
  · rintro ⟨k, hk, rfl⟩
    exact ⟨k, by omega, by omega, rfl⟩
  · rintro ⟨c, h0, h1, rfl⟩
    exact ⟨c.toNat, by omega, by rw [Int.toNat_of_nonneg h0]⟩

theorem recv_list_inj (gc : GhostCells) (dir : Fin 6) (h : (recv_list gc dir).Nodup)
    (c c' : Int) (h0 : 0 ≤ c) (h1 : c < gc.n_recv_cells dir) (h0' : 0 ≤ c')
    (h1' : c' < gc.n_recv_cells dir) (e : recv_cell gc dir c = recv_cell gc dir c') : c = c' := by
  have hinj := List.inj_on_of_nodup_map h (x := c.toNat) (by simp; omega) (y := c'.toNat)
    (by simp; omega) (by simp only [Int.toNat_of_nonneg h0, Int.toNat_of_nonneg h0']; exact e)
  omega

theorem exchange_ghost_release_spec {F : Type} (st : State F) :
    (exchange_ghost_release st).particles = st.particles ∧
    (exchange_ghost_release st).n_particles = st.n_particles ∧
    (exchange_ghost_release st).n_ghosts = 0 ∧
    (exchange_ghost_release st).cells = st.cells := by
  unfold exchange_ghost_release
  dsimp only
  by_cases hn : 0 ≤ st.n_ghosts
  swap
  · rw [forLoop_empty _ _ _ _ (by omega)]
    exact ⟨rfl, rfl, rfl, rfl⟩
  have h := forLoop_induct st.n_particles (st.n_particles + st.n_ghosts)
    (fun n (acc : State F) =>
      { acc with
        local_index := Function.update acc.local_index (acc.particles n).identity (-1) }) st
    (fun _ acc => acc.particles = st.particles ∧ acc.n_particles = st.n_particles ∧
      acc.cells = st.cells) ⟨rfl, rfl, rfl⟩
    (fun n acc _ _ ih => ih) (by omega)
  exact ⟨h.1, h.2.1, rfl, h.2.2⟩

theorem exchange_ghost_finish_spec {F : Type} (st : State F) :
    (exchange_ghost_finish st).particles = st.particles ∧
    (exchange_ghost_finish st).n_particles = st.n_particles ∧
    (exchange_ghost_finish st).n_ghosts = st.n_ghosts ∧
    (exchange_ghost_finish st).cells = st.cells := by
  unfold exchange_ghost_finish
  split_ifs <;> exact ⟨rfl, rfl, rfl, rfl⟩

theorem haloGrows_refl {F : Type} (gc : GhostCells) (a : State F) : HaloGrows gc a a :=
  ⟨rfl, le_refl _, fun _ _ => rfl, fun _ _ => rfl⟩

theorem haloGrows_trans {F : Type} (gc : GhostCells) (a b c : State F)
    (h1 : HaloGrows gc a b) (h2 : HaloGrows gc b c) : HaloGrows gc a c := by
  obtain ⟨a1, a2, a3, a4⟩ := h1
  obtain ⟨b1, b2, b3, b4⟩ := h2
  refine ⟨b1.trans a1, le_trans a2 b2, ?_, ?_⟩
  · intro s hs
    rw [b3 s (by rw [a1]; omega), a3 s hs]
  · intro y hy
    rw [b4 y hy, a4 y hy]

/-! ### Geometry of the cell lists of `ghost_init` -/

theorem offset_decode (n1 n2 k : Int) :
    (k / n2 / n1 * n1 + k / n2 % n1) * n2 + k % n2 = k := by
  rw [Int.ediv_add_emod' (k / n2) n1, Int.ediv_add_emod' k n2]

/-- In a valid box that fits, `sub_grid_indices` returns the box size, stores at
`start + k` the lattice index of the `k`-th box point and leaves the rest of `list`
alone. -/
theorem sub_grid_indices_fill (gli : Int → Int → Int → Int → Int → Int → Int)
    (list : Int → Int) (start max : Int) (lc hc gs : Fin 3 → Int)
    (hv : BoxValid lc hc gs) (hfit : start + boxSize lc hc ≤ max) :
    (sub_grid_indices gli list start max lc hc gs).ret = boxSize lc hc ∧
    (∀ k : Int, 0 ≤ k → k < boxSize lc hc →
      InBoxP lc hc (decode_in lc hc k) ∧
      (sub_grid_indices gli list start max lc hc gs).list (start + k) =
        gli (decode_in lc hc k 0) (decode_in lc hc k 1) (decode_in lc hc k 2)
          (gs 0) (gs 1) (gs 2)) ∧
    (∀ j : Int, j < start ∨ start + boxSize lc hc ≤ j →
      (sub_grid_indices gli list start max lc hc gs).list j = list j) := by
  have hsane : ¬ (([0, 1, 2] : List (Fin 3)).any (sub_grid_insane lc hc gs) = true) := by
    rw [sub_grid_insane_iff]; exact fun h => h hv
  have hsz : ¬ (boxSize lc hc + start > max) := by omega
  obtain ⟨_, b2, b3⟩ := sub_grid_loops_block gli max lc hc gs (fun i => (hv i).2.1)
    { i := start, list := list, overflow := [] }
  have hbs : (hc 0 + 1 - lc 0) * ((hc 1 + 1 - lc 1) * ((hc 2 + 1 - lc 2) * 1)) =
      boxSize lc hc := by simp [boxSize]; ring
  simp only [sub_grid_indices, sub_grid_size_eq, if_neg hsane, if_neg hsz]
  refine ⟨trivial, ?_, ?_⟩
  · intro k hk0 hk1
    have n1 : 0 < hc 1 + 1 - lc 1 := by have := (hv 1).2.1; omega
    have n2 : 0 < hc 2 + 1 - lc 2 := by have := (hv 2).2.1; omega
    have d0 : 0 ≤ k / (hc 2 + 1 - lc 2) / (hc 1 + 1 - lc 1) :=
      Int.ediv_nonneg (Int.ediv_nonneg hk0 (le_of_lt n2)) (le_of_lt n1)
    have d0' : k / (hc 2 + 1 - lc 2) / (hc 1 + 1 - lc 1) < hc 0 + 1 - lc 0 := by
      apply Int.ediv_lt_of_lt_mul n1
      apply Int.ediv_lt_of_lt_mul n2
      unfold boxSize at hk1
      exact hk1
    have d1 := Int.emod_nonneg (k / (hc 2 + 1 - lc 2)) (ne_of_gt n1)
    have d1' := Int.emod_lt_of_pos (k / (hc 2 + 1 - lc 2)) n1
    have d2 := Int.emod_nonneg k (ne_of_gt n2)
    have d2' := Int.emod_lt_of_pos k n2
    have hin : InBoxP lc hc (decode_in lc hc k) := by
      intro i
      fin_cases i
      · simp [decode_in]; omega
      · simp [decode_in]; omega
      · simp [decode_in]; omega
    refine ⟨hin, ?_⟩
    have := b3 (decode_in lc hc k 0) (hin 0).1 (by have := (hin 0).2; omega)
      (decode_in lc hc k 1) (hin 1).1 (by have := (hin 1).2; omega)
      (decode_in lc hc k 2) (hin 2).1 (by have := (hin 2).2; omega)
    simp only at this
    rw [← this]
    congr 1
    have e := offset_decode (hc 1 + 1 - lc 1) (hc 2 + 1 - lc 2) k
    simp [decode_in]
    linear_combination -e
  · intro j hj
    refine b2 j ?_
    simp only [hbs]
    exact hj
theorem init_box_lo (i : Fin 3) (lr : Fin 2) (lcA done : Fin 3 → Int) (x : Int)
    (hd : ∀ j : Fin 3, done j = if j.val < i.val then 1 else 0) :
    Function.update (Function.update (Function.update lcA (i + 1) (1 - done (i + 1)))
      (i + 2) (1 - done (i + 2))) i x = layer_lo (dir_of i lr) x := by
  funext j
  unfold layer_lo
  rw [axis_of_dir_of]
  fin_cases i <;> fin_cases j <;> simp [hd, Function.update]

theorem init_box_hi (cg : Fin 3 → Int) (i : Fin 3) (lr : Fin 2) (hcA done : Fin 3 → Int)
    (x : Int) (hd : ∀ j : Fin 3, done j = if j.val < i.val then 1 else 0) :
    Function.update (Function.update (Function.update hcA (i + 1) (cg (i + 1) + done (i + 1)))
      (i + 2) (cg (i + 2) + done (i + 2))) i x = layer_hi cg (dir_of i lr) x := by
  funext j
  unfold layer_hi
  rw [axis_of_dir_of]
  fin_cases i <;> fin_cases j <;> simp [hd, Function.update]

theorem layer_size (cg : Fin 3 → Int) (d : Fin 6) (x : Int) :
    boxSize (layer_lo d x) (layer_hi cg d x) = init_anz cg (axis_of d) := by
  fin_cases d <;> simp [boxSize, layer_lo, layer_hi, axis_of, init_anz] <;> ring

theorem layer_valid (cg gcg : Fin 3 → Int) (hcg : ∀ i : Fin 3, 1 ≤ cg i)
    (hgcg : ∀ i : Fin 3, gcg i = cg i + 2) (d : Fin 6) (x : Int) (hx0 : 0 ≤ x)
    (hx1 : x ≤ cg (axis_of d) + 1) :
    BoxValid (layer_lo d x) (layer_hi cg d x) gcg := by
  intro j
  have := hcg j
  rw [hgcg j]
  unfold layer_lo layer_hi
  by_cases hj : j = axis_of d
  · subst hj
    simp only [if_true]
    omega
  · simp only [if_neg hj]
    split_ifs <;> omega

theorem axis_of_cases (d : Fin 6) (i : Fin 3) (h : axis_of d = i) :
    d = dir_of i 0 ∨ d = dir_of i 1 := by
  subst h
  fin_cases d <;> simp [axis_of, dir_of]

theorem init_anz_pos (cg : Fin 3 → Int) (hcg : ∀ i : Fin 3, 1 ≤ cg i) (i : Fin 3) :
    0 < init_anz cg i := by
  have h0 := hcg 0
  have h1 := hcg 1
  have h2 := hcg 2
  fin_cases i <;> simp [init_anz] <;> positivity
theorem send_layer_lo (cg : Fin 3 → Int) (i : Fin 3) : send_layer cg (dir_of i 0) = 1 := by
  unfold send_layer
  rw [if_pos (by simp [dir_of])]

theorem send_layer_hi (cg : Fin 3 → Int) (i : Fin 3) : send_layer cg (dir_of i 1) = cg i := by
  unfold send_layer
  rw [if_neg (by simp [dir_of]; omega), axis_of_dir_of]

theorem recv_layer_lo (cg : Fin 3 → Int) (i : Fin 3) :
    recv_layer cg (dir_of i 0) = cg i + 1 := by
  unfold recv_layer
  rw [if_pos (by simp [dir_of]), axis_of_dir_of]

theorem recv_layer_hi (cg : Fin 3 → Int) (i : Fin 3) : recv_layer cg (dir_of i 1) = 0 := by
  unfold recv_layer
  rw [if_neg (by simp [dir_of]; omega)]

/-- The four `sub_grid_indices` calls of one pass of the direction loop of `ghost_init`,
with their boxes written as layers. -/
theorem ghost_init_body_eq (gli : Int → Int → Int → Int → Int → Int → Int)
    (cg gcg : Fin 3 → Int) (cs : Fin 6 → Int) (ntot : Int) (i : Fin 3) (s : InitLoop)
    (hd : ∀ j : Fin 3, s.done j = if j.val < i.val then 1 else 0) :
    (ghost_init_body gli cg gcg cs ntot i s).done = Function.update s.done i 1 ∧
    (ghost_init_body gli cg gcg cs ntot i s).n_send_cells =
      Function.update (Function.update s.n_send_cells (dir_of i 0)
        (sub_grid_indices gli s.send_cells (cs (dir_of i 0)) ntot
          (layer_lo (dir_of i 0) (send_layer cg (dir_of i 0)))
          (layer_hi cg (dir_of i 0) (send_layer cg (dir_of i 0))) gcg).ret)
        (dir_of i 1)
        (sub_grid_indices gli
          (sub_grid_indices gli s.send_cells (cs (dir_of i 0)) ntot
            (layer_lo (dir_of i 0) (send_layer cg (dir_of i 0)))
            (layer_hi cg (dir_of i 0) (send_layer cg (dir_of i 0))) gcg).list
          (cs (dir_of i 1)) ntot
          (layer_lo (dir_of i 1) (send_layer cg (dir_of i 1)))
          (layer_hi cg (dir_of i 1) (send_layer cg (dir_of i 1))) gcg).ret ∧
    (ghost_init_body gli cg gcg cs ntot i s).n_recv_cells =
      Function.update (Function.update s.n_recv_cells (dir_of i 1)
        (sub_grid_indices gli s.recv_cells (cs (dir_of i 1)) ntot
          (layer_lo (dir_of i 1) (recv_layer cg (dir_of i 1)))
          (layer_hi cg (dir_of i 1) (recv_layer cg (dir_of i 1))) gcg).ret)
        (dir_of i 0)
        (sub_grid_indices gli
          (sub_grid_indices gli s.recv_cells (cs (dir_of i 1)) ntot
            (layer_lo (dir_of i 1) (recv_layer cg (dir_of i 1)))
            (layer_hi cg (dir_of i 1) (recv_layer cg (dir_of i 1))) gcg).list
          (cs (dir_of i 0)) ntot
          (layer_lo (dir_of i 0) (recv_layer cg (dir_of i 0)))
          (layer_hi cg (dir_of i 0) (recv_layer cg (dir_of i 0))) gcg).ret ∧
    (ghost_init_body gli cg gcg cs ntot i s).send_cells =
      (sub_grid_indices gli
        (sub_grid_indices gli s.send_cells (cs (dir_of i 0)) ntot
          (layer_lo (dir_of i 0) (send_layer cg (dir_of i 0)))
          (layer_hi cg (dir_of i 0) (send_layer cg (dir_of i 0))) gcg).list
        (cs (dir_of i 1)) ntot
        (layer_lo (dir_of i 1) (send_layer cg (dir_of i 1)))
        (layer_hi cg (dir_of i 1) (send_layer cg (dir_of i 1))) gcg).list ∧
    (ghost_init_body gli cg gcg cs ntot i s).recv_cells =
      (sub_grid_indices gli
        (sub_grid_indices gli s.recv_cells (cs (dir_of i 1)) ntot
          (layer_lo (dir_of i 1) (recv_layer cg (dir_of i 1)))
          (layer_hi cg (dir_of i 1) (recv_layer cg (dir_of i 1))) gcg).list
        (cs (dir_of i 0)) ntot
        (layer_lo (dir_of i 0) (recv_layer cg (dir_of i 0)))
        (layer_hi cg (dir_of i 0) (recv_layer cg (dir_of i 0))) gcg).list := by
  rw [send_layer_lo, send_layer_hi, recv_layer_lo, recv_layer_hi]
  rw [← init_box_lo i 0 s.lc s.done 1 hd, ← init_box_hi cg i 0 s.hc s.done 1 hd,
    ← init_box_lo i 1 s.lc s.done 0 hd, ← init_box_hi cg i 1 s.hc s.done 0 hd,
    ← init_box_lo i 1 s.lc s.done (cg i) hd, ← init_box_hi cg i 1 s.hc s.done (cg i) hd,
    ← init_box_lo i 0 s.lc s.done (cg i + 1) hd,
    ← init_box_hi cg i 0 s.hc s.done (cg i + 1) hd]
  unfold ghost_init_body
  simp only [Function.update_idem, and_self]
theorem dir_of_ne (i : Fin 3) : dir_of i 0 ≠ dir_of i 1 := by
  intro h
  have := congrArg Fin.val h
  simp [dir_of] at this

/-- One pass of the direction loop of `ghost_init` adds the lists of its two directions and
keeps those of the axes before it. -/
theorem ghost_init_body_lists (gli : Int → Int → Int → Int → Int → Int → Int)
    (cg gcg : Fin 3 → Int) (cs : Fin 6 → Int) (ntot : Int)
    (hcg : ∀ i : Fin 3, 1 ≤ cg i) (hgcg : ∀ i : Fin 3, gcg i = cg i + 2)
    (i : Fin 3) (s : InitLoop) (h : ListsUpTo gli cg gcg cs i.val s)
    (hcs0 : cs (dir_of i 0) + init_anz cg i = cs (dir_of i 1))
    (hcs1 : cs (dir_of i 1) + init_anz cg i ≤ ntot)
    (hprev : ∀ d : Fin 6, (axis_of d).val < i.val →
      cs d + init_anz cg (axis_of d) ≤ cs (dir_of i 0)) :
    ListsUpTo gli cg gcg cs (i.val + 1) (ghost_init_body gli cg gcg cs ntot i s) := by
  obtain ⟨e1, e2, e3, e4, e5⟩ := ghost_init_body_eq gli cg gcg cs ntot i s h.done
  have hA := init_anz_pos cg hcg i
  have hci := hcg i
  have hsz : ∀ (lr : Fin 2) (x : Int),
      boxSize (layer_lo (dir_of i lr) x) (layer_hi cg (dir_of i lr) x) = init_anz cg i := by
    intro lr x
    rw [layer_size, axis_of_dir_of]
  have hval : ∀ (lr : Fin 2) (x : Int), 0 ≤ x → x ≤ cg i + 1 →
      BoxValid (layer_lo (dir_of i lr) x) (layer_hi cg (dir_of i lr) x) gcg := by
    intro lr x h0 h1
    exact layer_valid cg gcg hcg hgcg (dir_of i lr) x h0 (by rw [axis_of_dir_of]; exact h1)
  have hs0 := send_layer_lo cg i
  have hs1 := send_layer_hi cg i
  have hr0 := recv_layer_lo cg i
  have hr1 := recv_layer_hi cg i
  obtain ⟨a1, a2, a3⟩ := sub_grid_indices_fill gli s.send_cells (cs (dir_of i 0)) ntot
    (layer_lo (dir_of i 0) (send_layer cg (dir_of i 0)))
    (layer_hi cg (dir_of i 0) (send_layer cg (dir_of i 0))) gcg
    (hval 0 _ (by omega) (by omega)) (by rw [hsz]; omega)
  obtain ⟨b1, b2, b3⟩ := sub_grid_indices_fill gli
    (sub_grid_indices gli s.send_cells (cs (dir_of i 0)) ntot
      (layer_lo (dir_of i 0) (send_layer cg (dir_of i 0)))
      (layer_hi cg (dir_of i 0) (send_layer cg (dir_of i 0))) gcg).list
    (cs (dir_of i 1)) ntot
    (layer_lo (dir_of i 1) (send_layer cg (dir_of i 1)))
    (layer_hi cg (dir_of i 1) (send_layer cg (dir_of i 1))) gcg
    (hval 1 _ (by omega) (by omega)) (by rw [hsz]; omega)
  obtain ⟨c1, c2, c3⟩ := sub_grid_indices_fill gli s.recv_cells (cs (dir_of i 1)) ntot
    (layer_lo (dir_of i 1) (recv_layer cg (dir_of i 1)))
    (layer_hi cg (dir_of i 1) (recv_layer cg (dir_of i 1))) gcg
    (hval 1 _ (by omega) (by omega)) (by rw [hsz]; omega)
  obtain ⟨d1, d2, d3⟩ := sub_grid_indices_fill gli
    (sub_grid_indices gli s.recv_cells (cs (dir_of i 1)) ntot
      (layer_lo (dir_of i 1) (recv_layer cg (dir_of i 1)))
      (layer_hi cg (dir_of i 1) (recv_layer cg (dir_of i 1))) gcg).list
    (cs (dir_of i 0)) ntot
    (layer_lo (dir_of i 0) (recv_layer cg (dir_of i 0)))
    (layer_hi cg (dir_of i 0) (recv_layer cg (dir_of i 0))) gcg
    (hval 0 _ (by omega) (by omega)) (by rw [hsz]; omega)
  rw [hsz] at a1 a2 a3 b1 b2 b3 c1 c2 c3 d1 d2 d3
  have hne := dir_of_ne i
  have hold : ∀ d : Fin 6, (axis_of d).val < i.val + 1 → ¬ (axis_of d).val < i.val →
      d = dir_of i 0 ∨ d = dir_of i 1 := by
    intro d h1 h2
    exact axis_of_cases d i (Fin.ext (by omega))
  have hnot : ∀ d : Fin 6, (axis_of d).val < i.val → d ≠ dir_of i 0 ∧ d ≠ dir_of i 1 := by
    intro d hd
    constructor
    · rintro rfl
      rw [axis_of_dir_of] at hd
      omega
    · rintro rfl
      rw [axis_of_dir_of] at hd
      omega
  refine ⟨?_, ?_, ?_, ?_, ?_⟩
  · intro j
    rw [e1]
    by_cases hj : j = i
    · subst hj
      rw [Function.update_same, if_pos (by omega)]
    · have : j.val ≠ i.val := fun e => hj (Fin.ext e)
      rw [Function.update_noteq hj, h.done j]
      by_cases hlt : j.val < i.val
      · rw [if_pos hlt, if_pos (by omega)]
      · rw [if_neg hlt, if_neg (by omega)]
  · intro d hd
    rw [e2]
    by_cases hlt : (axis_of d).val < i.val
    · rw [Function.update_noteq (hnot d hlt).2, Function.update_noteq (hnot d hlt).1]
      exact h.n_send d hlt
    · rcases hold d hd hlt with rfl | rfl
      · rw [Function.update_noteq hne, Function.update_same, a1, axis_of_dir_of]
      · rw [Function.update_same, b1, axis_of_dir_of]
  · intro d hd
    rw [e3]
    by_cases hlt : (axis_of d).val < i.val
    · rw [Function.update_noteq (hnot d hlt).1, Function.update_noteq (hnot d hlt).2]
      exact h.n_recv d hlt
    · rcases hold d hd hlt with rfl | rfl
      · rw [Function.update_same, d1, axis_of_dir_of]
      · rw [Function.update_noteq hne.symm, Function.update_same, c1, axis_of_dir_of]
  · intro d hd m hm0 hm1
    rw [e4]
    by_cases hlt : (axis_of d).val < i.val
    · have := hprev d hlt
      rw [b3 _ (Or.inl (by omega)), a3 _ (Or.inl (by omega))]
      exact h.send d hlt m hm0 hm1
    · rcases hold d hd hlt with rfl | rfl
      · rw [axis_of_dir_of] at hm1
        rw [b3 _ (Or.inl (by omega))]
        exact (a2 m hm0 hm1).2
      · rw [axis_of_dir_of] at hm1
        exact (b2 m hm0 hm1).2
  · intro d hd m hm0 hm1
    rw [e5]
    by_cases hlt : (axis_of d).val < i.val
    · have := hprev d hlt
      rw [d3 _ (Or.inl (by omega)), c3 _ (Or.inl (by omega))]
      exact h.recv d hlt m hm0 hm1
    · rcases hold d hd hlt with rfl | rfl
      · rw [axis_of_dir_of] at hm1
        exact (d2 m hm0 hm1).2
      · rw [axis_of_dir_of] at hm1
        rw [d3 _ (Or.inr (by omega))]
        exact (c2 m hm0 hm1).2
theorem axis_of_lits : axis_of 0 = 0 ∧ axis_of 1 = 0 ∧ axis_of 2 = 1 ∧ axis_of 3 = 1 ∧
    axis_of 4 = 2 ∧ axis_of 5 = 2 := by decide

theorem ghost_init_cell_start (gli : Int → Int → Int → Int → Int → Int → Int)
    (cg gcg : Fin 3 → Int) (send0 recv0 : Int → Int) (lc0 hc0 : Fin 3 → Int)
    (hgcg : ∀ i : Fin 3, gcg i = cg i + 2) :
    (ghost_init_cells gli cg gcg send0 recv0 lc0 hc0).cell_start = init_start cg := by
  obtain ⟨a0, a1, a2, a3, a4, a5⟩ := axis_of_lits
  funext d
  unfold ghost_init_cells init_start
  simp only [List.foldl]
  fin_cases d <;> simp [init_anz, Function.update, a0, a1, a2, a3, a4, a5, hgcg] <;> ring
theorem init_start_lo (cg : Fin 3 → Int) (i : Fin 3) :
    init_start cg (dir_of i 0) + init_anz cg i = init_start cg (dir_of i 1) := by
  unfold init_start
  rw [axis_of_dir_of, axis_of_dir_of]
  have h0 : ¬ ((dir_of i 0).val % 2 = 1) := by simp [dir_of]
  have h1 : (dir_of i 1).val % 2 = 1 := by simp [dir_of]; omega
  rw [if_neg h0, if_pos h1]
  ring

theorem init_start_hi (cg : Fin 3 → Int) (hcg : ∀ i : Fin 3, 1 ≤ cg i) (i : Fin 3) :
    init_start cg (dir_of i 1) + init_anz cg i ≤
      2 * (init_anz cg 0 + init_anz cg 1 + init_anz cg 2) := by
  have p0 := init_anz_pos cg hcg 0
  have p1 := init_anz_pos cg hcg 1
  have p2 := init_anz_pos cg hcg 2
  unfold init_start
  rw [axis_of_dir_of]
  have h1 : (dir_of i 1).val % 2 = 1 := by simp [dir_of]; omega
  rw [if_pos h1]
  fin_cases i <;> simp <;> omega

theorem init_start_prev (cg : Fin 3 → Int) (hcg : ∀ i : Fin 3, 1 ≤ cg i) (i : Fin 3)
    (d : Fin 6) (hd : (axis_of d).val < i.val) :
    init_start cg d + init_anz cg (axis_of d) ≤ init_start cg (dir_of i 0) := by
  have p0 := init_anz_pos cg hcg 0
  have p1 := init_anz_pos cg hcg 1
  have p2 := init_anz_pos cg hcg 2
  obtain ⟨a0, a1, a2, a3, a4, a5⟩ := axis_of_lits
  unfold init_start
  rw [axis_of_dir_of]
  have h0 : ¬ ((dir_of i 0).val % 2 = 1) := by simp [dir_of]
  rw [if_neg h0]
  fin_cases i <;> fin_cases d <;> simp [a0, a1, a2, a3, a4, a5] at hd ⊢ <;> omega

/-- The cell lists built by `ghost_init` for `cell_grid >= 1` and
`ghost_cell_grid = cell_grid + 2`: every direction has `anz[d/2]` send cells and as many
recv cells, and entry `m` of a list is the lattice index of the `m`-th point of its
layer. -/
theorem ghost_init_cells_spec (gli : Int → Int → Int → Int → Int → Int → Int)
    (cg gcg : Fin 3 → Int) (send0 recv0 : Int → Int) (lc0 hc0 : Fin 3 → Int)
    (hcg : ∀ i : Fin 3, 1 ≤ cg i) (hgcg : ∀ i : Fin 3, gcg i = cg i + 2) :
    (ghost_init_cells gli cg gcg send0 recv0 lc0 hc0).cell_start = init_start cg ∧
    (∀ i : Fin 3, init_anz cg i ≤
      (ghost_init_cells gli cg gcg send0 recv0 lc0 hc0).max_send_cells) ∧
    (∀ d : Fin 6, (ghost_init_cells gli cg gcg send0 recv0 lc0 hc0).n_send_cells d =
      init_anz cg (axis_of d)) ∧
    (∀ d : Fin 6, (ghost_init_cells gli cg gcg send0 recv0 lc0 hc0).n_recv_cells d =
      init_anz cg (axis_of d)) ∧
    (∀ (d : Fin 6) (m : Int), 0 ≤ m → m < init_anz cg (axis_of d) →
      (ghost_init_cells gli cg gcg send0 recv0 lc0 hc0).send_cells (init_start cg d + m) =
        gli
          (decode_in (layer_lo d (send_layer cg d)) (layer_hi cg d (send_layer cg d)) m 0)
          (decode_in (layer_lo d (send_layer cg d)) (layer_hi cg d (send_layer cg d)) m 1)
          (decode_in (layer_lo d (send_layer cg d)) (layer_hi cg d (send_layer cg d)) m 2)
          (gcg 0) (gcg 1) (gcg 2)) ∧
    (∀ (d : Fin 6) (m : Int), 0 ≤ m → m < init_anz cg (axis_of d) →
      (ghost_init_cells gli cg gcg send0 recv0 lc0 hc0).recv_cells (init_start cg d + m) =
        gli
          (decode_in (layer_lo d (recv_layer cg d)) (layer_hi cg d (recv_layer cg d)) m 0)
          (decode_in (layer_lo d (recv_layer cg d)) (layer_hi cg d (recv_layer cg d)) m 1)
          (decode_in (layer_lo d (recv_layer cg d)) (layer_hi cg d (recv_layer cg d)) m 2)
          (gcg 0) (gcg 1) (gcg 2)) := by
  have hcs := ghost_init_cell_start gli cg gcg send0 recv0 lc0 hc0 hgcg
  have hnt : 2 * (![cg 1 * cg 2, cg 2 * gcg 0, gcg 0 * gcg 1] 0 +
      ![cg 1 * cg 2, cg 2 * gcg 0, gcg 0 * gcg 1] 1 +
      ![cg 1 * cg 2, cg 2 * gcg 0, gcg 0 * gcg 1] 2) =
      2 * (init_anz cg 0 + init_anz cg 1 + init_anz cg 2) := by
    simp [init_anz, hgcg]
  have h0 : ListsUpTo gli cg gcg (init_start cg) (0 : Fin 3).val
      { lc := lc0, hc := hc0, done := fun _ => 0, n_send_cells := fun _ => 0,
        n_recv_cells := fun _ => 0, send_cells := send0, recv_cells := recv0 } :=
    ⟨fun j => by simp, fun d hd => absurd hd (by simp), fun d hd => absurd hd (by simp),
      fun d hd => absurd hd (by simp), fun d hd => absurd hd (by simp)⟩
  have h1 := ghost_init_body_lists gli cg gcg (init_start cg)
    (2 * (init_anz cg 0 + init_anz cg 1 + init_anz cg 2)) hcg hgcg 0 _ h0
    (init_start_lo cg 0) (init_start_hi cg hcg 0) (init_start_prev cg hcg 0)
  have h2 := ghost_init_body_lists gli cg gcg (init_start cg)
    (2 * (init_anz cg 0 + init_anz cg 1 + init_anz cg 2)) hcg hgcg 1 _ h1
    (init_start_lo cg 1) (init_start_hi cg hcg 1) (init_start_prev cg hcg 1)
  have h3 := ghost_init_body_lists gli cg gcg (init_start cg)
    (2 * (init_anz cg 0 + init_anz cg 1 + init_anz cg 2)) hcg hgcg 2 _ h2
    (init_start_lo cg 2) (init_start_hi cg hcg 2) (init_start_prev cg hcg 2)
  have hax : ∀ d : Fin 6, (axis_of d).val < (2 : Fin 3).val + 1 := fun d => (axis_of d).isLt
  refine ⟨hcs, ?_, ?_, ?_, ?_, ?_⟩
  · intro i
    unfold ghost_init_cells
    simp only [List.foldl]
    fin_cases i <;> simp [init_anz, hgcg] <;> split_ifs <;> omega
  · intro d
    unfold ghost_init_cells at hcs ⊢
    simp only [List.foldl] at hcs ⊢
    rw [hcs, hnt]
    exact h3.n_send d (hax d)
  · intro d
    unfold ghost_init_cells at hcs ⊢
    simp only [List.foldl] at hcs ⊢
    rw [hcs, hnt]
    exact h3.n_recv d (hax d)
  · intro d m hm0 hm1
    unfold ghost_init_cells at hcs ⊢
    simp only [List.foldl] at hcs ⊢
    rw [hcs, hnt]
    exact h3.send d (hax d) m hm0 hm1
  · intro d m hm0 hm1
    unfold ghost_init_cells at hcs ⊢
    simp only [List.foldl] at hcs ⊢
    rw [hcs, hnt]
    exact h3.recv d (hax d) m hm0 hm1
theorem decode_in_box (lc hc : Fin 3 → Int) (hv : ∀ i : Fin 3, lc i ≤ hc i) (k : Int)
    (hk0 : 0 ≤ k) (hk1 : k < boxSize lc hc) : InBoxP lc hc (decode_in lc hc k) := by
  have n1 : 0 < hc 1 + 1 - lc 1 := by have := hv 1; omega
  have n2 : 0 < hc 2 + 1 - lc 2 := by have := hv 2; omega
  have d0 : 0 ≤ k / (hc 2 + 1 - lc 2) / (hc 1 + 1 - lc 1) :=
    Int.ediv_nonneg (Int.ediv_nonneg hk0 (le_of_lt n2)) (le_of_lt n1)
  have d0' : k / (hc 2 + 1 - lc 2) / (hc 1 + 1 - lc 1) < hc 0 + 1 - lc 0 := by
    apply Int.ediv_lt_of_lt_mul n1
    apply Int.ediv_lt_of_lt_mul n2
    unfold boxSize at hk1
    exact hk1
  have d1 := Int.emod_nonneg (k / (hc 2 + 1 - lc 2)) (ne_of_gt n1)
  have d1' := Int.emod_lt_of_pos (k / (hc 2 + 1 - lc 2)) n1
  have d2 := Int.emod_nonneg k (ne_of_gt n2)
  have d2' := Int.emod_lt_of_pos k n2
  intro i
  fin_cases i
  · simp [decode_in]; omega
  · simp [decode_in]; omega
  · simp [decode_in]; omega

theorem decode_in_inj (lc hc : Fin 3 → Int) (k k1 : Int)
    (h : decode_in lc hc k = decode_in lc hc k1) : k = k1 := by
  have h0 := congrFun h 0
  have h1 := congrFun h 1
  have h2 := congrFun h 2
  simp [decode_in] at h0 h1 h2
  have e := offset_decode (hc 1 + 1 - lc 1) (hc 2 + 1 - lc 2) k
  have e1 := offset_decode (hc 1 + 1 - lc 1) (hc 2 + 1 - lc 2) k1
  rw [h0, h1, h2] at e
  rw [← e, e1]

/-- No lattice point lies in the recv layers of two directions. -/
theorem recv_layers_disjoint (cg : Fin 3 → Int) (hcg : ∀ i : Fin 3, 1 ≤ cg i)
    (d d1 : Fin 6) (hne : d ≠ d1) (p : Fin 3 → Int)
    (hp : InBoxP (layer_lo d (recv_layer cg d)) (layer_hi cg d (recv_layer cg d)) p)
    (hp1 : InBoxP (layer_lo d1 (recv_layer cg d1)) (layer_hi cg d1 (recv_layer cg d1)) p) :
    False := by
  obtain ⟨a0, a1, a2, a3, a4, a5⟩ := axis_of_lits
  have c0 := hcg 0
  have c1 := hcg 1
  have c2 := hcg 2
  have x0 := hp 0
  have x1 := hp 1
  have x2 := hp 2
  have y0 := hp1 0
  have y1 := hp1 1
  have y2 := hp1 2
  fin_cases d <;> fin_cases d1 <;>
    simp [layer_lo, layer_hi, recv_layer, a0, a1, a2, a3, a4, a5] at hne x0 x1 x2 y0 y1 y2 <;>
    omega

/-- No lattice point of the send layer of direction `d` lies in the recv layer of `d` or of
a later direction. -/
theorem send_recv_layers_disjoint (cg : Fin 3 → Int) (hcg : ∀ i : Fin 3, 1 ≤ cg i)
    (d d1 : Fin 6) (hle : d ≤ d1) (p : Fin 3 → Int)
    (hp : InBoxP (layer_lo d (send_layer cg d)) (layer_hi cg d (send_layer cg d)) p)
    (hp1 : InBoxP (layer_lo d1 (recv_layer cg d1)) (layer_hi cg d1 (recv_layer cg d1)) p) :
    False := by
  obtain ⟨a0, a1, a2, a3, a4, a5⟩ := axis_of_lits
  have c0 := hcg 0
  have c1 := hcg 1
  have c2 := hcg 2
  have x0 := hp 0
  have x1 := hp 1
  have x2 := hp 2
  have y0 := hp1 0
  have y1 := hp1 1
  have y2 := hp1 2
  fin_cases d <;> fin_cases d1 <;>
    simp [layer_lo, layer_hi, recv_layer, send_layer, a0, a1, a2, a3, a4, a5]
      at hle x0 x1 x2 y0 y1 y2 <;>
    omega
theorem layer_in_lattice (cg gcg : Fin 3 → Int) (hcg : ∀ i : Fin 3, 1 ≤ cg i)
    (hgcg : ∀ i : Fin 3, gcg i = cg i + 2) (d : Fin 6) (x : Int) (hx0 : 0 ≤ x)
    (hx1 : x ≤ cg (axis_of d) + 1) (p : Fin 3 → Int)
    (hp : InBoxP (layer_lo d x) (layer_hi cg d x) p) (i : Fin 3) : 0 ≤ p i ∧ p i < gcg i := by
  have := layer_valid cg gcg hcg hgcg d x hx0 hx1 i
  have := hp i
  omega

theorem send_layer_range (cg : Fin 3 → Int) (hcg : ∀ i : Fin 3, 1 ≤ cg i) (d : Fin 6) :
    0 ≤ send_layer cg d ∧ send_layer cg d ≤ cg (axis_of d) + 1 := by
  have := hcg (axis_of d)
  unfold send_layer
  split_ifs <;> omega

theorem recv_layer_range (cg : Fin 3 → Int) (hcg : ∀ i : Fin 3, 1 ≤ cg i) (d : Fin 6) :
    0 ≤ recv_layer cg d ∧ recv_layer cg d ≤ cg (axis_of d) + 1 := by
  have := hcg (axis_of d)
  unfold recv_layer
  split_ifs <;> omega

/-- The cell lists `ghost_init` builds for any `cell_grid >= 1` with
`ghost_cell_grid = cell_grid + 2` and a one-to-one lattice mapping keep the directions
apart, as the exchange routines need. -/
theorem ghost_init_haloCells (gli : Int → Int → Int → Int → Int → Int → Int)
    (cg gcg : Fin 3 → Int) (send0 recv0 : Int → Int) (lc0 hc0 : Fin 3 → Int)
    (hcg : ∀ i : Fin 3, 1 ≤ cg i) (hgcg : ∀ i : Fin 3, gcg i = cg i + 2)
    (hinj : LatticeInj gli gcg) :
    HaloCells (ghost_init_cells gli cg gcg send0 recv0 lc0 hc0) := by
  obtain ⟨hcs, hmax, hns, hnr, hsend, hrecv⟩ :=
    ghost_init_cells_spec gli cg gcg send0 recv0 lc0 hc0 hcg hgcg
  generalize ghost_init_cells gli cg gcg send0 recv0 lc0 hc0 = gc at hcs hmax hns hnr hsend hrecv
  have hpos := init_anz_pos cg hcg
  have hrpt : ∀ (d : Fin 6) (x : Int), x ∈ recv_list gc d →
      ∃ p : Fin 3 → Int,
        InBoxP (layer_lo d (recv_layer cg d)) (layer_hi cg d (recv_layer cg d)) p ∧
        x = gli (p 0) (p 1) (p 2) (gcg 0) (gcg 1) (gcg 2) := by
    intro d x hx
    obtain ⟨c, h0, h1, rfl⟩ := (mem_recv_list gc d x).1 hx
    rw [hnr] at h1
    refine ⟨_, decode_in_box _ _
      (fun i => (layer_valid cg gcg hcg hgcg d _ (recv_layer_range cg hcg d).1
        (recv_layer_range cg hcg d).2 i).2.1) c h0 (by rw [layer_size]; exact h1), ?_⟩
    unfold recv_cell
    rw [hcs]
    exact hrecv d c h0 h1
  have hspt : ∀ (d : Fin 6) (x : Int), x ∈ send_list gc d →
      ∃ p : Fin 3 → Int,
        InBoxP (layer_lo d (send_layer cg d)) (layer_hi cg d (send_layer cg d)) p ∧
        x = gli (p 0) (p 1) (p 2) (gcg 0) (gcg 1) (gcg 2) := by
    intro d x hx
    obtain ⟨c, h0, h1, rfl⟩ := (mem_send_list gc d x).1 hx
    rw [hns] at h1
    refine ⟨_, decode_in_box _ _
      (fun i => (layer_valid cg gcg hcg hgcg d _ (send_layer_range cg hcg d).1
        (send_layer_range cg hcg d).2 i).2.1) c h0 (by rw [layer_size]; exact h1), ?_⟩
    unfold send_cell
    rw [hcs]
    exact hsend d c h0 h1
  have hrl : ∀ (d : Fin 6) (p : Fin 3 → Int),
      InBoxP (layer_lo d (recv_layer cg d)) (layer_hi cg d (recv_layer cg d)) p →
      ∀ i : Fin 3, 0 ≤ p i ∧ p i < gcg i :=
    fun d p hp => layer_in_lattice cg gcg hcg hgcg d _ (recv_layer_range cg hcg d).1
      (recv_layer_range cg hcg d).2 p hp
  have hsl : ∀ (d : Fin 6) (p : Fin 3 → Int),
      InBoxP (layer_lo d (send_layer cg d)) (layer_hi cg d (send_layer cg d)) p →
      ∀ i : Fin 3, 0 ≤ p i ∧ p i < gcg i :=
    fun d p hp => layer_in_lattice cg gcg hcg hgcg d _ (send_layer_range cg hcg d).1
      (send_layer_range cg hcg d).2 p hp
  refine ⟨⟨?_, ?_⟩, ?_, ?_⟩
  · have := hmax 0
    have := hpos 0
    omega
  · intro d
    have := hmax (axis_of d)
    have := hpos (axis_of d)
    refine ⟨by rw [hns]; omega, by rw [hns]; omega, by rw [hns, hnr], ?_⟩
    unfold recv_list
    refine List.Nodup.map_on ?_ (List.nodup_range _)
    intro a ha b hb e
    rw [List.mem_range, hnr] at ha hb
    unfold recv_cell at e
    rw [hcs, hrecv d a (by omega) (by omega), hrecv d b (by omega) (by omega)] at e
    have hva : ∀ i : Fin 3, layer_lo d (recv_layer cg d) i ≤ layer_hi cg d (recv_layer cg d) i :=
      fun i => (layer_valid cg gcg hcg hgcg d _ (recv_layer_range cg hcg d).1
        (recv_layer_range cg hcg d).2 i).2.1
    have pa := decode_in_box _ _ hva (a : Int) (by omega) (by rw [layer_size]; omega)
    have pb := decode_in_box _ _ hva (b : Int) (by omega) (by rw [layer_size]; omega)
    have := decode_in_inj _ _ _ _ (hinj _ _ (hrl d _ pa) (hrl d _ pb) e)
    omega
  · intro d d1 hne x hx hx1
    obtain ⟨p, hp, rfl⟩ := hrpt d x hx
    obtain ⟨q, hq, e⟩ := hrpt d1 _ hx1
    have := hinj _ _ (hrl d p hp) (hrl d1 q hq) e
    subst this
    exact recv_layers_disjoint cg hcg d d1 hne p hp hq
  · intro d d1 hle x hx hx1
    obtain ⟨p, hp, rfl⟩ := hspt d x hx
    obtain ⟨q, hq, e⟩ := hrpt d1 _ hx1
    have := hinj _ _ (hsl d p hp) (hrl d1 q hq) e
    subst this
    exact send_recv_layers_disjoint cg hcg d d1 hle p hp hq

theorem lattice_index_inj (gs : Fin 3 → Int) : LatticeInj lattice_index gs := by
  intro p q hp hq e
  unfold lattice_index at e
  have p0 := hp 0
  have p1 := hp 1
  have p2 := hp 2
  have q0 := hq 0
  have q1 := hq 1
  have q2 := hq 2
  have key : ∀ (a b n x y : Int), 0 ≤ a → a < n → 0 ≤ b → b < n → a + n * x = b + n * y →
      a = b ∧ x = y := by
    intro a b n x y ha0 ha1 hb0 hb1 h
    have hxy : x = y := by
      rcases lt_trichotomy x y with hlt | heq | hgt
      · have : n * (x + 1) ≤ n * y := mul_le_mul_of_nonneg_left (by omega) (by omega)
        have : n * (x + 1) = n * x + n := by ring
        omega
      · exact heq
      · have : n * (y + 1) ≤ n * x := mul_le_mul_of_nonneg_left (by omega) (by omega)
        have : n * (y + 1) = n * y + n := by ring
        omega
    subst hxy
    exact ⟨by omega, rfl⟩
  obtain ⟨e0, e12⟩ := key (p 0) (q 0) (gs 0) _ _ p0.1 p0.2 q0.1 q0.2 e
  obtain ⟨e1, e2⟩ := key (p 1) (q 1) (gs 1) _ _ p1.1 p1.2 q1.1 q1.2 e12
  funext i
  fin_cases i
  · exact e0
  · exact e1
  · exact e2

/-- The cell lists of every cell grid `cg >= 1` (with the row-major lattice mapping) keep
the directions apart. -/
theorem cells_of_grid_haloCells (cg : Fin 3 → Int) (hcg : ∀ i : Fin 3, 1 ≤ cg i) :
    HaloCells (cells_of_grid cg) :=
  ghost_init_haloCells lattice_index cg (fun i => cg i + 2) _ _ _ _ hcg (fun _ => rfl)
    (lattice_index_inj _)

/-! ### The halo built by `exchange_ghost` -/

theorem countsOK_occ {F : Type} (gc : GhostCells) (st : State F) (h : CountsOK gc st)
    (dir : Fin 6) (c : Int) (h0 : 0 ≤ c) (h1 : c < gc.n_send_cells dir) :
    0 ≤ occ st (send_cell gc dir c) :=
  h dir _ ((mem_send_list gc dir _).2 ⟨c, h0, h1, rfl⟩)

/-- One sweep of `exchange_ghost` keeps the counts usable and only adds ghost slots. -/
theorem exchange_ghost_sweep_grows {F : Type} [LinearOrderedCommRing F] (env : Int → Env F)
    (ranks : Finset Int) (hg : ProcessGrid env ranks) (gc : GhostCells) (hok : CellsOK gc)
    (w : Int → State F) (hinv : ∀ q ∈ ranks, 0 ≤ (w q).n_ghosts ∧ CountsOK gc (w q))
    (dir : Fin 6) :
    (∀ q ∈ ranks, 0 ≤ (exchange_ghost_sweep env gc w dir q).n_ghosts ∧
      CountsOK gc (exchange_ghost_sweep env gc w dir q)) ∧
    ∀ q ∈ ranks, HaloGrows gc (w q) (exchange_ghost_sweep env gc w dir q) := by
  obtain ⟨hM, hdirs⟩ := hok
  obtain ⟨hC, hCM, hCeq, hnd⟩ := hdirs dir
  have hocc : ∀ q ∈ ranks, ∀ c : Int, 0 ≤ c → c < gc.n_send_cells dir →
      0 ≤ occ (w q) (send_cell gc dir c) :=
    fun q hq c h0 h1 => countsOK_occ gc (w q) (hinv q hq).2 dir c h0 h1
  have hspec := exchange_ghost_sweep_spec env ranks hg gc w dir hM hC hCM hCeq
    (recv_list_inj gc dir hnd) hocc
  have hT : ∀ q ∈ ranks, 0 ≤ psum (fun c => occ (w ((env q).neighbors (r_dir_of dir)))
      (send_cell gc dir c)) (gc.n_send_cells dir) := by
    intro q hq
    exact psum_nonneg _ _ hC (fun i h0 h1 =>
      hocc _ ((hg q hq).2 (r_dir_of dir)).1 i h0 h1)
  constructor
  · intro q hq
    obtain ⟨_, s2, _, _, _, _, s7, s8⟩ := hspec q hq
    refine ⟨by rw [s2]; have := hT q hq; have := (hinv q hq).1; omega, ?_⟩
    intro d x hx
    by_cases hin : x ∈ recv_list gc dir
    · obtain ⟨c, h0, h1, rfl⟩ := (mem_recv_list gc dir x).1 hin
      rw [hCeq] at h1
      rw [(s8 c h0 h1).1]
      exact hocc _ ((hg q hq).2 (r_dir_of dir)).1 c h0 h1
    · have : (exchange_ghost_sweep env gc w dir q).cells x = (w q).cells x := by
        apply s7
        intro c h0 h1 e
        exact hin ((mem_recv_list gc dir x).2 ⟨c, h0, by rw [hCeq]; exact h1, e⟩)
      unfold occ
      rw [this]
      exact (hinv q hq).2 d x hx
  · intro q hq
    obtain ⟨s1, s2, _, _, _, s6, s7, _⟩ := hspec q hq
    refine ⟨s1, by rw [s2]; have := hT q hq; omega, fun s hs => s6 s (Or.inl hs), ?_⟩
    intro y hy
    apply s7
    intro c h0 h1 e
    exact hy dir ((mem_recv_list gc dir y).2 ⟨c, h0, by rw [hCeq]; exact h1, e⟩)

/-- Any sequence of sweeps of `exchange_ghost` keeps the counts usable and only adds ghost
slots. -/
theorem exchange_ghost_sweeps_grow {F : Type} [LinearOrderedCommRing F] (env : Int → Env F)
    (ranks : Finset Int) (hg : ProcessGrid env ranks) (gc : GhostCells) (hok : CellsOK gc)
    (ds : List (Fin 6)) (w : Int → State F)
    (hinv : ∀ q ∈ ranks, 0 ≤ (w q).n_ghosts ∧ CountsOK gc (w q)) :
    (∀ q ∈ ranks,
      0 ≤ (ds.foldl (fun w1 dir => exchange_ghost_sweep env gc w1 dir) w q).n_ghosts ∧
      CountsOK gc (ds.foldl (fun w1 dir => exchange_ghost_sweep env gc w1 dir) w q)) ∧
    ∀ q ∈ ranks, HaloGrows gc (w q)
      (ds.foldl (fun w1 dir => exchange_ghost_sweep env gc w1 dir) w q) := by
  induction ds generalizing w with
  | nil => exact ⟨hinv, fun q _ => haloGrows_refl gc (w q)⟩
  | cons d ds ih =>
    obtain ⟨i1, g1⟩ := exchange_ghost_sweep_grows env ranks hg gc hok w hinv d
    obtain ⟨i2, g2⟩ := ih (exchange_ghost_sweep env gc w d) i1
    exact ⟨i2, fun q hq => haloGrows_trans gc _ _ _ (g1 q hq) (g2 q hq)⟩
/-- C4 (amended): after `exchange_ghost()`, for every rank `r`, every direction `dir` and the
rank `r' = neighbors[r_dir]` whose message `r` receives in sweep `dir`: every particle of `r'`
in a slot below `n_particles` that is listed in an inner send cell of direction `dir` (the
boundary layer of `r'` toward `r`) has a ghost slot `m` on `r`,
`n_particles <= m < n_particles + n_ghosts`, with its identity and with its position plus
`boundary[dir]` of `r'` on axis `dir/2` (at least one such slot; there may be more). -/
theorem exchange_ghost_copies_boundary {F : Type} [LinearOrderedCommRing F]
    (env : Int → Env F) (ranks : Finset Int) (hg : ProcessGrid env ranks) (gc : GhostCells)
    (hok : CellsOK gc) (w : Int → State F) (hcnt : ∀ q ∈ ranks, CountsOK gc (w q))
    (r : Int) (hr : r ∈ ranks) (dir : Fin 6) (c : Int) (hc0 : 0 ≤ c)
    (hc1 : c < gc.n_send_cells dir) (hin : InnerCell gc (send_cell gc dir c))
    (i : Int) (hi0 : 0 ≤ i)
    (hi1 : i < occ (w ((env r).neighbors (r_dir_of dir))) (send_cell gc dir c))
    (hs : slot_of (w ((env r).neighbors (r_dir_of dir))) (send_cell gc dir c) i <
      (w ((env r).neighbors (r_dir_of dir))).n_particles) :
    ∃ m : Int, (exchange_ghost env gc w r).n_particles ≤ m ∧
      m < (exchange_ghost env gc w r).n_particles + (exchange_ghost env gc w r).n_ghosts ∧
      ((exchange_ghost env gc w r).particles m).identity =
        ((w ((env r).neighbors (r_dir_of dir))).particles
          (slot_of (w ((env r).neighbors (r_dir_of dir))) (send_cell gc dir c) i)).identity ∧
      ((exchange_ghost env gc w r).particles m).p =
        Function.update
          ((w ((env r).neighbors (r_dir_of dir))).particles
            (slot_of (w ((env r).neighbors (r_dir_of dir))) (send_cell gc dir c) i)).p
          (axis_of dir)
          (((w ((env r).neighbors (r_dir_of dir))).particles
              (slot_of (w ((env r).neighbors (r_dir_of dir))) (send_cell gc dir c) i)).p
              (axis_of dir)
            + (env ((env r).neighbors (r_dir_of dir))).boundary dir) := by
  have hsrc : (env r).neighbors (r_dir_of dir) ∈ ranks := ((hg r hr).2 (r_dir_of dir)).1
  generalize hq : (env r).neighbors (r_dir_of dir) = q at hsrc hi1 hs ⊢
  have hall : ∀ d : Fin 6, d ∈ ([0, 1, 2, 3, 4, 5] : List (Fin 6)) := by decide
  have hmem := hall dir
  obtain ⟨pre, post, hsplit⟩ := List.append_of_mem hmem
  have hinv0 : ∀ t ∈ ranks, 0 ≤ (exchange_ghost_release (w t)).n_ghosts ∧
      CountsOK gc (exchange_ghost_release (w t)) := by
    intro t ht
    obtain ⟨_, _, e3, e4⟩ := exchange_ghost_release_spec (w t)
    refine ⟨by rw [e3], ?_⟩
    intro d x hx
    unfold occ
    rw [e4]
    exact hcnt t ht d x hx
  obtain ⟨inv1, g1⟩ := exchange_ghost_sweeps_grow env ranks hg gc hok pre
    (fun t => exchange_ghost_release (w t)) hinv0
  obtain ⟨inv2, _⟩ := exchange_ghost_sweep_grows env ranks hg gc hok _ inv1 dir
  obtain ⟨_, g3⟩ := exchange_ghost_sweeps_grow env ranks hg gc hok post _ inv2
  obtain ⟨hM, hdirs⟩ := hok
  obtain ⟨hC, hCM, hCeq, hnd⟩ := hdirs dir
  have hspec := exchange_ghost_sweep_spec env ranks hg gc
    (pre.foldl (fun w1 dir => exchange_ghost_sweep env gc w1 dir)
      (fun t => exchange_ghost_release (w t))) dir hM hC hCM hCeq
    (recv_list_inj gc dir hnd)
    (fun t ht c h0 h1 => countsOK_occ gc _ (inv1 t ht).2 dir c h0 h1) r hr
  rw [hq] at hspec
  generalize hw1 : pre.foldl (fun w1 dir => exchange_ghost_sweep env gc w1 dir)
      (fun t => exchange_ghost_release (w t)) = w1 at inv1 g1 inv2 g3 hspec
  have hW : exchange_ghost env gc w r = exchange_ghost_finish
      (post.foldl (fun w1 dir => exchange_ghost_sweep env gc w1 dir)
        (exchange_ghost_sweep env gc w1 dir) r) := by
    unfold exchange_ghost
    rw [hsplit, List.foldl_append, List.foldl_cons, hw1]
  generalize hw3 : post.foldl (fun w1 dir => exchange_ghost_sweep env gc w1 dir)
      (exchange_ghost_sweep env gc w1 dir) = w3 at g3 hW
  obtain ⟨f2, f1, f3, _⟩ := exchange_ghost_finish_spec (w3 r)
  obtain ⟨r1, r2, r3, r4⟩ := exchange_ghost_release_spec (w q)
  obtain ⟨a1, _, a3, a4⟩ := g1 q hsrc
  have hcell : (w1 q).cells (send_cell gc dir c) = (w q).cells (send_cell gc dir c) := by
    rw [a4 _ hin, r4]
  have hocc1 : occ (w1 q) (send_cell gc dir c) = occ (w q) (send_cell gc dir c) := by
    unfold occ; rw [hcell]
  have hslot1 : slot_of (w1 q) (send_cell gc dir c) i = slot_of (w q) (send_cell gc dir c) i := by
    unfold slot_of; rw [hcell]
  have hpart1 : (w1 q).particles (slot_of (w q) (send_cell gc dir c) i) =
      (w q).particles (slot_of (w q) (send_cell gc dir c) i) := by
    rw [a3 _ (by rw [r2, r3]; omega), r1]
  obtain ⟨s1, s2, _, _, s5, _, _, _⟩ := hspec
  have h5 := s5 c i hc0 hc1 hi0 (by rw [hocc1]; exact hi1)
  rw [hslot1, hpart1] at h5
  obtain ⟨b1, b2, b3, _⟩ := g3 r hr
  have hlt := psum_entry_lt (fun c => occ (w1 q) (send_cell gc dir c)) c (gc.n_send_cells dir) i
    hc0 hc1 (by show i < occ (w1 q) (send_cell gc dir c); rw [hocc1]; exact hi1)
    (fun j h0 h1 => countsOK_occ gc _ (inv1 q hsrc).2 dir j h0 h1)
  have hge := psum_nonneg (fun c => occ (w1 q) (send_cell gc dir c)) c hc0
    (fun j h0 h1 => countsOK_occ gc _ (inv1 q hsrc).2 dir j h0 (by omega))
  have hg1 := (inv1 r hr).1
  have h6 := b3 ((w1 r).n_particles + (w1 r).n_ghosts +
    psum (fun c => occ (w1 q) (send_cell gc dir c)) c + i) (by rw [s1, s2]; omega)
  refine ⟨(w1 r).n_particles + (w1 r).n_ghosts +
    psum (fun c => occ (w1 q) (send_cell gc dir c)) c + i, ?_, ?_, ?_, ?_⟩
  · rw [hW, f1, b1, s1]; omega
  · rw [hW, f1, f3, b1, s1]; rw [s2] at b2; omega
  · rw [hW, f2, h6, h5]
    unfold installed shifted ghost_rec
    split_ifs <;> rfl
  · rw [hW, f2, h6, h5]
    unfold installed shifted ghost_rec
    split_ifs with hb
    · rfl
    · have hb0 : (env q).boundary dir = 0 := by
        by_contra hne
        exact hb hne
      dsimp only
      rw [hb0, add_zero, Function.update_eq_self]
set_option maxRecDepth 1000000 in
/-- C4 (amended) on the 2x1x1 periodic grid with `cell_grid = (1,1,1)`: rank 0 receives in
sweep 1 the message of its neighbour 1, whose particle 5 at x = 1 sits in the inner send
cell 13; rank 0 ends with a ghost slot holding identity 5 at x = 1 - 2. -/
theorem exchange_ghost_copies_boundary_witness :
    ∃ m : Int, 1 ≤ m ∧ m < 1 + 26 ∧
      ((exchange_ghost (grid_env ![2, 1, 1] 1) (cells_of_grid ![1, 1, 1]) pair_world
        0).particles m).identity = 5 ∧
      ((exchange_ghost (grid_env ![2, 1, 1] 1) (cells_of_grid ![1, 1, 1]) pair_world
        0).particles m).p 0 = -1 := by
  obtain ⟨m, h1, h2, h3, h4⟩ := exchange_ghost_copies_boundary (grid_env ![2, 1, 1] 1) {0, 1}
    (by decide) (cells_of_grid ![1, 1, 1]) (cells_of_grid_haloCells ![1, 1, 1] (by decide)).1
    pair_world (by decide!) 0 (by decide)
    1 0 (by decide) (by decide!) (by decide!) 0 (by decide) (by decide!) (by decide!)
  have e1 : (exchange_ghost (grid_env ![2, 1, 1] 1) (cells_of_grid ![1, 1, 1]) pair_world
      0).n_particles = 1 := by decide!
  have e2 : (exchange_ghost (grid_env ![2, 1, 1] 1) (cells_of_grid ![1, 1, 1]) pair_world
      0).n_ghosts = 26 := by decide!
  rw [e1] at h1 h2
  rw [e2] at h2
  refine ⟨m, h1, h2, h3.trans (by decide!), ?_⟩
  rw [h4]
  decide!
/-- One sweep of `exchange_ghost` extends the halo structure by its direction. -/
theorem exchange_ghost_sweep_halo {F : Type} [LinearOrderedCommRing F] (env : Int → Env F)
    (ranks : Finset Int) (hg : ProcessGrid env ranks) (gc : GhostCells) (hgc : HaloCells gc)
    (w : Int → State F) (d : Fin 6) (h : HaloUpTo env ranks gc d.val w) :
    HaloUpTo env ranks gc (d.val + 1) (exchange_ghost_sweep env gc w d) := by
  obtain ⟨hok, hG2, hG3⟩ := hgc
  have hgrow := exchange_ghost_sweep_grows env ranks hg gc hok w
    (fun q hq => ⟨h.ghosts_nonneg q hq, h.counts q hq⟩) d
  obtain ⟨hM, hdirs⟩ := hok
  obtain ⟨hC, hCM, hCeq, hnd⟩ := hdirs d
  have hoccw : ∀ q ∈ ranks, ∀ (d1 : Fin 6) (c : Int), 0 ≤ c → c < gc.n_send_cells d1 →
      0 ≤ occ (w q) (send_cell gc d1 c) :=
    fun q hq d1 c h0 h1 => countsOK_occ gc (w q) (h.counts q hq) d1 c h0 h1
  have hspec := exchange_ghost_sweep_spec env ranks hg gc w d hM hC hCM hCeq
    (recv_list_inj gc d hnd) (fun q hq c h0 h1 => hoccw q hq d c h0 h1)
  have hsrc : ∀ q ∈ ranks, ∀ d1 : Fin 6, (env q).neighbors (r_dir_of d1) ∈ ranks :=
    fun q hq d1 => ((hg q hq).2 (r_dir_of d1)).1
  have hsendcell : ∀ q ∈ ranks, ∀ d1 : Fin 6, d1 ≤ d → ∀ c : Int, 0 ≤ c →
      c < gc.n_send_cells d1 →
      (exchange_ghost_sweep env gc w d q).cells (send_cell gc d1 c) =
        (w q).cells (send_cell gc d1 c) := by
    intro q hq d1 hd c h0 h1
    apply (hspec q hq).2.2.2.2.2.2.1
    intro c1 h01 h11 e
    exact hG3 d1 d hd _ ((mem_send_list gc d1 _).2 ⟨c, h0, h1, rfl⟩)
      ((mem_recv_list gc d _).2 ⟨c1, h01, by rw [hCeq]; exact h11, e⟩)
  have hrecvcell : ∀ q ∈ ranks, ∀ d1 : Fin 6, d1 ≠ d → ∀ c : Int, 0 ≤ c →
      c < gc.n_send_cells d1 →
      (exchange_ghost_sweep env gc w d q).cells (recv_cell gc d1 c) =
        (w q).cells (recv_cell gc d1 c) := by
    intro q hq d1 hd c h0 h1
    apply (hspec q hq).2.2.2.2.2.2.1
    intro c1 h01 h11 e
    exact hG2 d1 d hd _
      ((mem_recv_list gc d1 _).2 ⟨c, h0, by rw [(hdirs d1).2.2.1]; exact h1, rfl⟩)
      ((mem_recv_list gc d _).2 ⟨c1, h01, by rw [hCeq]; exact h11, e⟩)
  have hT : ∀ q ∈ ranks, 0 ≤ psum (fun c => occ (w ((env q).neighbors (r_dir_of d)))
      (send_cell gc d c)) (gc.n_send_cells d) :=
    fun q hq => psum_nonneg _ _ hC (fun i h0 h1 => hoccw _ (hsrc q hq d) d i h0 h1)
  have hsend_lt : ∀ q ∈ ranks, ∀ (d1 : Fin 6) (c i : Int), d1 ≤ d → SendEntry gc (w q) d1 c i →
      slot_of (w q) (send_cell gc d1 c) i < (w q).n_particles + (w q).n_ghosts := by
    intro q hq d1 c i hd hse
    by_cases hlt : d1.val < d.val
    · exact h.send_range q hq d1 c i hlt hse
    · have hd1 : d1 = d := Fin.ext (by have := Fin.le_iff_val_le_val.1 hd; omega)
      subst hd1
      by_cases hin : InnerCell gc (send_cell gc d1 c)
      · have := h.inner_owned q hq d1 c i hse hin
        have := h.ghosts_nonneg q hq
        omega
      · unfold InnerCell at hin
        push_neg at hin
        obtain ⟨d2, hd2⟩ := hin
        have hlt2 : d2.val < d1.val := by
          by_contra hge
          exact hG3 d1 d2 (Fin.le_iff_val_le_val.2 (by omega)) _
            ((mem_send_list gc d1 _).2 ⟨c, hse.1, hse.2.1, rfl⟩) hd2
        obtain ⟨c2, h02, h12, e2⟩ := (mem_recv_list gc d2 _).1 hd2
        rw [(hdirs d2).2.2.1] at h12
        have hre : RecvEntry gc (w q) d2 c2 i := ⟨h02, h12, hse.2.2.1, by rw [e2]; exact hse.2.2.2⟩
        have := (h.recv_range q hq d2 c2 i hlt2 hre).2
        rw [e2] at this
        exact this
  have hnew : ∀ q ∈ ranks, ∀ c i : Int, RecvEntry gc (exchange_ghost_sweep env gc w d q) d c i →
      slot_of (exchange_ghost_sweep env gc w d q) (recv_cell gc d c) i =
        (w q).n_particles + (w q).n_ghosts +
          psum (fun c => occ (w ((env q).neighbors (r_dir_of d))) (send_cell gc d c)) c + i ∧
      i < occ (w ((env q).neighbors (r_dir_of d))) (send_cell gc d c) := by
    intro q hq c i hre
    obtain ⟨o1, o2⟩ := (hspec q hq).2.2.2.2.2.2.2 c hre.1 hre.2.1
    have hi := hre.2.2.2
    rw [o1] at hi
    exact ⟨o2 i hre.2.2.1 hi, hi⟩
  have hold : ∀ q ∈ ranks, ∀ (d1 : Fin 6) (c i : Int), d1 ≠ d →
      RecvEntry gc (exchange_ghost_sweep env gc w d q) d1 c i →
      RecvEntry gc (w q) d1 c i ∧
      slot_of (exchange_ghost_sweep env gc w d q) (recv_cell gc d1 c) i =
        slot_of (w q) (recv_cell gc d1 c) i := by
    intro q hq d1 c i hd hre
    have hc := hrecvcell q hq d1 hd c hre.1 hre.2.1
    unfold RecvEntry occ at hre ⊢
    unfold slot_of
    rw [hc] at hre
    exact ⟨hre, by rw [hc]⟩
  have holds : ∀ q ∈ ranks, ∀ (d1 : Fin 6) (c i : Int), d1 ≤ d →
      SendEntry gc (exchange_ghost_sweep env gc w d q) d1 c i →
      SendEntry gc (w q) d1 c i ∧
      slot_of (exchange_ghost_sweep env gc w d q) (send_cell gc d1 c) i =
        slot_of (w q) (send_cell gc d1 c) i := by
    intro q hq d1 c i hd hse
    have hc := hsendcell q hq d1 hd c hse.1 hse.2.1
    unfold SendEntry occ at hse ⊢
    unfold slot_of
    rw [hc] at hse
    exact ⟨hse, by rw [hc]⟩
  have hnp : ∀ q ∈ ranks, (exchange_ghost_sweep env gc w d q).n_particles = (w q).n_particles :=
    fun q hq => (hspec q hq).1
  have hng : ∀ q ∈ ranks, (exchange_ghost_sweep env gc w d q).n_ghosts = (w q).n_ghosts +
      psum (fun c => occ (w ((env q).neighbors (r_dir_of d))) (send_cell gc d c))
        (gc.n_send_cells d) :=
    fun q hq => (hspec q hq).2.1
  have hrange : ∀ q ∈ ranks, ∀ c i : Int, 0 ≤ c → c < gc.n_send_cells d → 0 ≤ i →
      i < occ (w ((env q).neighbors (r_dir_of d))) (send_cell gc d c) →
      0 ≤ psum (fun c => occ (w ((env q).neighbors (r_dir_of d))) (send_cell gc d c)) c ∧
      psum (fun c => occ (w ((env q).neighbors (r_dir_of d))) (send_cell gc d c)) c + i <
        psum (fun c => occ (w ((env q).neighbors (r_dir_of d))) (send_cell gc d c))
          (gc.n_send_cells d) ∧ 0 ≤ i := by
    intro q hq c i h0 h1 hi0 hi1
    refine ⟨psum_nonneg _ _ h0 (fun j hj0 hj1 => hoccw _ (hsrc q hq d) d j hj0 (by omega)),
      psum_entry_lt _ c _ i h0 h1 hi1 (fun j hj0 hj1 => hoccw _ (hsrc q hq d) d j hj0 hj1), hi0⟩
  have hcase : ∀ d1 : Fin 6, d1.val < d.val + 1 → d1 ≠ d → d1.val < d.val := by
    intro d1 h1 h2
    have : d1.val ≠ d.val := fun e => h2 (Fin.ext e)
    omega
  refine ⟨fun q hq => (hgrow.1 q hq).1, fun q hq => (hgrow.1 q hq).2, ?_, ?_, ?_, ?_, ?_, ?_, ?_⟩
  · intro q hq d1 c i hse hin
    have hcell := (hgrow.2 q hq).2.2.2 _ hin
    unfold SendEntry occ at hse
    rw [hcell] at hse
    unfold slot_of
    rw [hcell, hnp q hq]
    exact h.inner_owned q hq d1 c i hse hin
  · intro q hq d1 hd1 c h0 h1
    by_cases e : d1 = d
    · subst e
      rw [((hspec q hq).2.2.2.2.2.2.2 c h0 h1).1]
      unfold occ
      rw [hsendcell _ (hsrc q hq d1) d1 (le_refl _) c h0 h1]
    · have hlt := hcase d1 hd1 e
      have := h.occ_match q hq d1 hlt c h0 h1
      unfold occ at this ⊢
      rw [hrecvcell q hq d1 e c h0 h1,
        hsendcell _ (hsrc q hq d1) d1 (Fin.le_iff_val_le_val.2 (by omega)) c h0 h1]
      exact this
  · intro q hq d1 hd1
    have hle : d1 ≤ d := Fin.le_iff_val_le_val.2 (by omega)
    have e1 : psum (fun c => occ (exchange_ghost_sweep env gc w d
          ((env q).neighbors (r_dir_of d1))) (send_cell gc d1 c)) (gc.n_send_cells d1) =
        psum (fun c => occ (w ((env q).neighbors (r_dir_of d1))) (send_cell gc d1 c))
          (gc.n_send_cells d1) := by
      apply psum_congr
      intro j hj0 hj1
      unfold occ
      rw [hsendcell _ (hsrc q hq d1) d1 hle j hj0 hj1]
    have e2 : psum (fun c => occ (exchange_ghost_sweep env gc w d q) (send_cell gc d1 c))
          (gc.n_send_cells d1) =
        psum (fun c => occ (w q) (send_cell gc d1 c)) (gc.n_send_cells d1) := by
      apply psum_congr
      intro j hj0 hj1
      unfold occ
      rw [hsendcell _ hq d1 hle j hj0 hj1]
    rw [e1, e2, (hspec q hq).2.2.1, (hspec q hq).2.2.2.1]
    by_cases e : d1 = d
    · subst e
      rw [Function.update_same, Function.update_same]
      exact ⟨rfl, rfl⟩
    · rw [Function.update_noteq e, Function.update_noteq e]
      exact h.sizes q hq d1 (hcase d1 hd1 e)
  · intro q hq d1 c i hd1 hre
    rw [hnp q hq, hng q hq]
    by_cases e : d1 = d
    · subst e
      obtain ⟨e1, e2⟩ := hnew q hq c i hre
      obtain ⟨r1, r2, r3⟩ := hrange q hq c i hre.1 hre.2.1 hre.2.2.1 e2
      have := h.ghosts_nonneg q hq
      rw [e1]
      constructor <;> omega
    · obtain ⟨e1, e2⟩ := hold q hq d1 c i e hre
      obtain ⟨r1, r2⟩ := h.recv_range q hq d1 c i (hcase d1 hd1 e) e1
      have := hT q hq
      rw [e2]
      constructor <;> omega
  · intro q hq d1 c i d2 c2 i2 hd1 hd2 hre1 hre2 hslot
    by_cases e : d1 = d
    · subst e
      obtain ⟨e1, e2⟩ := hnew q hq c i hre1
      obtain ⟨r1, r2, r3⟩ := hrange q hq c i hre1.1 hre1.2.1 hre1.2.2.1 e2
      by_cases e' : d2 = d1
      · subst e'
        obtain ⟨e1', e2'⟩ := hnew q hq c2 i2 hre2
        rw [e1, e1'] at hslot
        have := psum_entry_inj _ (gc.n_send_cells d2) c c2 i i2 hre1.1 hre2.1 hre1.2.1 hre2.2.1
          hre1.2.2.1 e2 hre2.2.2.1 e2'
          (fun j hj0 hj1 => hoccw _ (hsrc q hq d2) d2 j hj0 hj1) (by omega)
        exact ⟨rfl, this.1, this.2⟩
      · obtain ⟨o1, o2⟩ := hold q hq d2 c2 i2 e' hre2
        have := (h.recv_range q hq d2 c2 i2 (hcase d2 hd2 e') o1).2
        rw [e1, o2] at hslot
        omega
    · obtain ⟨o1, o2⟩ := hold q hq d1 c i e hre1
      have hr1 := (h.recv_range q hq d1 c i (hcase d1 hd1 e) o1).2
      by_cases e' : d2 = d
      · subst e'
        obtain ⟨e1', e2'⟩ := hnew q hq c2 i2 hre2
        obtain ⟨r1, r2, r3⟩ := hrange q hq c2 i2 hre2.1 hre2.2.1 hre2.2.2.1 e2'
        rw [e1', o2] at hslot
        omega
      · obtain ⟨o1', o2'⟩ := hold q hq d2 c2 i2 e' hre2
        rw [o2, o2'] at hslot
        exact h.recv_inj q hq d1 c i d2 c2 i2 (hcase d1 hd1 e) (hcase d2 hd2 e') o1 o1' hslot
  · intro q hq d1 c i hd1 hse
    obtain ⟨o1, o2⟩ := holds q hq d1 c i (Fin.le_iff_val_le_val.2 (by omega)) hse
    have := hsend_lt q hq d1 c i (Fin.le_iff_val_le_val.2 (by omega)) o1
    have := hT q hq
    rw [o2, hnp q hq, hng q hq]
    omega
  · intro q hq d1 c i d2 c2 i2 hle hd2 hse hre
    have hd2le : d2 ≤ d := Fin.le_iff_val_le_val.2 (by omega)
    obtain ⟨o1, o2⟩ := holds q hq d1 c i (le_trans hle hd2le) hse
    rw [o2]
    by_cases e' : d2 = d
    · subst e'
      obtain ⟨e1', e2'⟩ := hnew q hq c2 i2 hre
      obtain ⟨r1, r2, r3⟩ := hrange q hq c2 i2 hre.1 hre.2.1 hre.2.2.1 e2'
      have := hsend_lt q hq d1 c i hle o1
      rw [e1']
      omega
    · obtain ⟨o1', o2'⟩ := hold q hq d2 c2 i2 e' hre
      rw [o2']
      exact h.send_recv q hq d1 c i d2 c2 i2 hle (hcase d2 hd2 e') o1 o1'
theorem sameHalo_refl {F : Type} (a : State F) : SameHalo a a := ⟨rfl, rfl, rfl, rfl, rfl⟩

theorem sameHalo_trans {F : Type} (a b c : State F) (h1 : SameHalo a b) (h2 : SameHalo b c) :
    SameHalo a c :=
  ⟨h2.1.trans h1.1, h2.2.1.trans h1.2.1, h2.2.2.1.trans h1.2.2.1, h2.2.2.2.1.trans h1.2.2.2.1,
    h2.2.2.2.2.trans h1.2.2.2.2⟩

theorem sameHalo_symm {F : Type} (a b : State F) (h : SameHalo a b) : SameHalo b a :=
  ⟨h.1.symm, h.2.1.symm, h.2.2.1.symm, h.2.2.2.1.symm, h.2.2.2.2.symm⟩

theorem sameHalo_occ_eq {F : Type} (a b : State F) (h : SameHalo a b) (x : Int) :
    occ b x = occ a x := by
  unfold occ; rw [h.1]

theorem sameHalo_slot_eq {F : Type} (a b : State F) (h : SameHalo a b) (x i : Int) :
    slot_of b x i = slot_of a x i := by
  unfold slot_of; rw [h.1]

/-- The halo structure only depends on the cells, counters and message sizes. -/
theorem haloUpTo_congr {F : Type} (env : Int → Env F) (ranks : Finset Int)
    (hg : ProcessGrid env ranks) (gc : GhostCells) (k : Nat) (w w1 : Int → State F)
    (hw : ∀ q ∈ ranks, SameHalo (w q) (w1 q)) (h : HaloUpTo env ranks gc k w) :
    HaloUpTo env ranks gc k w1 := by
  have hsrc : ∀ q ∈ ranks, ∀ d1 : Fin 6, (env q).neighbors (r_dir_of d1) ∈ ranks :=
    fun q hq d1 => ((hg q hq).2 (r_dir_of d1)).1
  have ho : ∀ q ∈ ranks, ∀ x : Int, occ (w1 q) x = occ (w q) x :=
    fun q hq x => sameHalo_occ_eq _ _ (hw q hq) x
  have hs : ∀ q ∈ ranks, ∀ x i : Int, slot_of (w1 q) x i = slot_of (w q) x i :=
    fun q hq x i => sameHalo_slot_eq _ _ (hw q hq) x i
  have hse : ∀ q ∈ ranks, ∀ (d : Fin 6) (c i : Int), SendEntry gc (w1 q) d c i →
      SendEntry gc (w q) d c i := by
    intro q hq d c i hx
    unfold SendEntry at hx ⊢
    rw [ho q hq] at hx
    exact hx
  have hre : ∀ q ∈ ranks, ∀ (d : Fin 6) (c i : Int), RecvEntry gc (w1 q) d c i →
      RecvEntry gc (w q) d c i := by
    intro q hq d c i hx
    unfold RecvEntry at hx ⊢
    rw [ho q hq] at hx
    exact hx
  refine ⟨?_, ?_, ?_, ?_, ?_, ?_, ?_, ?_, ?_⟩
  · intro q hq
    rw [(hw q hq).2.2.1]
    exact h.ghosts_nonneg q hq
  · intro q hq d x hx
    rw [ho q hq]
    exact h.counts q hq d x hx
  · intro q hq d c i he hin
    rw [hs q hq, (hw q hq).2.1]
    exact h.inner_owned q hq d c i (hse q hq d c i he) hin
  · intro q hq d hd c h0 h1
    rw [ho q hq, ho _ (hsrc q hq d)]
    exact h.occ_match q hq d hd c h0 h1
  · intro q hq d hd
    rw [(hw q hq).2.2.2.1, (hw q hq).2.2.2.2]
    have e1 : psum (fun c => occ (w1 ((env q).neighbors (r_dir_of d))) (send_cell gc d c))
          (gc.n_send_cells d) =
        psum (fun c => occ (w ((env q).neighbors (r_dir_of d))) (send_cell gc d c))
          (gc.n_send_cells d) :=
      psum_congr _ _ _ (fun j _ _ => ho _ (hsrc q hq d) _)
    have e2 : psum (fun c => occ (w1 q) (send_cell gc d c)) (gc.n_send_cells d) =
        psum (fun c => occ (w q) (send_cell gc d c)) (gc.n_send_cells d) :=
      psum_congr _ _ _ (fun j _ _ => ho _ hq _)
    rw [e1, e2]
    exact h.sizes q hq d hd
  · intro q hq d c i hd he
    rw [hs q hq, (hw q hq).2.1, (hw q hq).2.2.1]
    exact h.recv_range q hq d c i hd (hre q hq d c i he)
  · intro q hq d c i d1 c1 i1 hd hd1 he he1 e
    rw [hs q hq, hs q hq] at e
    exact h.recv_inj q hq d c i d1 c1 i1 hd hd1 (hre q hq d c i he) (hre q hq d1 c1 i1 he1) e
  · intro q hq d c i hd he
    rw [hs q hq, (hw q hq).2.1, (hw q hq).2.2.1]
    exact h.send_range q hq d c i hd (hse q hq d c i he)
  · intro q hq d c i d1 c1 i1 hle hd1 he he1
    rw [hs q hq, hs q hq]
    exact h.send_recv q hq d c i d1 c1 i1 hle hd1 (hse q hq d c i he) (hre q hq d1 c1 i1 he1)

/-- `exchange_ghost` builds the halo structure for all six directions. -/
theorem exchange_ghost_halo {F : Type} [LinearOrderedCommRing F] (env : Int → Env F)
    (ranks : Finset Int) (hg : ProcessGrid env ranks) (gc : GhostCells) (hgc : HaloCells gc)
    (w : Int → State F) (hcnt : ∀ q ∈ ranks, CountsOK gc (w q))
    (hown : ∀ q ∈ ranks, InnerOwned gc (w q)) :
    HaloUpTo env ranks gc 6 (exchange_ghost env gc w) := by
  have h0 : HaloUpTo env ranks gc (0 : Fin 6).val (fun q => exchange_ghost_release (w q)) := by
    have hc : ∀ q, (exchange_ghost_release (w q)).cells = (w q).cells :=
      fun q => (exchange_ghost_release_spec (w q)).2.2.2
    refine ⟨?_, ?_, ?_, ?_, ?_, ?_, ?_, ?_, ?_⟩
    · intro q _
      rw [(exchange_ghost_release_spec (w q)).2.2.1]
    · intro q hq d x hx
      unfold occ
      rw [hc]
      exact hcnt q hq d x hx
    · intro q hq d c i he hin
      unfold SendEntry occ at he
      unfold slot_of
      rw [hc] at he ⊢
      rw [(exchange_ghost_release_spec (w q)).2.1]
      have := hown q hq d _ ((mem_send_list gc d _).2 ⟨c, he.1, he.2.1, rfl⟩) hin i.toNat
        (by
          rw [List.mem_range]
          have := he.2.2.2
          have := he.2.2.1
          unfold occ
          omega)
      rw [Int.toNat_of_nonneg he.2.2.1] at this
      exact this
    · intro q _ d hd
      exact absurd hd (by simp)
    · intro q _ d hd
      exact absurd hd (by simp)
    · intro q _ d c i hd
      exact absurd hd (by simp)
    · intro q _ d c i d1 c1 i1 hd
      exact absurd hd (by simp)
    · intro q _ d c i hd
      exact absurd hd (by simp)
    · intro q _ d c i d1 c1 i1 _ hd
      exact absurd hd (by simp)
  have h1 := exchange_ghost_sweep_halo env ranks hg gc hgc _ 0 h0
  have h2 := exchange_ghost_sweep_halo env ranks hg gc hgc _ 1 h1
  have h3 := exchange_ghost_sweep_halo env ranks hg gc hgc _ 2 h2
  have h4 := exchange_ghost_sweep_halo env ranks hg gc hgc _ 3 h3
  have h5 := exchange_ghost_sweep_halo env ranks hg gc hgc _ 4 h4
  have h6 := exchange_ghost_sweep_halo env ranks hg gc hgc _ 5 h5
  refine haloUpTo_congr env ranks hg gc 6 _ _ ?_ h6
  intro q _
  unfold exchange_ghost
  simp only [List.foldl]
  unfold exchange_ghost_finish
  split_ifs <;> exact ⟨rfl, rfl, rfl, rfl, rfl⟩
theorem bufFrame_refl {F : Type} (a : State F) : BufFrame a a := ⟨rfl, sameHalo_refl a, rfl⟩

theorem bufFrame_trans {F : Type} (a b c : State F) (h1 : BufFrame a b) (h2 : BufFrame b c) :
    BufFrame a c :=
  ⟨h2.1.trans h1.1, sameHalo_trans a b c h1.2.1 h2.2.1, h2.2.2.trans h1.2.2⟩

/-- The three stores `send_buf[g+i] = particles[cells[x].particles[n]].p[i]`. -/
theorem pos_store {F : Type} (s : State F) (x n g : Int) :
    BufFrame s (([0, 1, 2] : List (Fin 3)).foldl (fun s i =>
      { s with
        send_buf := Function.update s.send_buf (g + (i.val : Int))
          ((s.particles ((s.cells x).particles n)).p i) }) s) ∧
    (∀ j : Fin 3, (([0, 1, 2] : List (Fin 3)).foldl (fun s i =>
      { s with
        send_buf := Function.update s.send_buf (g + (i.val : Int))
          ((s.particles ((s.cells x).particles n)).p i) }) s).send_buf (g + (j.val : Int)) =
      (s.particles (slot_of s x n)).p j) ∧
    ∀ k : Int, k < g ∨ g + 3 ≤ k → (([0, 1, 2] : List (Fin 3)).foldl (fun s i =>
      { s with
        send_buf := Function.update s.send_buf (g + (i.val : Int))
          ((s.particles ((s.cells x).particles n)).p i) }) s).send_buf k = s.send_buf k := by
  simp only [List.foldl]
  refine ⟨⟨rfl, ⟨rfl, rfl, rfl, rfl, rfl⟩, rfl⟩, ?_, ?_⟩
  · intro j
    unfold slot_of
    fin_cases j <;> simp [Function.update]
  · intro k hk
    have h0 : k ≠ g + ((0 : Fin 3).val : Int) := by simp; omega
    have h1 : k ≠ g + ((1 : Fin 3).val : Int) := by simp; omega
    have h2 : k ≠ g + ((2 : Fin 3).val : Int) := by simp; omega
    rw [Function.update_noteq h2, Function.update_noteq h1, Function.update_noteq h0]
/-- The inner loop of "copy positions to buffer" for one cell `x`. -/
theorem pos_pack_cell {F : Type} (x : Int) (a : Packing F) (cnt : Int) (hcnt : 0 ≤ cnt) :
    (forLoop 0 cnt (fun n (a : Packing F) =>
      ({ st := ([0, 1, 2] : List (Fin 3)).foldl (fun s i =>
          { s with
            send_buf := Function.update s.send_buf (a.g + (i.val : Int))
              ((s.particles ((s.cells x).particles n)).p i) })
          a.st
         g := a.g + 3 } : Packing F)) a).g = a.g + 3 * cnt ∧
    BufFrame a.st (forLoop 0 cnt (fun n (a : Packing F) =>
      ({ st := ([0, 1, 2] : List (Fin 3)).foldl (fun s i =>
          { s with
            send_buf := Function.update s.send_buf (a.g + (i.val : Int))
              ((s.particles ((s.cells x).particles n)).p i) })
          a.st
         g := a.g + 3 } : Packing F)) a).st ∧
    (∀ (n : Int) (j : Fin 3), 0 ≤ n → n < cnt →
      (forLoop 0 cnt (fun n (a : Packing F) =>
        ({ st := ([0, 1, 2] : List (Fin 3)).foldl (fun s i =>
            { s with
              send_buf := Function.update s.send_buf (a.g + (i.val : Int))
                ((s.particles ((s.cells x).particles n)).p i) })
            a.st
           g := a.g + 3 } : Packing F)) a).st.send_buf (a.g + 3 * n + (j.val : Int)) =
        (a.st.particles (slot_of a.st x n)).p j) ∧
    (∀ k : Int, k < a.g →
      (forLoop 0 cnt (fun n (a : Packing F) =>
        ({ st := ([0, 1, 2] : List (Fin 3)).foldl (fun s i =>
            { s with
              send_buf := Function.update s.send_buf (a.g + (i.val : Int))
                ((s.particles ((s.cells x).particles n)).p i) })
            a.st
           g := a.g + 3 } : Packing F)) a).st.send_buf k = a.st.send_buf k) := by
  refine forLoop_induct 0 cnt _ a
    (fun y b => b.g = a.g + 3 * y ∧ BufFrame a.st b.st ∧
      (∀ (n : Int) (j : Fin 3), 0 ≤ n → n < y →
        b.st.send_buf (a.g + 3 * n + (j.val : Int)) = (a.st.particles (slot_of a.st x n)).p j) ∧
      (∀ k : Int, k < a.g → b.st.send_buf k = a.st.send_buf k))
    ?_ ?_ hcnt
  · exact ⟨by simp, bufFrame_refl _, fun n j h0 h1 => by omega, fun k _ => rfl⟩
  · rintro y b hy0 hy1 ⟨h1, h2, h3, h4⟩
    obtain ⟨s1, s2, s3⟩ := pos_store b.st x y b.g
    refine ⟨?_, ?_, ?_, ?_⟩
    · dsimp only; rw [h1]; ring
    · exact bufFrame_trans _ _ _ h2 s1
    · intro n j hn0 hn1
      dsimp only
      by_cases hny : n = y
      · subst hny
        have := s2 j
        rw [h1] at this
        rw [h1, this, h2.1]
        unfold slot_of
        rw [h2.2.1.1]
      · have hj := j.isLt
        rw [s3 _ (Or.inl (by rw [h1]; omega))]
        exact h3 n j hn0 (by omega)
    · intro k hk
      dsimp only
      rw [s3 _ (Or.inl (by rw [h1]; omega))]
      exact h4 k hk

/-- "loop send cells - copy positions to buffer": the positions of the send entries are
laid out in cell order, three doubles each. -/
theorem pos_pack_spec {F : Type} (gc : GhostCells) (st : State F) (dir : Fin 6)
    (hC : 0 ≤ gc.n_send_cells dir)
    (hocc : ∀ c : Int, 0 ≤ c → c < gc.n_send_cells dir → 0 ≤ occ st (send_cell gc dir c)) :
    (pos_pack gc st dir).g =
      3 * psum (fun c => occ st (send_cell gc dir c)) (gc.n_send_cells dir) ∧
    BufFrame st (pos_pack gc st dir).st ∧
    ∀ (c n : Int) (j : Fin 3), 0 ≤ c → c < gc.n_send_cells dir → 0 ≤ n →
      n < occ st (send_cell gc dir c) →
      (pos_pack gc st dir).st.send_buf
          (3 * (psum (fun c => occ st (send_cell gc dir c)) c + n) + (j.val : Int)) =
        (st.particles (slot_of st (send_cell gc dir c) n)).p j := by
  unfold pos_pack
  refine forLoop_induct 0 (gc.n_send_cells dir) _ _
    (fun y (b : Packing F) => b.g = 3 * psum (fun c => occ st (send_cell gc dir c)) y ∧
      BufFrame st b.st ∧
      ∀ (c n : Int) (j : Fin 3), 0 ≤ c → c < y → 0 ≤ n → n < occ st (send_cell gc dir c) →
        b.st.send_buf (3 * (psum (fun c => occ st (send_cell gc dir c)) c + n) + (j.val : Int)) =
          (st.particles (slot_of st (send_cell gc dir c) n)).p j)
    ?_ ?_ hC
  · exact ⟨by simp [psum_zero], bufFrame_refl _, fun c n j h0 h1 => by omega⟩
  · rintro y b hy0 hy1 ⟨h1, h2, h3⟩
    have hoc : (b.st.cells (send_cell gc dir y)).n_particles = occ st (send_cell gc dir y) := by
      unfold occ; rw [h2.2.1.1]
    have hcnt := hocc y hy0 hy1
    obtain ⟨c1, c2, c3, c4⟩ := pos_pack_cell (send_cell gc dir y) b
      (occ st (send_cell gc dir y)) hcnt
    rw [hoc]
    refine ⟨?_, bufFrame_trans _ _ _ h2 c2, ?_⟩
    · rw [c1, h1, psum_succ _ _ hy0]; ring
    · intro c n j hc0 hc1 hn0 hn1
      by_cases hcy : c = y
      · subst hcy
        have := c3 n j hn0 hn1
        rw [h1] at this
        rw [show 3 * (psum (fun c => occ st (send_cell gc dir c)) c + n) + (j.val : Int) =
          3 * psum (fun c => occ st (send_cell gc dir c)) c + 3 * n + (j.val : Int) by ring,
          this, h2.1]
        unfold slot_of
        rw [h2.2.1.1]
      · have hlt := psum_entry_lt (fun c => occ st (send_cell gc dir c)) c y n hc0 (by omega)
          hn1 (fun i hi0 hi1 => hocc i hi0 (by omega))
        have hj := j.isLt
        rw [c4 _ (by rw [h1]; omega)]
        exact h3 c n j hc0 (by omega) hn0 hn1
/-- "fold positions if they cross the boundary": `boundary[dir]` is added to coordinate
`dir/2` of each of the `T` packed positions. -/
theorem pos_fold_spec {F : Type} [LinearOrderedCommRing F] (env : Env F) (u : Packing F)
    (dir : Fin 6) (T : Int) (hT : 0 ≤ T) (hg : u.g = 3 * T) :
    BufFrame u.st (pos_fold env u dir) ∧
    ∀ (k : Int) (j : Fin 3), 0 ≤ k → k < T →
      (pos_fold env u dir).send_buf (3 * k + (j.val : Int)) =
        u.st.send_buf (3 * k + (j.val : Int)) +
          (if j = axis_of dir then env.boundary dir else 0) := by
  unfold pos_fold
  split_ifs with hb
  · unfold forStride3
    have hj := (axis_of dir).isLt
    have hcount : (u.g - ((axis_of dir).val : Int) + 2) / 3 = T := by
      rw [hg]; omega
    rw [hcount]
    have := forLoop_induct 0 T (fun k (acc : State F) =>
        { acc with
          send_buf := Function.update acc.send_buf (((axis_of dir).val : Int) + 3 * k)
            (acc.send_buf (((axis_of dir).val : Int) + 3 * k) + env.boundary dir) }) u.st
      (fun y s => BufFrame u.st s ∧ ∀ (k : Int) (j : Fin 3), 0 ≤ k →
        s.send_buf (3 * k + (j.val : Int)) =
          u.st.send_buf (3 * k + (j.val : Int)) +
            (if k < y ∧ j = axis_of dir then env.boundary dir else 0))
      ⟨bufFrame_refl _, fun k j hk => by
        rw [if_neg (by omega), add_zero]⟩
      (by
        rintro y s hy0 hy1 ⟨f1, f2⟩
        refine ⟨bufFrame_trans _ _ _ f1 ⟨rfl, ⟨rfl, rfl, rfl, rfl, rfl⟩, rfl⟩, ?_⟩
        intro k j hk
        dsimp only
        have hjl := j.isLt
        by_cases hkj : k = y ∧ j = axis_of dir
        · obtain ⟨rfl, rfl⟩ := hkj
          rw [show 3 * k + ((axis_of dir).val : Int) = ((axis_of dir).val : Int) + 3 * k by ring,
            Function.update_same,
            show ((axis_of dir).val : Int) + 3 * k = 3 * k + ((axis_of dir).val : Int) by ring,
            f2 k (axis_of dir) hk, if_neg (by omega), if_pos ⟨by omega, rfl⟩, add_zero]
        · have hne : 3 * k + (j.val : Int) ≠ ((axis_of dir).val : Int) + 3 * y := by
            intro e
            apply hkj
            have hky : k = y := by omega
            refine ⟨hky, Fin.ext ?_⟩
            omega
          rw [Function.update_noteq hne, f2 k j hk]
          by_cases hc : k < y ∧ j = axis_of dir
          · rw [if_pos hc, if_pos ⟨by omega, hc.2⟩]
          · rw [if_neg hc, if_neg]
            rintro ⟨h1, h2⟩
            exact hc ⟨by
              by_contra hge
              exact hkj ⟨by omega, h2⟩, h2⟩)
      hT
    refine ⟨this.1, ?_⟩
    intro k j hk0 hk1
    rw [this.2 k j hk0]
    by_cases hja : j = axis_of dir
    · rw [if_pos ⟨hk1, hja⟩, if_pos hja]
    · rw [if_neg (fun h => hja h.2), if_neg hja]
  · refine ⟨bufFrame_refl _, ?_⟩
    intro k j _ _
    have hb0 : env.boundary dir = 0 := by
      by_contra hne
      exact hb hne
    rw [hb0]
    simp
/-- `send_posforce` with a message of the expected length `L`: the first `L` doubles of
`recv_buf` are the message; particles, cells and counters are not touched. -/
theorem send_posforce_spec {F : Type} (env : Env F) (st : State F) (s_dir : Fin 6)
    (ss L : Int) (msg : PosMsg F) (hlen : msg.len = L)
    (hself : env.neighbors s_dir = env.this_node → msg.buf = st.send_buf) :
    (send_posforce env st s_dir ss L msg).particles = st.particles ∧
    SameHalo st (send_posforce env st s_dir ss L msg) ∧
    ∀ k : Int, 0 ≤ k → k < L → (send_posforce env st s_dir ss L msg).recv_buf k = msg.buf k := by
  unfold send_posforce
  split_ifs with hn
  · simp only [List.foldl]
    have hm : min msg.len L = L := by rw [hlen]; exact min_self L
    split_ifs with h0 h1 h1
    · exfalso; omega
    · refine ⟨rfl, ⟨rfl, rfl, rfl, rfl, rfl⟩, ?_⟩
      intro k hk0 hk1
      dsimp only
      rw [memcpy_apply, hm, if_pos ⟨hk0, by omega⟩, sub_zero]
    · refine ⟨rfl, ⟨rfl, rfl, rfl, rfl, rfl⟩, ?_⟩
      intro k hk0 hk1
      dsimp only
      rw [memcpy_apply, hm, if_pos ⟨hk0, by omega⟩, sub_zero]
    · exfalso; omega
  · refine ⟨rfl, ⟨rfl, rfl, rfl, rfl, rfl⟩, ?_⟩
    intro k _ _
    dsimp only
    have : env.neighbors s_dir = env.this_node := by
      by_contra h
      exact hn h
    rw [hself this]
/-- The three loads `particles[cells[x].particles[n]].p[i] = recv_buf[g+i]`. -/
theorem pos_load {F : Type} (s : State F) (x n g : Int) :
    SameHalo s (([0, 1, 2] : List (Fin 3)).foldl (fun s i =>
      { s with
        particles := Function.update s.particles ((s.cells x).particles n)
          { (s.particles ((s.cells x).particles n)) with
            p := Function.update (s.particles ((s.cells x).particles n)).p
              i (s.recv_buf (g + (i.val : Int))) } }) s) ∧
    (([0, 1, 2] : List (Fin 3)).foldl (fun s i =>
      { s with
        particles := Function.update s.particles ((s.cells x).particles n)
          { (s.particles ((s.cells x).particles n)) with
            p := Function.update (s.particles ((s.cells x).particles n)).p
              i (s.recv_buf (g + (i.val : Int))) } }) s).recv_buf = s.recv_buf ∧
    (([0, 1, 2] : List (Fin 3)).foldl (fun s i =>
      { s with
        particles := Function.update s.particles ((s.cells x).particles n)
          { (s.particles ((s.cells x).particles n)) with
            p := Function.update (s.particles ((s.cells x).particles n)).p
              i (s.recv_buf (g + (i.val : Int))) } }) s).particles (slot_of s x n) =
      with_p (s.particles (slot_of s x n)) (fun j => s.recv_buf (g + (j.val : Int))) ∧
    ∀ m : Int, m ≠ slot_of s x n →
      (([0, 1, 2] : List (Fin 3)).foldl (fun s i =>
        { s with
          particles := Function.update s.particles ((s.cells x).particles n)
            { (s.particles ((s.cells x).particles n)) with
              p := Function.update (s.particles ((s.cells x).particles n)).p
                i (s.recv_buf (g + (i.val : Int))) } }) s).particles m = s.particles m := by
  refine ⟨⟨rfl, rfl, rfl, rfl, rfl⟩, rfl, ?_, ?_⟩
  · unfold slot_of with_p
    simp only [List.foldl, Function.update_same]
    congr 1
    funext j
    fin_cases j <;> simp [Function.update]
  · intro m hm
    unfold slot_of at hm
    simp only [List.foldl, Function.update_noteq hm]
/-- The inner loop of "copy positions from buffer" for one cell `x` with distinct slots. -/
theorem pos_unpack_cell {F : Type} (x : Int) (a : Packing F) (cnt : Int) (hcnt : 0 ≤ cnt)
    (hd : ∀ n n1 : Int, 0 ≤ n → n < cnt → 0 ≤ n1 → n1 < cnt →
      slot_of a.st x n = slot_of a.st x n1 → n = n1) :
    (forLoop 0 cnt (fun n (a : Packing F) =>
      ({ st := ([0, 1, 2] : List (Fin 3)).foldl (fun s i =>
          { s with
            particles := Function.update s.particles ((s.cells x).particles n)
              { (s.particles ((s.cells x).particles n)) with
                p := Function.update (s.particles ((s.cells x).particles n)).p
                  i (s.recv_buf (a.g + (i.val : Int))) } })
          a.st
         g := a.g + 3 } : Packing F)) a).g = a.g + 3 * cnt ∧
    SameHalo a.st (forLoop 0 cnt (fun n (a : Packing F) =>
      ({ st := ([0, 1, 2] : List (Fin 3)).foldl (fun s i =>
          { s with
            particles := Function.update s.particles ((s.cells x).particles n)
              { (s.particles ((s.cells x).particles n)) with
                p := Function.update (s.particles ((s.cells x).particles n)).p
                  i (s.recv_buf (a.g + (i.val : Int))) } })
          a.st
         g := a.g + 3 } : Packing F)) a).st ∧
    (forLoop 0 cnt (fun n (a : Packing F) =>
      ({ st := ([0, 1, 2] : List (Fin 3)).foldl (fun s i =>
          { s with
            particles := Function.update s.particles ((s.cells x).particles n)
              { (s.particles ((s.cells x).particles n)) with
                p := Function.update (s.particles ((s.cells x).particles n)).p
                  i (s.recv_buf (a.g + (i.val : Int))) } })
          a.st
         g := a.g + 3 } : Packing F)) a).st.recv_buf = a.st.recv_buf ∧
    (∀ n : Int, 0 ≤ n → n < cnt →
      (forLoop 0 cnt (fun n (a : Packing F) =>
        ({ st := ([0, 1, 2] : List (Fin 3)).foldl (fun s i =>
            { s with
              particles := Function.update s.particles ((s.cells x).particles n)
                { (s.particles ((s.cells x).particles n)) with
                  p := Function.update (s.particles ((s.cells x).particles n)).p
                    i (s.recv_buf (a.g + (i.val : Int))) } })
            a.st
           g := a.g + 3 } : Packing F)) a).st.particles (slot_of a.st x n) =
        with_p (a.st.particles (slot_of a.st x n))
          (fun j => a.st.recv_buf (a.g + 3 * n + (j.val : Int)))) ∧
    (∀ m : Int, (∀ n : Int, 0 ≤ n → n < cnt → slot_of a.st x n ≠ m) →
      (forLoop 0 cnt (fun n (a : Packing F) =>
        ({ st := ([0, 1, 2] : List (Fin 3)).foldl (fun s i =>
            { s with
              particles := Function.update s.particles ((s.cells x).particles n)
                { (s.particles ((s.cells x).particles n)) with
                  p := Function.update (s.particles ((s.cells x).particles n)).p
                    i (s.recv_buf (a.g + (i.val : Int))) } })
            a.st
           g := a.g + 3 } : Packing F)) a).st.particles m = a.st.particles m) := by
  have key := forLoop_induct 0 cnt (fun n (a : Packing F) =>
      ({ st := ([0, 1, 2] : List (Fin 3)).foldl (fun s i =>
          { s with
            particles := Function.update s.particles ((s.cells x).particles n)
              { (s.particles ((s.cells x).particles n)) with
                p := Function.update (s.particles ((s.cells x).particles n)).p
                  i (s.recv_buf (a.g + (i.val : Int))) } })
          a.st
         g := a.g + 3 } : Packing F)) a
    (fun y (b : Packing F) => y ≤ cnt → (b.g = a.g + 3 * y ∧ SameHalo a.st b.st ∧
      b.st.recv_buf = a.st.recv_buf ∧
      (∀ n : Int, 0 ≤ n → n < y →
        b.st.particles (slot_of a.st x n) =
          with_p (a.st.particles (slot_of a.st x n))
            (fun j => a.st.recv_buf (a.g + 3 * n + (j.val : Int)))) ∧
      (∀ m : Int, (∀ n : Int, 0 ≤ n → n < y → slot_of a.st x n ≠ m) →
        b.st.particles m = a.st.particles m)))
    (fun _ => ⟨by simp, sameHalo_refl _, rfl, fun n h0 h1 => by omega, fun m _ => rfl⟩)
    (by
      intro y b hy0 hy1 ih _
      obtain ⟨h1, h2, h3, h4, h5⟩ := ih (by omega)
      obtain ⟨l1, l2, l3, l4⟩ := pos_load b.st x y b.g
      have hslot : slot_of b.st x y = slot_of a.st x y := sameHalo_slot_eq _ _ h2 x y
      rw [hslot] at l3 l4
      refine ⟨?_, sameHalo_trans _ _ _ h2 l1, l2.trans h3, ?_, ?_⟩
      · dsimp only; rw [h1]; ring
      · intro n hn0 hn1
        dsimp only
        by_cases hny : n = y
        · subst hny
          rw [l3, h3, h1, h5 _ (fun n1 h0 h1' e => by
            have := hd n1 n h0 (by omega) hn0 (by omega) e
            omega)]
        · rw [l4 _ (fun e => hny (hd n y hn0 (by omega) hy0 (by omega) e))]
          exact h4 n hn0 (by omega)
      · intro m hm
        dsimp only
        rw [l4 _ (fun e => hm y hy0 (by omega) e.symm)]
        exact h5 m (fun n h0 h1' => hm n h0 (by omega)))
    hcnt
  exact key (le_refl _)
/-- "loop recv cells - copy positions from buffer": entry `i` of the `c`-th recv cell gets
the position stored at doubles `3 * (psum cnt c + i) ..` of `recv_buf`; nothing else of the
particle array changes. -/
theorem pos_unpack_spec {F : Type} (gc : GhostCells) (st : State F) (dir : Fin 6)
    (hC : 0 ≤ gc.n_recv_cells dir)
    (hocc : ∀ c : Int, 0 ≤ c → c < gc.n_recv_cells dir → 0 ≤ occ st (recv_cell gc dir c))
    (hinj : ∀ c i c1 i1 : Int, 0 ≤ c → c < gc.n_recv_cells dir → 0 ≤ i →
      i < occ st (recv_cell gc dir c) → 0 ≤ c1 → c1 < gc.n_recv_cells dir → 0 ≤ i1 →
      i1 < occ st (recv_cell gc dir c1) →
      slot_of st (recv_cell gc dir c) i = slot_of st (recv_cell gc dir c1) i1 →
      c = c1 ∧ i = i1) :
    SameHalo st (pos_unpack gc st dir) ∧
    (∀ c i : Int, 0 ≤ c → c < gc.n_recv_cells dir → 0 ≤ i → i < occ st (recv_cell gc dir c) →
      (pos_unpack gc st dir).particles (slot_of st (recv_cell gc dir c) i) =
        with_p (st.particles (slot_of st (recv_cell gc dir c) i))
          (fun j => st.recv_buf
            (3 * (psum (fun c => occ st (recv_cell gc dir c)) c + i) + (j.val : Int)))) ∧
    ∀ m : Int, (∀ c i : Int, 0 ≤ c → c < gc.n_recv_cells dir → 0 ≤ i →
        i < occ st (recv_cell gc dir c) → slot_of st (recv_cell gc dir c) i ≠ m) →
      (pos_unpack gc st dir).particles m = st.particles m := by
  unfold pos_unpack
  have key := forLoop_induct 0 (gc.n_recv_cells dir) (fun c (acc : Packing F) =>
      forLoop 0 (acc.st.cells (recv_cell gc dir c)).n_particles (fun n (a : Packing F) =>
        ({ st := ([0, 1, 2] : List (Fin 3)).foldl (fun s i =>
            { s with
              particles := Function.update s.particles
                ((s.cells (recv_cell gc dir c)).particles n)
                { (s.particles ((s.cells (recv_cell gc dir c)).particles n)) with
                  p := Function.update
                    (s.particles ((s.cells (recv_cell gc dir c)).particles n)).p
                    i (s.recv_buf (a.g + (i.val : Int))) } })
            a.st
           g := a.g + 3 } : Packing F)) acc)
    ({ st := st, g := 0 } : Packing F)
    (fun y (b : Packing F) => y ≤ gc.n_recv_cells dir →
      (b.g = 3 * psum (fun c => occ st (recv_cell gc dir c)) y ∧ SameHalo st b.st ∧
      b.st.recv_buf = st.recv_buf ∧
      (∀ c i : Int, 0 ≤ c → c < y → 0 ≤ i → i < occ st (recv_cell gc dir c) →
        b.st.particles (slot_of st (recv_cell gc dir c) i) =
          with_p (st.particles (slot_of st (recv_cell gc dir c) i))
            (fun j => st.recv_buf
              (3 * (psum (fun c => occ st (recv_cell gc dir c)) c + i) + (j.val : Int)))) ∧
      (∀ m : Int, (∀ c i : Int, 0 ≤ c → c < y → 0 ≤ i →
          i < occ st (recv_cell gc dir c) → slot_of st (recv_cell gc dir c) i ≠ m) →
        b.st.particles m = st.particles m)))
    (fun _ => ⟨by simp [psum_zero], sameHalo_refl _, rfl, fun c i h0 h1 => by omega,
      fun m _ => rfl⟩)
    (by
      intro y b hy0 hy1 ih _
      obtain ⟨h1, h2, h3, h4, h5⟩ := ih (by omega)
      have hoc : (b.st.cells (recv_cell gc dir y)).n_particles =
          occ st (recv_cell gc dir y) := by
        unfold occ; rw [h2.1]
      have hsl : ∀ n : Int, slot_of b.st (recv_cell gc dir y) n =
          slot_of st (recv_cell gc dir y) n := fun n => sameHalo_slot_eq _ _ h2 _ n
      have hcnt := hocc y hy0 hy1
      obtain ⟨c1, c2, c3, c4, c5⟩ := pos_unpack_cell (recv_cell gc dir y) b
        (occ st (recv_cell gc dir y)) hcnt
        (by
          intro n n1 hn0 hn1 hn0' hn1' e
          rw [hsl, hsl] at e
          exact (hinj y n y n1 hy0 hy1 hn0 hn1 hy0 hy1 hn0' hn1' e).2)
      beta_reduce
      rw [hoc]
      refine ⟨?_, sameHalo_trans _ _ _ h2 c2, c3.trans h3, ?_, ?_⟩
      · rw [c1, h1, psum_succ _ _ hy0]; ring
      · intro c i hc0 hc1 hi0 hi1
        by_cases hcy : c = y
        · subst hcy
          have := c4 i hi0 hi1
          rw [hsl, h3, h1] at this
          rw [this, h5 _ (fun c' i' h0 h1' h2' h3' e => by
            have := (hinj c' i' c i h0 (by omega) h2' h3' hc0 hy1 hi0 hi1 e).1
            omega)]
          congr 1
          funext j
          congr 1
          ring
        · rw [c5 _ (fun n hn0 hn1 e => by
            rw [hsl] at e
            exact hcy (hinj y n c i hy0 hy1 hn0 hn1 hc0 (by omega) hi0 hi1 e).1.symm)]
          exact h4 c i hc0 (by omega) hi0 hi1
      · intro m hm
        rw [c5 _ (fun n hn0 hn1 e => by
          rw [hsl] at e
          exact hm y n hy0 (by omega) hn0 hn1 e)]
        exact h5 m (fun c i h0 h1' h2' h3' => hm c i h0 (by omega) h2' h3'))
    hC
  obtain ⟨_, k2, _, k4, k5⟩ := key (le_refl _)
  exact ⟨k2, k4, k5⟩
/-- What a rank has in `send_buf` after packing and folding for direction `dir`. -/
theorem pos_prepare_spec {F : Type} [LinearOrderedCommRing F] (env : Env F) (gc : GhostCells)
    (st : State F) (dir : Fin 6) (hC : 0 ≤ gc.n_send_cells dir)
    (hocc : ∀ c : Int, 0 ≤ c → c < gc.n_send_cells dir → 0 ≤ occ st (send_cell gc dir c)) :
    BufFrame st (pos_prepare env gc st dir) ∧
    ∀ (c n : Int) (j : Fin 3), 0 ≤ c → c < gc.n_send_cells dir → 0 ≤ n →
      n < occ st (send_cell gc dir c) →
      (pos_prepare env gc st dir).send_buf
          (3 * (psum (fun c => occ st (send_cell gc dir c)) c + n) + (j.val : Int)) =
        shift_pos env dir (st.particles (slot_of st (send_cell gc dir c) n)).p j := by
  obtain ⟨p1, p2, p3⟩ := pos_pack_spec gc st dir hC hocc
  have hT := psum_nonneg (fun c => occ st (send_cell gc dir c)) (gc.n_send_cells dir) hC hocc
  obtain ⟨f1, f2⟩ := pos_fold_spec env (pos_pack gc st dir) dir _ hT p1
  unfold pos_prepare
  refine ⟨bufFrame_trans _ _ _ p2 f1, ?_⟩
  intro c n j hc0 hc1 hn0 hn1
  have hlt := psum_entry_lt (fun c => occ st (send_cell gc dir c)) c (gc.n_send_cells dir) n
    hc0 hc1 hn1 hocc
  have hge := psum_nonneg (fun c => occ st (send_cell gc dir c)) c hc0
    (fun i h0 h1 => hocc i h0 (by omega))
  rw [f2 _ j (by omega) hlt, p3 c n j hc0 hc1 hn0 hn1]
  unfold shift_pos
  by_cases hj : j = axis_of dir
  · subst hj
    rw [if_pos rfl, Function.update_same]
  · rw [if_neg hj, Function.update_noteq hj, add_zero]
/-- One direction of `update_ghost_pos` on a halo built by `exchange_ghost`: every recv
entry of the direction gets the (shifted) position of the matching send entry of
`neighbors[r_dir]`; no other slot and no cell or counter changes. -/
theorem update_ghost_pos_sweep_spec {F : Type} [LinearOrderedCommRing F] (env : Int → Env F)
    (ranks : Finset Int) (hg : ProcessGrid env ranks) (gc : GhostCells) (hok : CellsOK gc)
    (w : Int → State F) (h : HaloUpTo env ranks gc 6 w) (d : Fin 6) (r : Int)
    (hr : r ∈ ranks) :
    SameHalo (w r) (update_ghost_pos_sweep env gc w d r) ∧
    (∀ c i : Int, RecvEntry gc (w r) d c i →
      (update_ghost_pos_sweep env gc w d r).particles (slot_of (w r) (recv_cell gc d c) i) =
        with_p ((w r).particles (slot_of (w r) (recv_cell gc d c) i))
          (shift_pos (env ((env r).neighbors (r_dir_of d))) d
            ((w ((env r).neighbors (r_dir_of d))).particles
              (slot_of (w ((env r).neighbors (r_dir_of d))) (send_cell gc d c) i)).p)) ∧
    ∀ m : Int, (∀ c i : Int, RecvEntry gc (w r) d c i →
        slot_of (w r) (recv_cell gc d c) i ≠ m) →
      (update_ghost_pos_sweep env gc w d r).particles m = (w r).particles m := by
  obtain ⟨hsrc, _, hself⟩ := processGrid_src env ranks hg r hr d
  obtain ⟨hM, hdirs⟩ := hok
  obtain ⟨hC, hCM, hCeq, hnd⟩ := hdirs d
  have hd6 : d.val < 6 := d.isLt
  have hszr := (h.sizes r hr d hd6).1
  have hocm := h.occ_match r hr d hd6
  have hinj0 := h.recv_inj r hr d
  unfold update_ghost_pos_sweep
  generalize hq : (env r).neighbors (r_dir_of d) = q at hsrc hself hszr hocm ⊢
  have hszq := (h.sizes q hsrc d hd6).2
  have hoccq : ∀ c : Int, 0 ≤ c → c < gc.n_send_cells d → 0 ≤ occ (w q) (send_cell gc d c) :=
    fun c h0 h1 => countsOK_occ gc (w q) (h.counts q hsrc) d c h0 h1
  obtain ⟨p1, _⟩ := pos_prepare_spec (env r) gc (w r) d hC
    (fun c h0 h1 => countsOK_occ gc (w r) (h.counts r hr) d c h0 h1)
  obtain ⟨_, q2⟩ := pos_prepare_spec (env q) gc (w q) d hC hoccq
  obtain ⟨t1, t2, t3⟩ := send_posforce_spec (env r) (pos_prepare (env r) gc (w r) d) d
    (3 * (w r).ghost_send_size d) (3 * (w r).ghost_recv_size d)
    (pos_msg (pos_prepare (env q) gc (w q) d) (3 * (w q).ghost_send_size d))
    (by unfold pos_msg; dsimp only; rw [hszq, hszr])
    (by
      intro hs
      have := hself (by rw [hs, (hg r hr).1])
      unfold pos_msg
      dsimp only
      rw [this])
  generalize hR : send_posforce (env r) (pos_prepare (env r) gc (w r) d) d
    (3 * (w r).ghost_send_size d) (3 * (w r).ghost_recv_size d)
    (pos_msg (pos_prepare (env q) gc (w q) d) (3 * (w q).ghost_send_size d)) = R at t1 t2 t3
  have hwR : SameHalo (w r) R := sameHalo_trans _ _ _ p1.2.1 t2
  have hRp : R.particles = (w r).particles := t1.trans p1.1
  have hoR : ∀ x : Int, occ R x = occ (w r) x := fun x => sameHalo_occ_eq _ _ hwR x
  have hsR : ∀ x i : Int, slot_of R x i = slot_of (w r) x i :=
    fun x i => sameHalo_slot_eq _ _ hwR x i
  have hcnt : ∀ c : Int, 0 ≤ c → c < gc.n_send_cells d →
      occ R (recv_cell gc d c) = occ (w q) (send_cell gc d c) := by
    intro c h0 h1
    rw [hoR, hocm c h0 h1]
  obtain ⟨u1, u2, u3⟩ := pos_unpack_spec gc R d (by rw [hCeq]; exact hC)
    (by
      intro c h0 h1
      rw [hCeq] at h1
      rw [hcnt c h0 h1]
      exact hoccq c h0 h1)
    (by
      intro c i c1 i1 h0 h1 h2 h3 h4 h5 h6 h7 e
      rw [hCeq] at h1 h5
      rw [hoR] at h3 h7
      rw [hsR, hsR] at e
      have := hinj0 c i d c1 i1 hd6 hd6 ⟨h0, h1, h2, h3⟩ ⟨h4, h5, h6, h7⟩ e
      exact ⟨this.2.1, this.2.2⟩)
  rw [hCeq] at u2 u3
  refine ⟨sameHalo_trans _ _ _ hwR u1, ?_, ?_⟩
  · rintro c i ⟨hc0, hc1, hi0, hi1⟩
    have hi1R : i < occ R (recv_cell gc d c) := by rw [hoR]; exact hi1
    have hiq : i < occ (w q) (send_cell gc d c) := by
      rw [← hcnt c hc0 hc1]; exact hi1R
    have := u2 c i hc0 hc1 hi0 hi1R
    rw [hsR, hRp] at this
    rw [this]
    congr 1
    funext j
    have hps : psum (fun c => occ R (recv_cell gc d c)) c =
        psum (fun c => occ (w q) (send_cell gc d c)) c :=
      psum_congr _ _ _ (fun k hk0 hk1 => hcnt k hk0 (by omega))
    have hlt := psum_entry_lt (fun c => occ (w q) (send_cell gc d c)) c (gc.n_send_cells d) i
      hc0 hc1 hiq hoccq
    have hge := psum_nonneg (fun c => occ (w q) (send_cell gc d c)) c hc0
      (fun k h0 h1 => hoccq k h0 (by omega))
    have hj := j.isLt
    rw [hps, t3 _ (by omega) (by rw [hszr]; omega)]
    unfold pos_msg
    dsimp only
    exact q2 c i j hc0 hc1 hi0 hiq
  · intro m hm
    rw [u3 m (by
      intro c i h0 h1 h2 h3
      rw [hsR]
      rw [hoR] at h3
      exact hm c i ⟨h0, h1, h2, h3⟩), hRp]
theorem with_p_self {F : Type} (x : Particle F) : with_p x x.p = x := by
  cases x; rfl

theorem with_p_p {F : Type} (x : Particle F) (q : Fin 3 → F) : (with_p x q).p = q := rfl

/-- A sweep of `update_ghost_pos` keeps the halo structure. -/
theorem update_ghost_pos_sweep_halo {F : Type} [LinearOrderedCommRing F] (env : Int → Env F)
    (ranks : Finset Int) (hg : ProcessGrid env ranks) (gc : GhostCells) (hok : CellsOK gc)
    (w : Int → State F) (h : HaloUpTo env ranks gc 6 w) (d : Fin 6) :
    HaloUpTo env ranks gc 6 (update_ghost_pos_sweep env gc w d) :=
  haloUpTo_congr env ranks hg gc 6 _ _
    (fun q hq => (update_ghost_pos_sweep_spec env ranks hg gc hok w h d q hq).1) h

/-- After the sweep of direction `d` the recv entries of `d` hold the positions of their
send entries. -/
theorem update_ghost_pos_sweep_fixes {F : Type} [LinearOrderedCommRing F]
    (env : Int → Env F) (ranks : Finset Int) (hg : ProcessGrid env ranks) (gc : GhostCells)
    (hok : CellsOK gc) (w : Int → State F) (h : HaloUpTo env ranks gc 6 w) (d : Fin 6)
    (r : Int) (hr : r ∈ ranks) :
    PosFixed env gc (update_ghost_pos_sweep env gc w d) d r := by
  have hsrc : (env r).neighbors (r_dir_of d) ∈ ranks := ((hg r hr).2 (r_dir_of d)).1
  obtain ⟨s1, s2, _⟩ := update_ghost_pos_sweep_spec env ranks hg gc hok w h d r hr
  obtain ⟨q1, _, q3⟩ := update_ghost_pos_sweep_spec env ranks hg gc hok w h d _ hsrc
  intro c i hre
  have hre0 : RecvEntry gc (w r) d c i := by
    unfold RecvEntry at hre ⊢
    rw [sameHalo_occ_eq _ _ s1] at hre
    exact hre
  have hse : SendEntry gc (w ((env r).neighbors (r_dir_of d))) d c i := by
    refine ⟨hre0.1, hre0.2.1, hre0.2.2.1, ?_⟩
    rw [← h.occ_match r hr d d.isLt c hre0.1 hre0.2.1]
    exact hre0.2.2.2
  rw [sameHalo_slot_eq _ _ s1, sameHalo_slot_eq _ _ q1, s2 c i hre0, with_p_p,
    q3 _ (fun c1 i1 hre1 e =>
      h.send_recv _ hsrc d c i d c1 i1 (le_refl _) d.isLt hse hre1 e.symm)]

/-- A later sweep does not disturb what the sweep of direction `d` established. -/
theorem update_ghost_pos_sweep_keeps {F : Type} [LinearOrderedCommRing F]
    (env : Int → Env F) (ranks : Finset Int) (hg : ProcessGrid env ranks) (gc : GhostCells)
    (hok : CellsOK gc) (w : Int → State F) (h : HaloUpTo env ranks gc 6 w) (d d1 : Fin 6)
    (hlt : d < d1) (r : Int) (hr : r ∈ ranks) (hf : PosFixed env gc w d r) :
    PosFixed env gc (update_ghost_pos_sweep env gc w d1) d r := by
  have hsrc : (env r).neighbors (r_dir_of d) ∈ ranks := ((hg r hr).2 (r_dir_of d)).1
  obtain ⟨s1, _, s3⟩ := update_ghost_pos_sweep_spec env ranks hg gc hok w h d1 r hr
  obtain ⟨q1, _, q3⟩ := update_ghost_pos_sweep_spec env ranks hg gc hok w h d1 _ hsrc
  intro c i hre
  have hre0 : RecvEntry gc (w r) d c i := by
    unfold RecvEntry at hre ⊢
    rw [sameHalo_occ_eq _ _ s1] at hre
    exact hre
  have hse : SendEntry gc (w ((env r).neighbors (r_dir_of d))) d c i := by
    refine ⟨hre0.1, hre0.2.1, hre0.2.2.1, ?_⟩
    rw [← h.occ_match r hr d d.isLt c hre0.1 hre0.2.1]
    exact hre0.2.2.2
  rw [sameHalo_slot_eq _ _ s1, sameHalo_slot_eq _ _ q1,
    s3 _ (fun c1 i1 hre1 e => by
      have := (h.recv_inj r hr d1 c1 i1 d c i d1.isLt d.isLt hre1 hre0 e).1
      exact absurd this (ne_of_gt hlt)),
    q3 _ (fun c1 i1 hre1 e =>
      h.send_recv _ hsrc d c i d1 c1 i1 (le_of_lt hlt) d1.isLt hse hre1 e.symm)]
  exact hf c i hre0

/-- A sweep of direction `d` changes no particle when the recv entries of `d` already hold
the positions of their send entries. -/
theorem update_ghost_pos_sweep_noop {F : Type} [LinearOrderedCommRing F]
    (env : Int → Env F) (ranks : Finset Int) (hg : ProcessGrid env ranks) (gc : GhostCells)
    (hok : CellsOK gc) (w : Int → State F) (h : HaloUpTo env ranks gc 6 w) (d : Fin 6)
    (r : Int) (hr : r ∈ ranks) (hf : PosFixed env gc w d r) :
    (update_ghost_pos_sweep env gc w d r).particles = (w r).particles := by
  obtain ⟨_, s2, s3⟩ := update_ghost_pos_sweep_spec env ranks hg gc hok w h d r hr
  funext m
  by_cases hm : ∃ c i : Int, RecvEntry gc (w r) d c i ∧ slot_of (w r) (recv_cell gc d c) i = m
  · obtain ⟨c, i, hre, rfl⟩ := hm
    rw [s2 c i hre, ← hf c i hre, with_p_self]
  · push_neg at hm
    exact s3 m hm
theorem posFixed_congr {F : Type} [LinearOrderedCommRing F] (env : Int → Env F)
    (ranks : Finset Int) (hg : ProcessGrid env ranks) (gc : GhostCells)
    (w w1 : Int → State F)
    (hw : ∀ q ∈ ranks, SameHalo (w q) (w1 q) ∧ (w1 q).particles = (w q).particles)
    (d : Fin 6) (r : Int) (hr : r ∈ ranks) (hf : PosFixed env gc w d r) :
    PosFixed env gc w1 d r := by
  have hsrc : (env r).neighbors (r_dir_of d) ∈ ranks := ((hg r hr).2 (r_dir_of d)).1
  intro c i hre
  have hre0 : RecvEntry gc (w r) d c i := by
    unfold RecvEntry at hre ⊢
    rw [sameHalo_occ_eq _ _ (hw r hr).1] at hre
    exact hre
  rw [sameHalo_slot_eq _ _ (hw r hr).1, sameHalo_slot_eq _ _ (hw _ hsrc).1, (hw r hr).2,
    (hw _ hsrc).2]
  exact hf c i hre0

/-- The sweep of direction `d` adds `d` to the directions whose recv entries hold the
positions of their send entries. -/
theorem update_ghost_pos_sweep_step {F : Type} [LinearOrderedCommRing F]
    (env : Int → Env F) (ranks : Finset Int) (hg : ProcessGrid env ranks) (gc : GhostCells)
    (hok : CellsOK gc) (w : Int → State F) (h : HaloUpTo env ranks gc 6 w) (d : Fin 6)
    (hf : ∀ r ∈ ranks, ∀ d0 : Fin 6, d0.val < d.val → PosFixed env gc w d0 r) :
    HaloUpTo env ranks gc 6 (update_ghost_pos_sweep env gc w d) ∧
    ∀ r ∈ ranks, ∀ d0 : Fin 6, d0.val < d.val + 1 →
      PosFixed env gc (update_ghost_pos_sweep env gc w d) d0 r := by
  refine ⟨update_ghost_pos_sweep_halo env ranks hg gc hok w h d, ?_⟩
  intro r hr d0 hd0
  by_cases e : d0 = d
  · subst e
    exact update_ghost_pos_sweep_fixes env ranks hg gc hok w h d0 r hr
  · have hne : d0.val ≠ d.val := fun e1 => e (Fin.ext e1)
    exact update_ghost_pos_sweep_keeps env ranks hg gc hok w h d0 d
      (Fin.lt_iff_val_lt_val.2 (by omega)) r hr (hf r hr d0 (by omega))

/-- After one call of `update_ghost_pos` the recv entries of every direction hold the
positions of their send entries. -/
theorem update_ghost_pos_fixed {F : Type} [LinearOrderedCommRing F]
    (env : Int → Env F) (ranks : Finset Int) (hg : ProcessGrid env ranks) (gc : GhostCells)
    (hok : CellsOK gc) (w : Int → State F) (h : HaloUpTo env ranks gc 6 w) :
    HaloUpTo env ranks gc 6 (update_ghost_pos env gc w) ∧
    ∀ r ∈ ranks, ∀ d : Fin 6, PosFixed env gc (update_ghost_pos env gc w) d r := by
  obtain ⟨a0, f0⟩ := update_ghost_pos_sweep_step env ranks hg gc hok w h 0
    (fun r _ d0 hd0 => absurd hd0 (by simp))
  obtain ⟨a1, f1⟩ := update_ghost_pos_sweep_step env ranks hg gc hok _ a0 1 f0
  obtain ⟨a2, f2⟩ := update_ghost_pos_sweep_step env ranks hg gc hok _ a1 2 f1
  obtain ⟨a3, f3⟩ := update_ghost_pos_sweep_step env ranks hg gc hok _ a2 3 f2
  obtain ⟨a4, f4⟩ := update_ghost_pos_sweep_step env ranks hg gc hok _ a3 4 f3
  obtain ⟨a5, f5⟩ := update_ghost_pos_sweep_step env ranks hg gc hok _ a4 5 f4
  exact ⟨a5, fun r hr d => f5 r hr d d.isLt⟩

/-- Sweeps of `update_ghost_pos` change no particle once the recv entries of every
direction hold the positions of their send entries. -/
theorem update_ghost_pos_sweeps_noop {F : Type} [LinearOrderedCommRing F]
    (env : Int → Env F) (ranks : Finset Int) (hg : ProcessGrid env ranks) (gc : GhostCells)
    (hok : CellsOK gc) (ds : List (Fin 6)) (w : Int → State F)
    (h : HaloUpTo env ranks gc 6 w)
    (hf : ∀ r ∈ ranks, ∀ d : Fin 6, PosFixed env gc w d r) :
    ∀ r ∈ ranks,
      (ds.foldl (fun w1 dir => update_ghost_pos_sweep env gc w1 dir) w r).particles =
        (w r).particles := by
  induction ds generalizing w with
  | nil => exact fun r _ => rfl
  | cons d ds ih =>
    intro r hr
    have hsame : ∀ q ∈ ranks, SameHalo (w q) (update_ghost_pos_sweep env gc w d q) ∧
        (update_ghost_pos_sweep env gc w d q).particles = (w q).particles :=
      fun q hq => ⟨(update_ghost_pos_sweep_spec env ranks hg gc hok w h d q hq).1,
        update_ghost_pos_sweep_noop env ranks hg gc hok w h d q hq (hf q hq d)⟩
    rw [List.foldl_cons, ih (update_ghost_pos_sweep env gc w d)
      (update_ghost_pos_sweep_halo env ranks hg gc hok w h d)
      (fun q hq d0 => posFixed_congr env ranks hg gc w _ hsame d0 q hq (hf q hq d0)) r hr]
    exact (hsame r hr).2
/-- C5: on a halo built by `exchange_ghost()` (cell lists keeping the directions apart,
send-cell occupancies that are counts, inner send cells listing owned slots), whatever the
particle arrays hold afterwards, calling `update_ghost_pos()` twice leaves every slot of
every rank's particle array exactly as calling it once does. -/
theorem update_ghost_pos_idempotent {F : Type} [LinearOrderedCommRing F]
    (env : Int → Env F) (ranks : Finset Int) (hg : ProcessGrid env ranks) (gc : GhostCells)
    (hgc : HaloCells gc) (w0 : Int → State F) (hcnt : ∀ q ∈ ranks, CountsOK gc (w0 q))
    (hown : ∀ q ∈ ranks, InnerOwned gc (w0 q)) (w : Int → State F)
    (hw : ∀ q ∈ ranks, SameHalo (exchange_ghost env gc w0 q) (w q))
    (r : Int) (hr : r ∈ ranks) (m : Int) :
    (update_ghost_pos env gc (update_ghost_pos env gc w) r).particles m =
      (update_ghost_pos env gc w r).particles m := by
  have h0 := exchange_ghost_halo env ranks hg gc hgc w0 hcnt hown
  have h1 := haloUpTo_congr env ranks hg gc 6 _ _ hw h0
  obtain ⟨h2, hf⟩ := update_ghost_pos_fixed env ranks hg gc hgc.1 w h1
  have := update_ghost_pos_sweeps_noop env ranks hg gc hgc.1 [0, 1, 2, 3, 4, 5]
    (update_ghost_pos env gc w) h2 hf r hr
  exact congrFun this m

theorem with_pos_sameHalo (st : State Int) (slot : Int) (p : Fin 3 → Int) :
    SameHalo st (with_pos st slot p) := ⟨rfl, rfl, rfl, rfl, rfl⟩

set_option maxRecDepth 1000000 in
/-- C5 on the 2x1x1 periodic grid with `cell_grid = (1,1,1)`, after both owned particles
moved: the first call puts the ghost in slot 1 of rank 0 at the new position (6,7,8) of
particle 5, and a second call leaves the slot as it is. -/
theorem update_ghost_pos_idempotent_witness :
    ((update_ghost_pos (grid_env ![2, 1, 1] 1) (cells_of_grid ![1, 1, 1]) pair_moved
      0).particles 1).p = ![6, 7, 8] ∧
    (update_ghost_pos (grid_env ![2, 1, 1] 1) (cells_of_grid ![1, 1, 1])
      (update_ghost_pos (grid_env ![2, 1, 1] 1) (cells_of_grid ![1, 1, 1]) pair_moved)
      0).particles 1 =
    (update_ghost_pos (grid_env ![2, 1, 1] 1) (cells_of_grid ![1, 1, 1]) pair_moved
      0).particles 1 :=
  ⟨by decide!,
   update_ghost_pos_idempotent (grid_env ![2, 1, 1] 1) {0, 1} (by decide)
    (cells_of_grid ![1, 1, 1]) (cells_of_grid_haloCells ![1, 1, 1] (by decide)) pair_world
    (by decide!) (by decide!) pair_moved
    (fun _ _ => with_pos_sameHalo _ _ _) 0 (by decide) 1⟩

/-! ### Ghost exchange on concrete grids -/

set_option maxRecDepth 1000000 in
/-- C3, evaluated on a 3x1x1 grid: ghost slot 1 of rank 0 is the copy of the particle that
rank 1 owns (identity 5) and holds force (1,0,0); every other force is zero.  After
`collect_ghost_forces` the owner on rank 1 still has force 0 and the particle of rank 2
has force 1: the force packed from `recv_cells[0]` is sent on to `neighbors[0]` instead
of back to the rank the ghosts came from. -/
theorem collect_ghost_forces_three_ranks :
    (triple_forced 0).n_particles = 1 ∧
    ((triple_forced 0).particles 1).identity = 5 ∧
    ((triple_forced 0).particles 1).f 0 = 1 ∧
    ((triple_forced 1).particles 0).identity = 5 ∧
    ((triple_forced 1).particles 0).f 0 = 0 ∧
    ((collect_ghost_forces (grid_env ![3, 1, 1] 1) (cells_of_grid ![1, 1, 1]) triple_forced
        1).particles 0).f 0 = 0 ∧
    ((collect_ghost_forces (grid_env ![3, 1, 1] 1) (cells_of_grid ![1, 1, 1]) triple_forced
        2).particles 0).identity = 9 ∧
    ((collect_ghost_forces (grid_env ![3, 1, 1] 1) (cells_of_grid ![1, 1, 1]) triple_forced
        2).particles 0).f 0 = 1 := by
  decide!

set_option maxRecDepth 1000000 in
/-- C4 as stated fails: on the 2x1x1 periodic grid rank 1 is the neighbour of rank 0 in
both x directions, so the particle 5 of rank 1 is copied to rank 0 in sweep 0 (slot 1,
unshifted) and again in sweep 1 (slot 2, shifted by `boundary[1] = -2`): two ghost slots
of rank 0 carry identity 5, not exactly one. -/
theorem exchange_ghost_two_copies :
    (grid_env ![2, 1, 1] 1 1).neighbors 0 = 0 ∧ (grid_env ![2, 1, 1] 1 1).neighbors 1 = 0 ∧
    ((pair_world 1).particles 0).identity = 5 ∧
    (exchange_ghost (grid_env ![2, 1, 1] 1) (cells_of_grid ![1, 1, 1]) pair_world 0).n_particles
      = 1 ∧
    (exchange_ghost (grid_env ![2, 1, 1] 1) (cells_of_grid ![1, 1, 1]) pair_world 0).n_ghosts
      = 26 ∧
    ((exchange_ghost (grid_env ![2, 1, 1] 1) (cells_of_grid ![1, 1, 1]) pair_world
        0).particles 1).identity = 5 ∧
    ((exchange_ghost (grid_env ![2, 1, 1] 1) (cells_of_grid ![1, 1, 1]) pair_world
        0).particles 2).identity = 5 ∧
    ¬ (∃! m : Int, 1 ≤ m ∧ m < 1 + 26 ∧
        ((exchange_ghost (grid_env ![2, 1, 1] 1) (cells_of_grid ![1, 1, 1]) pair_world
          0).particles m).identity = 5) := by
  have h1 : ((exchange_ghost (grid_env ![2, 1, 1] 1) (cells_of_grid ![1, 1, 1]) pair_world
        0).particles 1).identity = 5 := by decide!
  have h2 : ((exchange_ghost (grid_env ![2, 1, 1] 1) (cells_of_grid ![1, 1, 1]) pair_world
        0).particles 2).identity = 5 := by decide!
  refine ⟨by decide, by decide, by decide, by decide!, by decide!, h1, h2, ?_⟩
  rintro ⟨m, _, hm⟩
  have e1 := hm 1 ⟨by omega, by omega, h1⟩
  have e2 := hm 2 ⟨by omega, by omega, h2⟩
  omega

set_option maxRecDepth 1000000 in
/-- C8, evaluated on a 1x1x1 grid (every neighbour is the rank itself) with
`cell_grid = (3,3,3)`: before the call identity 7 is resident in owned slot 0 and in the
old ghost slot 1, and `local_index[7] = 0` holds identity 7.  The release loop writes
`local_index[7] = -1`; the particle now sits in an interior cell, no new ghost of it is
built, and after the call the owned identity 7 is mapped to -1. -/
theorem exchange_ghost_drops_owned_index :
    stale_ghost_state.n_particles = 1 ∧ stale_ghost_state.n_ghosts = 1 ∧
    (stale_ghost_state.particles 0).identity = 7 ∧
    (stale_ghost_state.particles 1).identity = 7 ∧
    stale_ghost_state.local_index 7 = 0 ∧
    (exchange_ghost (fun _ => solo_env) (cells_of_grid ![3, 3, 3]) (fun _ => stale_ghost_state)
      0).n_particles = 1 ∧
    (exchange_ghost (fun _ => solo_env) (cells_of_grid ![3, 3, 3]) (fun _ => stale_ghost_state)
      0).n_ghosts = 0 ∧
    ((exchange_ghost (fun _ => solo_env) (cells_of_grid ![3, 3, 3]) (fun _ => stale_ghost_state)
      0).particles 0).identity = 7 ∧
    (exchange_ghost (fun _ => solo_env) (cells_of_grid ![3, 3, 3]) (fun _ => stale_ghost_state)
      0).local_index 7 = -1 := by
  refine ⟨by decide, by decide, by decide, by decide, by decide, ?_, ?_, ?_, ?_⟩ <;> decide!
theorem inLayer_iff (cg : Fin 3 → Int) (d : Fin 6) (x : Int) (p : Fin 3 → Int) :
    InLayer cg d x p ↔ InBoxP (layer_lo d x) (layer_hi cg d x) p := by
  unfold InLayer InBoxP layer_lo layer_hi
  constructor
  · rintro ⟨h1, h2⟩ j
    by_cases hj : j = axis_of d
    · subst hj
      simp only [if_true]
      omega
    · simp only [if_neg hj]
      by_cases hlt : j < axis_of d
      · simp only [if_pos hlt]
        exact (h2 j).2 hlt
      · simp only [if_neg hlt]
        exact (h2 j).1 (lt_of_le_of_ne (not_lt.1 hlt) (Ne.symm hj))
  · intro h
    refine ⟨?_, ?_⟩
    · have := h (axis_of d)
      simp only [if_true] at this
      omega
    · intro j
      have hj := h j
      constructor
      · intro hlt
        rw [if_neg (ne_of_gt hlt), if_neg (not_lt.2 (le_of_lt hlt)),
          if_neg (ne_of_gt hlt), if_neg (not_lt.2 (le_of_lt hlt))] at hj
        exact hj
      · intro hlt
        rw [if_neg (ne_of_lt hlt), if_pos hlt, if_neg (ne_of_lt hlt), if_pos hlt] at hj
        exact hj

/-- Every point of a box is the point stored at some position of its row-major block. -/
theorem decode_in_surj (lc hc p : Fin 3 → Int) (hp : InBoxP lc hc p) :
    ∃ k : Int, 0 ≤ k ∧ k < boxSize lc hc ∧ decode_in lc hc k = p := by
  have p0 := hp 0
  have p1 := hp 1
  have p2 := hp 2
  have n1 : 0 < hc 1 + 1 - lc 1 := by omega
  have n2 : 0 < hc 2 + 1 - lc 2 := by omega
  have a0 : 0 ≤ p 0 - lc 0 := by omega
  have b0 : 0 ≤ p 1 - lc 1 := by omega
  have c0 : 0 ≤ p 2 - lc 2 := by omega
  have hq : 0 ≤ (p 0 - lc 0) * (hc 1 + 1 - lc 1) + (p 1 - lc 1) :=
    add_nonneg (mul_nonneg a0 (le_of_lt n1)) b0
  have hq' : (p 0 - lc 0) * (hc 1 + 1 - lc 1) + (p 1 - lc 1) + 1 ≤
      (hc 0 + 1 - lc 0) * (hc 1 + 1 - lc 1) := by
    have : (p 0 - lc 0 + 1) * (hc 1 + 1 - lc 1) ≤ (hc 0 + 1 - lc 0) * (hc 1 + 1 - lc 1) :=
      mul_le_mul_of_nonneg_right (by omega) (le_of_lt n1)
    have e : (p 0 - lc 0 + 1) * (hc 1 + 1 - lc 1) =
        (p 0 - lc 0) * (hc 1 + 1 - lc 1) + (hc 1 + 1 - lc 1) := by ring
    omega
  have e2 : (((p 0 - lc 0) * (hc 1 + 1 - lc 1) + (p 1 - lc 1)) * (hc 2 + 1 - lc 2) +
      (p 2 - lc 2)) % (hc 2 + 1 - lc 2) = p 2 - lc 2 := by
    rw [add_comm, Int.add_mul_emod_self, Int.emod_eq_of_lt c0 (by omega)]
  have e1 : (((p 0 - lc 0) * (hc 1 + 1 - lc 1) + (p 1 - lc 1)) * (hc 2 + 1 - lc 2) +
      (p 2 - lc 2)) / (hc 2 + 1 - lc 2) =
      (p 0 - lc 0) * (hc 1 + 1 - lc 1) + (p 1 - lc 1) := by
    rw [add_comm, Int.add_mul_ediv_right _ _ (ne_of_gt n2),
      Int.ediv_eq_zero_of_lt c0 (by omega), zero_add]
  have e1m : ((p 0 - lc 0) * (hc 1 + 1 - lc 1) + (p 1 - lc 1)) % (hc 1 + 1 - lc 1) =
      p 1 - lc 1 := by
    rw [add_comm, Int.add_mul_emod_self, Int.emod_eq_of_lt b0 (by omega)]
  have e0 : ((p 0 - lc 0) * (hc 1 + 1 - lc 1) + (p 1 - lc 1)) / (hc 1 + 1 - lc 1) =
      p 0 - lc 0 := by
    rw [add_comm, Int.add_mul_ediv_right _ _ (ne_of_gt n1),
      Int.ediv_eq_zero_of_lt b0 (by omega), zero_add]
  refine ⟨((p 0 - lc 0) * (hc 1 + 1 - lc 1) + (p 1 - lc 1)) * (hc 2 + 1 - lc 2) + (p 2 - lc 2),
    add_nonneg (mul_nonneg hq (le_of_lt n2)) c0, ?_, ?_⟩
  · unfold boxSize
    have : ((p 0 - lc 0) * (hc 1 + 1 - lc 1) + (p 1 - lc 1) + 1) * (hc 2 + 1 - lc 2) ≤
        (hc 0 + 1 - lc 0) * (hc 1 + 1 - lc 1) * (hc 2 + 1 - lc 2) :=
      mul_le_mul_of_nonneg_right hq' (le_of_lt n2)
    have e : ((p 0 - lc 0) * (hc 1 + 1 - lc 1) + (p 1 - lc 1) + 1) * (hc 2 + 1 - lc 2) =
        ((p 0 - lc 0) * (hc 1 + 1 - lc 1) + (p 1 - lc 1)) * (hc 2 + 1 - lc 2) +
          (hc 2 + 1 - lc 2) := by ring
    omega
  · funext i
    fin_cases i
    · simp only [decode_in, e1, e0]
      simp
    · simp only [decode_in, e1, e1m]
      simp
    · simp only [decode_in, e2]
      simp
/-- C11: for `cell_grid >= 1` and `ghost_cell_grid = cell_grid + 2`, after `ghost_init()`
every direction `d` has `anz[d/2]` send cells and as many recv cells
(`cg[1]*cg[2]`, `cg[2]*(cg[0]+2)`, `(cg[0]+2)*(cg[1]+2)`); the send cells of `d` are exactly
the lattice points with coordinate 1 (even `d`) or `cg` (odd `d`) on axis `d/2`, the recv
cells exactly those with coordinate `cg+1` (even `d`) or 0 (odd `d`), the coordinates of
the later axes running over `[1, cg]` and those of the earlier axes over `[0, cg+1]`. -/
theorem ghost_init_layers (gli : Int → Int → Int → Int → Int → Int → Int)
    (cg gcg : Fin 3 → Int) (send0 recv0 : Int → Int) (lc0 hc0 : Fin 3 → Int)
    (hcg : ∀ i : Fin 3, 1 ≤ cg i) (hgcg : ∀ i : Fin 3, gcg i = cg i + 2) (d : Fin 6) :
    (ghost_init_cells gli cg gcg send0 recv0 lc0 hc0).n_send_cells d =
      init_anz cg (axis_of d) ∧
    (ghost_init_cells gli cg gcg send0 recv0 lc0 hc0).n_recv_cells d =
      init_anz cg (axis_of d) ∧
    (∀ m : Int, 0 ≤ m → m < (ghost_init_cells gli cg gcg send0 recv0 lc0 hc0).n_send_cells d →
      ∃ p : Fin 3 → Int, InLayer cg d (send_layer cg d) p ∧
        send_cell (ghost_init_cells gli cg gcg send0 recv0 lc0 hc0) d m =
          gli (p 0) (p 1) (p 2) (gcg 0) (gcg 1) (gcg 2)) ∧
    (∀ p : Fin 3 → Int, InLayer cg d (send_layer cg d) p →
      ∃ m : Int, 0 ≤ m ∧ m < (ghost_init_cells gli cg gcg send0 recv0 lc0 hc0).n_send_cells d ∧
        send_cell (ghost_init_cells gli cg gcg send0 recv0 lc0 hc0) d m =
          gli (p 0) (p 1) (p 2) (gcg 0) (gcg 1) (gcg 2)) ∧
    (∀ m : Int, 0 ≤ m → m < (ghost_init_cells gli cg gcg send0 recv0 lc0 hc0).n_recv_cells d →
      ∃ p : Fin 3 → Int, InLayer cg d (recv_layer cg d) p ∧
        recv_cell (ghost_init_cells gli cg gcg send0 recv0 lc0 hc0) d m =
          gli (p 0) (p 1) (p 2) (gcg 0) (gcg 1) (gcg 2)) ∧
    (∀ p : Fin 3 → Int, InLayer cg d (recv_layer cg d) p →
      ∃ m : Int, 0 ≤ m ∧ m < (ghost_init_cells gli cg gcg send0 recv0 lc0 hc0).n_recv_cells d ∧
        recv_cell (ghost_init_cells gli cg gcg send0 recv0 lc0 hc0) d m =
          gli (p 0) (p 1) (p 2) (gcg 0) (gcg 1) (gcg 2)) := by
  obtain ⟨hcs, _, hns, hnr, hsend, hrecv⟩ :=
    ghost_init_cells_spec gli cg gcg send0 recv0 lc0 hc0 hcg hgcg
  generalize ghost_init_cells gli cg gcg send0 recv0 lc0 hc0 = gc at hcs hns hnr hsend hrecv ⊢
  have hvs : ∀ i : Fin 3, layer_lo d (send_layer cg d) i ≤ layer_hi cg d (send_layer cg d) i :=
    fun i => (layer_valid cg gcg hcg hgcg d _ (send_layer_range cg hcg d).1
      (send_layer_range cg hcg d).2 i).2.1
  have hvr : ∀ i : Fin 3, layer_lo d (recv_layer cg d) i ≤ layer_hi cg d (recv_layer cg d) i :=
    fun i => (layer_valid cg gcg hcg hgcg d _ (recv_layer_range cg hcg d).1
      (recv_layer_range cg hcg d).2 i).2.1
  refine ⟨hns d, hnr d, ?_, ?_, ?_, ?_⟩
  · intro m h0 h1
    rw [hns] at h1
    refine ⟨_, (inLayer_iff cg d _ _).2
      (decode_in_box _ _ hvs m h0 (by rw [layer_size]; exact h1)), ?_⟩
    unfold send_cell
    rw [hcs]
    exact hsend d m h0 h1
  · intro p hp
    obtain ⟨k, k0, k1, rfl⟩ := decode_in_surj _ _ p ((inLayer_iff cg d _ _).1 hp)
    rw [layer_size] at k1
    refine ⟨k, k0, by rw [hns]; exact k1, ?_⟩
    unfold send_cell
    rw [hcs]
    exact hsend d k k0 k1
  · intro m h0 h1
    rw [hnr] at h1
    refine ⟨_, (inLayer_iff cg d _ _).2
      (decode_in_box _ _ hvr m h0 (by rw [layer_size]; exact h1)), ?_⟩
    unfold recv_cell
    rw [hcs]
    exact hrecv d m h0 h1
  · intro p hp
    obtain ⟨k, k0, k1, rfl⟩ := decode_in_surj _ _ p ((inLayer_iff cg d _ _).1 hp)
    rw [layer_size] at k1
    refine ⟨k, k0, by rw [hnr]; exact k1, ?_⟩
    unfold recv_cell
    rw [hcs]
    exact hrecv d k k0 k1

/-- C11 for `cell_grid = (2,1,3)` and direction 3 (axis 1, upper side): the lists have
`cg[2]*(cg[0]+2) = 12` cells, and the lattice point (0,1,2), with the ghost coordinate 0
on the earlier axis 0, is a send cell. -/
theorem ghost_init_layers_witness :
    (cells_of_grid ![2, 1, 3]).n_send_cells 3 = 12 ∧
    (cells_of_grid ![2, 1, 3]).n_recv_cells 3 = 12 ∧
    ∃ m : Int, 0 ≤ m ∧ m < (cells_of_grid ![2, 1, 3]).n_send_cells 3 ∧
      send_cell (cells_of_grid ![2, 1, 3]) 3 m = lattice_index 0 1 2 4 3 5 := by
  obtain ⟨h1, h2, _, h4, _, _⟩ := ghost_init_layers lattice_index ![2, 1, 3]
    (fun i => ![2, 1, 3] i + 2) (fun _ => 0) (fun _ => 0) (fun _ => 0) (fun _ => 0)
    (by decide) (fun _ => rfl) 3
  refine ⟨h1.trans (by decide), h2.trans (by decide), ?_⟩
  obtain ⟨m, m0, m1, m2⟩ := h4 ![0, 1, 2] (by decide)
  exact ⟨m, m0, m1, m2⟩
/-- C14: in sweep `dir` of `exchange_ghost()`, record `psum cnt c + n` of the ghost send
buffer (the position in cell-major order of entry `n` of the `c`-th send cell) has the
identity, type and charge of the particle listed there and its position with
`boundary[dir]` added on axis `dir/2` (nothing added when `boundary[dir]` is 0);
`unpack_ghost` copies identity, type, position and charge of the record verbatim into the
slot and touches nothing else. -/
theorem ghost_records_spec {F : Type} [LinearOrderedCommRing F] (env : Env F)
    (gc : GhostCells) (st : State F) (dir : Fin 6)
    (hC : 0 ≤ gc.n_send_cells dir) (hM : gc.n_send_cells dir ≤ gc.max_send_cells)
    (hocc : ∀ c : Int, 0 ≤ c → c < gc.n_send_cells dir → 0 ≤ occ st (send_cell gc dir c)) :
    (∀ c n : Int, 0 ≤ c → c < gc.n_send_cells dir → 0 ≤ n → n < occ st (send_cell gc dir c) →
      ((ghost_prepare env gc st dir).g_send_buf
          (psum (fun c => occ st (send_cell gc dir c)) c + n)).identity =
        (st.particles (slot_of st (send_cell gc dir c) n)).identity ∧
      ((ghost_prepare env gc st dir).g_send_buf
          (psum (fun c => occ st (send_cell gc dir c)) c + n)).type =
        (st.particles (slot_of st (send_cell gc dir c) n)).type ∧
      ((ghost_prepare env gc st dir).g_send_buf
          (psum (fun c => occ st (send_cell gc dir c)) c + n)).q =
        (st.particles (slot_of st (send_cell gc dir c) n)).q ∧
      ((ghost_prepare env gc st dir).g_send_buf
          (psum (fun c => occ st (send_cell gc dir c)) c + n)).p (axis_of dir) =
        (st.particles (slot_of st (send_cell gc dir c) n)).p (axis_of dir) +
          env.boundary dir ∧
      (∀ j : Fin 3, j ≠ axis_of dir →
        ((ghost_prepare env gc st dir).g_send_buf
            (psum (fun c => occ st (send_cell gc dir c)) c + n)).p j =
          (st.particles (slot_of st (send_cell gc dir c) n)).p j) ∧
      (env.boundary dir = 0 →
        ((ghost_prepare env gc st dir).g_send_buf
            (psum (fun c => occ st (send_cell gc dir c)) c + n)).p =
          (st.particles (slot_of st (send_cell gc dir c) n)).p)) ∧
    (∀ (parts : Int → Particle F) (m : Int) (g : Int → Ghost F) (k : Int),
      (unpack_ghost parts m g k m).identity = (g k).identity ∧
      (unpack_ghost parts m g k m).type = (g k).type ∧
      (unpack_ghost parts m g k m).p = (g k).p ∧
      (unpack_ghost parts m g k m).q = (g k).q ∧
      (unpack_ghost parts m g k m).i = (parts m).i ∧
      (unpack_ghost parts m g k m).v = (parts m).v ∧
      (unpack_ghost parts m g k m).f = (parts m).f ∧
      (unpack_ghost parts m g k m).n_bonds = (parts m).n_bonds ∧
      (unpack_ghost parts m g k m).bonds = (parts m).bonds ∧
      ∀ s : Int, s ≠ m → unpack_ghost parts m g k s = parts s) := by
  obtain ⟨_, _, _, h4⟩ := ghost_prepare_spec env gc st dir hC hM hocc
  constructor
  · intro c n hc0 hc1 hn0 hn1
    rw [h4 c n hc0 hc1 hn0 hn1]
    unfold shifted ghost_rec
    by_cases hb : env.boundary dir = 0
    · rw [if_neg (by simpa using hb), hb]
      exact ⟨rfl, rfl, rfl, by simp, fun _ _ => rfl, fun _ => rfl⟩
    · rw [if_pos hb]
      refine ⟨rfl, rfl, rfl, ?_, ?_, fun h => absurd h hb⟩
      · simp
      · intro j hj
        simp [Function.update_noteq hj]
  · intro parts m g k
    unfold unpack_ghost
    refine ⟨?_, ?_, ?_, ?_, ?_, ?_, ?_, ?_, ?_, ?_⟩ <;>
      first
        | (intro s hs; exact Function.update_noteq hs _ _)
        | (rw [Function.update_same])

set_option maxRecDepth 1000000 in
/-- C14 on rank 1 of the 2x1x1 periodic grid in sweep 1 (across the periodic face,
`boundary[1] = -2`): record 0 of the ghost send buffer carries identity 5 of the particle
at x = 1 and the position x = 1 - 2. -/
theorem ghost_records_spec_witness :
    ((ghost_prepare (grid_env ![2, 1, 1] 1 1) (cells_of_grid ![1, 1, 1]) (pair_world 1)
        1).g_send_buf 0).identity = 5 ∧
    ((ghost_prepare (grid_env ![2, 1, 1] 1 1) (cells_of_grid ![1, 1, 1]) (pair_world 1)
        1).g_send_buf 0).p 0 = -1 := by
  obtain ⟨h1, _, _, h4, _, _⟩ := (ghost_records_spec (grid_env ![2, 1, 1] 1 1)
    (cells_of_grid ![1, 1, 1]) (pair_world 1) 1 (by decide!) (by decide!)
    (fun c h0 h1 => countsOK_occ _ _ (by decide!) 1 c h0 h1)).1 0 0 (le_refl _) (by decide!)
      (le_refl _) (by decide!)
  rw [psum_zero, zero_add] at h1 h4
  exact ⟨h1.trans (by decide!), h4.trans (by decide!)⟩
theorem check_body_diag {F : Type} [LinearOrderedCommRing F] (env : Env F) (n : Int)
    (acc : State F) :
    (check_body env n acc).diag = acc.diag ++ check_diags env (acc.particles n) n := by
  unfold check_body check_diags
  simp only [List.foldl_cons, List.foldl_nil]
  split_ifs <;> simp

theorem check_diags_part {F : Type} [LinearOrderedCommRing F] (env : Env F) (x : Particle F)
    (n : Int) : ∀ e ∈ check_diags env x n, e.part = n := by
  intro e he
  unfold check_diags at he
  simp only [List.mem_append] at he
  rcases he with he | he | he | he <;>
    (split_ifs at he <;> simp at he <;> (subst he; rfl))

theorem check_diags_ne_nil {F : Type} [LinearOrderedCommRing F] (env : Env F)
    (x : Particle F) (n : Int) : check_diags env x n ≠ [] ↔ check_fails env x := by
  unfold check_diags check_fails
  constructor
  · intro h
    by_contra hne
    push_neg at hne
    obtain ⟨h0, h1, h2⟩ := hne
    apply h
    have a0 := h2 0
    have a1 := h2 1
    have a2 := h2 2
    rw [if_neg (by push_neg; exact ⟨h0, h1⟩), if_neg (by push_neg; exact a0),
      if_neg (by push_neg; exact a1), if_neg (by push_neg; exact a2)]
    rfl
  · rintro (h | h | ⟨dir, h⟩)
    · rw [if_pos (Or.inl h)]; simp
    · rw [if_pos (Or.inr h)]; simp
    · fin_cases dir
      · have h0 : x.p 0 < 0 ∨ x.p 0 > env.box_l 0 := h
        rw [if_pos h0]; simp
      · have h1 : x.p 1 < 0 ∨ x.p 1 > env.box_l 1 := h
        rw [if_pos h1]; simp
      · have h2 : x.p 2 < 0 ∨ x.p 2 > env.box_l 2 := h
        rw [if_pos h2]; simp
theorem check_body_eq {F : Type} [LinearOrderedCommRing F] (env : Env F) (n : Int)
    (acc : State F) :
    check_body env n acc =
      { acc with diag := acc.diag ++ check_diags env (acc.particles n) n } := by
  unfold check_body check_diags
  simp only [List.foldl_cons, List.foldl_nil]
  split_ifs <;> simp

theorem detach_p {F : Type} (x : Particle F) : x.detach.p = x.p := by
  unfold Particle.detach
  split_ifs <;> rfl

/-- C18: the scan loop of `exchange_part()` for axis `d` leaves through its guard within
`n_particles` iterations; after the low-side scan every remaining owned particle has
`p[d] >= my_left[d]` and every record of the send buffer has `p[d] < my_left[d]`, after
the high-side scan every remaining one has `p[d] < my_right[d]` and every sent one
`p[d] >= my_right[d]`; the original owned particles are the remaining ones together with
the removed ones, whose records (bond block detached) fill the send buffer: the
swap-with-last removal skips no particle. -/
theorem exchange_part_scan_sides {F : Type} [LinearOrderedCommRing F] (env : Env F)
    (st : State F) (d : Fin 3) (lr : Fin 2) (hn : 0 ≤ st.n_particles) :
    (scan_loop env (out_of_box env d lr) st.n_particles.toNat (reset_counters st) 0).1.n_particles
      ≤ (scan_loop env (out_of_box env d lr) st.n_particles.toNat (reset_counters st) 0).2 ∧
    owned st = owned (exchange_part_scan env st d lr) +
      (owned st).filter (fun x => out_of_box env d lr x = true) ∧
    sent (exchange_part_scan env st d lr) =
      ((owned st).filter (fun x => out_of_box env d lr x = true)).map Particle.detach ∧
    (lr = 0 →
      (∀ x ∈ owned (exchange_part_scan env st d lr), env.my_left d ≤ x.p d) ∧
      ∀ y ∈ sent (exchange_part_scan env st d lr), y.p d < env.my_left d) ∧
    (lr = 1 →
      (∀ x ∈ owned (exchange_part_scan env st d lr), x.p d < env.my_right d) ∧
      ∀ y ∈ sent (exchange_part_scan env st d lr), env.my_right d ≤ y.p d) := by
  obtain ⟨R, _, _, _, _, _, r6, _, _⟩ :=
    scan_loop_spec env (out_of_box env d lr) st.n_particles.toNat
      (reset_counters st) 0 (le_refl _) (le_refl _) (by simp [reset_counters])
  obtain ⟨s1, s2, _, _⟩ := exchange_part_scan_spec env st d lr hn
  have hkeep : ∀ x ∈ owned (exchange_part_scan env st d lr), out_of_box env d lr x = false := by
    intro x hx
    rw [s1] at hx
    exact (Multiset.mem_filter.1 hx).2
  have hsent : ∀ y ∈ sent (exchange_part_scan env st d lr),
      ∃ x : Particle F, out_of_box env d lr x = true ∧ y.p = x.p := by
    intro y hy
    rw [s2] at hy
    obtain ⟨x, hx, rfl⟩ := Multiset.mem_map.1 hy
    exact ⟨x, (Multiset.mem_filter.1 hx).2, detach_p x⟩
  refine ⟨r6, ?_, s2, ?_, ?_⟩
  · rw [s1, add_comm]
    exact (Multiset.filter_add_not _ _).symm.trans (by
      congr 1
      apply Multiset.filter_congr
      intro x _
      simp)
  · intro hl
    subst hl
    constructor
    · intro x hx
      have := hkeep x hx
      simp only [out_of_box, if_true, decide_eq_false_iff_not, not_lt] at this
      exact this
    · intro y hy
      obtain ⟨x, hx, e⟩ := hsent y hy
      simp only [out_of_box, if_true, decide_eq_true_eq] at hx
      rw [e]
      exact hx
  · intro hl
    subst hl
    constructor
    · intro x hx
      have := hkeep x hx
      simp only [out_of_box, Fin.isValue, one_ne_zero, if_false, decide_eq_false_iff_not,
        ge_iff_le, not_le] at this
      exact this
    · intro y hy
      obtain ⟨x, hx, e⟩ := hsent y hy
      simp only [out_of_box, Fin.isValue, one_ne_zero, if_false, decide_eq_true_eq,
        ge_iff_le] at hx
      rw [e]
      exact hx

set_option maxRecDepth 1000000 in
/-- C18 on rank 1 of the 3x1x1 grid (sub-box `[1,2)` along x) with four owned particles at
x = 0, 1, 0, 2: the low-side scan removes the two particles at x = 0, among them the one
swapped into slot 0 from the end, and keeps two particles, both with `p[0] >= 1`. -/
theorem exchange_part_scan_sides_witness :
    (exchange_part_scan (grid_env ![3, 1, 1] 1 1)
      (state_of [mk_particle 7 0 0 0, mk_particle 5 1 0 0, mk_particle 3 2 0 0,
        mk_particle 9 0 0 0]) 0 0).n_particles = 2 ∧
    (exchange_part_scan (grid_env ![3, 1, 1] 1 1)
      (state_of [mk_particle 7 0 0 0, mk_particle 5 1 0 0, mk_particle 3 2 0 0,
        mk_particle 9 0 0 0]) 0 0).n_p_send_buf = 2 ∧
    ∀ x ∈ owned (exchange_part_scan (grid_env ![3, 1, 1] 1 1)
      (state_of [mk_particle 7 0 0 0, mk_particle 5 1 0 0, mk_particle 3 2 0 0,
        mk_particle 9 0 0 0]) 0 0), (grid_env ![3, 1, 1] 1 1).my_left 0 ≤ x.p 0 :=
  ⟨by decide!, by decide!,
    ((exchange_part_scan_sides (grid_env ![3, 1, 1] 1 1)
      (state_of [mk_particle 7 0 0 0, mk_particle 5 1 0 0, mk_particle 3 2 0 0,
        mk_particle 9 0 0 0]) 0 0 (by decide)).2.2.2.1 rfl).1⟩
/-- A property kept by every run of the body is kept by the loop, whatever its bounds. -/
theorem forLoop_preserve {σ : Type} (lo hi : Int) (body : Int → σ → σ) (s : σ)
    (P : σ → Prop) (h0 : P s) (hstep : ∀ x t, P t → P (body x t)) :
    P (forLoop lo hi body s) := by
  by_cases h : lo ≤ hi
  · exact forLoop_induct lo hi body s (fun _ t => P t) h0 (fun x t _ _ ht => hstep x t ht) h
  · rw [forLoop_empty _ _ _ _ (by omega)]
    exact h0

theorem scan_loop_none {F : Type} (env : Env F) (out : Particle F → Bool) :
    ∀ (fuel : Nat) (st : State F) (n : Int),
      (∀ k : Int, n ≤ k → k < st.n_particles → out (st.particles k) = false) →
      (scan_loop env out fuel st n).1 = st := by
  intro fuel
  induction fuel with
  | zero => intro st n _; rfl
  | succ fuel ih =>
    intro st n h
    by_cases hlt : n < st.n_particles
    · have ho := h n (le_refl _) hlt
      simp only [scan_loop, if_pos hlt, ho]
      exact ih st (n + 1) (fun k hk1 hk2 => h k (by omega) hk2)
    · simp only [scan_loop, if_neg hlt]

theorem exchange_part_fold_index {F : Type} (env : Env F) (st : State F) :
    (exchange_part_fold env st).local_index = st.local_index := by
  unfold exchange_part_fold
  exact forLoop_preserve _ _ _ _ (fun (t : State F) => t.local_index = st.local_index) rfl
    (fun _ _ ht => ht)

theorem append_particles_none {F : Type} (rs : State F) (h : rs.n_p_recv_buf = 0) :
    (append_particles rs).particles = rs.particles ∧
    (append_particles rs).n_particles = rs.n_particles ∧
    (append_particles rs).local_index = rs.local_index := by
  obtain ⟨a1, a2⟩ := append_particles_spec rs
  refine ⟨?_, by rw [a1, h, add_zero], ?_⟩
  · funext j
    rw [a2 j, if_neg (by rw [h]; omega)]
  · unfold append_particles
    dsimp only
    rw [forLoop_empty _ _ _ _ (by rw [h]; omega)]

/-- A sweep of `exchange_part` on a rank that is its own neighbour and whose owned
particles all lie inside the sub-box along the axis of the sweep changes neither the owned
array nor the identity map. -/
theorem exchange_part_sweep_solo {F : Type} [LinearOrderedCommRing F] (env : Int → Env F)
    (w : Int → State F) (d : Fin 3) (lr : Fin 2) (r : Int)
    (hself : (env r).neighbors (dir_of d lr) = (env r).this_node)
    (hin : ∀ k : Int, 0 ≤ k → k < (w r).n_particles →
      (env r).my_left d ≤ ((w r).particles k).p d ∧
      ((w r).particles k).p d < (env r).my_right d) :
    (exchange_part_sweep env w d lr r).particles = (w r).particles ∧
    (exchange_part_sweep env w d lr r).n_particles = (w r).n_particles ∧
    (exchange_part_sweep env w d lr r).local_index = (w r).local_index := by
  have hscan : exchange_part_scan (env r) (w r) d lr = reset_counters (w r) := by
    unfold exchange_part_scan
    apply scan_loop_none
    intro k hk0 hk1
    obtain ⟨h1, h2⟩ := hin k hk0 hk1
    unfold out_of_box
    show (if lr = 0 then decide (((w r).particles k).p d < (env r).my_left d)
      else decide (((w r).particles k).p d ≥ (env r).my_right d)) = false
    split_ifs
    · exact decide_eq_false (not_lt.2 h1)
    · exact decide_eq_false (not_le.2 h2)
  unfold exchange_part_sweep
  rw [hscan, send_particles_self _ _ _ _ hself]
  exact append_particles_none _ rfl
/-- C17: on a 1x1x1 process grid (every neighbour is the rank itself, `my_left = 0`,
`my_right = box_l`) with a `fold_particle` that maps every coordinate into `[0, box_l)`,
`exchange_part()` leaves `n_particles` and `local_index` unchanged and every owned slot
holding the folded particle that was in it. -/
theorem exchange_part_solo {F : Type} [LinearOrderedCommRing F] (env : Int → Env F)
    (w : Int → State F) (r : Int)
    (hself : ∀ dir : Fin 6, (env r).neighbors dir = (env r).this_node)
    (hleft : ∀ d : Fin 3, (env r).my_left d = 0)
    (hright : ∀ d : Fin 3, (env r).my_right d = (env r).box_l d)
    (hfold : ∀ (p : Fin 3 → F) (i : Fin 3 → Int) (d : Fin 3),
      0 ≤ ((env r).fold_particle p i).1 d ∧
      ((env r).fold_particle p i).1 d < (env r).box_l d) :
    (exchange_part env w r).n_particles = (w r).n_particles ∧
    (∀ s : Int, 0 ≤ s → s < (w r).n_particles →
      (exchange_part env w r).particles s = folded (env r) ((w r).particles s)) ∧
    (exchange_part env w r).local_index = (w r).local_index := by
  obtain ⟨f1, f2⟩ := exchange_part_fold_spec (env r) (w r)
  obtain ⟨c1, c2, c3⟩ := exchange_part_check_frame (env r) (exchange_part_fold (env r) (w r))
  have f3 := exchange_part_fold_index (env r) (w r)
  have step : ∀ (w1 : Int → State F) (d : Fin 3) (lr : Fin 2),
      ((w1 r).particles =
          (exchange_part_check (env r) (exchange_part_fold (env r) (w r))).particles ∧
        (w1 r).n_particles = (w r).n_particles ∧
        (w1 r).local_index = (w r).local_index) →
      ((exchange_part_sweep env w1 d lr r).particles =
          (exchange_part_check (env r) (exchange_part_fold (env r) (w r))).particles ∧
        (exchange_part_sweep env w1 d lr r).n_particles = (w r).n_particles ∧
        (exchange_part_sweep env w1 d lr r).local_index = (w r).local_index) := by
    rintro w1 d lr ⟨h1, h2, h3⟩
    obtain ⟨s1, s2, s3⟩ := exchange_part_sweep_solo env w1 d lr r (hself _)
      (by
        intro k hk0 hk1
        rw [h2] at hk1
        rw [h1, c1, f2 k, if_pos ⟨hk0, hk1⟩, hleft, hright]
        exact hfold _ _ d)
    exact ⟨s1.trans h1, s2.trans h2, s3.trans h3⟩
  have h0 := step (fun r1 => exchange_part_check (env r1) (exchange_part_fold (env r1) (w r1)))
    0 0 ⟨rfl, c2.trans f1, c3.trans f3⟩
  have h1 := step _ 0 1 h0
  have h2 := step _ 1 0 h1
  have h3 := step _ 1 1 h2
  have h4 := step _ 2 0 h3
  have h5 := step _ 2 1 h4
  unfold exchange_part
  simp only [List.foldl]
  refine ⟨h5.2.1, ?_, h5.2.2⟩
  intro s hs0 hs1
  rw [h5.1, c1, f2 s, if_pos ⟨hs0, hs1⟩]

set_option maxRecDepth 1000000 in
/-- C17 for the box of length 10 in hundredths: the particle at (10.01, 5, 5), i.e.
(1001, 500, 500), is owned at (0.01, 5, 5), i.e. (1, 500, 500), in the same slot after
`exchange_part()`. -/
theorem exchange_part_solo_witness :
    (exchange_part (fun _ => fine_env) (fun _ => state_of [mk_particle 7 1001 500 500])
      0).n_particles = 1 ∧
    ((exchange_part (fun _ => fine_env) (fun _ => state_of [mk_particle 7 1001 500 500])
      0).particles 0).identity = 7 ∧
    ((exchange_part (fun _ => fine_env) (fun _ => state_of [mk_particle 7 1001 500 500])
      0).particles 0).p = ![1, 500, 500] := by
  obtain ⟨h1, h2, _⟩ := exchange_part_solo (fun _ => fine_env)
    (fun _ => state_of [mk_particle 7 1001 500 500]) 0 (fun _ => rfl) (fun _ => rfl)
    (fun _ => rfl)
    (fun p i d => ⟨Int.emod_nonneg _ (by decide), Int.emod_lt_of_pos _ (by decide)⟩)
  have h3 := h2 0 (le_refl _) (by decide)
  rw [h3]
  exact ⟨h1, by decide, by decide⟩
theorem dir_at_val (d : Fin 6) : dir_at (d.val : Int) = d := by
  revert d; decide

/-- Which cells a sweep of `exchange_ghost` keeps: the send cells of the directions up to
its own and the recv cells of all other directions. -/
theorem exchange_ghost_sweep_cells {F : Type} [LinearOrderedCommRing F] (env : Int → Env F)
    (ranks : Finset Int) (hg : ProcessGrid env ranks) (gc : GhostCells) (hgc : HaloCells gc)
    (w : Int → State F) (hinv : ∀ q ∈ ranks, 0 ≤ (w q).n_ghosts ∧ CountsOK gc (w q))
    (d : Fin 6) (q : Int) (hq : q ∈ ranks) :
    (∀ d1 : Fin 6, d1 ≤ d → ∀ c : Int, 0 ≤ c → c < gc.n_send_cells d1 →
      (exchange_ghost_sweep env gc w d q).cells (send_cell gc d1 c) =
        (w q).cells (send_cell gc d1 c)) ∧
    (∀ d1 : Fin 6, d1 ≠ d → ∀ c : Int, 0 ≤ c → c < gc.n_send_cells d1 →
      (exchange_ghost_sweep env gc w d q).cells (recv_cell gc d1 c) =
        (w q).cells (recv_cell gc d1 c)) := by
  obtain ⟨hok, hG2, hG3⟩ := hgc
  obtain ⟨hM, hdirs⟩ := hok
  obtain ⟨hC, hCM, hCeq, hnd⟩ := hdirs d
  have hspec := exchange_ghost_sweep_spec env ranks hg gc w d hM hC hCM hCeq
    (recv_list_inj gc d hnd)
    (fun q hq c h0 h1 => countsOK_occ gc (w q) (hinv q hq).2 d c h0 h1) q hq
  constructor
  · intro d1 hd c h0 h1
    apply hspec.2.2.2.2.2.2.1
    intro c1 h01 h11 e
    exact hG3 d1 d hd _ ((mem_send_list gc d1 _).2 ⟨c, h0, h1, rfl⟩)
      ((mem_recv_list gc d _).2 ⟨c1, h01, by rw [hCeq]; exact h11, e⟩)
  · intro d1 hd c h0 h1
    apply hspec.2.2.2.2.2.2.1
    intro c1 h01 h11 e
    exact hG2 d1 d hd _
      ((mem_recv_list gc d1 _).2 ⟨c, h0, by rw [(hdirs d1).2.2.1]; exact h1, rfl⟩)
      ((mem_recv_list gc d _).2 ⟨c1, h01, by rw [hCeq]; exact h11, e⟩)

/-- One sweep of `exchange_ghost` extends the layout by its direction. -/
theorem exchange_ghost_sweep_layout {F : Type} [LinearOrderedCommRing F] (env : Int → Env F)
    (ranks : Finset Int) (hg : ProcessGrid env ranks) (gc : GhostCells) (hgc : HaloCells gc)
    (w : Int → State F) (d : Fin 6) (h : LayoutUpTo env ranks gc d.val w) :
    LayoutUpTo env ranks gc (d.val + 1) (exchange_ghost_sweep env gc w d) := by
  have hinv : ∀ q ∈ ranks, 0 ≤ (w q).n_ghosts ∧ CountsOK gc (w q) :=
    fun q hq => ⟨h.ghosts_nonneg q hq, h.counts q hq⟩
  have hcells := exchange_ghost_sweep_cells env ranks hg gc hgc w hinv d
  obtain ⟨hok, _, _⟩ := hgc
  have hgrow := exchange_ghost_sweep_grows env ranks hg gc hok w hinv d
  obtain ⟨hM, hdirs⟩ := hok
  obtain ⟨hC, hCM, hCeq, hnd⟩ := hdirs d
  have hoccw : ∀ q ∈ ranks, ∀ (d1 : Fin 6) (c : Int), 0 ≤ c → c < gc.n_send_cells d1 →
      0 ≤ occ (w q) (send_cell gc d1 c) :=
    fun q hq d1 c h0 h1 => countsOK_occ gc (w q) (h.counts q hq) d1 c h0 h1
  have hspec := exchange_ghost_sweep_spec env ranks hg gc w d hM hC hCM hCeq
    (recv_list_inj gc d hnd) (fun q hq c h0 h1 => hoccw q hq d c h0 h1)
  have hsrc : ∀ q ∈ ranks, ∀ d1 : Fin 6, (env q).neighbors (r_dir_of d1) ∈ ranks :=
    fun q hq d1 => ((hg q hq).2 (r_dir_of d1)).1
  have hcase : ∀ d1 : Fin 6, d1.val < d.val + 1 → d1 ≠ d → d1.val < d.val := by
    intro d1 h1 h2
    have : d1.val ≠ d.val := fun e => h2 (Fin.ext e)
    omega
  have hso : ∀ q ∈ ranks, ∀ d1 : Fin 6, d1 ≤ d → ∀ c : Int, 0 ≤ c → c < gc.n_send_cells d1 →
      occ (exchange_ghost_sweep env gc w d q) (send_cell gc d1 c) =
        occ (w q) (send_cell gc d1 c) := by
    intro q hq d1 hd c h0 h1
    unfold occ
    rw [(hcells q hq).1 d1 hd c h0 h1]
  have hro : ∀ q ∈ ranks, ∀ d1 : Fin 6, d1 ≠ d → ∀ c : Int, 0 ≤ c → c < gc.n_send_cells d1 →
      occ (exchange_ghost_sweep env gc w d q) (recv_cell gc d1 c) =
        occ (w q) (recv_cell gc d1 c) := by
    intro q hq d1 hd c h0 h1
    unfold occ
    rw [(hcells q hq).2 d1 hd c h0 h1]
  have hrnew : ∀ q ∈ ranks, ∀ c : Int, 0 ≤ c → c < gc.n_send_cells d →
      occ (exchange_ghost_sweep env gc w d q) (recv_cell gc d c) =
        occ (w ((env q).neighbors (r_dir_of d))) (send_cell gc d c) :=
    fun q hq c h0 h1 => ((hspec q hq).2.2.2.2.2.2.2 c h0 h1).1
  have hpsr : ∀ q ∈ ranks, ∀ c : Int, c ≤ gc.n_send_cells d →
      psum (fun c => occ (exchange_ghost_sweep env gc w d q) (recv_cell gc d c)) c =
        psum (fun c => occ (w ((env q).neighbors (r_dir_of d))) (send_cell gc d c)) c :=
    fun q hq c hc => psum_congr _ _ _ (fun j hj0 hj1 => hrnew q hq j hj0 (by omega))
  have hsz : ∀ q ∈ ranks, ∀ d1 : Fin 6, d1 ≠ d →
      (exchange_ghost_sweep env gc w d q).ghost_recv_size d1 = (w q).ghost_recv_size d1 := by
    intro q hq d1 hd
    rw [(hspec q hq).2.2.2.1, Function.update_noteq hd]
  have hbefore : ∀ q ∈ ranks, ∀ k : Int, 0 ≤ k → k ≤ d.val →
      recv_before (exchange_ghost_sweep env gc w d q) k = recv_before (w q) k := by
    intro q hq k hk0 hk1
    unfold recv_before
    apply psum_congr
    intro j hj0 hj1
    apply hsz q hq
    intro e
    have := congrArg Fin.val e
    simp [dir_at] at this
    omega
  refine ⟨fun q hq => (hgrow.1 q hq).1, fun q hq => (hgrow.1 q hq).2, ?_, ?_, ?_, ?_, ?_⟩
  · intro q hq d1 hd1 c h0 h1
    by_cases e : d1 = d
    · subst e
      rw [hrnew q hq c h0 h1, hso _ (hsrc q hq d1) d1 (le_refl _) c h0 h1]
    · have hlt := hcase d1 hd1 e
      rw [hro q hq d1 e c h0 h1,
        hso _ (hsrc q hq d1) d1 (Fin.le_iff_val_le_val.2 (by omega)) c h0 h1]
      exact h.occ_match q hq d1 hlt c h0 h1
  · intro q hq d1 hd1
    have hle : d1 ≤ d := Fin.le_iff_val_le_val.2 (by omega)
    rw [psum_congr _ (fun c => occ (w q) (send_cell gc d1 c)) _
      (fun j hj0 hj1 => hso q hq d1 hle j hj0 hj1), (hspec q hq).2.2.1]
    by_cases e : d1 = d
    · subst e
      rw [Function.update_same]
    · rw [Function.update_noteq e]
      exact h.send_size q hq d1 (hcase d1 hd1 e)
  · intro q hq d1 hd1
    by_cases e : d1 = d
    · subst e
      rw [hpsr q hq _ (le_refl _), (hspec q hq).2.2.2.1, Function.update_same]
    · rw [hsz q hq d1 e, psum_congr _ (fun c => occ (w q) (recv_cell gc d1 c)) _
        (fun j hj0 hj1 => hro q hq d1 e j hj0 hj1)]
      exact h.recv_size q hq d1 (hcase d1 hd1 e)
  · intro q hq
    unfold recv_before
    have e1 : ((d.val + 1 : Nat) : Int) = (d.val : Int) + 1 := by push_cast; ring
    rw [e1, psum_succ _ _ (by omega), dir_at_val]
    have := hbefore q hq d.val (by omega) (le_refl _)
    unfold recv_before at this
    rw [this, (hspec q hq).2.1, (hspec q hq).2.2.2.1, Function.update_same, h.ghosts q hq]
    rfl
  · intro q hq d1 c i hd1 hre
    rw [(hspec q hq).1]
    by_cases e : d1 = d
    · subst e
      have hi := hre.2.2.2
      rw [hrnew q hq c hre.1 hre.2.1] at hi
      rw [((hspec q hq).2.2.2.2.2.2.2 c hre.1 hre.2.1).2 i hre.2.2.1 hi,
        hbefore q hq d1.val (by omega) (le_refl _), hpsr q hq c (le_of_lt hre.2.1),
        h.ghosts q hq]
    · have hlt := hcase d1 hd1 e
      have hc := (hcells q hq).2 d1 e c hre.1 hre.2.1
      have hre0 : RecvEntry gc (w q) d1 c i := by
        unfold RecvEntry occ at hre ⊢
        rw [hc] at hre
        exact hre
      have hs : slot_of (exchange_ghost_sweep env gc w d q) (recv_cell gc d1 c) i =
          slot_of (w q) (recv_cell gc d1 c) i := by
        unfold slot_of
        rw [hc]
      rw [hs, hbefore q hq d1.val (by omega) (by omega),
        psum_congr _ (fun c => occ (w q) (recv_cell gc d1 c)) _
          (fun j hj0 hj1 => hro q hq d1 e j hj0 (by have := hre.2.1; omega))]
      exact h.slots q hq d1 c i hlt hre0
/-- Every position below the total of non-negative block sizes lies in exactly one block. -/
theorem psum_split (f : Int → Int) (C : Int) (hC : 0 ≤ C)
    (k : Int) (hk0 : 0 ≤ k) (hk1 : k < psum f C) :
    ∃ c i : Int, 0 ≤ c ∧ c < C ∧ 0 ≤ i ∧ i < f c ∧ k = psum f c + i := by
  have key := forLoop_induct 0 C (fun _ (acc : Int) => acc) (0 : Int)
    (fun y _ => y ≤ C → k < psum f y →
      ∃ c i : Int, 0 ≤ c ∧ c < y ∧ 0 ≤ i ∧ i < f c ∧ k = psum f c + i)
    (by
      intro _ h
      rw [psum_zero] at h
      omega)
    (by
      intro y t hy0 hy1 ih _ hlt
      rw [psum_succ f y hy0] at hlt
      by_cases hb : k < psum f y
      · obtain ⟨c, i, h1, h2, h3, h4, h5⟩ := ih (by omega) hb
        exact ⟨c, i, h1, by omega, h3, h4, h5⟩
      · exact ⟨y, k - psum f y, hy0, by omega, by omega, by omega, by omega⟩)
    hC
  obtain ⟨c, i, h1, h2, h3, h4, h5⟩ := key (le_refl _) hk1
  exact ⟨c, i, h1, h2, h3, h4, h5⟩

/-- The layout only depends on the cells, counters and message sizes. -/
theorem layoutUpTo_congr {F : Type} (env : Int → Env F) (ranks : Finset Int)
    (hg : ProcessGrid env ranks) (gc : GhostCells) (k : Nat) (w w1 : Int → State F)
    (hw : ∀ q ∈ ranks, SameHalo (w q) (w1 q)) (h : LayoutUpTo env ranks gc k w) :
    LayoutUpTo env ranks gc k w1 := by
  have hsrc : ∀ q ∈ ranks, ∀ d1 : Fin 6, (env q).neighbors (r_dir_of d1) ∈ ranks :=
    fun q hq d1 => ((hg q hq).2 (r_dir_of d1)).1
  have ho : ∀ q ∈ ranks, ∀ x : Int, occ (w1 q) x = occ (w q) x :=
    fun q hq x => sameHalo_occ_eq _ _ (hw q hq) x
  have hs : ∀ q ∈ ranks, ∀ x i : Int, slot_of (w1 q) x i = slot_of (w q) x i :=
    fun q hq x i => sameHalo_slot_eq _ _ (hw q hq) x i
  have hb : ∀ q ∈ ranks, ∀ j : Int, recv_before (w1 q) j = recv_before (w q) j := by
    intro q hq j
    unfold recv_before
    rw [(hw q hq).2.2.2.2]
  have hpr : ∀ q ∈ ranks, ∀ (d : Fin 6) (c : Int),
      psum (fun c => occ (w1 q) (recv_cell gc d c)) c =
        psum (fun c => occ (w q) (recv_cell gc d c)) c :=
    fun q hq d c => psum_congr _ _ _ (fun j _ _ => ho q hq _)
  refine ⟨?_, ?_, ?_, ?_, ?_, ?_, ?_⟩
  · intro q hq
    rw [(hw q hq).2.2.1]
    exact h.ghosts_nonneg q hq
  · intro q hq d x hx
    rw [ho q hq]
    exact h.counts q hq d x hx
  · intro q hq d hd c h0 h1
    rw [ho q hq, ho _ (hsrc q hq d)]
    exact h.occ_match q hq d hd c h0 h1
  · intro q hq d hd
    rw [(hw q hq).2.2.2.1, psum_congr _ (fun c => occ (w q) (send_cell gc d c)) _
      (fun j _ _ => ho q hq _)]
    exact h.send_size q hq d hd
  · intro q hq d hd
    rw [(hw q hq).2.2.2.2, hpr q hq]
    exact h.recv_size q hq d hd
  · intro q hq
    rw [(hw q hq).2.2.1, hb q hq]
    exact h.ghosts q hq
  · intro q hq d c i hd he
    have he0 : RecvEntry gc (w q) d c i := by
      unfold RecvEntry at he ⊢
      rw [ho q hq] at he
      exact he
    rw [hs q hq, (hw q hq).2.1, hb q hq, hpr q hq]
    exact h.slots q hq d c i hd he0

/-- `exchange_ghost` builds the layout for all six directions and keeps `n_particles`. -/
theorem exchange_ghost_layout {F : Type} [LinearOrderedCommRing F] (env : Int → Env F)
    (ranks : Finset Int) (hg : ProcessGrid env ranks) (gc : GhostCells) (hgc : HaloCells gc)
    (w : Int → State F) (hcnt : ∀ q ∈ ranks, CountsOK gc (w q)) :
    LayoutUpTo env ranks gc 6 (exchange_ghost env gc w) ∧
    ∀ q ∈ ranks, (exchange_ghost env gc w q).n_particles = (w q).n_particles := by
  have hc : ∀ q, (exchange_ghost_release (w q)).cells = (w q).cells :=
    fun q => (exchange_ghost_release_spec (w q)).2.2.2
  have h0 : LayoutUpTo env ranks gc (0 : Fin 6).val (fun q => exchange_ghost_release (w q)) := by
    refine ⟨?_, ?_, ?_, ?_, ?_, ?_, ?_⟩
    · intro q _
      rw [(exchange_ghost_release_spec (w q)).2.2.1]
    · intro q hq d x hx
      unfold occ
      rw [hc]
      exact hcnt q hq d x hx
    · intro q _ d hd
      exact absurd hd (by simp)
    · intro q _ d hd
      exact absurd hd (by simp)
    · intro q _ d hd
      exact absurd hd (by simp)
    · intro q _
      rw [(exchange_ghost_release_spec (w q)).2.2.1]
      unfold recv_before
      simp [psum_zero]
    · intro q _ d c i hd
      exact absurd hd (by simp)
  have h1 := exchange_ghost_sweep_layout env ranks hg gc hgc _ 0 h0
  have h2 := exchange_ghost_sweep_layout env ranks hg gc hgc _ 1 h1
  have h3 := exchange_ghost_sweep_layout env ranks hg gc hgc _ 2 h2
  have h4 := exchange_ghost_sweep_layout env ranks hg gc hgc _ 3 h3
  have h5 := exchange_ghost_sweep_layout env ranks hg gc hgc _ 4 h4
  have h6 := exchange_ghost_sweep_layout env ranks hg gc hgc _ 5 h5
  have hgrow := (exchange_ghost_sweeps_grow env ranks hg gc hgc.1 [0, 1, 2, 3, 4, 5]
    (fun q => exchange_ghost_release (w q))
    (fun q hq => ⟨h0.ghosts_nonneg q hq, h0.counts q hq⟩)).2
  have hfin : ∀ q, SameHalo
      (([0, 1, 2, 3, 4, 5] : List (Fin 6)).foldl
        (fun w1 dir => exchange_ghost_sweep env gc w1 dir)
        (fun q => exchange_ghost_release (w q)) q)
      (exchange_ghost env gc w q) := by
    intro q
    unfold exchange_ghost exchange_ghost_finish
    split_ifs <;> exact ⟨rfl, rfl, rfl, rfl, rfl⟩
  constructor
  · exact layoutUpTo_congr env ranks hg gc 6 _ _ (fun q _ => hfin q) h6
  · intro q hq
    rw [(hfin q).2.1, (hgrow q hq).1, (exchange_ghost_release_spec (w q)).2.1]

/-- The direction of a counter below six has that counter as its number. -/
theorem dir_at_of_lt (j : Int) (h0 : 0 ≤ j) (h1 : j < 6) : ((dir_at j).val : Int) = j := by
  unfold dir_at
  simp only
  omega

/-- C13: after `exchange_ghost` on a process grid (every count vector is the one its
sender packed, so its entries sum to the announced total), `n_particles` is unchanged,
`n_ghosts` is the sum of `ghost_recv_size` over the six directions, each
`ghost_recv_size[d]` is the sum of the occupancies of the recv cells of `d`, and entry `i`
of the `c`-th recv cell of direction `d` lists slot `n_particles` + (entries of the earlier
directions) + (entries of the earlier recv cells of `d`) + `i`.  Hence every slot from
`n_particles` to `n_particles + n_ghosts - 1` is listed by an entry, and by one only. -/
theorem exchange_ghost_slots {F : Type} [LinearOrderedCommRing F] (env : Int → Env F)
    (ranks : Finset Int) (hg : ProcessGrid env ranks) (gc : GhostCells) (hgc : HaloCells gc)
    (w : Int → State F) (hcnt : ∀ q ∈ ranks, CountsOK gc (w q)) (r : Int) (hr : r ∈ ranks) :
    (exchange_ghost env gc w r).n_particles = (w r).n_particles ∧
    (exchange_ghost env gc w r).n_ghosts =
      psum (fun j => (exchange_ghost env gc w r).ghost_recv_size (dir_at j)) 6 ∧
    (∀ d : Fin 6, (exchange_ghost env gc w r).ghost_recv_size d =
      psum (fun c => occ (exchange_ghost env gc w r) (recv_cell gc d c)) (gc.n_recv_cells d)) ∧
    (∀ (d : Fin 6) (c i : Int), RecvEntry gc (exchange_ghost env gc w r) d c i →
      slot_of (exchange_ghost env gc w r) (recv_cell gc d c) i =
        (exchange_ghost env gc w r).n_particles +
          psum (fun j => (exchange_ghost env gc w r).ghost_recv_size (dir_at j)) d.val +
          psum (fun c => occ (exchange_ghost env gc w r) (recv_cell gc d c)) c + i) ∧
    (∀ m : Int, (exchange_ghost env gc w r).n_particles ≤ m →
      m < (exchange_ghost env gc w r).n_particles + (exchange_ghost env gc w r).n_ghosts →
      ∃ (d : Fin 6) (c i : Int), RecvEntry gc (exchange_ghost env gc w r) d c i ∧
        slot_of (exchange_ghost env gc w r) (recv_cell gc d c) i = m) ∧
    ∀ (d : Fin 6) (c i : Int) (d1 : Fin 6) (c1 i1 : Int),
      RecvEntry gc (exchange_ghost env gc w r) d c i →
      RecvEntry gc (exchange_ghost env gc w r) d1 c1 i1 →
      slot_of (exchange_ghost env gc w r) (recv_cell gc d c) i =
        slot_of (exchange_ghost env gc w r) (recv_cell gc d1 c1) i1 →
      d = d1 ∧ c = c1 ∧ i = i1 := by
  obtain ⟨hL, hnp⟩ := exchange_ghost_layout env ranks hg gc hgc w hcnt
  generalize exchange_ghost env gc w = W at hL hnp ⊢
  have hsrc : ∀ d1 : Fin 6, (env r).neighbors (r_dir_of d1) ∈ ranks :=
    fun d1 => ((hg r hr).2 (r_dir_of d1)).1
  have hocc : ∀ (d : Fin 6) (c : Int), 0 ≤ c → c < gc.n_send_cells d →
      0 ≤ occ (W r) (recv_cell gc d c) := by
    intro d c h0 h1
    rw [hL.occ_match r hr d d.isLt c h0 h1]
    exact countsOK_occ gc _ (hL.counts _ (hsrc d)) d c h0 h1
  have hC : ∀ d : Fin 6, 0 ≤ gc.n_send_cells d := fun d => (hgc.1.2 d).1
  have hsz : ∀ d : Fin 6, (W r).ghost_recv_size d =
      psum (fun c => occ (W r) (recv_cell gc d c)) (gc.n_send_cells d) :=
    fun d => hL.recv_size r hr d d.isLt
  have hsz0 : ∀ j : Int, 0 ≤ j → j < 6 → 0 ≤ (W r).ghost_recv_size (dir_at j) := by
    intro j _ _
    rw [hsz]
    exact psum_nonneg _ _ (hC _) (fun c h0 h1 => hocc _ c h0 h1)
  have hform : ∀ (d : Fin 6) (c i : Int), RecvEntry gc (W r) d c i →
      slot_of (W r) (recv_cell gc d c) i =
        (W r).n_particles + psum (fun j => (W r).ghost_recv_size (dir_at j)) d.val +
          psum (fun c => occ (W r) (recv_cell gc d c)) c + i :=
    fun d c i he => hL.slots r hr d c i d.isLt he
  refine ⟨hnp r hr, hL.ghosts r hr, ?_, hform, ?_, ?_⟩
  · intro d
    rw [(hgc.1.2 d).2.2.1]
    exact hsz d
  · intro m hm0 hm1
    have hgh : (W r).n_ghosts = psum (fun j => (W r).ghost_recv_size (dir_at j)) 6 :=
      hL.ghosts r hr
    obtain ⟨j, k1, hj0, hj1, hk0, hk1, hk⟩ := psum_split
      (fun j => (W r).ghost_recv_size (dir_at j)) 6 (by decide) (m - (W r).n_particles)
      (by omega) (by omega)
    have hk1b : k1 < psum (fun c => occ (W r) (recv_cell gc (dir_at j) c))
        (gc.n_send_cells (dir_at j)) := by
      rw [← hsz]
      exact hk1
    obtain ⟨c, i, hc0, hc1, hi0, hi1, hi⟩ := psum_split
      (fun c => occ (W r) (recv_cell gc (dir_at j) c)) (gc.n_send_cells (dir_at j)) (hC _)
      k1 hk0 hk1b
    have hent : RecvEntry gc (W r) (dir_at j) c i := ⟨hc0, hc1, hi0, hi1⟩
    refine ⟨dir_at j, c, i, hent, ?_⟩
    rw [hform _ c i hent, dir_at_of_lt j hj0 hj1]
    omega
  · intro d c i d1 c1 i1 he he1 heq
    rw [hform d c i he, hform d1 c1 i1 he1] at heq
    obtain ⟨hc0, hc1, hi0, hi1⟩ := he
    obtain ⟨hc0', hc1', hi0', hi1'⟩ := he1
    have hin : ∀ (d : Fin 6) (c i : Int), 0 ≤ c → c < gc.n_send_cells d → 0 ≤ i →
        i < occ (W r) (recv_cell gc d c) →
        0 ≤ psum (fun c => occ (W r) (recv_cell gc d c)) c + i ∧
        psum (fun c => occ (W r) (recv_cell gc d c)) c + i <
          (W r).ghost_recv_size (dir_at (d.val : Int)) := by
      intro d c i h0 h1 h2 h3
      rw [dir_at_val, hsz]
      constructor
      · have := psum_nonneg (fun c => occ (W r) (recv_cell gc d c)) c h0
          (fun j hj0 hj1 => hocc d j hj0 (by omega))
        omega
      · have hlt := psum_entry_lt (fun c => occ (W r) (recv_cell gc d c)) c (c + 1) i h0
          (by omega) h3 (fun j hj0 hj1 => hocc d j hj0 (by omega))
        have hmono := psum_mono (fun c => occ (W r) (recv_cell gc d c)) (c + 1)
          (gc.n_send_cells d) (by omega) (by omega) (fun j hj0 hj1 => hocc d j (by omega) hj1)
        omega
    obtain ⟨ha0, ha1⟩ := hin d c i hc0 hc1 hi0 hi1
    obtain ⟨hb0, hb1⟩ := hin d1 c1 i1 hc0' hc1' hi0' hi1'
    have hd := psum_entry_inj (fun j => (W r).ghost_recv_size (dir_at j)) 6 (d.val : Int)
      (d1.val : Int) _ _ (by omega) (by omega) (by omega) (by omega) ha0 ha1 hb0 hb1 hsz0
      (by omega)
    have hdd : d = d1 := by
      apply Fin.ext
      omega
    subst hdd
    have hci := psum_entry_inj (fun c => occ (W r) (recv_cell gc d c)) (gc.n_send_cells d)
      c c1 i i1 hc0 hc0' hc1 hc1' hi0 hi1 hi0' hi1' (fun j hj0 hj1 => hocc d j hj0 hj1) hd.2
    exact ⟨rfl, hci.1, hci.2⟩
theorem sizesKept_refl {F : Type} (a : State F) : SizesKept a a := ⟨rfl, rfl, rfl, rfl⟩

theorem sizesKept_trans {F : Type} {a b c : State F} (h1 : SizesKept a b)
    (h2 : SizesKept b c) : SizesKept a c :=
  ⟨h2.1.trans h1.1, h2.2.1.trans h1.2.1, h2.2.2.1.trans h1.2.2.1, h2.2.2.2.trans h1.2.2.2⟩

/-- Counting, growing, packing and folding the ghost records touch no message size. -/
theorem ghost_prepare_sizes {F : Type} [LinearOrderedCommRing F] (env : Env F)
    (gc : GhostCells) (st : State F) (dir : Fin 6) :
    SizesKept st (ghost_prepare env gc st dir) := by
  have h1 : SizesKept st (ghost_count gc st dir) := by
    unfold ghost_count
    exact forLoop_preserve _ _ _ _ (fun acc => SizesKept st acc) ⟨rfl, rfl, rfl, rfl⟩
      (fun x t h => h)
  have h2 : SizesKept (ghost_count gc st dir) (ghost_grow env gc (ghost_count gc st dir)) := by
    unfold ghost_grow
    split_ifs <;> exact ⟨rfl, rfl, rfl, rfl⟩
  have h3 : ∀ s : State F, SizesKept s (ghost_pack gc s dir) := by
    intro s
    unfold ghost_pack
    exact forLoop_preserve _ _ _ _ (fun acc => SizesKept s acc) ⟨rfl, rfl, rfl, rfl⟩
      (fun x t h => forLoop_preserve _ _ _ _ (fun acc => SizesKept s acc) h (fun y u hu => hu))
  have h4 : ∀ s : State F, SizesKept s (ghost_fold env s dir) := by
    intro s
    unfold ghost_fold
    split_ifs
    · exact forLoop_preserve _ _ _ _ (fun acc => SizesKept s acc) ⟨rfl, rfl, rfl, rfl⟩
        (fun x t h => h)
    · exact ⟨rfl, rfl, rfl, rfl⟩
  unfold ghost_prepare
  exact sizesKept_trans (sizesKept_trans (sizesKept_trans h1 h2) (h3 _)) (h4 _)

/-- Folding the packed records does not change their number. -/
theorem ghost_fold_count {F : Type} [LinearOrderedCommRing F] (env : Env F) (st : State F)
    (dir : Fin 6) : (ghost_fold env st dir).n_g_send_buf = st.n_g_send_buf := by
  unfold ghost_fold
  split_ifs
  · exact forLoop_preserve _ _ _ _ (fun (acc : State F) => acc.n_g_send_buf = st.n_g_send_buf) rfl
      (fun x t h => h)
  · rfl

/-- "sort recieved ghosts into cells" touches no message size. -/
theorem ghost_unpack_sizes {F : Type} (gc : GhostCells) (st : State F) (dir : Fin 6) :
    SizesKept st (ghost_unpack gc st dir) := by
  unfold ghost_unpack
  refine forLoop_preserve _ _ _ _ (fun (u : Unpack F) => SizesKept st u.st)
    ⟨rfl, rfl, rfl, rfl⟩ ?_
  intro c u hu
  unfold unpack_cell
  dsimp only
  refine forLoop_preserve _ _ _ _ (fun (u1 : Unpack F) => SizesKept st u1.st) ?_ ?_
  · split_ifs <;> exact hu
  · intro i u1 h1
    exact h1

/-- The sizes `send_ghosts` stores, whatever message arrives. -/
theorem send_ghosts_sizes {F : Type} (env : Env F) (gc : GhostCells) (P : State F)
    (s_dir : Fin 6) (msg : GhostMsg F) :
    (send_ghosts env gc P s_dir msg).ghost_send_size =
      Function.update P.ghost_send_size s_dir (P.n_send_ghosts gc.max_send_cells) ∧
    (send_ghosts env gc P s_dir msg).max_send_buf =
      max P.max_send_buf (P.n_send_ghosts gc.max_send_cells) ∧
    (send_ghosts env gc P s_dir msg).ghost_recv_size =
      Function.update P.ghost_recv_size s_dir
        ((send_ghosts env gc P s_dir msg).ghost_recv_size s_dir) ∧
    (send_ghosts env gc P s_dir msg).max_recv_buf =
      max P.max_recv_buf ((send_ghosts env gc P s_dir msg).ghost_recv_size s_dir) := by
  have key : ∀ st1 : State F, st1.ghost_send_size = P.ghost_send_size →
      st1.ghost_recv_size = P.ghost_recv_size → st1.max_send_buf = P.max_send_buf →
      st1.max_recv_buf = P.max_recv_buf → st1.n_send_ghosts = P.n_send_ghosts →
      ∀ S : State F, S = (
        let st2 : State F :=
          { st1 with
            ghost_send_size :=
              Function.update st1.ghost_send_size s_dir (st1.n_send_ghosts gc.max_send_cells) }
        let st3 : State F :=
          if st2.ghost_send_size s_dir > st2.max_send_buf then
            { st2 with max_send_buf := st2.ghost_send_size s_dir }
          else st2
        let st4 : State F :=
          { st3 with
            ghost_recv_size :=
              Function.update st3.ghost_recv_size s_dir (st3.n_recv_ghosts gc.max_send_cells) }
        if st4.ghost_recv_size s_dir > st4.max_recv_buf then
          { st4 with max_recv_buf := st4.ghost_recv_size s_dir }
        else st4) →
      S.ghost_send_size =
        Function.update P.ghost_send_size s_dir (P.n_send_ghosts gc.max_send_cells) ∧
      S.max_send_buf = max P.max_send_buf (P.n_send_ghosts gc.max_send_cells) ∧
      S.ghost_recv_size = Function.update P.ghost_recv_size s_dir (S.ghost_recv_size s_dir) ∧
      S.max_recv_buf = max P.max_recv_buf (S.ghost_recv_size s_dir) := by
    intro st1 e1 e2 e3 e4 e5 S hS
    subst hS
    dsimp only
    simp only [Function.update_same, e1, e2, e3, e4, e5]
    split_ifs with a1 a2 a2 <;> dsimp only at a1 a2 ⊢ <;>
      simp only [Function.update_same, Function.update_idem, e1, e2, e3, e4, e5, true_and] <;>
      refine ⟨?_, ?_⟩ <;> rw [max_def] <;> split_ifs <;> first | rfl | omega
  unfold send_ghosts
  by_cases h : env.neighbors s_dir = env.this_node
  · have hn : ¬ (env.neighbors s_dir ≠ env.this_node) := by simpa using h
    rw [if_neg hn]
    exact key
      { P with
        n_recv_ghosts := memcpy P.n_recv_ghosts 0 P.n_send_ghosts (gc.max_send_cells + 1)
        g_send_buf := P.g_recv_buf
        g_recv_buf := P.g_send_buf
        max_g_send_buf := P.max_g_recv_buf
        max_g_recv_buf := P.max_g_send_buf
        n_g_send_buf := P.n_g_recv_buf
        n_g_recv_buf := P.n_g_send_buf } rfl rfl rfl rfl rfl _ rfl
  · rw [if_pos h]
    have hrecv : ([0, 1] : List Int).foldl (fun acc evenodd =>
        if (env.pe_pos (axis_of s_dir) + evenodd) % 2 = 0 then acc
        else recv_ghosts gc acc msg) P = recv_ghosts gc P msg := by
      simp only [List.foldl_cons, List.foldl_nil, add_zero]
      by_cases hp : env.pe_pos (axis_of s_dir) % 2 = 0
      · rw [if_pos hp, if_neg (by omega)]
      · rw [if_neg hp, if_pos (by omega)]
    rw [hrecv]
    have hr : (recv_ghosts gc P msg).ghost_send_size = P.ghost_send_size ∧
        (recv_ghosts gc P msg).ghost_recv_size = P.ghost_recv_size ∧
        (recv_ghosts gc P msg).max_send_buf = P.max_send_buf ∧
        (recv_ghosts gc P msg).max_recv_buf = P.max_recv_buf ∧
        (recv_ghosts gc P msg).n_send_ghosts = P.n_send_ghosts := by
      unfold recv_ghosts
      dsimp only
      split_ifs <;> exact ⟨rfl, rfl, rfl, rfl, rfl⟩
    exact key (recv_ghosts gc P msg) hr.1 hr.2.1 hr.2.2.1 hr.2.2.2.1 hr.2.2.2.2 _ rfl
/-- One direction of `exchange_ghost` on rank `r`: the sizes it stores. -/
theorem exchange_ghost_sweep_sizes {F : Type} [LinearOrderedCommRing F] (env : Int → Env F)
    (gc : GhostCells) (w : Int → State F) (d : Fin 6) (r : Int) :
    (exchange_ghost_sweep env gc w d r).ghost_send_size =
      Function.update (w r).ghost_send_size d
        ((ghost_prepare (env r) gc (w r) d).n_send_ghosts gc.max_send_cells) ∧
    (exchange_ghost_sweep env gc w d r).max_send_buf =
      max (w r).max_send_buf ((ghost_prepare (env r) gc (w r) d).n_send_ghosts gc.max_send_cells) ∧
    (exchange_ghost_sweep env gc w d r).ghost_recv_size =
      Function.update (w r).ghost_recv_size d
        ((exchange_ghost_sweep env gc w d r).ghost_recv_size d) ∧
    (exchange_ghost_sweep env gc w d r).max_recv_buf =
      max (w r).max_recv_buf ((exchange_ghost_sweep env gc w d r).ghost_recv_size d) := by
  obtain ⟨p1, p2, p3, p4⟩ := ghost_prepare_sizes (env r) gc (w r) d
  obtain ⟨s1, s2, s3, s4⟩ := send_ghosts_sizes (env r) gc (ghost_prepare (env r) gc (w r) d) d
    (ghost_msg (ghost_prepare (env ((env r).neighbors (r_dir_of d))) gc
      (w ((env r).neighbors (r_dir_of d))) d))
  obtain ⟨u1, u2, u3, u4⟩ := ghost_unpack_sizes gc
    (send_ghosts (env r) gc (ghost_prepare (env r) gc (w r) d) d
      (ghost_msg (ghost_prepare (env ((env r).neighbors (r_dir_of d))) gc
        (w ((env r).neighbors (r_dir_of d))) d))) d
  unfold exchange_ghost_sweep
  rw [p1] at s1
  rw [p2] at s3
  rw [p3] at s2
  rw [p4] at s4
  refine ⟨u1.trans s1, u3.trans s2, ?_, ?_⟩
  · rw [u2]
    exact s3
  · rw [u4, u2]
    exact s4

/-- One direction of `exchange_ghost` extends the bounds on the buffer sizes. -/
theorem exchange_ghost_sweep_sizesUpTo {F : Type} [LinearOrderedCommRing F] (env : Int → Env F)
    (gc : GhostCells) (w : Int → State F) (d : Fin 6) (r : Int) (old_s old_r : Int)
    (h : SizesUpTo old_s old_r d.val (w r)) :
    SizesUpTo old_s old_r (d.val + 1) (exchange_ghost_sweep env gc w d r) := by
  obtain ⟨e1, e2, e3, e4⟩ := exchange_ghost_sweep_sizes env gc w d r
  obtain ⟨h1, h2, h3, h4, h5⟩ := h
  generalize (ghost_prepare (env r) gc (w r) d).n_send_ghosts gc.max_send_cells = v at e1 e2
  generalize hv1 : (exchange_ghost_sweep env gc w d r).ghost_recv_size d = v1 at e3 e4
  have hs : ∀ d1 : Fin 6, (exchange_ghost_sweep env gc w d r).ghost_send_size d1 =
      if d1 = d then v else (w r).ghost_send_size d1 := by
    intro d1
    rw [e1, Function.update_apply]
  have hr : ∀ d1 : Fin 6, d1 ≠ d → (exchange_ghost_sweep env gc w d r).ghost_recv_size d1 =
      (w r).ghost_recv_size d1 := by
    intro d1 hne
    rw [e3, Function.update_noteq hne]
  refine ⟨?_, ?_, ?_, ?_, ?_⟩
  · rw [e2]
    exact le_trans h1 (le_max_left _ _)
  · rw [e4]
    exact le_trans h2 (le_max_left _ _)
  · intro d1 hd1
    by_cases hdd : d1 = d
    · subst hdd
      rw [hs, if_pos rfl, hv1, e2, e4]
      exact ⟨le_max_right _ _, le_max_right _ _⟩
    · have hlt : d1.val < d.val := by
        have : d1.val ≠ d.val := fun hc => hdd (Fin.ext hc)
        omega
      rw [hs, if_neg hdd, hr d1 hdd, e2, e4]
      exact ⟨le_trans (h3 d1 hlt).1 (le_max_left _ _), le_trans (h3 d1 hlt).2 (le_max_left _ _)⟩
  · rw [e2]
    rcases le_total v (w r).max_send_buf with hle | hle
    · rw [max_eq_left hle]
      rcases h4 with h4 | ⟨d1, hd1, h4⟩
      · exact Or.inl h4
      · refine Or.inr ⟨d1, by omega, ?_⟩
        have hne : d1 ≠ d := by
          intro hc
          rw [hc] at hd1
          omega
        rw [hs, if_neg hne]
        exact h4
    · rw [max_eq_right hle]
      refine Or.inr ⟨d, by omega, ?_⟩
      rw [hs, if_pos rfl]
  · rw [e4]
    rcases le_total v1 (w r).max_recv_buf with hle | hle
    · rw [max_eq_left hle]
      rcases h5 with h5 | ⟨d1, hd1, h5⟩
      · exact Or.inl h5
      · refine Or.inr ⟨d1, by omega, ?_⟩
        have hne : d1 ≠ d := by
          intro hc
          rw [hc] at hd1
          omega
        rw [hr d1 hne]
        exact h5
    · rw [max_eq_right hle]
      exact Or.inr ⟨d, by omega, hv1.symm⟩

/-- Releasing the old ghosts touches no message size. -/
theorem exchange_ghost_release_sizes {F : Type} (st : State F) :
    SizesKept st (exchange_ghost_release st) := by
  unfold exchange_ghost_release
  exact forLoop_preserve _ _ _ _ (fun acc => SizesKept st acc) ⟨rfl, rfl, rfl, rfl⟩
    (fun x t h => h)

/-- The buffer sizes of a rank before the unification at the end of `exchange_ghost`. -/
theorem exchange_ghost_sweeps_sizes {F : Type} [LinearOrderedCommRing F] (env : Int → Env F)
    (gc : GhostCells) (w : Int → State F) (r : Int) :
    SizesUpTo (w r).max_send_buf (w r).max_recv_buf 6
      (([0, 1, 2, 3, 4, 5] : List (Fin 6)).foldl
        (fun w1 dir => exchange_ghost_sweep env gc w1 dir)
        (fun q => exchange_ghost_release (w q)) r) := by
  obtain ⟨_, _, r3, r4⟩ := exchange_ghost_release_sizes (w r)
  have h0 : SizesUpTo (w r).max_send_buf (w r).max_recv_buf (0 : Fin 6).val
      ((fun q => exchange_ghost_release (w q)) r) := by
    refine ⟨le_of_eq r3.symm, le_of_eq r4.symm, ?_, Or.inl r3, Or.inl r4⟩
    intro d hd
    exact absurd hd (by simp)
  have h1 := exchange_ghost_sweep_sizesUpTo env gc
    (fun q => exchange_ghost_release (w q)) 0 r _ _ h0
  have h2 := exchange_ghost_sweep_sizesUpTo env gc
    (([0] : List (Fin 6)).foldl
      (fun w1 dir => exchange_ghost_sweep env gc w1 dir) (fun q => exchange_ghost_release (w q)))
    1 r _ _ h1
  have h3 := exchange_ghost_sweep_sizesUpTo env gc
    (([0, 1] : List (Fin 6)).foldl
      (fun w1 dir => exchange_ghost_sweep env gc w1 dir) (fun q => exchange_ghost_release (w q)))
    2 r _ _ h2
  have h4 := exchange_ghost_sweep_sizesUpTo env gc
    (([0, 1, 2] : List (Fin 6)).foldl
      (fun w1 dir => exchange_ghost_sweep env gc w1 dir) (fun q => exchange_ghost_release (w q)))
    3 r _ _ h3
  have h5 := exchange_ghost_sweep_sizesUpTo env gc
    (([0, 1, 2, 3] : List (Fin 6)).foldl
      (fun w1 dir => exchange_ghost_sweep env gc w1 dir) (fun q => exchange_ghost_release (w q)))
    4 r _ _ h4
  exact exchange_ghost_sweep_sizesUpTo env gc
    (([0, 1, 2, 3, 4] : List (Fin 6)).foldl
      (fun w1 dir => exchange_ghost_sweep env gc w1 dir) (fun q => exchange_ghost_release (w q)))
    5 r _ _ h5

/-- C15: if on entry `send_buf` and `recv_buf` are allocated for `max_send_buf` and
`max_recv_buf` triples, then after `exchange_ghost` the two sizes are equal, their value
`M` is at least both entry sizes and every `ghost_send_size[d]`, `ghost_recv_size[d]` and
equals one of these numbers (it is their maximum), both buffers are allocated for exactly
`3 * M` doubles, neither is shorter than a buffer was on entry, and `3 * ghost_send_size[d]`
and `3 * ghost_recv_size[d]` doubles fit in either buffer for every `d`. -/
theorem exchange_ghost_capacity {F : Type} [LinearOrderedCommRing F] (env : Int → Env F)
    (gc : GhostCells) (w : Int → State F) (r : Int) (caps : BufCaps)
    (hs : caps.send_cap = 3 * (w r).max_send_buf)
    (hr : caps.recv_cap = 3 * (w r).max_recv_buf) :
    (exchange_ghost env gc w r).max_recv_buf = (exchange_ghost env gc w r).max_send_buf ∧
    (w r).max_send_buf ≤ (exchange_ghost env gc w r).max_send_buf ∧
    (w r).max_recv_buf ≤ (exchange_ghost env gc w r).max_send_buf ∧
    (∀ d : Fin 6,
      (exchange_ghost env gc w r).ghost_send_size d ≤ (exchange_ghost env gc w r).max_send_buf ∧
      (exchange_ghost env gc w r).ghost_recv_size d ≤
        (exchange_ghost env gc w r).max_send_buf) ∧
    ((exchange_ghost env gc w r).max_send_buf = (w r).max_send_buf ∨
      (exchange_ghost env gc w r).max_send_buf = (w r).max_recv_buf ∨
      ∃ d : Fin 6,
        (exchange_ghost env gc w r).max_send_buf =
          (exchange_ghost env gc w r).ghost_send_size d ∨
        (exchange_ghost env gc w r).max_send_buf =
          (exchange_ghost env gc w r).ghost_recv_size d) ∧
    (exchange_ghost_caps env gc w r caps).send_cap =
      3 * (exchange_ghost env gc w r).max_send_buf ∧
    (exchange_ghost_caps env gc w r caps).recv_cap =
      3 * (exchange_ghost env gc w r).max_send_buf ∧
    caps.send_cap ≤ (exchange_ghost_caps env gc w r caps).send_cap ∧
    caps.recv_cap ≤ (exchange_ghost_caps env gc w r caps).send_cap ∧
    ∀ d : Fin 6,
      3 * (exchange_ghost env gc w r).ghost_send_size d ≤
        (exchange_ghost_caps env gc w r caps).send_cap ∧
      3 * (exchange_ghost env gc w r).ghost_send_size d ≤
        (exchange_ghost_caps env gc w r caps).recv_cap ∧
      3 * (exchange_ghost env gc w r).ghost_recv_size d ≤
        (exchange_ghost_caps env gc w r caps).send_cap ∧
      3 * (exchange_ghost env gc w r).ghost_recv_size d ≤
        (exchange_ghost_caps env gc w r caps).recv_cap := by
  obtain ⟨h1, h2, h3, h4, h5⟩ := exchange_ghost_sweeps_sizes env gc w r
  obtain ⟨_, _, r3, r4⟩ := exchange_ghost_release_sizes (w r)
  unfold exchange_ghost_caps exchange_ghost_realloc
  rw [r3, r4]
  unfold exchange_ghost
  generalize ((([0, 1, 2, 3, 4, 5] : List (Fin 6)).foldl
    (fun w1 dir => exchange_ghost_sweep env gc w1 dir)
    (fun q => exchange_ghost_release (w q))) r) = V at h1 h2 h3 h4 h5 ⊢
  generalize (w r).max_send_buf = os at hs h1 h4 ⊢
  generalize (w r).max_recv_buf = orv at hr h2 h5 ⊢
  have hb : ∀ d : Fin 6, V.ghost_send_size d ≤ V.max_send_buf ∧
      V.ghost_recv_size d ≤ V.max_recv_buf := fun d => h3 d d.isLt
  unfold exchange_ghost_finish
  by_cases hc : V.max_send_buf > V.max_recv_buf
  · rw [if_pos hc]
    dsimp only
    refine ⟨rfl, h1, by omega, fun d => ⟨(hb d).1, by have := (hb d).2; omega⟩, ?_, ?_⟩
    · rcases h4 with h4 | ⟨d, _, h4⟩
      · exact Or.inl h4
      · exact Or.inr (Or.inr ⟨d, Or.inl h4⟩)
    · have hcap : ∀ d : Fin 6, 3 * V.ghost_send_size d ≤ 3 * V.max_send_buf ∧
          3 * V.ghost_recv_size d ≤ 3 * V.max_send_buf := by
        intro d
        have := hb d
        omega
      split_ifs <;> (try dsimp only) <;>
        refine ⟨by omega, by omega, by omega, by omega, fun d => ?_⟩ <;>
        have := hcap d <;> omega
  · rw [if_neg hc]
    dsimp only
    refine ⟨rfl, by omega, h2, fun d => ⟨by have := (hb d).1; omega, (hb d).2⟩, ?_, ?_⟩
    · rcases h5 with h5 | ⟨d, _, h5⟩
      · exact Or.inr (Or.inl h5)
      · exact Or.inr (Or.inr ⟨d, Or.inr h5⟩)
    · have hcap : ∀ d : Fin 6, 3 * V.ghost_send_size d ≤ 3 * V.max_recv_buf ∧
          3 * V.ghost_recv_size d ≤ 3 * V.max_recv_buf := by
        intro d
        have := hb d
        omega
      split_ifs <;> (try dsimp only) <;>
        refine ⟨by omega, by omega, by omega, by omega, fun d => ?_⟩ <;>
        have := hcap d <;> omega
/-- The exchange of a position or force buffer touches no message size. -/
theorem send_posforce_sizes {F : Type} (env : Env F) (st : State F) (s_dir : Fin 6)
    (ss rs : Int) (msg : PosMsg F) : SizesKept st (send_posforce env st s_dir ss rs msg) := by
  unfold send_posforce
  split_ifs
  · simp only [List.foldl]
    split_ifs <;> exact ⟨rfl, rfl, rfl, rfl⟩
  · exact ⟨rfl, rfl, rfl, rfl⟩

/-- The pack, fold and unpack loops of `update_ghost_pos` and the pack and add loops of
`collect_ghost_forces` touch no message size. -/
theorem refresh_loops_sizes {F : Type} [LinearOrderedCommRing F] (env : Env F)
    (gc : GhostCells) (st : State F) (dir : Fin 6) :
    SizesKept st (pos_prepare env gc st dir) ∧ SizesKept st (pos_unpack gc st dir) ∧
    SizesKept st (force_pack gc st dir) ∧ SizesKept st (force_add gc st dir) := by
  refine ⟨?_, ?_, ?_, ?_⟩
  · have h1 : SizesKept st (pos_pack gc st dir).st := by
      unfold pos_pack
      exact forLoop_preserve _ _ _ _ (fun (u : Packing F) => SizesKept st u.st)
        ⟨rfl, rfl, rfl, rfl⟩
        (fun c u hu => forLoop_preserve _ _ _ _ (fun (u1 : Packing F) => SizesKept st u1.st) hu
          (fun n u1 h1 => h1))
    unfold pos_prepare pos_fold
    split_ifs
    · unfold forStride3
      exact forLoop_preserve _ _ _ _ (fun acc => SizesKept st acc) h1 (fun x t h => h)
    · exact h1
  · unfold pos_unpack
    exact forLoop_preserve _ _ _ _ (fun (u : Packing F) => SizesKept st u.st)
      ⟨rfl, rfl, rfl, rfl⟩
      (fun c u hu => forLoop_preserve _ _ _ _ (fun (u1 : Packing F) => SizesKept st u1.st) hu
        (fun n u1 h1 => h1))
  · unfold force_pack
    exact forLoop_preserve _ _ _ _ (fun (u : Packing F) => SizesKept st u.st)
      ⟨rfl, rfl, rfl, rfl⟩
      (fun c u hu => forLoop_preserve _ _ _ _ (fun (u1 : Packing F) => SizesKept st u1.st) hu
        (fun n u1 h1 => h1))
  · unfold force_add
    exact forLoop_preserve _ _ _ _ (fun (u : Packing F) => SizesKept st u.st)
      ⟨rfl, rfl, rfl, rfl⟩
      (fun c u hu => forLoop_preserve _ _ _ _ (fun (u1 : Packing F) => SizesKept st u1.st) hu
        (fun n u1 h1 => h1))

/-- No sweep of `update_ghost_pos` or `collect_ghost_forces` touches a message size. -/
theorem refresh_sweeps_sizes {F : Type} [LinearOrderedCommRing F] (env : Int → Env F)
    (gc : GhostCells) (l : List (Fin 6)) :
    ∀ (w : Int → State F) (r : Int),
      SizesKept (w r) (l.foldl (fun w1 dir => update_ghost_pos_sweep env gc w1 dir) w r) ∧
      SizesKept (w r) (l.foldl (fun w1 dir => collect_ghost_forces_sweep env gc w1 dir) w r) := by
  induction l with
  | nil => exact fun w r => ⟨sizesKept_refl _, sizesKept_refl _⟩
  | cons d l ih =>
    intro w r
    simp only [List.foldl_cons]
    constructor
    · refine sizesKept_trans ?_ (ih (update_ghost_pos_sweep env gc w d) r).1
      unfold update_ghost_pos_sweep
      exact sizesKept_trans
        (sizesKept_trans (refresh_loops_sizes (env r) gc (w r) d).1
          (send_posforce_sizes _ _ _ _ _ _))
        (refresh_loops_sizes (env r) gc _ d).2.1
    · refine sizesKept_trans ?_ (ih (collect_ghost_forces_sweep env gc w d) r).2
      unfold collect_ghost_forces_sweep
      exact sizesKept_trans
        (sizesKept_trans (refresh_loops_sizes (env r) gc (w r) d).2.2.1
          (send_posforce_sizes _ _ _ _ _ _))
        (refresh_loops_sizes (env r) gc _ d).2.2.2

/-- C12: on a process grid with the cell lists of a halo, (1) sweep `d` of
`exchange_ghost`, started in any world with non-negative send-cell occupancies, leaves in
`ghost_send_size[d]` the sum of the occupancies of the send cells of `d` as they were
before the sweep, which is the number of ghost records the rank packed in the sweep;
(2) at the end of `exchange_ghost` the sum over the current occupancies of the send cells
of `d` is `ghost_send_size[d]`; (3) `update_ghost_pos` and `collect_ghost_forces` change
neither `ghost_send_size` nor `ghost_recv_size`. -/
theorem ghost_send_size_spec {F : Type} [LinearOrderedCommRing F] (env : Int → Env F)
    (ranks : Finset Int) (hg : ProcessGrid env ranks) (gc : GhostCells) (hgc : HaloCells gc) :
    (∀ (w : Int → State F), (∀ q ∈ ranks, CountsOK gc (w q)) → ∀ (d : Fin 6), ∀ r ∈ ranks,
      (exchange_ghost_sweep env gc w d r).ghost_send_size d =
        psum (fun c => occ (w r) (send_cell gc d c)) (gc.n_send_cells d) ∧
      (ghost_prepare (env r) gc (w r) d).n_g_send_buf =
        psum (fun c => occ (w r) (send_cell gc d c)) (gc.n_send_cells d)) ∧
    (∀ (w : Int → State F), (∀ q ∈ ranks, CountsOK gc (w q)) → ∀ (d : Fin 6), ∀ r ∈ ranks,
      (exchange_ghost env gc w r).ghost_send_size d =
        psum (fun c => occ (exchange_ghost env gc w r) (send_cell gc d c))
          (gc.n_send_cells d)) ∧
    ∀ (w : Int → State F) (r : Int),
      (update_ghost_pos env gc w r).ghost_send_size = (w r).ghost_send_size ∧
      (update_ghost_pos env gc w r).ghost_recv_size = (w r).ghost_recv_size ∧
      (collect_ghost_forces env gc w r).ghost_send_size = (w r).ghost_send_size ∧
      (collect_ghost_forces env gc w r).ghost_recv_size = (w r).ghost_recv_size := by
  refine ⟨?_, ?_, ?_⟩
  · intro w hcnt d r hr
    obtain ⟨hC, hCM, _, _⟩ := hgc.1.2 d
    have hocc : ∀ c : Int, 0 ≤ c → c < gc.n_send_cells d → 0 ≤ occ (w r) (send_cell gc d c) :=
      fun c h0 h1 => countsOK_occ gc (w r) (hcnt r hr) d c h0 h1
    obtain ⟨_, _, p3, _⟩ := ghost_prepare_spec (env r) gc (w r) d hC hCM hocc
    constructor
    · rw [(exchange_ghost_sweep_sizes env gc w d r).1, Function.update_same]
      exact p3
    · obtain ⟨c1, c2, _, _⟩ := ghost_count_spec gc (w r) d hC hCM
      obtain ⟨g1, g2, _⟩ := ghost_grow_spec (env r) gc (ghost_count gc (w r) d)
      have hcells : (ghost_grow (env r) gc (ghost_count gc (w r) d)).cells = (w r).cells :=
        (persist_trans c1 g1).2.2.2.1
      have hocc1 : ∀ c : Int, occ (ghost_grow (env r) gc (ghost_count gc (w r) d)) c =
          occ (w r) c := by
        intro c
        unfold occ
        rw [hcells]
      obtain ⟨_, _, k3, _⟩ := ghost_pack_spec gc (ghost_grow (env r) gc (ghost_count gc (w r) d))
        d hC (by rw [g2, c2]) (by intro c h0 h1; rw [hocc1]; exact hocc c h0 h1)
      simp only [hocc1] at k3
      unfold ghost_prepare
      rw [ghost_fold_count]
      exact k3
  · intro w hcnt d r hr
    exact (exchange_ghost_layout env ranks hg gc hgc w hcnt).1.send_size r hr d d.isLt
  · intro w r
    obtain ⟨⟨a1, a2, _, _⟩, _⟩ := refresh_sweeps_sizes env gc [0, 1, 2, 3, 4, 5] w r
    obtain ⟨_, ⟨b1, b2, _, _⟩⟩ := refresh_sweeps_sizes env gc [5, 4, 3, 2, 1, 0] w r
    exact ⟨a1, a2, b1, b2⟩
set_option maxRecDepth 1000000 in
/-- C12 on the 2x1x1 periodic grid with `cell_grid = (1,1,1)`: after `exchange_ghost`
rank 0 has `ghost_send_size[4]` = 9, the sum of the occupancies of its nine send cells of
direction 4. -/
theorem ghost_send_size_spec_witness :
    (exchange_ghost (grid_env ![2, 1, 1] 1) (cells_of_grid ![1, 1, 1]) pair_world
      0).ghost_send_size 4 = 9 ∧
    psum (fun c => occ (exchange_ghost (grid_env ![2, 1, 1] 1) (cells_of_grid ![1, 1, 1])
      pair_world 0) (send_cell (cells_of_grid ![1, 1, 1]) 4 c))
      ((cells_of_grid ![1, 1, 1]).n_send_cells 4) = 9 := by
  have h := (ghost_send_size_spec (grid_env ![2, 1, 1] 1) {0, 1} (by decide)
    (cells_of_grid ![1, 1, 1]) (cells_of_grid_haloCells ![1, 1, 1] (by decide))).2.1
    pair_world (by decide!) 4 0 (by decide)
  have e : (exchange_ghost (grid_env ![2, 1, 1] 1) (cells_of_grid ![1, 1, 1]) pair_world
      0).ghost_send_size 4 = 9 := by decide!
  exact ⟨e, h.symm.trans e⟩

set_option maxRecDepth 1000000 in
/-- C13 on the 2x1x1 periodic grid with `cell_grid = (1,1,1)`: rank 0 keeps its one owned
slot, gets 26 ghost slots, and the last of them, slot 26, is listed by a recv cell. -/
theorem exchange_ghost_slots_witness :
    (exchange_ghost (grid_env ![2, 1, 1] 1) (cells_of_grid ![1, 1, 1]) pair_world
      0).n_particles = 1 ∧
    (exchange_ghost (grid_env ![2, 1, 1] 1) (cells_of_grid ![1, 1, 1]) pair_world
      0).n_ghosts = 26 ∧
    ∃ (d : Fin 6) (c i : Int),
      RecvEntry (cells_of_grid ![1, 1, 1])
        (exchange_ghost (grid_env ![2, 1, 1] 1) (cells_of_grid ![1, 1, 1]) pair_world 0) d c i ∧
      slot_of (exchange_ghost (grid_env ![2, 1, 1] 1) (cells_of_grid ![1, 1, 1]) pair_world 0)
        (recv_cell (cells_of_grid ![1, 1, 1]) d c) i = 26 := by
  obtain ⟨h1, _, _, _, h5, _⟩ := exchange_ghost_slots (grid_env ![2, 1, 1] 1) {0, 1} (by decide)
    (cells_of_grid ![1, 1, 1]) (cells_of_grid_haloCells ![1, 1, 1] (by decide))
    pair_world (by decide!) 0 (by decide)
  have e1 : (pair_world 0).n_particles = 1 := by decide
  have e2 : (exchange_ghost (grid_env ![2, 1, 1] 1) (cells_of_grid ![1, 1, 1]) pair_world
      0).n_ghosts = 26 := by decide!
  rw [e1] at h1
  exact ⟨h1, e2, h5 26 (by rw [h1]; decide) (by rw [h1, e2]; decide)⟩

set_option maxRecDepth 1000000 in
/-- C15 on the 2x1x1 periodic grid with `cell_grid = (1,1,1)`, both buffers empty on
entry: rank 0 ends with both buffers allocated for 9 triples. -/
theorem exchange_ghost_capacity_witness :
    (exchange_ghost_caps (grid_env ![2, 1, 1] 1) (cells_of_grid ![1, 1, 1]) pair_world 0
      ⟨0, 0⟩).send_cap = 27 ∧
    (exchange_ghost_caps (grid_env ![2, 1, 1] 1) (cells_of_grid ![1, 1, 1]) pair_world 0
      ⟨0, 0⟩).recv_cap = 27 := by
  obtain ⟨_, _, _, _, _, h6, h7, _⟩ := exchange_ghost_capacity (grid_env ![2, 1, 1] 1)
    (cells_of_grid ![1, 1, 1]) pair_world 0 ⟨0, 0⟩ (by decide) (by decide)
  have e : (exchange_ghost (grid_env ![2, 1, 1] 1) (cells_of_grid ![1, 1, 1]) pair_world
      0).max_send_buf = 9 := by decide!
  rw [e] at h6 h7
  exact ⟨h6, h7⟩
/-- The position of a shifted ghost record. -/
theorem shifted_p {F : Type} [LinearOrderedCommRing F] (env : Env F) (dir : Fin 6)
    (g : Ghost F) : (shifted env dir g).p = shift_pos env dir g.p := by
  unfold shifted shift_pos
  split_ifs with hb
  · rfl
  · have h0 : env.boundary dir = 0 := by
      by_contra hne
      exact hb hne
    rw [h0, add_zero, Function.update_eq_self]

/-- Before the sweep of direction `d` the send entries of the directions up to `d` list
slots that exist: owned slots or ghosts of an earlier direction. -/
theorem halo_send_lt {F : Type} (env : Int → Env F) (ranks : Finset Int) (gc : GhostCells)
    (hgc : HaloCells gc) (w : Int → State F) (d : Fin 6) (h : HaloUpTo env ranks gc d.val w)
    (q : Int) (hq : q ∈ ranks) (d1 : Fin 6) (c i : Int) (hd : d1 ≤ d)
    (hse : SendEntry gc (w q) d1 c i) :
    slot_of (w q) (send_cell gc d1 c) i < (w q).n_particles + (w q).n_ghosts := by
  obtain ⟨hok, _, hG3⟩ := hgc
  by_cases hlt : d1.val < d.val
  · exact h.send_range q hq d1 c i hlt hse
  · have hd1 : d1 = d := Fin.ext (by have := Fin.le_iff_val_le_val.1 hd; omega)
    subst hd1
    by_cases hin : InnerCell gc (send_cell gc d1 c)
    · have := h.inner_owned q hq d1 c i hse hin
      have := h.ghosts_nonneg q hq
      omega
    · unfold InnerCell at hin
      push_neg at hin
      obtain ⟨d2, hd2⟩ := hin
      have hlt2 : d2.val < d1.val := by
        by_contra hge
        exact hG3 d1 d2 (Fin.le_iff_val_le_val.2 (by omega)) _
          ((mem_send_list gc d1 _).2 ⟨c, hse.1, hse.2.1, rfl⟩) hd2
      obtain ⟨c2, h02, h12, e2⟩ := (mem_recv_list gc d2 _).1 hd2
      rw [(hok.2 d2).2.2.1] at h12
      have hre : RecvEntry gc (w q) d2 c2 i := ⟨h02, h12, hse.2.2.1, by rw [e2]; exact hse.2.2.2⟩
      have := (h.recv_range q hq d2 c2 i hlt2 hre).2
      rw [e2] at this
      exact this

/-- The sweep of direction `d` of `exchange_ghost` installs the (shifted) records of the
send entries of `d` and keeps what the earlier sweeps installed. -/
theorem exchange_ghost_sweep_recFixed {F : Type} [LinearOrderedCommRing F]
    (env : Int → Env F) (ranks : Finset Int) (hg : ProcessGrid env ranks) (gc : GhostCells)
    (hgc : HaloCells gc) (w : Int → State F) (d : Fin 6) (h : HaloUpTo env ranks gc d.val w)
    (hf : ∀ r ∈ ranks, ∀ d0 : Fin 6, d0.val < d.val → RecFixed env gc w d0 r) :
    ∀ r ∈ ranks, ∀ d0 : Fin 6, d0.val < d.val + 1 →
      RecFixed env gc (exchange_ghost_sweep env gc w d) d0 r := by
  have hinv : ∀ q ∈ ranks, 0 ≤ (w q).n_ghosts ∧ CountsOK gc (w q) :=
    fun q hq => ⟨h.ghosts_nonneg q hq, h.counts q hq⟩
  obtain ⟨hC, hCM, hCeq, hnd⟩ := hgc.1.2 d
  have hspec := exchange_ghost_sweep_spec env ranks hg gc w d hgc.1.1 hC hCM hCeq
    (recv_list_inj gc d hnd)
    (fun q hq c h0 h1 => countsOK_occ gc (w q) (h.counts q hq) d c h0 h1)
  have hcells := exchange_ghost_sweep_cells env ranks hg gc hgc w hinv d
  intro r hr d0 hd0 c i hre
  have hsrc : (env r).neighbors (r_dir_of d0) ∈ ranks := ((hg r hr).2 (r_dir_of d0)).1
  have hle : d0 ≤ d := Fin.le_iff_val_le_val.2 (by omega)
  have hslot_src :
      slot_of (exchange_ghost_sweep env gc w d ((env r).neighbors (r_dir_of d0)))
        (send_cell gc d0 c) i =
      slot_of (w ((env r).neighbors (r_dir_of d0))) (send_cell gc d0 c) i := by
    unfold slot_of
    rw [(hcells _ hsrc).1 d0 hle c hre.1 hre.2.1]
  by_cases e : d0 = d
  · subst e
    obtain ⟨o1, o2⟩ := (hspec r hr).2.2.2.2.2.2.2 c hre.1 hre.2.1
    have hi := hre.2.2.2
    rw [o1] at hi
    have hse : SendEntry gc (w ((env r).neighbors (r_dir_of d0))) d0 c i :=
      ⟨hre.1, hre.2.1, hre.2.2.1, hi⟩
    have hlt := halo_send_lt env ranks gc hgc w d0 h _ hsrc d0 c i (le_refl _) hse
    rw [hslot_src, o2 i hre.2.2.1 hi, (hspec r hr).2.2.2.2.1 c i hre.1 hre.2.1 hre.2.2.1 hi,
      (hspec _ hsrc).2.2.2.2.2.1 _ (Or.inl hlt)]
    rfl
  · have hlt0 : d0.val < d.val := by
      have : d0.val ≠ d.val := fun e1 => e (Fin.ext e1)
      omega
    have hc := (hcells r hr).2 d0 e c hre.1 hre.2.1
    have hre0 : RecvEntry gc (w r) d0 c i := by
      unfold RecvEntry occ at hre ⊢
      rw [hc] at hre
      exact hre
    have hslot_r : slot_of (exchange_ghost_sweep env gc w d r) (recv_cell gc d0 c) i =
        slot_of (w r) (recv_cell gc d0 c) i := by
      unfold slot_of
      rw [hc]
    have hse : SendEntry gc (w ((env r).neighbors (r_dir_of d0))) d0 c i := by
      refine ⟨hre0.1, hre0.2.1, hre0.2.2.1, ?_⟩
      rw [← h.occ_match r hr d0 hlt0 c hre0.1 hre0.2.1]
      exact hre0.2.2.2
    have hlt := h.send_range _ hsrc d0 c i hlt0 hse
    have hltr := (h.recv_range r hr d0 c i hlt0 hre0).2
    rw [hslot_src, hslot_r, (hspec r hr).2.2.2.2.2.1 _ (Or.inl hltr),
      (hspec _ hsrc).2.2.2.2.2.1 _ (Or.inl hlt)]
    exact hf r hr d0 hlt0 c i hre0

/-- The halo structure `exchange_ghost` starts from once the old ghosts are released. -/
theorem exchange_ghost_release_halo {F : Type} (env : Int → Env F) (ranks : Finset Int)
    (gc : GhostCells) (w : Int → State F) (hcnt : ∀ q ∈ ranks, CountsOK gc (w q))
    (hown : ∀ q ∈ ranks, InnerOwned gc (w q)) :
    HaloUpTo env ranks gc (0 : Fin 6).val (fun q => exchange_ghost_release (w q)) := by
  have hc : ∀ q, (exchange_ghost_release (w q)).cells = (w q).cells :=
    fun q => (exchange_ghost_release_spec (w q)).2.2.2
  refine ⟨?_, ?_, ?_, ?_, ?_, ?_, ?_, ?_, ?_⟩
  · intro q _
    rw [(exchange_ghost_release_spec (w q)).2.2.1]
  · intro q hq d x hx
    unfold occ
    rw [hc]
    exact hcnt q hq d x hx
  · intro q hq d c i he hin
    unfold SendEntry occ at he
    unfold slot_of
    rw [hc] at he ⊢
    rw [(exchange_ghost_release_spec (w q)).2.1]
    have hmem : i.toNat ∈ List.range (occ (w q) (send_cell gc d c)).toNat := by
      rw [List.mem_range]
      have := he.2.2.2
      have := he.2.2.1
      unfold occ
      omega
    have := hown q hq d _ ((mem_send_list gc d _).2 ⟨c, he.1, he.2.1, rfl⟩) hin i.toNat hmem
    rw [Int.toNat_of_nonneg he.2.2.1] at this
    exact this
  · intro q _ d hd
    exact absurd hd (by simp)
  · intro q _ d hd
    exact absurd hd (by simp)
  · intro q _ d c i hd
    exact absurd hd (by simp)
  · intro q _ d c i d1 c1 i1 hd
    exact absurd hd (by simp)
  · intro q _ d c i hd
    exact absurd hd (by simp)
  · intro q _ d c i d1 c1 i1 _ hd
    exact absurd hd (by simp)

/-- The records of a recv entry and its send entry only depend on the cells and the
particle arrays. -/
theorem recFixed_congr {F : Type} [LinearOrderedCommRing F] (env : Int → Env F)
    (ranks : Finset Int) (hg : ProcessGrid env ranks) (gc : GhostCells)
    (w w1 : Int → State F)
    (hw : ∀ q ∈ ranks, SameHalo (w q) (w1 q) ∧ (w1 q).particles = (w q).particles)
    (d : Fin 6) (r : Int) (hr : r ∈ ranks) (hf : RecFixed env gc w d r) :
    RecFixed env gc w1 d r := by
  have hsrc : (env r).neighbors (r_dir_of d) ∈ ranks := ((hg r hr).2 (r_dir_of d)).1
  intro c i hre
  have hre0 : RecvEntry gc (w r) d c i := by
    unfold RecvEntry at hre ⊢
    rw [sameHalo_occ_eq _ _ (hw r hr).1] at hre
    exact hre
  rw [sameHalo_slot_eq _ _ (hw r hr).1, sameHalo_slot_eq _ _ (hw _ hsrc).1, (hw r hr).2,
    (hw _ hsrc).2]
  exact hf c i hre0

/-- A recv entry holding the record of its send entry holds its position. -/
theorem recFixed_pos {F : Type} [LinearOrderedCommRing F] (env : Int → Env F)
    (gc : GhostCells) (w : Int → State F) (d : Fin 6) (r : Int) (hf : RecFixed env gc w d r) :
    PosFixed env gc w d r := by
  intro c i hre
  have h := congrArg Ghost.p (hf c i hre)
  rw [shifted_p] at h
  exact h

/-- After `exchange_ghost` the recv entries of every direction hold the (shifted) records
of the send entries they were packed from. -/
theorem exchange_ghost_recFixed {F : Type} [LinearOrderedCommRing F] (env : Int → Env F)
    (ranks : Finset Int) (hg : ProcessGrid env ranks) (gc : GhostCells) (hgc : HaloCells gc)
    (w : Int → State F) (hcnt : ∀ q ∈ ranks, CountsOK gc (w q))
    (hown : ∀ q ∈ ranks, InnerOwned gc (w q)) :
    ∀ r ∈ ranks, ∀ d : Fin 6, RecFixed env gc (exchange_ghost env gc w) d r := by
  have h0 := exchange_ghost_release_halo env ranks gc w hcnt hown
  have f0 : ∀ r ∈ ranks, ∀ d0 : Fin 6, d0.val < (0 : Fin 6).val →
      RecFixed env gc (fun q => exchange_ghost_release (w q)) d0 r :=
    fun r _ d0 hd0 => absurd hd0 (by simp)
  have h1 := exchange_ghost_sweep_halo env ranks hg gc hgc _ 0 h0
  have f1 := exchange_ghost_sweep_recFixed env ranks hg gc hgc _ 0 h0 f0
  have h2 := exchange_ghost_sweep_halo env ranks hg gc hgc _ 1 h1
  have f2 := exchange_ghost_sweep_recFixed env ranks hg gc hgc _ 1 h1 f1
  have h3 := exchange_ghost_sweep_halo env ranks hg gc hgc _ 2 h2
  have f3 := exchange_ghost_sweep_recFixed env ranks hg gc hgc _ 2 h2 f2
  have h4 := exchange_ghost_sweep_halo env ranks hg gc hgc _ 3 h3
  have f4 := exchange_ghost_sweep_recFixed env ranks hg gc hgc _ 3 h3 f3
  have h5 := exchange_ghost_sweep_halo env ranks hg gc hgc _ 4 h4
  have f5 := exchange_ghost_sweep_recFixed env ranks hg gc hgc _ 4 h4 f4
  have f6 := exchange_ghost_sweep_recFixed env ranks hg gc hgc _ 5 h5 f5
  intro r hr d
  refine recFixed_congr env ranks hg gc _ _ ?_ d r hr (f6 r hr d d.isLt)
  intro q _
  unfold exchange_ghost
  simp only [List.foldl]
  unfold exchange_ghost_finish
  split_ifs <;> exact ⟨⟨rfl, rfl, rfl, rfl, rfl⟩, rfl⟩

/-- Sweeps of `update_ghost_pos` on a halo change no cell, counter or owned slot. -/
theorem update_ghost_pos_sweeps_owned {F : Type} [LinearOrderedCommRing F]
    (env : Int → Env F) (ranks : Finset Int) (hg : ProcessGrid env ranks) (gc : GhostCells)
    (hok : CellsOK gc) (ds : List (Fin 6)) (w : Int → State F)
    (h : HaloUpTo env ranks gc 6 w) :
    ∀ r ∈ ranks,
      SameHalo (w r) (ds.foldl (fun w1 dir => update_ghost_pos_sweep env gc w1 dir) w r) ∧
      ∀ m : Int, m < (w r).n_particles →
        (ds.foldl (fun w1 dir => update_ghost_pos_sweep env gc w1 dir) w r).particles m =
          (w r).particles m := by
  induction ds generalizing w with
  | nil => exact fun r _ => ⟨sameHalo_refl _, fun m _ => rfl⟩
  | cons d ds ih =>
    intro r hr
    obtain ⟨s1, _, s3⟩ := update_ghost_pos_sweep_spec env ranks hg gc hok w h d r hr
    obtain ⟨i1, i2⟩ := ih (update_ghost_pos_sweep env gc w d)
      (update_ghost_pos_sweep_halo env ranks hg gc hok w h d) r hr
    rw [List.foldl_cons]
    refine ⟨sameHalo_trans _ _ _ s1 i1, ?_⟩
    intro m hm
    rw [i2 m (by rw [s1.2.1]; exact hm)]
    apply s3
    intro c i hre e
    have := (h.recv_range r hr d c i d.isLt hre).1
    omega

/-- C19: on a process grid (every message arrives as sent) with the cell lists of a halo,
(1) after `exchange_ghost` every recv entry holds the record of the send entry of the
neighbour it was packed from: same identity, type and charge, and its position with
`boundary[d]` of the sweep added on axis `d/2`; (2) whatever the positions are afterwards,
`update_ghost_pos` changes no cell, counter or owned slot and leaves in every recv entry
the position its send entry has now, with the same `boundary[d]` added; (3) run right after
`exchange_ghost`, `update_ghost_pos` leaves every particle slot as it is. -/
theorem update_ghost_pos_reproduces {F : Type} [LinearOrderedCommRing F]
    (env : Int → Env F) (ranks : Finset Int) (hg : ProcessGrid env ranks) (gc : GhostCells)
    (hgc : HaloCells gc) (w0 : Int → State F) (hcnt : ∀ q ∈ ranks, CountsOK gc (w0 q))
    (hown : ∀ q ∈ ranks, InnerOwned gc (w0 q)) :
    (∀ r ∈ ranks, ∀ (d : Fin 6) (c i : Int),
      RecvEntry gc (exchange_ghost env gc w0 r) d c i →
      ghost_rec ((exchange_ghost env gc w0 r).particles
          (slot_of (exchange_ghost env gc w0 r) (recv_cell gc d c) i)) =
        shifted (env ((env r).neighbors (r_dir_of d))) d
          (ghost_rec ((exchange_ghost env gc w0 ((env r).neighbors (r_dir_of d))).particles
            (slot_of (exchange_ghost env gc w0 ((env r).neighbors (r_dir_of d)))
              (send_cell gc d c) i)))) ∧
    (∀ w : Int → State F, (∀ q ∈ ranks, SameHalo (exchange_ghost env gc w0 q) (w q)) →
      ∀ r ∈ ranks,
        SameHalo (w r) (update_ghost_pos env gc w r) ∧
        (∀ m : Int, m < (w r).n_particles →
          (update_ghost_pos env gc w r).particles m = (w r).particles m) ∧
        ∀ (d : Fin 6) (c i : Int), RecvEntry gc (w r) d c i →
          ((update_ghost_pos env gc w r).particles (slot_of (w r) (recv_cell gc d c) i)).p =
            shift_pos (env ((env r).neighbors (r_dir_of d))) d
              ((update_ghost_pos env gc w ((env r).neighbors (r_dir_of d))).particles
                (slot_of (w ((env r).neighbors (r_dir_of d))) (send_cell gc d c) i)).p) ∧
    ∀ r ∈ ranks, (update_ghost_pos env gc (exchange_ghost env gc w0) r).particles =
      (exchange_ghost env gc w0 r).particles := by
  have h0 := exchange_ghost_halo env ranks hg gc hgc w0 hcnt hown
  have hrec := exchange_ghost_recFixed env ranks hg gc hgc w0 hcnt hown
  refine ⟨fun r hr d c i hre => hrec r hr d c i hre, ?_, ?_⟩
  · intro w hw r hr
    have h1 := haloUpTo_congr env ranks hg gc 6 _ _ hw h0
    obtain ⟨h2, hf⟩ := update_ghost_pos_fixed env ranks hg gc hgc.1 w h1
    have hsame : ∀ q ∈ ranks, SameHalo (w q) (update_ghost_pos env gc w q) :=
      fun q hq => (update_ghost_pos_sweeps_owned env ranks hg gc hgc.1 [0, 1, 2, 3, 4, 5] w h1
        q hq).1
    refine ⟨hsame r hr,
      (update_ghost_pos_sweeps_owned env ranks hg gc hgc.1 [0, 1, 2, 3, 4, 5] w h1 r hr).2, ?_⟩
    intro d c i hre
    have hsrc : (env r).neighbors (r_dir_of d) ∈ ranks := ((hg r hr).2 (r_dir_of d)).1
    have hre1 : RecvEntry gc (update_ghost_pos env gc w r) d c i := by
      unfold RecvEntry at hre ⊢
      rw [sameHalo_occ_eq _ _ (hsame r hr)]
      exact hre
    have := hf r hr d c i hre1
    rw [sameHalo_slot_eq _ _ (hsame r hr), sameHalo_slot_eq _ _ (hsame _ hsrc)] at this
    exact this
  · intro r hr
    exact update_ghost_pos_sweeps_noop env ranks hg gc hgc.1 [0, 1, 2, 3, 4, 5]
      (exchange_ghost env gc w0) h0
      (fun q hq d => recFixed_pos env gc _ d q (hrec q hq d)) r hr
set_option maxRecDepth 1000000 in
/-- C19 on the 2x1x1 periodic grid with `cell_grid = (1,1,1)`: after both owned particles
moved, `update_ghost_pos` gives entry 0 of the first recv cell of direction 1 on rank 0
the position its send entry on rank 1 has now, shifted by `boundary[1]` of rank 1; run
right after `exchange_ghost` it changes no slot of rank 0. -/
theorem update_ghost_pos_reproduces_witness :
    ((update_ghost_pos (grid_env ![2, 1, 1] 1) (cells_of_grid ![1, 1, 1]) pair_moved
        0).particles (slot_of (pair_moved 0) (recv_cell (cells_of_grid ![1, 1, 1]) 1 0) 0)).p =
      shift_pos (grid_env ![2, 1, 1] 1 ((grid_env ![2, 1, 1] 1 0).neighbors (r_dir_of 1))) 1
        ((update_ghost_pos (grid_env ![2, 1, 1] 1) (cells_of_grid ![1, 1, 1]) pair_moved
          ((grid_env ![2, 1, 1] 1 0).neighbors (r_dir_of 1))).particles
          (slot_of (pair_moved ((grid_env ![2, 1, 1] 1 0).neighbors (r_dir_of 1)))
            (send_cell (cells_of_grid ![1, 1, 1]) 1 0) 0)).p ∧
    (update_ghost_pos (grid_env ![2, 1, 1] 1) (cells_of_grid ![1, 1, 1])
        (exchange_ghost (grid_env ![2, 1, 1] 1) (cells_of_grid ![1, 1, 1]) pair_world)
        0).particles =
      (exchange_ghost (grid_env ![2, 1, 1] 1) (cells_of_grid ![1, 1, 1]) pair_world
        0).particles :=
  ⟨((update_ghost_pos_reproduces (grid_env ![2, 1, 1] 1) {0, 1} (by decide)
      (cells_of_grid ![1, 1, 1]) (cells_of_grid_haloCells ![1, 1, 1] (by decide)) pair_world
      (by decide!) (by decide!)).2.1 pair_moved (fun _ _ => with_pos_sameHalo _ _ _) 0
      (by decide)).2.2 1 0 0 (by unfold RecvEntry; decide!),
   (update_ghost_pos_reproduces (grid_env ![2, 1, 1] 1) {0, 1} (by decide)
      (cells_of_grid ![1, 1, 1]) (cells_of_grid_haloCells ![1, 1, 1] (by decide)) pair_world
      (by decide!) (by decide!)).2.2 0 (by decide)⟩
/-- The three stores `send_buf[g+i] = particles[cells[x].particles[n]].f[i]`. -/
theorem force_store {F : Type} (s : State F) (x n g : Int) :
    BufFrame s (([0, 1, 2] : List (Fin 3)).foldl (fun s i =>
      { s with
        send_buf := Function.update s.send_buf (g + (i.val : Int))
          ((s.particles ((s.cells x).particles n)).f i) }) s) ∧
    (∀ j : Fin 3, (([0, 1, 2] : List (Fin 3)).foldl (fun s i =>
      { s with
        send_buf := Function.update s.send_buf (g + (i.val : Int))
          ((s.particles ((s.cells x).particles n)).f i) }) s).send_buf (g + (j.val : Int)) =
      (s.particles (slot_of s x n)).f j) ∧
    ∀ k : Int, k < g ∨ g + 3 ≤ k → (([0, 1, 2] : List (Fin 3)).foldl (fun s i =>
      { s with
        send_buf := Function.update s.send_buf (g + (i.val : Int))
          ((s.particles ((s.cells x).particles n)).f i) }) s).send_buf k = s.send_buf k := by
  simp only [List.foldl]
  refine ⟨⟨rfl, ⟨rfl, rfl, rfl, rfl, rfl⟩, rfl⟩, ?_, ?_⟩
  · intro j
    unfold slot_of
    fin_cases j <;> simp [Function.update]
  · intro k hk
    have h0 : k ≠ g + ((0 : Fin 3).val : Int) := by simp; omega
    have h1 : k ≠ g + ((1 : Fin 3).val : Int) := by simp; omega
    have h2 : k ≠ g + ((2 : Fin 3).val : Int) := by simp; omega
    rw [Function.update_noteq h2, Function.update_noteq h1, Function.update_noteq h0]
/-- The inner loop of "copy forces to buffer" for one cell `x`. -/
theorem force_pack_cell {F : Type} (x : Int) (a : Packing F) (cnt : Int) (hcnt : 0 ≤ cnt) :
    (forLoop 0 cnt (fun n (a : Packing F) =>
      ({ st := ([0, 1, 2] : List (Fin 3)).foldl (fun s i =>
          { s with
            send_buf := Function.update s.send_buf (a.g + (i.val : Int))
              ((s.particles ((s.cells x).particles n)).f i) })
          a.st
         g := a.g + 3 } : Packing F)) a).g = a.g + 3 * cnt ∧
    BufFrame a.st (forLoop 0 cnt (fun n (a : Packing F) =>
      ({ st := ([0, 1, 2] : List (Fin 3)).foldl (fun s i =>
          { s with
            send_buf := Function.update s.send_buf (a.g + (i.val : Int))
              ((s.particles ((s.cells x).particles n)).f i) })
          a.st
         g := a.g + 3 } : Packing F)) a).st ∧
    (∀ (n : Int) (j : Fin 3), 0 ≤ n → n < cnt →
      (forLoop 0 cnt (fun n (a : Packing F) =>
        ({ st := ([0, 1, 2] : List (Fin 3)).foldl (fun s i =>
            { s with
              send_buf := Function.update s.send_buf (a.g + (i.val : Int))
                ((s.particles ((s.cells x).particles n)).f i) })
            a.st
           g := a.g + 3 } : Packing F)) a).st.send_buf (a.g + 3 * n + (j.val : Int)) =
        (a.st.particles (slot_of a.st x n)).f j) ∧
    (∀ k : Int, k < a.g →
      (forLoop 0 cnt (fun n (a : Packing F) =>
        ({ st := ([0, 1, 2] : List (Fin 3)).foldl (fun s i =>
            { s with
              send_buf := Function.update s.send_buf (a.g + (i.val : Int))
                ((s.particles ((s.cells x).particles n)).f i) })
            a.st
           g := a.g + 3 } : Packing F)) a).st.send_buf k = a.st.send_buf k) := by
  refine forLoop_induct 0 cnt _ a
    (fun y b => b.g = a.g + 3 * y ∧ BufFrame a.st b.st ∧
      (∀ (n : Int) (j : Fin 3), 0 ≤ n → n < y →
        b.st.send_buf (a.g + 3 * n + (j.val : Int)) = (a.st.particles (slot_of a.st x n)).f j) ∧
      (∀ k : Int, k < a.g → b.st.send_buf k = a.st.send_buf k))
    ?_ ?_ hcnt
  · exact ⟨by simp, bufFrame_refl _, fun n j h0 h1 => by omega, fun k _ => rfl⟩
  · rintro y b hy0 hy1 ⟨h1, h2, h3, h4⟩
    obtain ⟨s1, s2, s3⟩ := force_store b.st x y b.g
    refine ⟨?_, ?_, ?_, ?_⟩
    · dsimp only; rw [h1]; ring
    · exact bufFrame_trans _ _ _ h2 s1
    · intro n j hn0 hn1
      dsimp only
      by_cases hny : n = y
      · subst hny
        have := s2 j
        rw [h1] at this
        rw [h1, this, h2.1]
        unfold slot_of
        rw [h2.2.1.1]
      · have hj := j.isLt
        rw [s3 _ (Or.inl (by rw [h1]; omega))]
        exact h3 n j hn0 (by omega)
    · intro k hk
      dsimp only
      rw [s3 _ (Or.inl (by rw [h1]; omega))]
      exact h4 k hk

/-- "loop recv cells - copy forces to buffer": the forces of the recv entries are laid out
in cell order, three doubles each. -/
theorem force_pack_spec {F : Type} (gc : GhostCells) (st : State F) (dir : Fin 6)
    (hC : 0 ≤ gc.n_recv_cells dir)
    (hocc : ∀ c : Int, 0 ≤ c → c < gc.n_recv_cells dir → 0 ≤ occ st (recv_cell gc dir c)) :
    BufFrame st (force_pack gc st dir) ∧
    ∀ (c n : Int) (j : Fin 3), 0 ≤ c → c < gc.n_recv_cells dir → 0 ≤ n →
      n < occ st (recv_cell gc dir c) →
      (force_pack gc st dir).send_buf
          (3 * (psum (fun c => occ st (recv_cell gc dir c)) c + n) + (j.val : Int)) =
        (st.particles (slot_of st (recv_cell gc dir c) n)).f j := by
  unfold force_pack
  have key := forLoop_induct 0 (gc.n_recv_cells dir) (fun c (acc : Packing F) =>
      forLoop 0 (acc.st.cells (recv_cell gc dir c)).n_particles (fun n (a : Packing F) =>
        ({ st := ([0, 1, 2] : List (Fin 3)).foldl (fun s i =>
            { s with
              send_buf := Function.update s.send_buf (a.g + (i.val : Int))
                ((s.particles ((s.cells (recv_cell gc dir c)).particles n)).f i) })
            a.st
           g := a.g + 3 } : Packing F)) acc)
    ({ st := st, g := 0 } : Packing F)
    (fun y (b : Packing F) => b.g = 3 * psum (fun c => occ st (recv_cell gc dir c)) y ∧
      BufFrame st b.st ∧
      ∀ (c n : Int) (j : Fin 3), 0 ≤ c → c < y → 0 ≤ n → n < occ st (recv_cell gc dir c) →
        b.st.send_buf (3 * (psum (fun c => occ st (recv_cell gc dir c)) c + n) + (j.val : Int)) =
          (st.particles (slot_of st (recv_cell gc dir c) n)).f j)
    ⟨by simp [psum_zero], bufFrame_refl _, fun c n j h0 h1 => by omega⟩
    (by
      rintro y b hy0 hy1 ⟨h1, h2, h3⟩
      have hoc : (b.st.cells (recv_cell gc dir y)).n_particles =
          occ st (recv_cell gc dir y) := by
        unfold occ; rw [h2.2.1.1]
      have hcnt := hocc y hy0 hy1
      obtain ⟨c1, c2, c3, c4⟩ := force_pack_cell (recv_cell gc dir y) b
        (occ st (recv_cell gc dir y)) hcnt
      beta_reduce
      rw [hoc]
      refine ⟨?_, bufFrame_trans _ _ _ h2 c2, ?_⟩
      · rw [c1, h1, psum_succ _ _ hy0]; ring
      · intro c n j hc0 hc1 hn0 hn1
        by_cases hcy : c = y
        · subst hcy
          have := c3 n j hn0 hn1
          rw [h1] at this
          rw [show 3 * (psum (fun c => occ st (recv_cell gc dir c)) c + n) + (j.val : Int) =
            3 * psum (fun c => occ st (recv_cell gc dir c)) c + 3 * n + (j.val : Int) by ring,
            this, h2.1]
          unfold slot_of
          rw [h2.2.1.1]
        · have hlt := psum_entry_lt (fun c => occ st (recv_cell gc dir c)) c y n hc0 (by omega)
            hn1 (fun i hi0 hi1 => hocc i hi0 (by omega))
          have hj := j.isLt
          rw [c4 _ (by rw [h1]; omega)]
          exact h3 c n j hc0 (by omega) hn0 hn1)
    hC
  exact ⟨key.2.1, key.2.2⟩

/-- The three adds `particles[cells[x].particles[n]].f[i] += recv_buf[g+i]`. -/
theorem force_load {F : Type} [LinearOrderedCommRing F] (s : State F) (x n g : Int) :
    SameHalo s (([0, 1, 2] : List (Fin 3)).foldl (fun s i =>
      { s with
        particles := Function.update s.particles ((s.cells x).particles n)
          { (s.particles ((s.cells x).particles n)) with
            f := Function.update
              (s.particles ((s.cells x).particles n)).f
              i ((s.particles ((s.cells x).particles n)).f i +
                s.recv_buf (g + (i.val : Int))) } }) s) ∧
    (([0, 1, 2] : List (Fin 3)).foldl (fun s i =>
      { s with
        particles := Function.update s.particles ((s.cells x).particles n)
          { (s.particles ((s.cells x).particles n)) with
            f := Function.update
              (s.particles ((s.cells x).particles n)).f
              i ((s.particles ((s.cells x).particles n)).f i +
                s.recv_buf (g + (i.val : Int))) } }) s).recv_buf = s.recv_buf ∧
    (([0, 1, 2] : List (Fin 3)).foldl (fun s i =>
      { s with
        particles := Function.update s.particles ((s.cells x).particles n)
          { (s.particles ((s.cells x).particles n)) with
            f := Function.update
              (s.particles ((s.cells x).particles n)).f
              i ((s.particles ((s.cells x).particles n)).f i +
                s.recv_buf (g + (i.val : Int))) } }) s).particles (slot_of s x n) =
      with_f (s.particles (slot_of s x n))
        (fun j => (s.particles (slot_of s x n)).f j + s.recv_buf (g + (j.val : Int))) ∧
    ∀ m : Int, m ≠ slot_of s x n →
      (([0, 1, 2] : List (Fin 3)).foldl (fun s i =>
        { s with
          particles := Function.update s.particles ((s.cells x).particles n)
            { (s.particles ((s.cells x).particles n)) with
              f := Function.update
                (s.particles ((s.cells x).particles n)).f
                i ((s.particles ((s.cells x).particles n)).f i +
                  s.recv_buf (g + (i.val : Int))) } }) s).particles m = s.particles m := by
  refine ⟨⟨rfl, rfl, rfl, rfl, rfl⟩, rfl, ?_, ?_⟩
  · unfold slot_of with_f
    simp only [List.foldl, Function.update_same]
    congr 1
    funext j
    fin_cases j <;> simp [Function.update]
  · intro m hm
    unfold slot_of at hm
    simp only [List.foldl, Function.update_noteq hm]
/-- The inner loop of "add buffer forces to local forces" for one cell `x` with distinct
slots. -/
theorem force_add_cell {F : Type} [LinearOrderedCommRing F] (x : Int) (a : Packing F)
    (cnt : Int) (hcnt : 0 ≤ cnt)
    (hd : ∀ n n1 : Int, 0 ≤ n → n < cnt → 0 ≤ n1 → n1 < cnt →
      slot_of a.st x n = slot_of a.st x n1 → n = n1) :
    (forLoop 0 cnt (fun n (a : Packing F) =>
      ({ st := ([0, 1, 2] : List (Fin 3)).foldl (fun s i =>
          { s with
            particles := Function.update s.particles ((s.cells x).particles n)
              { (s.particles ((s.cells x).particles n)) with
                f := Function.update
                  (s.particles ((s.cells x).particles n)).f
                  i ((s.particles ((s.cells x).particles n)).f i +
                    s.recv_buf (a.g + (i.val : Int))) } })
          a.st
         g := a.g + 3 } : Packing F)) a).g = a.g + 3 * cnt ∧
    SameHalo a.st (forLoop 0 cnt (fun n (a : Packing F) =>
      ({ st := ([0, 1, 2] : List (Fin 3)).foldl (fun s i =>
          { s with
            particles := Function.update s.particles ((s.cells x).particles n)
              { (s.particles ((s.cells x).particles n)) with
                f := Function.update
                  (s.particles ((s.cells x).particles n)).f
                  i ((s.particles ((s.cells x).particles n)).f i +
                    s.recv_buf (a.g + (i.val : Int))) } })
          a.st
         g := a.g + 3 } : Packing F)) a).st ∧
    (forLoop 0 cnt (fun n (a : Packing F) =>
      ({ st := ([0, 1, 2] : List (Fin 3)).foldl (fun s i =>
          { s with
            particles := Function.update s.particles ((s.cells x).particles n)
              { (s.particles ((s.cells x).particles n)) with
                f := Function.update
                  (s.particles ((s.cells x).particles n)).f
                  i ((s.particles ((s.cells x).particles n)).f i +
                    s.recv_buf (a.g + (i.val : Int))) } })
          a.st
         g := a.g + 3 } : Packing F)) a).st.recv_buf = a.st.recv_buf ∧
    (∀ n : Int, 0 ≤ n → n < cnt →
      (forLoop 0 cnt (fun n (a : Packing F) =>
        ({ st := ([0, 1, 2] : List (Fin 3)).foldl (fun s i =>
            { s with
              particles := Function.update s.particles ((s.cells x).particles n)
                { (s.particles ((s.cells x).particles n)) with
                  f := Function.update
                    (s.particles ((s.cells x).particles n)).f
                    i ((s.particles ((s.cells x).particles n)).f i +
                      s.recv_buf (a.g + (i.val : Int))) } })
            a.st
           g := a.g + 3 } : Packing F)) a).st.particles (slot_of a.st x n) =
        with_f (a.st.particles (slot_of a.st x n))
          (fun j => (a.st.particles (slot_of a.st x n)).f j +
            a.st.recv_buf (a.g + 3 * n + (j.val : Int)))) ∧
    (∀ m : Int, (∀ n : Int, 0 ≤ n → n < cnt → slot_of a.st x n ≠ m) →
      (forLoop 0 cnt (fun n (a : Packing F) =>
        ({ st := ([0, 1, 2] : List (Fin 3)).foldl (fun s i =>
            { s with
              particles := Function.update s.particles ((s.cells x).particles n)
                { (s.particles ((s.cells x).particles n)) with
                  f := Function.update
                    (s.particles ((s.cells x).particles n)).f
                    i ((s.particles ((s.cells x).particles n)).f i +
                      s.recv_buf (a.g + (i.val : Int))) } })
            a.st
           g := a.g + 3 } : Packing F)) a).st.particles m = a.st.particles m) := by
  have key := forLoop_induct 0 cnt (fun n (a : Packing F) =>
      ({ st := ([0, 1, 2] : List (Fin 3)).foldl (fun s i =>
          { s with
            particles := Function.update s.particles ((s.cells x).particles n)
              { (s.particles ((s.cells x).particles n)) with
                f := Function.update
                  (s.particles ((s.cells x).particles n)).f
                  i ((s.particles ((s.cells x).particles n)).f i +
                    s.recv_buf (a.g + (i.val : Int))) } })
          a.st
         g := a.g + 3 } : Packing F)) a
    (fun y (b : Packing F) => y ≤ cnt → (b.g = a.g + 3 * y ∧ SameHalo a.st b.st ∧
      b.st.recv_buf = a.st.recv_buf ∧
      (∀ n : Int, 0 ≤ n → n < y →
        b.st.particles (slot_of a.st x n) =
          with_f (a.st.particles (slot_of a.st x n))
            (fun j => (a.st.particles (slot_of a.st x n)).f j +
            a.st.recv_buf (a.g + 3 * n + (j.val : Int)))) ∧
      (∀ m : Int, (∀ n : Int, 0 ≤ n → n < y → slot_of a.st x n ≠ m) →
        b.st.particles m = a.st.particles m)))
    (fun _ => ⟨by simp, sameHalo_refl _, rfl, fun n h0 h1 => by omega, fun m _ => rfl⟩)
    (by
      intro y b hy0 hy1 ih _
      obtain ⟨h1, h2, h3, h4, h5⟩ := ih (by omega)
      obtain ⟨l1, l2, l3, l4⟩ := force_load b.st x y b.g
      have hslot : slot_of b.st x y = slot_of a.st x y := sameHalo_slot_eq _ _ h2 x y
      rw [hslot] at l3 l4
      refine ⟨?_, sameHalo_trans _ _ _ h2 l1, l2.trans h3, ?_, ?_⟩
      · dsimp only; rw [h1]; ring
      · intro n hn0 hn1
        dsimp only
        by_cases hny : n = y
        · subst hny
          rw [l3, h3, h1, h5 _ (fun n1 h0 h1' e => by
            have := hd n1 n h0 (by omega) hn0 (by omega) e
            omega)]
        · rw [l4 _ (fun e => hny (hd n y hn0 (by omega) hy0 (by omega) e))]
          exact h4 n hn0 (by omega)
      · intro m hm
        dsimp only
        rw [l4 _ (fun e => hm y hy0 (by omega) e.symm)]
        exact h5 m (fun n h0 h1' => hm n h0 (by omega)))
    hcnt
  exact key (le_refl _)
/-- "loop send cells - add buffer forces to local forces": the force of entry `i` of the
`c`-th send cell grows by the doubles `3 * (psum cnt c + i) ..` of `recv_buf`; nothing else
of the particle array changes. -/
theorem force_add_spec {F : Type} [LinearOrderedCommRing F] (gc : GhostCells) (st : State F)
    (dir : Fin 6)
    (hC : 0 ≤ gc.n_send_cells dir)
    (hocc : ∀ c : Int, 0 ≤ c → c < gc.n_send_cells dir → 0 ≤ occ st (send_cell gc dir c))
    (hinj : ∀ c i c1 i1 : Int, 0 ≤ c → c < gc.n_send_cells dir → 0 ≤ i →
      i < occ st (send_cell gc dir c) → 0 ≤ c1 → c1 < gc.n_send_cells dir → 0 ≤ i1 →
      i1 < occ st (send_cell gc dir c1) →
      slot_of st (send_cell gc dir c) i = slot_of st (send_cell gc dir c1) i1 →
      c = c1 ∧ i = i1) :
    SameHalo st (force_add gc st dir) ∧
    (∀ c i : Int, 0 ≤ c → c < gc.n_send_cells dir → 0 ≤ i → i < occ st (send_cell gc dir c) →
      (force_add gc st dir).particles (slot_of st (send_cell gc dir c) i) =
        with_f (st.particles (slot_of st (send_cell gc dir c) i))
          (fun j => (st.particles (slot_of st (send_cell gc dir c) i)).f j + st.recv_buf
            (3 * (psum (fun c => occ st (send_cell gc dir c)) c + i) + (j.val : Int)))) ∧
    ∀ m : Int, (∀ c i : Int, 0 ≤ c → c < gc.n_send_cells dir → 0 ≤ i →
        i < occ st (send_cell gc dir c) → slot_of st (send_cell gc dir c) i ≠ m) →
      (force_add gc st dir).particles m = st.particles m := by
  unfold force_add
  have key := forLoop_induct 0 (gc.n_send_cells dir) (fun c (acc : Packing F) =>
      forLoop 0 (acc.st.cells (send_cell gc dir c)).n_particles (fun n (a : Packing F) =>
        ({ st := ([0, 1, 2] : List (Fin 3)).foldl (fun s i =>
            { s with
              particles := Function.update s.particles
                ((s.cells (send_cell gc dir c)).particles n)
                { (s.particles ((s.cells (send_cell gc dir c)).particles n)) with
                  f := Function.update
                    (s.particles ((s.cells (send_cell gc dir c)).particles n)).f
                    i ((s.particles ((s.cells (send_cell gc dir c)).particles n)).f i +
                      s.recv_buf (a.g + (i.val : Int))) } })
            a.st
           g := a.g + 3 } : Packing F)) acc)
    ({ st := st, g := 0 } : Packing F)
    (fun y (b : Packing F) => y ≤ gc.n_send_cells dir →
      (b.g = 3 * psum (fun c => occ st (send_cell gc dir c)) y ∧ SameHalo st b.st ∧
      b.st.recv_buf = st.recv_buf ∧
      (∀ c i : Int, 0 ≤ c → c < y → 0 ≤ i → i < occ st (send_cell gc dir c) →
        b.st.particles (slot_of st (send_cell gc dir c) i) =
          with_f (st.particles (slot_of st (send_cell gc dir c) i))
            (fun j => (st.particles (slot_of st (send_cell gc dir c) i)).f j + st.recv_buf
              (3 * (psum (fun c => occ st (send_cell gc dir c)) c + i) + (j.val : Int)))) ∧
      (∀ m : Int, (∀ c i : Int, 0 ≤ c → c < y → 0 ≤ i →
          i < occ st (send_cell gc dir c) → slot_of st (send_cell gc dir c) i ≠ m) →
        b.st.particles m = st.particles m)))
    (fun _ => ⟨by simp [psum_zero], sameHalo_refl _, rfl, fun c i h0 h1 => by omega,
      fun m _ => rfl⟩)
    (by
      intro y b hy0 hy1 ih _
      obtain ⟨h1, h2, h3, h4, h5⟩ := ih (by omega)
      have hoc : (b.st.cells (send_cell gc dir y)).n_particles =
          occ st (send_cell gc dir y) := by
        unfold occ; rw [h2.1]
      have hsl : ∀ n : Int, slot_of b.st (send_cell gc dir y) n =
          slot_of st (send_cell gc dir y) n := fun n => sameHalo_slot_eq _ _ h2 _ n
      have hcnt := hocc y hy0 hy1
      obtain ⟨c1, c2, c3, c4, c5⟩ := force_add_cell (send_cell gc dir y) b
        (occ st (send_cell gc dir y)) hcnt
        (by
          intro n n1 hn0 hn1 hn0' hn1' e
          rw [hsl, hsl] at e
          exact (hinj y n y n1 hy0 hy1 hn0 hn1 hy0 hy1 hn0' hn1' e).2)
      beta_reduce
      rw [hoc]
      refine ⟨?_, sameHalo_trans _ _ _ h2 c2, c3.trans h3, ?_, ?_⟩
      · rw [c1, h1, psum_succ _ _ hy0]; ring
      · intro c i hc0 hc1 hi0 hi1
        by_cases hcy : c = y
        · subst hcy
          have := c4 i hi0 hi1
          rw [hsl, h3, h1] at this
          rw [this, h5 _ (fun c' i' h0 h1' h2' h3' e => by
            have := (hinj c' i' c i h0 (by omega) h2' h3' hc0 hy1 hi0 hi1 e).1
            omega)]
          congr 1
          funext j
          congr 2
          ring
        · rw [c5 _ (fun n hn0 hn1 e => by
            rw [hsl] at e
            exact hcy (hinj y n c i hy0 hy1 hn0 hn1 hc0 (by omega) hi0 hi1 e).1.symm)]
          exact h4 c i hc0 (by omega) hi0 hi1
      · intro m hm
        rw [c5 _ (fun n hn0 hn1 e => by
          rw [hsl] at e
          exact hm y n hy0 (by omega) hn0 hn1 e)]
        exact h5 m (fun c i h0 h1' h2' h3' => hm c i h0 (by omega) h2' h3'))
    hC
  obtain ⟨_, k2, _, k4, k5⟩ := key (le_refl _)
  exact ⟨k2, k4, k5⟩
/-- C20: in a sweep `d` of `collect_ghost_forces` on a rank whose neighbour in direction
`d` is the rank itself (occupancies of the cells of `d` non-negative, send entries of `d`
listing pairwise distinct slots), the particle that is `k`-th in the send cells of `d`
(entry `i` of the `c`-th cell, `k = psum occ c + i`) ends with its force before the sweep
plus the force before the sweep of the particle that is `k`-th in the recv cells of `d`,
component by component, and is otherwise unchanged; no slot outside the send cells of `d`
changes, no position changes, and no cell or counter changes. -/
theorem collect_ghost_forces_sweep_adds {F : Type} [LinearOrderedCommRing F]
    (env : Int → Env F) (gc : GhostCells) (w : Int → State F) (d : Fin 6) (r : Int)
    (hself : (env r).neighbors d = (env r).this_node)
    (hCs : 0 ≤ gc.n_send_cells d) (hCr : 0 ≤ gc.n_recv_cells d)
    (hos : ∀ c : Int, 0 ≤ c → c < gc.n_send_cells d → 0 ≤ occ (w r) (send_cell gc d c))
    (hor : ∀ c : Int, 0 ≤ c → c < gc.n_recv_cells d → 0 ≤ occ (w r) (recv_cell gc d c))
    (hinj : ∀ c i c1 i1 : Int, 0 ≤ c → c < gc.n_send_cells d → 0 ≤ i →
      i < occ (w r) (send_cell gc d c) → 0 ≤ c1 → c1 < gc.n_send_cells d → 0 ≤ i1 →
      i1 < occ (w r) (send_cell gc d c1) →
      slot_of (w r) (send_cell gc d c) i = slot_of (w r) (send_cell gc d c1) i1 →
      c = c1 ∧ i = i1) :
    (∀ c i c1 i1 : Int, 0 ≤ c → c < gc.n_send_cells d → 0 ≤ i →
      i < occ (w r) (send_cell gc d c) → 0 ≤ c1 → c1 < gc.n_recv_cells d → 0 ≤ i1 →
      i1 < occ (w r) (recv_cell gc d c1) →
      psum (fun c => occ (w r) (send_cell gc d c)) c + i =
        psum (fun c => occ (w r) (recv_cell gc d c)) c1 + i1 →
      (collect_ghost_forces_sweep env gc w d r).particles (slot_of (w r) (send_cell gc d c) i) =
        with_f ((w r).particles (slot_of (w r) (send_cell gc d c) i))
          (fun j => ((w r).particles (slot_of (w r) (send_cell gc d c) i)).f j +
            ((w r).particles (slot_of (w r) (recv_cell gc d c1) i1)).f j)) ∧
    (∀ m : Int, (∀ c i : Int, 0 ≤ c → c < gc.n_send_cells d → 0 ≤ i →
        i < occ (w r) (send_cell gc d c) → slot_of (w r) (send_cell gc d c) i ≠ m) →
      (collect_ghost_forces_sweep env gc w d r).particles m = (w r).particles m) ∧
    (∀ m : Int, ((collect_ghost_forces_sweep env gc w d r).particles m).p =
      ((w r).particles m).p) ∧
    SameHalo (w r) (collect_ghost_forces_sweep env gc w d r) := by
  obtain ⟨⟨pf1, pf2, _⟩, pk⟩ := force_pack_spec gc (w r) d hCr hor
  unfold collect_ghost_forces_sweep
  have hS : ∀ (a b : Int) (msg : PosMsg F),
      send_posforce (env r) (force_pack gc (w r) d) d a b msg =
        { force_pack gc (w r) d with
          send_buf := (force_pack gc (w r) d).recv_buf
          recv_buf := (force_pack gc (w r) d).send_buf } := by
    intro a b msg
    unfold send_posforce
    rw [if_neg (not_not.2 hself)]
  rw [hS]
  generalize hSdef : ({ force_pack gc (w r) d with
      send_buf := (force_pack gc (w r) d).recv_buf
      recv_buf := (force_pack gc (w r) d).send_buf } : State F) = S
  have hSp : S.particles = (w r).particles := by rw [← hSdef]; exact pf1
  have hSh : SameHalo (w r) S := by rw [← hSdef]; exact pf2
  have hSr : S.recv_buf = (force_pack gc (w r) d).send_buf := by rw [← hSdef]
  have ho : ∀ x : Int, occ S x = occ (w r) x := fun x => sameHalo_occ_eq _ _ hSh x
  have hs : ∀ x i : Int, slot_of S x i = slot_of (w r) x i :=
    fun x i => sameHalo_slot_eq _ _ hSh x i
  obtain ⟨a1, a2, a3⟩ := force_add_spec gc S d hCs
    (fun c h0 h1 => by rw [ho]; exact hos c h0 h1)
    (fun c i c1 i1 h0 h1 h2 h3 h4 h5 h6 h7 e => by
      rw [ho] at h3 h7
      rw [hs, hs] at e
      exact hinj c i c1 i1 h0 h1 h2 h3 h4 h5 h6 h7 e)
  simp only [ho, hs, hSp] at a2 a3
  refine ⟨?_, a3, ?_, sameHalo_trans _ _ _ hSh a1⟩
  · intro c i c1 i1 h0 h1 h2 h3 h4 h5 h6 h7 hk
    rw [a2 c i h0 h1 h2 h3]
    congr 1
    funext j
    congr 1
    rw [hSr, hk]
    exact pk c1 i1 j h4 h5 h6 h7
  · intro m
    by_cases hm : ∃ c i : Int, 0 ≤ c ∧ c < gc.n_send_cells d ∧ 0 ≤ i ∧
        i < occ (w r) (send_cell gc d c) ∧ slot_of (w r) (send_cell gc d c) i = m
    · obtain ⟨c, i, h0, h1, h2, h3, rfl⟩ := hm
      rw [a2 c i h0 h1 h2 h3]
      rfl
    · push_neg at hm
      rw [a3 m hm]
/-- A property of the counters below `n`, checked on the list of these counters. -/
theorem bounded_of_range (n : Int) (P : Int → Prop)
    (h : ∀ k ∈ List.range n.toNat, P (k : Int)) : ∀ c : Int, 0 ≤ c → c < n → P c := by
  intro c h0 h1
  have := h c.toNat (by rw [List.mem_range]; omega)
  rwa [Int.toNat_of_nonneg h0] at this

/-- The send entries of a direction list distinct slots, checked entry by entry. -/
theorem send_slots_distinct {F : Type} (gc : GhostCells) (st : State F) (d : Fin 6)
    (h : ∀ c ∈ List.range (gc.n_send_cells d).toNat,
      ∀ i ∈ List.range (occ st (send_cell gc d (c : Int))).toNat,
      ∀ c1 ∈ List.range (gc.n_send_cells d).toNat,
      ∀ i1 ∈ List.range (occ st (send_cell gc d (c1 : Int))).toNat,
      slot_of st (send_cell gc d (c : Int)) (i : Int) =
        slot_of st (send_cell gc d (c1 : Int)) (i1 : Int) → c = c1 ∧ i = i1) :
    ∀ c i c1 i1 : Int, 0 ≤ c → c < gc.n_send_cells d → 0 ≤ i →
      i < occ st (send_cell gc d c) → 0 ≤ c1 → c1 < gc.n_send_cells d → 0 ≤ i1 →
      i1 < occ st (send_cell gc d c1) →
      slot_of st (send_cell gc d c) i = slot_of st (send_cell gc d c1) i1 →
      c = c1 ∧ i = i1 := by
  intro c i c1 i1 h0 h1 h2 h3 h4 h5 h6 h7 e
  have hc : ((c.toNat : Nat) : Int) = c := Int.toNat_of_nonneg h0
  have hi : ((i.toNat : Nat) : Int) = i := Int.toNat_of_nonneg h2
  have hc1 : ((c1.toNat : Nat) : Int) = c1 := Int.toNat_of_nonneg h4
  have hi1 : ((i1.toNat : Nat) : Int) = i1 := Int.toNat_of_nonneg h6
  have := h c.toNat (by rw [List.mem_range]; omega)
    i.toNat (by rw [List.mem_range, hc]; omega)
    c1.toNat (by rw [List.mem_range]; omega)
    i1.toNat (by rw [List.mem_range, hc1]; omega)
    (by rw [hc, hi, hc1, hi1]; exact e)
  omega

set_option maxRecDepth 1000000 in
/-- C20 on the 1x1x1 grid with `cell_grid = (1,1,1)`: in sweep 5 the particle listed by
the last send cell of direction 5 had force zero and gets the force (1,2,3) of the ghost
listed by the last recv cell. -/
theorem collect_ghost_forces_sweep_adds_witness :
    ((collect_ghost_forces_sweep (fun _ => solo_env) (cells_of_grid ![1, 1, 1]) solo_forced 5
      0).particles (slot_of (solo_forced 0) (send_cell (cells_of_grid ![1, 1, 1]) 5 8) 0)).f =
      ![1, 2, 3] := by
  have h := (collect_ghost_forces_sweep_adds (fun _ => solo_env) (cells_of_grid ![1, 1, 1])
    solo_forced 5 0 (by decide) (by decide!) (by decide!)
    (bounded_of_range _ _ (by decide!)) (bounded_of_range _ _ (by decide!))
    (send_slots_distinct _ _ _ (by decide!))).1 8 0 8 0 (by decide) (by decide!) (by decide)
    (by decide!) (by decide) (by decide!) (by decide) (by decide!) (by decide!)
  rw [h]
  decide!
/-- C23 (amended): `move_to_p_buf(ind)` returns `ind - 1` exactly when `ind` is below the
last owned slot (`ind < n_particles - 1`): the last particle was moved into slot `ind` and
the caller's loop, which adds one to the returned cursor, examines slot `ind` again.  For
the last slot (and beyond) it returns `ind`: nothing was moved in, and the caller's loop
goes on at `ind + 1`, which is not below the new `n_particles`. -/
theorem move_to_p_buf_cursor {F : Type} (env : Env F) (st : State F) (ind : Int) :
    (ind < st.n_particles - 1 →
      (move_to_p_buf env st ind).2 = ind - 1 ∧
      (move_to_p_buf env st ind).1.particles ind = st.particles (st.n_particles - 1)) ∧
    (st.n_particles - 1 ≤ ind →
      (move_to_p_buf env st ind).2 = ind ∧
      ¬ ((move_to_p_buf env st ind).2 + 1 < (move_to_p_buf env st ind).1.n_particles)) ∧
    ∀ (out : Particle F → Bool) (fuel : Nat), ind < st.n_particles →
      out (st.particles ind) = true →
      scan_loop env out (fuel + 1) st ind =
        scan_loop env out fuel (move_to_p_buf env st ind).1
          (if ind < st.n_particles - 1 then ind else ind + 1) := by
  refine ⟨?_, ?_, ?_⟩
  · intro h
    rw [move_to_p_buf_ret, if_pos h, move_to_p_buf_particles, if_pos h, Function.update_same]
    exact ⟨rfl, rfl⟩
  · intro h
    rw [move_to_p_buf_ret, if_neg (by omega), move_to_p_buf_n_particles]
    exact ⟨rfl, by omega⟩
  · intro out fuel h1 ho
    have hstep : scan_loop env out (fuel + 1) st ind =
        scan_loop env out fuel (move_to_p_buf env st ind).1
          ((move_to_p_buf env st ind).2 + 1) := by
      rw [scan_loop, if_pos h1, if_pos ho]
    rw [hstep, move_to_p_buf_ret]
    split_ifs
    · rw [sub_add_cancel]
    · rfl

/-- C23 as stated fails for the last owned slot: with one owned particle,
`move_to_p_buf(0)` returns 0, not -1. -/
theorem move_to_p_buf_cursor_counterexample :
    (0 : Int) ≤ 0 ∧ (0 : Int) < (state_of [mk_particle 7 1 1 1]).n_particles ∧
    (move_to_p_buf solo_env (state_of [mk_particle 7 1 1 1]) 0).2 = 0 ∧
    (move_to_p_buf solo_env (state_of [mk_particle 7 1 1 1]) 0).2 ≠ 0 - 1 := by
  decide

/-- C23 (amended) on three owned particles: removing slot 0 returns -1 and leaves the
former last particle (identity 5) in slot 0; removing the last slot 2 returns 2. -/
theorem move_to_p_buf_cursor_witness :
    ((move_to_p_buf solo_env three_particles 0).2 = 0 - 1 ∧
      ((move_to_p_buf solo_env three_particles 0).1.particles 0).identity = 5) ∧
    (move_to_p_buf solo_env three_particles 2).2 = 2 := by
  obtain ⟨h1, h2⟩ := (move_to_p_buf_cursor solo_env three_particles 0).1 (by decide)
  refine ⟨⟨h1, ?_⟩, ((move_to_p_buf_cursor solo_env three_particles 2).2.1 (by decide)).1⟩
  rw [h2]
  decide

/-- One store of `sub_grid_indices` with room below `max` prints nothing. -/
theorem sub_grid_body_quiet (gli : Int → Int → Int → Int → Int → Int → Int) (max : Int)
    (gs : Fin 3 → Int) (p0 p1 p2 : Int) : NoOverflow max 1 (sub_grid_body gli max gs p0 p1 p2) := by
  intro t ht hroom
  unfold sub_grid_body
  dsimp only
  rw [if_neg (by omega)]
  exact ⟨ht, rfl⟩

/-- A loop of quiet writers of `m` entries each is a quiet writer of all their entries. -/
theorem forLoop_quiet (max lo hi m : Int) (hm : 0 ≤ m) (f : Int → FillState → FillState)
    (hf : ∀ x : Int, lo ≤ x → x < hi → NoOverflow max m (f x)) (hle : lo ≤ hi) :
    NoOverflow max ((hi - lo) * m) (forLoop lo hi f) := by
  intro t ht hroom
  have key := forLoop_induct lo hi f t
    (fun x s => s.overflow = [] ∧ s.i = t.i + (x - lo) * m)
    ⟨ht, by simp⟩
    (by
      rintro x s hx0 hx1 ⟨h1, h2⟩
      have hrest : 0 ≤ (hi - (x + 1)) * m := mul_nonneg (by omega) hm
      have hsplit : (hi - lo) * m = (x - lo) * m + m + (hi - (x + 1)) * m := by ring
      obtain ⟨q1, q2⟩ := hf x hx0 hx1 s h1 (by rw [h2]; omega)
      refine ⟨q1, ?_⟩
      rw [q2, h2]
      ring)
    hle
  exact key

/-- In a valid box that fits, `sub_grid_indices` prints no "Array overflow" line. -/
theorem sub_grid_indices_quiet (gli : Int → Int → Int → Int → Int → Int → Int)
    (list : Int → Int) (start max : Int) (lc hc gs : Fin 3 → Int)
    (hv : BoxValid lc hc gs) (hfit : start + boxSize lc hc ≤ max) :
    (sub_grid_indices gli list start max lc hc gs).overflow = [] := by
  have hsane : ¬ (([0, 1, 2] : List (Fin 3)).any (sub_grid_insane lc hc gs) = true) := by
    rw [sub_grid_insane_iff]; exact fun h => h hv
  have hsz : ¬ (boxSize lc hc + start > max) := by omega
  have h0 := (hv 0).2.1
  have h1 := (hv 1).2.1
  have h2 := (hv 2).2.1
  have q2 : ∀ p0 p1 : Int, NoOverflow max ((hc 2 + 1 - lc 2) * 1)
      (forLoop (lc 2) (hc 2 + 1) (fun p2 => sub_grid_body gli max gs p0 p1 p2)) :=
    fun p0 p1 => forLoop_quiet max _ _ 1 (by omega) _
      (fun p2 _ _ => sub_grid_body_quiet gli max gs p0 p1 p2) (by omega)
  have q1 : ∀ p0 : Int, NoOverflow max ((hc 1 + 1 - lc 1) * ((hc 2 + 1 - lc 2) * 1))
      (forLoop (lc 1) (hc 1 + 1) (fun p1 =>
        forLoop (lc 2) (hc 2 + 1) (fun p2 => sub_grid_body gli max gs p0 p1 p2))) :=
    fun p0 => forLoop_quiet max _ _ _ (by omega) _ (fun p1 _ _ => q2 p0 p1) (by omega)
  have q0 := forLoop_quiet max (lc 0) (hc 0 + 1) _
    (mul_nonneg (show 0 ≤ hc 1 + 1 - lc 1 by omega) (show 0 ≤ (hc 2 + 1 - lc 2) * 1 by omega))
    (fun p0 => forLoop (lc 1) (hc 1 + 1) (fun p1 =>
      forLoop (lc 2) (hc 2 + 1) (fun p2 => sub_grid_body gli max gs p0 p1 p2)))
    (fun p0 _ _ => q1 p0) (by omega)
  have hbs : (hc 0 + 1 - lc 0) * ((hc 1 + 1 - lc 1) * ((hc 2 + 1 - lc 2) * 1)) =
      boxSize lc hc := by simp [boxSize]; ring
  simp only [sub_grid_indices, sub_grid_size_eq, if_neg hsane, if_neg hsz]
  exact (q0 { i := start, list := list, overflow := [] } rfl (by dsimp only; rw [hbs]; exact hfit)).1

/-- The four calls of one pass of the direction loop of `ghost_init`, with their boxes
written as layers. -/
theorem ghost_init_body_calls_eq (gli : Int → Int → Int → Int → Int → Int → Int)
    (cg gcg : Fin 3 → Int) (cs : Fin 6 → Int) (ntot : Int) (i : Fin 3) (s : InitLoop)
    (hd : ∀ j : Fin 3, s.done j = if j.val < i.val then 1 else 0) :
    ghost_init_body_calls gli cg gcg cs ntot i s =
      [sub_grid_indices gli s.send_cells (cs (dir_of i 0)) ntot
          (layer_lo (dir_of i 0) (send_layer cg (dir_of i 0)))
          (layer_hi cg (dir_of i 0) (send_layer cg (dir_of i 0))) gcg,
        sub_grid_indices gli s.recv_cells (cs (dir_of i 1)) ntot
          (layer_lo (dir_of i 1) (recv_layer cg (dir_of i 1)))
          (layer_hi cg (dir_of i 1) (recv_layer cg (dir_of i 1))) gcg,
        sub_grid_indices gli
          (sub_grid_indices gli s.send_cells (cs (dir_of i 0)) ntot
            (layer_lo (dir_of i 0) (send_layer cg (dir_of i 0)))
            (layer_hi cg (dir_of i 0) (send_layer cg (dir_of i 0))) gcg).list
          (cs (dir_of i 1)) ntot
          (layer_lo (dir_of i 1) (send_layer cg (dir_of i 1)))
          (layer_hi cg (dir_of i 1) (send_layer cg (dir_of i 1))) gcg,
        sub_grid_indices gli
          (sub_grid_indices gli s.recv_cells (cs (dir_of i 1)) ntot
            (layer_lo (dir_of i 1) (recv_layer cg (dir_of i 1)))
            (layer_hi cg (dir_of i 1) (recv_layer cg (dir_of i 1))) gcg).list
          (cs (dir_of i 0)) ntot
          (layer_lo (dir_of i 0) (recv_layer cg (dir_of i 0)))
          (layer_hi cg (dir_of i 0) (recv_layer cg (dir_of i 0))) gcg] := by
  rw [send_layer_lo, send_layer_hi, recv_layer_lo, recv_layer_hi]
  rw [← init_box_lo i 0 s.lc s.done 1 hd, ← init_box_hi cg i 0 s.hc s.done 1 hd,
    ← init_box_lo i 1 s.lc s.done 0 hd, ← init_box_hi cg i 1 s.hc s.done 0 hd,
    ← init_box_lo i 1 s.lc s.done (cg i) hd, ← init_box_hi cg i 1 s.hc s.done (cg i) hd,
    ← init_box_lo i 0 s.lc s.done (cg i + 1) hd,
    ← init_box_hi cg i 0 s.hc s.done (cg i + 1) hd]
  unfold ghost_init_body_calls
  simp only [Function.update_idem]

/-- The four calls of one pass of the direction loop of `ghost_init` return the list size
`anz[i]` and print nothing. -/
theorem ghost_init_body_calls_ok (gli : Int → Int → Int → Int → Int → Int → Int)
    (cg gcg : Fin 3 → Int) (cs : Fin 6 → Int) (ntot : Int)
    (hcg : ∀ i : Fin 3, 1 ≤ cg i) (hgcg : ∀ i : Fin 3, gcg i = cg i + 2)
    (i : Fin 3) (s : InitLoop)
    (hd : ∀ j : Fin 3, s.done j = if j.val < i.val then 1 else 0)
    (hcs0 : cs (dir_of i 0) + init_anz cg i = cs (dir_of i 1))
    (hcs1 : cs (dir_of i 1) + init_anz cg i ≤ ntot) :
    (ghost_init_body_calls gli cg gcg cs ntot i s).length = 4 ∧
    ∀ r ∈ ghost_init_body_calls gli cg gcg cs ntot i s,
      r.ret = init_anz cg i ∧ r.overflow = [] := by
  rw [ghost_init_body_calls_eq gli cg gcg cs ntot i s hd]
  have hA := init_anz_pos cg hcg i
  have hci := hcg i
  have hsz : ∀ (lr : Fin 2) (x : Int),
      boxSize (layer_lo (dir_of i lr) x) (layer_hi cg (dir_of i lr) x) = init_anz cg i := by
    intro lr x
    rw [layer_size, axis_of_dir_of]
  have hval : ∀ (lr : Fin 2) (x : Int), 0 ≤ x → x ≤ cg i + 1 →
      BoxValid (layer_lo (dir_of i lr) x) (layer_hi cg (dir_of i lr) x) gcg := by
    intro lr x h0 h1
    exact layer_valid cg gcg hcg hgcg (dir_of i lr) x h0 (by rw [axis_of_dir_of]; exact h1)
  have hs0 := send_layer_lo cg i
  have hs1 := send_layer_hi cg i
  have hr0 := recv_layer_lo cg i
  have hr1 := recv_layer_hi cg i
  have hcall : ∀ (list : Int → Int) (lr : Fin 2) (x : Int), 0 ≤ x → x ≤ cg i + 1 →
      cs (dir_of i lr) + init_anz cg i ≤ ntot →
      (sub_grid_indices gli list (cs (dir_of i lr)) ntot (layer_lo (dir_of i lr) x)
        (layer_hi cg (dir_of i lr) x) gcg).ret = init_anz cg i ∧
      (sub_grid_indices gli list (cs (dir_of i lr)) ntot (layer_lo (dir_of i lr) x)
        (layer_hi cg (dir_of i lr) x) gcg).overflow = [] := by
    intro list lr x h0 h1 hfit
    have hfit1 : cs (dir_of i lr) + boxSize (layer_lo (dir_of i lr) x)
        (layer_hi cg (dir_of i lr) x) ≤ ntot := by rw [hsz]; exact hfit
    refine ⟨?_, sub_grid_indices_quiet gli list _ ntot _ _ gcg (hval lr x h0 h1) hfit1⟩
    rw [(sub_grid_indices_fill gli list _ ntot _ _ gcg (hval lr x h0 h1) hfit1).1, hsz]
  refine ⟨rfl, ?_⟩
  intro r hr
  simp only [List.mem_cons, List.mem_singleton, List.not_mem_nil, or_false] at hr
  rcases hr with rfl | rfl | rfl | rfl
  · exact hcall _ 0 _ (by omega) (by omega) (by omega)
  · exact hcall _ 1 _ (by omega) (by omega) (by omega)
  · exact hcall _ 1 _ (by omega) (by omega) (by omega)
  · exact hcall _ 0 _ (by omega) (by omega) (by omega)
/-- The running sums over the six directions, written out. -/
theorem psum_lits (f : Int → Int) :
    psum f 0 = 0 ∧ psum f 1 = f 0 ∧ psum f 2 = f 0 + f 1 ∧ psum f 3 = f 0 + f 1 + f 2 ∧
    psum f 4 = f 0 + f 1 + f 2 + f 3 ∧ psum f 5 = f 0 + f 1 + f 2 + f 3 + f 4 ∧
    psum f 6 = f 0 + f 1 + f 2 + f 3 + f 4 + f 5 := by
  have h1 := psum_succ f 0 (le_refl _)
  have h2 := psum_succ f 1 (by decide)
  have h3 := psum_succ f 2 (by decide)
  have h4 := psum_succ f 3 (by decide)
  have h5 := psum_succ f 4 (by decide)
  have h6 := psum_succ f 5 (by decide)
  have h0 := psum_zero f
  norm_num at h1 h2 h3 h4 h5 h6
  refine ⟨h0, ?_, ?_, ?_, ?_, ?_, ?_⟩ <;> omega

/-- The twelve `sub_grid_indices` calls of `ghost_init` return the list sizes and print
nothing. -/
theorem ghost_init_calls_ok (gli : Int → Int → Int → Int → Int → Int → Int)
    (cg gcg : Fin 3 → Int) (send0 recv0 : Int → Int) (lc0 hc0 : Fin 3 → Int)
    (hcg : ∀ i : Fin 3, 1 ≤ cg i) (hgcg : ∀ i : Fin 3, gcg i = cg i + 2) :
    (ghost_init_calls gli cg gcg send0 recv0 lc0 hc0).length = 12 ∧
    ∀ r ∈ ghost_init_calls gli cg gcg send0 recv0 lc0 hc0,
      (∃ i : Fin 3, r.ret = init_anz cg i) ∧ r.overflow = [] := by
  have hcs := ghost_init_cell_start gli cg gcg send0 recv0 lc0 hc0 hgcg
  have hnt : 2 * (![cg 1 * cg 2, cg 2 * gcg 0, gcg 0 * gcg 1] 0 +
      ![cg 1 * cg 2, cg 2 * gcg 0, gcg 0 * gcg 1] 1 +
      ![cg 1 * cg 2, cg 2 * gcg 0, gcg 0 * gcg 1] 2) =
      2 * (init_anz cg 0 + init_anz cg 1 + init_anz cg 2) := by
    simp [init_anz, hgcg]
  have h0 : ListsUpTo gli cg gcg (init_start cg) (0 : Fin 3).val
      { lc := lc0, hc := hc0, done := fun _ => 0, n_send_cells := fun _ => 0,
        n_recv_cells := fun _ => 0, send_cells := send0, recv_cells := recv0 } :=
    ⟨fun j => by simp, fun d hd => absurd hd (by simp), fun d hd => absurd hd (by simp),
      fun d hd => absurd hd (by simp), fun d hd => absurd hd (by simp)⟩
  have h1 := ghost_init_body_lists gli cg gcg (init_start cg)
    (2 * (init_anz cg 0 + init_anz cg 1 + init_anz cg 2)) hcg hgcg 0 _ h0
    (init_start_lo cg 0) (init_start_hi cg hcg 0) (init_start_prev cg hcg 0)
  have h2 := ghost_init_body_lists gli cg gcg (init_start cg)
    (2 * (init_anz cg 0 + init_anz cg 1 + init_anz cg 2)) hcg hgcg 1 _ h1
    (init_start_lo cg 1) (init_start_hi cg hcg 1) (init_start_prev cg hcg 1)
  obtain ⟨l0, c0⟩ := ghost_init_body_calls_ok gli cg gcg (init_start cg)
    (2 * (init_anz cg 0 + init_anz cg 1 + init_anz cg 2)) hcg hgcg 0 _ h0.done
    (init_start_lo cg 0) (init_start_hi cg hcg 0)
  obtain ⟨l1, c1⟩ := ghost_init_body_calls_ok gli cg gcg (init_start cg)
    (2 * (init_anz cg 0 + init_anz cg 1 + init_anz cg 2)) hcg hgcg 1 _ h1.done
    (init_start_lo cg 1) (init_start_hi cg hcg 1)
  obtain ⟨l2, c2⟩ := ghost_init_body_calls_ok gli cg gcg (init_start cg)
    (2 * (init_anz cg 0 + init_anz cg 1 + init_anz cg 2)) hcg hgcg 2 _ h2.done
    (init_start_lo cg 2) (init_start_hi cg hcg 2)
  unfold ghost_init_cells at hcs
  unfold ghost_init_calls
  simp only [List.foldl] at hcs ⊢
  rw [hcs, hnt]
  simp only [List.nil_append, List.length_append, List.mem_append]
  refine ⟨by rw [l0, l1, l2], ?_⟩
  rintro r ((hr | hr) | hr)
  · exact ⟨⟨0, (c0 r hr).1⟩, (c0 r hr).2⟩
  · exact ⟨⟨1, (c1 r hr).1⟩, (c1 r hr).2⟩
  · exact ⟨⟨2, (c2 r hr).1⟩, (c2 r hr).2⟩
theorem dir_at_lits : dir_at 0 = 0 ∧ dir_at 1 = 1 ∧ dir_at 2 = 2 ∧ dir_at 3 = 3 ∧
    dir_at 4 = 4 ∧ dir_at 5 = 5 := by decide

/-- C25: for `cell_grid >= 1` and `ghost_cell_grid = cell_grid + 2`, each of the twelve
`sub_grid_indices` calls of `ghost_init()` returns a positive list size (neither 0 nor -1)
and prints no "Array overflow" line; `cell_start[d]` is the sum of the sizes of the lists
before `d` and `ntot_send_cells` the sum of all six, so every position below
`ntot_send_cells` lies in exactly one segment `[cell_start[d], cell_start[d] +
n_send_cells[d])` (the recv lists have the same starts and sizes); every list has at most
`max_send_cells` cells, so a per-cell counter index `c < n_send_cells[d]` is below
`max_send_cells`, and the count loop of `exchange_ghost()` leaves the occupancy of cell `c`
at index `c` and the total at index `max_send_cells`. -/
theorem ghost_init_safe (gli : Int → Int → Int → Int → Int → Int → Int)
    (cg gcg : Fin 3 → Int) (send0 recv0 : Int → Int) (lc0 hc0 : Fin 3 → Int)
    (hcg : ∀ i : Fin 3, 1 ≤ cg i) (hgcg : ∀ i : Fin 3, gcg i = cg i + 2) :
    (ghost_init_calls gli cg gcg send0 recv0 lc0 hc0).length = 12 ∧
    (∀ r ∈ ghost_init_calls gli cg gcg send0 recv0 lc0 hc0,
      r.ret ≠ 0 ∧ r.ret ≠ -1 ∧ 0 < r.ret ∧ r.overflow = []) ∧
    (∀ d : Fin 6, (ghost_init_cells gli cg gcg send0 recv0 lc0 hc0).cell_start d =
      psum (fun j => (ghost_init_cells gli cg gcg send0 recv0 lc0 hc0).n_send_cells (dir_at j))
        d.val) ∧
    (ghost_init_cells gli cg gcg send0 recv0 lc0 hc0).ntot_send_cells =
      psum (fun j => (ghost_init_cells gli cg gcg send0 recv0 lc0 hc0).n_send_cells (dir_at j))
        6 ∧
    (∀ j : Int, 0 ≤ j → j < (ghost_init_cells gli cg gcg send0 recv0 lc0 hc0).ntot_send_cells →
      ∃ (d : Fin 6) (m : Int), 0 ≤ m ∧
        m < (ghost_init_cells gli cg gcg send0 recv0 lc0 hc0).n_send_cells d ∧
        (ghost_init_cells gli cg gcg send0 recv0 lc0 hc0).cell_start d + m = j ∧
        ∀ (d1 : Fin 6) (m1 : Int), 0 ≤ m1 →
          m1 < (ghost_init_cells gli cg gcg send0 recv0 lc0 hc0).n_send_cells d1 →
          (ghost_init_cells gli cg gcg send0 recv0 lc0 hc0).cell_start d1 + m1 = j →
          d1 = d ∧ m1 = m) ∧
    (∀ d : Fin 6, 0 < (ghost_init_cells gli cg gcg send0 recv0 lc0 hc0).n_send_cells d ∧
      (ghost_init_cells gli cg gcg send0 recv0 lc0 hc0).n_recv_cells d =
        (ghost_init_cells gli cg gcg send0 recv0 lc0 hc0).n_send_cells d ∧
      (ghost_init_cells gli cg gcg send0 recv0 lc0 hc0).n_send_cells d ≤
        (ghost_init_cells gli cg gcg send0 recv0 lc0 hc0).max_send_cells ∧
      (ghost_init_cells gli cg gcg send0 recv0 lc0 hc0).n_recv_cells d ≤
        (ghost_init_cells gli cg gcg send0 recv0 lc0 hc0).max_send_cells) ∧
    ∀ {F : Type} (st : State F) (d : Fin 6),
      (ghost_count (ghost_init_cells gli cg gcg send0 recv0 lc0 hc0) st d).n_send_ghosts
          (ghost_init_cells gli cg gcg send0 recv0 lc0 hc0).max_send_cells =
        psum (fun c => occ st (send_cell (ghost_init_cells gli cg gcg send0 recv0 lc0 hc0) d c))
          ((ghost_init_cells gli cg gcg send0 recv0 lc0 hc0).n_send_cells d) ∧
      ∀ c : Int, 0 ≤ c →
        c < (ghost_init_cells gli cg gcg send0 recv0 lc0 hc0).n_send_cells d →
        c < (ghost_init_cells gli cg gcg send0 recv0 lc0 hc0).max_send_cells ∧
        (ghost_count (ghost_init_cells gli cg gcg send0 recv0 lc0 hc0) st d).n_send_ghosts c =
          occ st (send_cell (ghost_init_cells gli cg gcg send0 recv0 lc0 hc0) d c) := by
  obtain ⟨hlen, hcalls⟩ := ghost_init_calls_ok gli cg gcg send0 recv0 lc0 hc0 hcg hgcg
  obtain ⟨hcs, hmax, hns, hnr, _, _⟩ :=
    ghost_init_cells_spec gli cg gcg send0 recv0 lc0 hc0 hcg hgcg
  have hnt : (ghost_init_cells gli cg gcg send0 recv0 lc0 hc0).ntot_send_cells =
      2 * (init_anz cg 0 + init_anz cg 1 + init_anz cg 2) := by
    unfold ghost_init_cells
    simp [init_anz, hgcg]
  generalize ghost_init_cells gli cg gcg send0 recv0 lc0 hc0 = gc at hcs hmax hns hnr hnt ⊢
  have hpos := init_anz_pos cg hcg
  obtain ⟨a0, a1, a2, a3, a4, a5⟩ := axis_of_lits
  obtain ⟨b0, b1, b2, b3, b4, b5⟩ := dir_at_lits
  obtain ⟨p0, p1, p2, p3, p4, p5, p6⟩ := psum_lits (fun j => gc.n_send_cells (dir_at j))
  have e0 : gc.n_send_cells (dir_at 0) = init_anz cg 0 := by rw [b0, hns, a0]
  have e1 : gc.n_send_cells (dir_at 1) = init_anz cg 0 := by rw [b1, hns, a1]
  have e2 : gc.n_send_cells (dir_at 2) = init_anz cg 1 := by rw [b2, hns, a2]
  have e3 : gc.n_send_cells (dir_at 3) = init_anz cg 1 := by rw [b3, hns, a3]
  have e4 : gc.n_send_cells (dir_at 4) = init_anz cg 2 := by rw [b4, hns, a4]
  have e5 : gc.n_send_cells (dir_at 5) = init_anz cg 2 := by rw [b5, hns, a5]
  simp only [e0, e1, e2, e3, e4, e5] at p1 p2 p3 p4 p5 p6
  have hstart : ∀ d : Fin 6, gc.cell_start d =
      psum (fun j => gc.n_send_cells (dir_at j)) d.val := by
    intro d
    rw [hcs]
    unfold init_start
    fin_cases d <;> simp [a0, a1, a2, a3, a4, a5, p0, p1, p2, p3, p4, p5] <;> ring
  have htot : gc.ntot_send_cells = psum (fun j => gc.n_send_cells (dir_at j)) 6 := by
    rw [hnt, p6]
    ring
  have hf0 : ∀ j : Int, 0 ≤ j → j < 6 → 0 ≤ gc.n_send_cells (dir_at j) := by
    intro j _ _
    rw [hns]
    exact le_of_lt (hpos _)
  refine ⟨hlen, ?_, hstart, htot, ?_, ?_, ?_⟩
  · intro r hr
    obtain ⟨⟨i, hi⟩, ho⟩ := hcalls r hr
    have := hpos i
    exact ⟨by omega, by omega, by omega, ho⟩
  · intro j hj0 hj1
    rw [htot] at hj1
    obtain ⟨c, m, hc0, hc1, hm0, hm1, hjm⟩ :=
      psum_split (fun j => gc.n_send_cells (dir_at j)) 6 (by decide) j hj0 hj1
    refine ⟨dir_at c, m, hm0, hm1, ?_, ?_⟩
    · rw [hstart, dir_at_of_lt c hc0 hc1]
      exact hjm.symm
    · intro d1 m1 h0 h1 e
      rw [hstart, hjm] at e
      have h1' : m1 < (fun j => gc.n_send_cells (dir_at j)) (d1.val : Int) := by
        show m1 < gc.n_send_cells (dir_at (d1.val : Int))
        rw [dir_at_val]
        exact h1
      have hd1 := d1.isLt
      have := psum_entry_inj (fun j => gc.n_send_cells (dir_at j)) 6 (d1.val : Int) c m1 m
        (by omega) hc0 (by omega) hc1 h0 h1' hm0 hm1 hf0 e
      refine ⟨?_, this.2⟩
      rw [← this.1, dir_at_val]
  · intro d
    rw [hns, hnr]
    exact ⟨hpos _, rfl, hmax _, hmax _⟩
  · intro F st d
    have hC : 0 ≤ gc.n_send_cells d := by rw [hns]; exact le_of_lt (hpos _)
    have hM : gc.n_send_cells d ≤ gc.max_send_cells := by rw [hns]; exact hmax _
    obtain ⟨_, _, g3, g4⟩ := ghost_count_spec gc st d hC hM
    exact ⟨g4, fun c h0 h1 => ⟨by omega, g3 c h0 h1⟩⟩
/-- C25 for `cell_grid = (2,1,3)`: twelve calls, none printing; direction 3 has a
positive number of send cells, as many recv cells, and not more than `max_send_cells`. -/
theorem ghost_init_safe_witness :
    (ghost_init_calls lattice_index ![2, 1, 3] (fun i => ![2, 1, 3] i + 2) (fun _ => 0)
      (fun _ => 0) (fun _ => 0) (fun _ => 0)).length = 12 ∧
    (∀ r ∈ ghost_init_calls lattice_index ![2, 1, 3] (fun i => ![2, 1, 3] i + 2) (fun _ => 0)
      (fun _ => 0) (fun _ => 0) (fun _ => 0), 0 < r.ret ∧ r.overflow = []) ∧
    0 < (cells_of_grid ![2, 1, 3]).n_send_cells 3 ∧
    (cells_of_grid ![2, 1, 3]).n_recv_cells 3 = (cells_of_grid ![2, 1, 3]).n_send_cells 3 ∧
    (cells_of_grid ![2, 1, 3]).n_send_cells 3 ≤ (cells_of_grid ![2, 1, 3]).max_send_cells := by
  obtain ⟨h1, h2, _, _, _, h6, _⟩ := ghost_init_safe lattice_index ![2, 1, 3]
    (fun i => ![2, 1, 3] i + 2) (fun _ => 0) (fun _ => 0) (fun _ => 0) (fun _ => 0)
    (by decide) (fun _ => rfl)
  exact ⟨h1, fun r hr => ⟨(h2 r hr).2.2.1, (h2 r hr).2.2.2⟩, (h6 3).1, (h6 3).2.1, (h6 3).2.2.1⟩
/-- Two layers of a direction store their points in the same order: position `k` of both
has the same coordinates on the axes other than `d/2`. -/
theorem decode_in_layers (cg : Fin 3 → Int) (d : Fin 6) (x y k : Int) (j : Fin 3)
    (hj : j ≠ axis_of d) :
    decode_in (layer_lo d x) (layer_hi cg d x) k j =
      decode_in (layer_lo d y) (layer_hi cg d y) k j := by
  have hn : ∀ i : Fin 3, layer_hi cg d x i + 1 - layer_lo d x i =
      layer_hi cg d y i + 1 - layer_lo d y i := by
    intro i
    unfold layer_lo layer_hi
    split_ifs <;> omega
  have hl : layer_lo d x j = layer_lo d y j := by
    unfold layer_lo
    rw [if_neg hj, if_neg hj]
  have key : ∀ i : Fin 3, decode_in (layer_lo d x) (layer_hi cg d x) k i - layer_lo d x i =
      decode_in (layer_lo d y) (layer_hi cg d y) k i - layer_lo d y i := by
    intro i
    unfold decode_in
    rw [hn 1, hn 2]
    fin_cases i <;> simp
  have := key j
  omega

/-- The entries of the lists of `ghost_init`, read through `send_cell` and `recv_cell`. -/
theorem ghost_init_entries (gli : Int → Int → Int → Int → Int → Int → Int)
    (cg gcg : Fin 3 → Int) (send0 recv0 : Int → Int) (lc0 hc0 : Fin 3 → Int)
    (hcg : ∀ i : Fin 3, 1 ≤ cg i) (hgcg : ∀ i : Fin 3, gcg i = cg i + 2) (d : Fin 6)
    (m : Int) (hm0 : 0 ≤ m) (hm1 : m < init_anz cg (axis_of d)) :
    InLayer cg d (send_layer cg d)
      (decode_in (layer_lo d (send_layer cg d)) (layer_hi cg d (send_layer cg d)) m) ∧
    InLayer cg d (recv_layer cg d)
      (decode_in (layer_lo d (recv_layer cg d)) (layer_hi cg d (recv_layer cg d)) m) ∧
    send_cell (ghost_init_cells gli cg gcg send0 recv0 lc0 hc0) d m =
      gli
        (decode_in (layer_lo d (send_layer cg d)) (layer_hi cg d (send_layer cg d)) m 0)
        (decode_in (layer_lo d (send_layer cg d)) (layer_hi cg d (send_layer cg d)) m 1)
        (decode_in (layer_lo d (send_layer cg d)) (layer_hi cg d (send_layer cg d)) m 2)
        (gcg 0) (gcg 1) (gcg 2) ∧
    recv_cell (ghost_init_cells gli cg gcg send0 recv0 lc0 hc0) d m =
      gli
        (decode_in (layer_lo d (recv_layer cg d)) (layer_hi cg d (recv_layer cg d)) m 0)
        (decode_in (layer_lo d (recv_layer cg d)) (layer_hi cg d (recv_layer cg d)) m 1)
        (decode_in (layer_lo d (recv_layer cg d)) (layer_hi cg d (recv_layer cg d)) m 2)
        (gcg 0) (gcg 1) (gcg 2) := by
  obtain ⟨hcs, _, _, _, hsend, hrecv⟩ :=
    ghost_init_cells_spec gli cg gcg send0 recv0 lc0 hc0 hcg hgcg
  have hvs : ∀ i : Fin 3, layer_lo d (send_layer cg d) i ≤ layer_hi cg d (send_layer cg d) i :=
    fun i => (layer_valid cg gcg hcg hgcg d _ (send_layer_range cg hcg d).1
      (send_layer_range cg hcg d).2 i).2.1
  have hvr : ∀ i : Fin 3, layer_lo d (recv_layer cg d) i ≤ layer_hi cg d (recv_layer cg d) i :=
    fun i => (layer_valid cg gcg hcg hgcg d _ (recv_layer_range cg hcg d).1
      (recv_layer_range cg hcg d).2 i).2.1
  refine ⟨?_, ?_, ?_, ?_⟩
  · exact (inLayer_iff cg d _ _).2 (decode_in_box _ _ hvs m hm0 (by rw [layer_size]; exact hm1))
  · exact (inLayer_iff cg d _ _).2 (decode_in_box _ _ hvr m hm0 (by rw [layer_size]; exact hm1))
  · unfold send_cell
    rw [hcs]
    exact hsend d m hm0 hm1
  · unfold recv_cell
    rw [hcs]
    exact hrecv d m hm0 hm1

/-- C21: for `cell_grid >= 1` and `ghost_cell_grid = cell_grid + 2`, the `k`-th send cell
and the `k`-th recv cell of a direction `d` built by `ghost_init()` are the lattice cells
of two points, one in the send layer and one in the recv layer of `d`, with equal
coordinates on both axes other than `d/2`.  With a one-to-one lattice mapping, in sweep
`d` of `exchange_ghost()` on a process grid the count `n_send_ghosts[k]` a rank writes is
the occupancy of its `k`-th send cell, and the rank that receives its message gives that
occupancy to its own `k`-th recv cell. -/
theorem ghost_init_cells_matched (gli : Int → Int → Int → Int → Int → Int → Int)
    (cg gcg : Fin 3 → Int) (send0 recv0 : Int → Int) (lc0 hc0 : Fin 3 → Int)
    (hcg : ∀ i : Fin 3, 1 ≤ cg i) (hgcg : ∀ i : Fin 3, gcg i = cg i + 2) :
    (∀ (d : Fin 6) (k : Int), 0 ≤ k →
      k < (ghost_init_cells gli cg gcg send0 recv0 lc0 hc0).n_send_cells d →
      ∃ p q : Fin 3 → Int,
        InLayer cg d (send_layer cg d) p ∧ InLayer cg d (recv_layer cg d) q ∧
        send_cell (ghost_init_cells gli cg gcg send0 recv0 lc0 hc0) d k =
          gli (p 0) (p 1) (p 2) (gcg 0) (gcg 1) (gcg 2) ∧
        recv_cell (ghost_init_cells gli cg gcg send0 recv0 lc0 hc0) d k =
          gli (q 0) (q 1) (q 2) (gcg 0) (gcg 1) (gcg 2) ∧
        ∀ j : Fin 3, j ≠ axis_of d → p j = q j) ∧
    (LatticeInj gli gcg →
      ∀ {F : Type} [LinearOrderedCommRing F] (env : Int → Env F) (ranks : Finset Int),
        ProcessGrid env ranks → ∀ w : Int → State F,
        (∀ q ∈ ranks, CountsOK (ghost_init_cells gli cg gcg send0 recv0 lc0 hc0) (w q)) →
        ∀ (d : Fin 6), ∀ r ∈ ranks, ∀ k : Int, 0 ≤ k →
          k < (ghost_init_cells gli cg gcg send0 recv0 lc0 hc0).n_send_cells d →
          (ghost_prepare (env ((env r).neighbors (r_dir_of d)))
              (ghost_init_cells gli cg gcg send0 recv0 lc0 hc0)
              (w ((env r).neighbors (r_dir_of d))) d).n_send_ghosts k =
            occ (w ((env r).neighbors (r_dir_of d)))
              (send_cell (ghost_init_cells gli cg gcg send0 recv0 lc0 hc0) d k) ∧
          occ (exchange_ghost_sweep env (ghost_init_cells gli cg gcg send0 recv0 lc0 hc0) w d r)
              (recv_cell (ghost_init_cells gli cg gcg send0 recv0 lc0 hc0) d k) =
            (ghost_prepare (env ((env r).neighbors (r_dir_of d)))
              (ghost_init_cells gli cg gcg send0 recv0 lc0 hc0)
              (w ((env r).neighbors (r_dir_of d))) d).n_send_ghosts k) := by
  constructor
  · intro d k hk0 hk1
    rw [(ghost_init_cells_spec gli cg gcg send0 recv0 lc0 hc0 hcg hgcg).2.2.1 d] at hk1
    obtain ⟨e1, e2, e3, e4⟩ :=
      ghost_init_entries gli cg gcg send0 recv0 lc0 hc0 hcg hgcg d k hk0 hk1
    exact ⟨_, _, e1, e2, e3, e4, fun j hj => decode_in_layers cg d _ _ k j hj⟩
  · intro hinj F _ env ranks hg w hcnt d r hr k hk0 hk1
    have hgc := ghost_init_haloCells gli cg gcg send0 recv0 lc0 hc0 hcg hgcg hinj
    generalize ghost_init_cells gli cg gcg send0 recv0 lc0 hc0 = gc at hgc hcnt hk1 ⊢
    obtain ⟨hC, hCM, hCeq, hnd⟩ := hgc.1.2 d
    have hsrc : (env r).neighbors (r_dir_of d) ∈ ranks := ((hg r hr).2 (r_dir_of d)).1
    have hocc : ∀ q ∈ ranks, ∀ c : Int, 0 ≤ c → c < gc.n_send_cells d →
        0 ≤ occ (w q) (send_cell gc d c) :=
      fun q hq c h0 h1 => countsOK_occ gc (w q) (hcnt q hq) d c h0 h1
    have hspec := exchange_ghost_sweep_spec env ranks hg gc w d hgc.1.1 hC hCM hCeq
      (recv_list_inj gc d hnd) hocc r hr
    obtain ⟨_, p2, _, _⟩ := ghost_prepare_spec (env ((env r).neighbors (r_dir_of d))) gc
      (w ((env r).neighbors (r_dir_of d))) d hC hCM (hocc _ hsrc)
    rw [p2 k hk0 hk1]
    exact ⟨rfl, (hspec.2.2.2.2.2.2.2 k hk0 hk1).1⟩
set_option maxRecDepth 1000000 in
/-- C21 on `cell_grid = (1,1,1)` with the row-major lattice: the first send cell and the
first recv cell of direction 4 are cells of two points that agree on axes 0 and 1; and on
the 2x1x1 periodic grid, in sweep 0 rank 1 writes the count 1 for its first send cell and
rank 0 gives its first recv cell of direction 0 the occupancy 1. -/
theorem ghost_init_cells_matched_witness :
    (∃ p q : Fin 3 → Int,
      InLayer ![1, 1, 1] 4 (send_layer ![1, 1, 1] 4) p ∧
      InLayer ![1, 1, 1] 4 (recv_layer ![1, 1, 1] 4) q ∧
      send_cell (cells_of_grid ![1, 1, 1]) 4 0 = lattice_index (p 0) (p 1) (p 2) 3 3 3 ∧
      recv_cell (cells_of_grid ![1, 1, 1]) 4 0 = lattice_index (q 0) (q 1) (q 2) 3 3 3 ∧
      ∀ j : Fin 3, j ≠ axis_of 4 → p j = q j) ∧
    (ghost_prepare (grid_env ![2, 1, 1] 1 1) (cells_of_grid ![1, 1, 1]) (pair_world 1)
      0).n_send_ghosts 0 = 1 ∧
    occ (exchange_ghost_sweep (grid_env ![2, 1, 1] 1) (cells_of_grid ![1, 1, 1]) pair_world
      0 0) (recv_cell (cells_of_grid ![1, 1, 1]) 0 0) = 1 := by
  have h1 := (ghost_init_cells_matched lattice_index ![1, 1, 1] (fun i => ![1, 1, 1] i + 2)
    (fun _ => 0) (fun _ => 0) (fun _ => 0) (fun _ => 0) (by decide) (fun _ => rfl)).1 4 0
    (by decide) (by decide!)
  have h2 := (ghost_init_cells_matched lattice_index ![1, 1, 1] (fun i => ![1, 1, 1] i + 2)
    (fun _ => 0) (fun _ => 0) (fun _ => 0) (fun _ => 0) (by decide) (fun _ => rfl)).2
    (lattice_index_inj _) (grid_env ![2, 1, 1] 1) {0, 1} (by decide) pair_world (by decide!)
    0 0 (by decide) 0 (by decide) (by decide!)
  have e : occ (pair_world 1) (send_cell (cells_of_grid ![1, 1, 1]) 0 0) = 1 := by decide!
  have e0 : (grid_env ![2, 1, 1] 1 0).neighbors (r_dir_of 0) = 1 := by decide
  rw [e0] at h2
  exact ⟨h1, h2.1.trans e, h2.2.trans (h2.1.trans e)⟩

/-- A point of a recv layer is a halo cell. -/
theorem recv_layer_halo (cg : Fin 3 → Int) (hcg : ∀ i : Fin 3, 1 ≤ cg i) (d : Fin 6)
    (p : Fin 3 → Int) (hp : InLayer cg d (recv_layer cg d) p) : HaloPoint cg p := by
  obtain ⟨h1, h2⟩ := hp
  have hr := recv_layer_range cg hcg d
  refine ⟨?_, axis_of d, ?_⟩
  · intro j
    have := hcg j
    rcases lt_trichotomy j (axis_of d) with hlt | heq | hgt
    · exact (h2 j).2 hlt
    · subst heq
      omega
    · have := (h2 j).1 hgt
      omega
  · rw [h1]
    unfold recv_layer
    split_ifs
    · exact Or.inr rfl
    · exact Or.inl rfl

theorem recv_layer_lits (cg : Fin 3 → Int) :
    recv_layer cg 0 = cg 0 + 1 ∧ recv_layer cg 1 = 0 ∧ recv_layer cg 2 = cg 1 + 1 ∧
    recv_layer cg 3 = 0 ∧ recv_layer cg 4 = cg 2 + 1 ∧ recv_layer cg 5 = 0 := by
  obtain ⟨a0, a1, a2, a3, a4, a5⟩ := axis_of_lits
  unfold recv_layer
  rw [if_pos (by decide), if_neg (by decide), if_pos (by decide), if_neg (by decide),
    if_pos (by decide), if_neg (by decide), a0, a2, a4]
  exact ⟨rfl, rfl, rfl, rfl, rfl, rfl⟩

/-- A halo cell lies in the recv layer of a direction: the one of its last axis with a
ghost coordinate. -/
theorem halo_point_layer (cg : Fin 3 → Int) (p : Fin 3 → Int) (hp : HaloPoint cg p) :
    ∃ d : Fin 6, InLayer cg d (recv_layer cg d) p := by
  obtain ⟨hb, hg⟩ := hp
  obtain ⟨a0, a1, a2, a3, a4, a5⟩ := axis_of_lits
  obtain ⟨r0, r1, r2, r3, r4, r5⟩ := recv_layer_lits cg
  have b0 := hb 0
  have b1 := hb 1
  have b2 := hb 2
  have hg3 : (p 0 = 0 ∨ p 0 = cg 0 + 1) ∨ (p 1 = 0 ∨ p 1 = cg 1 + 1) ∨
      (p 2 = 0 ∨ p 2 = cg 2 + 1) := by
    obtain ⟨i, hi⟩ := hg
    fin_cases i
    · exact Or.inl hi
    · exact Or.inr (Or.inl hi)
    · exact Or.inr (Or.inr hi)
  have mk : ∀ (d : Fin 6), p (axis_of d) = recv_layer cg d →
      (∀ j : Fin 3, axis_of d < j → 1 ≤ p j ∧ p j ≤ cg j) →
      InLayer cg d (recv_layer cg d) p :=
    fun d h1 h2 => ⟨h1, fun j => ⟨h2 j, fun _ => hb j⟩⟩
  by_cases h2 : p 2 = 0 ∨ p 2 = cg 2 + 1
  · rcases h2 with h2 | h2
    · refine ⟨5, mk 5 (by rw [a5, h2, r5]) ?_⟩
      intro j hj
      rw [a5] at hj
      fin_cases j <;> simp at hj
    · refine ⟨4, mk 4 (by rw [a4, h2, r4]) ?_⟩
      intro j hj
      rw [a4] at hj
      fin_cases j <;> simp at hj
  · by_cases h1 : p 1 = 0 ∨ p 1 = cg 1 + 1
    · rcases h1 with h1 | h1
      · refine ⟨3, mk 3 (by rw [a3, h1, r3]) ?_⟩
        intro j hj
        rw [a3] at hj
        have o2 : 1 ≤ p 2 ∧ p 2 ≤ cg 2 := ⟨by omega, by omega⟩
        fin_cases j
        · simp at hj
        · simp at hj
        · exact o2
      · refine ⟨2, mk 2 (by rw [a2, h1, r2]) ?_⟩
        intro j hj
        rw [a2] at hj
        have o2 : 1 ≤ p 2 ∧ p 2 ≤ cg 2 := ⟨by omega, by omega⟩
        fin_cases j
        · simp at hj
        · simp at hj
        · exact o2
    · have h0 : p 0 = 0 ∨ p 0 = cg 0 + 1 := by
        rcases hg3 with h | h | h
        · exact h
        · exact absurd h h1
        · exact absurd h h2
      have o1 : 1 ≤ p 1 ∧ p 1 ≤ cg 1 := ⟨by omega, by omega⟩
      have o2 : 1 ≤ p 2 ∧ p 2 ≤ cg 2 := ⟨by omega, by omega⟩
      rcases h0 with h0 | h0
      · refine ⟨1, mk 1 (by rw [a1, h0, r1]) ?_⟩
        intro j hj
        rw [a1] at hj
        fin_cases j
        · simp at hj
        · exact o1
        · exact o2
      · refine ⟨0, mk 0 (by rw [a0, h0, r0]) ?_⟩
        intro j hj
        rw [a0] at hj
        fin_cases j
        · simp at hj
        · exact o1
        · exact o2

/-- A point of the send layer of direction `d` is an owned cell, or a halo cell in the
recv layer of a direction of an earlier axis. -/
theorem send_layer_cases (cg : Fin 3 → Int) (hcg : ∀ i : Fin 3, 1 ≤ cg i) (d : Fin 6)
    (p : Fin 3 → Int) (hp : InLayer cg d (send_layer cg d) p) :
    OwnedPoint cg p ∨
      (HaloPoint cg p ∧ ∃ d1 : Fin 6, (axis_of d1).val < (axis_of d).val ∧
        InLayer cg d1 (recv_layer cg d1) p) := by
  obtain ⟨h1, h2⟩ := hp
  have hax : 1 ≤ p (axis_of d) ∧ p (axis_of d) ≤ cg (axis_of d) := by
    have := hcg (axis_of d)
    rw [h1]
    unfold send_layer
    split_ifs <;> omega
  have hb : ∀ j : Fin 3, 0 ≤ p j ∧ p j ≤ cg j + 1 := by
    intro j
    rcases lt_trichotomy j (axis_of d) with hlt | heq | hgt
    · exact (h2 j).2 hlt
    · subst heq
      omega
    · have := (h2 j).1 hgt
      omega
  by_cases hown : OwnedPoint cg p
  · exact Or.inl hown
  · right
    have hg : ∃ i : Fin 3, p i = 0 ∨ p i = cg i + 1 := by
      unfold OwnedPoint at hown
      push_neg at hown
      obtain ⟨i, hi⟩ := hown
      have := hb i
      exact ⟨i, by omega⟩
    have hhalo : HaloPoint cg p := ⟨hb, hg⟩
    obtain ⟨d1, hd1⟩ := halo_point_layer cg p hhalo
    refine ⟨hhalo, d1, ?_, hd1⟩
    by_contra hge
    have hr : p (axis_of d1) = 0 ∨ p (axis_of d1) = cg (axis_of d1) + 1 := by
      rw [hd1.1]
      unfold recv_layer
      split_ifs
      · exact Or.inr rfl
      · exact Or.inl rfl
    rcases lt_trichotomy (axis_of d) (axis_of d1) with hlt | heq | hgt
    · have := (h2 (axis_of d1)).1 hlt
      omega
    · rw [← heq] at hr
      omega
    · exact hge (Fin.lt_iff_val_lt_val.1 hgt)
/-- Every point of a layer of direction `d` is the point stored at some position below
`anz[d/2]` of the block of the layer. -/
theorem layer_entry_of_point (cg : Fin 3 → Int) (d : Fin 6) (x : Int) (p : Fin 3 → Int)
    (hp : InLayer cg d x p) :
    ∃ m : Int, 0 ≤ m ∧ m < init_anz cg (axis_of d) ∧
      decode_in (layer_lo d x) (layer_hi cg d x) m = p := by
  obtain ⟨m, h0, h1, h2⟩ := decode_in_surj _ _ p ((inLayer_iff cg d x p).1 hp)
  rw [layer_size] at h1
  exact ⟨m, h0, h1, h2⟩

theorem halo_point_lattice (cg gcg : Fin 3 → Int) (hgcg : ∀ i : Fin 3, gcg i = cg i + 2)
    (p : Fin 3 → Int) (hp : HaloPoint cg p) (i : Fin 3) : 0 ≤ p i ∧ p i < gcg i := by
  have := hp.1 i
  have := hgcg i
  omega

theorem owned_point_lattice (cg gcg : Fin 3 → Int) (hgcg : ∀ i : Fin 3, gcg i = cg i + 2)
    (p : Fin 3 → Int) (hp : OwnedPoint cg p) (i : Fin 3) : 0 ≤ p i ∧ p i < gcg i := by
  have := hp i
  have := hgcg i
  omega

theorem owned_not_halo (cg : Fin 3 → Int) (p : Fin 3 → Int) (ho : OwnedPoint cg p)
    (hh : HaloPoint cg p) : False := by
  obtain ⟨i, hi⟩ := hh.2
  have := ho i
  omega

/-- A loop keeps an invariant that each of its iterations keeps; the iterations may use
that their index is in the range of the loop. -/
theorem forLoop_preserve_in {σ : Type} (lo hi : Int) (body : Int → σ → σ) (s : σ)
    (P : σ → Prop) (h0 : P s) (hstep : ∀ x t, lo ≤ x → x < hi → P t → P (body x t)) :
    P (forLoop lo hi body s) := by
  by_cases h : lo ≤ hi
  · exact forLoop_induct lo hi body s (fun _ t => P t) h0 hstep h
  · rw [forLoop_empty _ _ _ _ (by omega)]
    exact h0

/-- Packing and folding the positions of `update_ghost_pos` write `send_buf` only. -/
theorem pos_prepare_persist {F : Type} [LinearOrderedCommRing F] (env : Env F)
    (gc : GhostCells) (st : State F) (dir : Fin 6) :
    Persist st (pos_prepare env gc st dir) := by
  have h1 : Persist st (pos_pack gc st dir).st := by
    unfold pos_pack
    exact forLoop_preserve _ _ _ _ (fun (u : Packing F) => Persist st u.st) (persist_refl _)
      (fun c u hu => forLoop_preserve _ _ _ _ (fun (u1 : Packing F) => Persist st u1.st) hu
        (fun n u1 h1 => h1))
  unfold pos_prepare pos_fold
  split_ifs
  · unfold forStride3
    exact forLoop_preserve _ _ _ _ (fun acc => Persist st acc) h1 (fun x t h => h)
  · exact h1

/-- The exchange of a position or force buffer writes the two buffers only. -/
theorem send_posforce_persist {F : Type} (env : Env F) (st : State F) (s_dir : Fin 6)
    (ss rs : Int) (msg : PosMsg F) : Persist st (send_posforce env st s_dir ss rs msg) := by
  unfold send_posforce
  split_ifs
  · simp only [List.foldl]
    split_ifs <;> exact persist_refl _
  · exact ⟨rfl, rfl, rfl, rfl, rfl, rfl, rfl⟩

theorem posOnly_refl {F : Type} (gc : GhostCells) (a : State F) : PosOnly gc a a :=
  ⟨rfl, rfl, rfl, rfl, fun _ => rfl, fun _ _ => rfl⟩

theorem posOnly_persist {F : Type} (gc : GhostCells) (a s t : State F)
    (h : PosOnly gc a s) (hp : Persist s t) : PosOnly gc a t := by
  obtain ⟨h1, h2, h3, h4, h5, h6⟩ := h
  obtain ⟨p1, p2, p3, p4, p5, _, _⟩ := hp
  refine ⟨p4.trans h1, p2.trans h2, p3.trans h3, p5.trans h4, ?_, ?_⟩
  · intro m
    rw [p1]
    exact h5 m
  · intro m hm
    rw [p1]
    exact h6 m hm

/-- The three loads of one entry of a recv cell keep `PosOnly`. -/
theorem pos_load_posOnly {F : Type} (gc : GhostCells) (a s : State F) (dir : Fin 6)
    (c n g : Int) (h : PosOnly gc a s) (hc0 : 0 ≤ c) (hc1 : c < gc.n_recv_cells dir)
    (hn0 : 0 ≤ n) (hn1 : n < occ a (recv_cell gc dir c)) :
    PosOnly gc a (([0, 1, 2] : List (Fin 3)).foldl (fun s i =>
      { s with
        particles := Function.update s.particles
          ((s.cells (recv_cell gc dir c)).particles n)
          { (s.particles ((s.cells (recv_cell gc dir c)).particles n)) with
            p := Function.update
              (s.particles ((s.cells (recv_cell gc dir c)).particles n)).p
              i (s.recv_buf (g + (i.val : Int))) } }) s) := by
  obtain ⟨h1, h2, h3, h4, h5, h6⟩ := h
  obtain ⟨⟨q1, q2, q3, _, _⟩, _, q5, q6⟩ := pos_load s (recv_cell gc dir c) n g
  have hslot : slot_of s (recv_cell gc dir c) n = slot_of a (recv_cell gc dir c) n := by
    unfold slot_of
    rw [h1]
  have hlisted : RecvListed gc a (slot_of s (recv_cell gc dir c) n) :=
    ⟨dir, c, n, hc0, hc1, hn0, hn1, hslot.symm⟩
  refine ⟨q1.trans h1, q2.trans h2, q3.trans h3, h4, ?_, ?_⟩
  · intro m
    by_cases hm : m = slot_of s (recv_cell gc dir c) n
    · subst hm
      rw [q5, h5 (slot_of s (recv_cell gc dir c) n)]
      rfl
    · rw [q6 m hm]
      exact h5 m
  · intro m hm
    have hne : m ≠ slot_of s (recv_cell gc dir c) n := by
      intro e
      rw [e] at hm
      exact hm hlisted
    rw [q6 m hne]
    exact h6 m hm

/-- The unpack loop of `update_ghost_pos` keeps `PosOnly`. -/
theorem pos_unpack_posOnly {F : Type} (gc : GhostCells) (a s : State F) (dir : Fin 6)
    (h : PosOnly gc a s) : PosOnly gc a (pos_unpack gc s dir) := by
  unfold pos_unpack
  refine forLoop_preserve_in _ _ _ _ (fun (u : Packing F) => PosOnly gc a u.st) h ?_
  intro c u hc0 hc1 hu
  refine forLoop_preserve_in _ _ _ _ (fun (u1 : Packing F) => PosOnly gc a u1.st) hu ?_
  intro n u1 hn0 hn1 hu1
  have hocc : (u.st.cells (recv_cell gc dir c)).n_particles = occ a (recv_cell gc dir c) := by
    unfold occ
    rw [hu.1]
  rw [hocc] at hn1
  exact pos_load_posOnly gc a u1.st dir c n u1.g hu1 hc0 hc1 hn0 hn1

/-- One sweep of `update_ghost_pos` keeps `PosOnly` on every rank. -/
theorem update_ghost_pos_sweep_posOnly {F : Type} [LinearOrderedCommRing F]
    (env : Int → Env F) (gc : GhostCells) (a : State F) (w : Int → State F) (dir : Fin 6)
    (r : Int) (h : PosOnly gc a (w r)) :
    PosOnly gc a (update_ghost_pos_sweep env gc w dir r) := by
  unfold update_ghost_pos_sweep
  exact pos_unpack_posOnly gc a _ dir
    (posOnly_persist gc a _ _
      (posOnly_persist gc a _ _ h (pos_prepare_persist (env r) gc (w r) dir))
      (send_posforce_persist _ _ _ _ _ _))

theorem update_ghost_pos_sweeps_posOnly {F : Type} [LinearOrderedCommRing F]
    (env : Int → Env F) (gc : GhostCells) (a : State F) (r : Int) (l : List (Fin 6)) :
    ∀ w : Int → State F, PosOnly gc a (w r) →
      PosOnly gc a (l.foldl (fun w1 dir => update_ghost_pos_sweep env gc w1 dir) w r) := by
  induction l with
  | nil => exact fun w h => h
  | cons d l ih =>
    intro w h
    simp only [List.foldl_cons]
    exact ih _ (update_ghost_pos_sweep_posOnly env gc a w d r h)

/-- After `exchange_ghost` on a process grid the recv cells list ghost slots only. -/
theorem exchange_ghost_recv_ghost {F : Type} [LinearOrderedCommRing F] (env : Int → Env F)
    (ranks : Finset Int) (hg : ProcessGrid env ranks) (gc : GhostCells) (hgc : HaloCells gc)
    (w : Int → State F) (hcnt : ∀ q ∈ ranks, CountsOK gc (w q)) (r : Int) (hr : r ∈ ranks)
    (m : Int) (hm : RecvListed gc (exchange_ghost env gc w r) m) :
    (exchange_ghost env gc w r).n_particles ≤ m := by
  obtain ⟨hL, _⟩ := exchange_ghost_layout env ranks hg gc hgc w hcnt
  generalize exchange_ghost env gc w = W at hL hm ⊢
  have hsrc : ∀ d1 : Fin 6, (env r).neighbors (r_dir_of d1) ∈ ranks :=
    fun d1 => ((hg r hr).2 (r_dir_of d1)).1
  have hocc : ∀ (d : Fin 6) (c : Int), 0 ≤ c → c < gc.n_send_cells d →
      0 ≤ occ (W r) (recv_cell gc d c) := by
    intro d c h0 h1
    rw [hL.occ_match r hr d d.isLt c h0 h1]
    exact countsOK_occ gc _ (hL.counts _ (hsrc d)) d c h0 h1
  have hC : ∀ d : Fin 6, 0 ≤ gc.n_send_cells d := fun d => (hgc.1.2 d).1
  have hsz0 : ∀ j : Int, 0 ≤ j → j < 6 → 0 ≤ (W r).ghost_recv_size (dir_at j) := by
    intro j _ _
    rw [hL.recv_size r hr (dir_at j) (dir_at j).isLt]
    exact psum_nonneg _ _ (hC _) (fun c h0 h1 => hocc _ c h0 h1)
  obtain ⟨d, c, i, hc0, hc1, hi0, hi1, hi⟩ := hm
  rw [(hgc.1.2 d).2.2.1] at hc1
  have hs := hL.slots r hr d c i d.isLt ⟨hc0, hc1, hi0, hi1⟩
  have n1 : 0 ≤ psum (fun j => (W r).ghost_recv_size (dir_at j)) (d.val : Int) :=
    psum_nonneg _ _ (by omega) (fun j h0 h1 => hsz0 j h0 (by have := d.isLt; omega))
  have n2 : 0 ≤ psum (fun c => occ (W r) (recv_cell gc d c)) c :=
    psum_nonneg _ _ hc0 (fun j h0 h1 => hocc d j h0 (by omega))
  have hs1 : slot_of (W r) (recv_cell gc d c) i =
      (W r).n_particles + psum (fun j => (W r).ghost_recv_size (dir_at j)) (d.val : Int) +
        psum (fun c => occ (W r) (recv_cell gc d c)) c + i := hs
  omega

/-- Whether a recv cell lists a slot depends on the cell lists only. -/
theorem recvListed_cells {F : Type} (gc : GhostCells) (a b : State F)
    (h : b.cells = a.cells) (m : Int) (hm : RecvListed gc b m) : RecvListed gc a m := by
  unfold RecvListed occ slot_of at hm ⊢
  rw [h] at hm
  exact hm

/-- C24: in a world where the recv cells of rank `r` list ghost slots only (indices at or
above `n_particles`), `update_ghost_pos()` leaves every slot below `n_particles` of `r`
entirely unchanged, and any slot not listed by a recv cell as well; every slot keeps all
fields but the position (velocity, force, identity, type, charge, bonds); and the cell
lists with their occupancies, `n_particles`, `n_ghosts` and `local_index` are unchanged.
After `exchange_ghost()` on a process grid the recv cells do list ghost slots only. -/
theorem update_ghost_pos_frame {F : Type} [LinearOrderedCommRing F] (env : Int → Env F)
    (gc : GhostCells) :
    (∀ (w : Int → State F) (r : Int),
      (∀ m : Int, RecvListed gc (w r) m → (w r).n_particles ≤ m) →
      (∀ m : Int, m < (w r).n_particles →
        (update_ghost_pos env gc w r).particles m = (w r).particles m) ∧
      (∀ m : Int, ¬ RecvListed gc (w r) m →
        (update_ghost_pos env gc w r).particles m = (w r).particles m) ∧
      (∀ m : Int, (update_ghost_pos env gc w r).particles m =
        with_p ((w r).particles m) ((update_ghost_pos env gc w r).particles m).p) ∧
      (update_ghost_pos env gc w r).cells = (w r).cells ∧
      (update_ghost_pos env gc w r).n_particles = (w r).n_particles ∧
      (update_ghost_pos env gc w r).n_ghosts = (w r).n_ghosts ∧
      (update_ghost_pos env gc w r).local_index = (w r).local_index) ∧
    (∀ ranks : Finset Int, ProcessGrid env ranks → HaloCells gc → ∀ w : Int → State F,
      (∀ q ∈ ranks, CountsOK gc (w q)) → ∀ r ∈ ranks, ∀ m : Int,
      RecvListed gc (exchange_ghost env gc w r) m →
      (exchange_ghost env gc w r).n_particles ≤ m) := by
  constructor
  · intro w r H
    obtain ⟨h1, h2, h3, h4, h5, h6⟩ := update_ghost_pos_sweeps_posOnly env gc (w r) r
      [0, 1, 2, 3, 4, 5] w (posOnly_refl gc (w r))
    refine ⟨?_, h6, h5, h1, h2, h3, h4⟩
    intro m hm
    refine h6 m (fun hl => ?_)
    have := H m hl
    omega
  · intro ranks hg hgc w hcnt r hr m hm
    exact exchange_ghost_recv_ghost env ranks hg gc hgc w hcnt r hr m hm
set_option maxRecDepth 1000000 in
/-- C24 on the 2x1x1 periodic grid with `cell_grid = (1,1,1)`, after both owned particles
moved: the recv cells of rank 0 list ghost slots only, `update_ghost_pos` leaves the owned
slot 0 of rank 0 as it is, changes at most the position of the ghost slot 1, and keeps
the cell lists. -/
theorem update_ghost_pos_frame_witness :
    (update_ghost_pos (grid_env ![2, 1, 1] 1) (cells_of_grid ![1, 1, 1]) pair_moved
      0).particles 0 = (pair_moved 0).particles 0 ∧
    (update_ghost_pos (grid_env ![2, 1, 1] 1) (cells_of_grid ![1, 1, 1]) pair_moved
      0).particles 1 =
      with_p ((pair_moved 0).particles 1)
        ((update_ghost_pos (grid_env ![2, 1, 1] 1) (cells_of_grid ![1, 1, 1]) pair_moved
          0).particles 1).p ∧
    (update_ghost_pos (grid_env ![2, 1, 1] 1) (cells_of_grid ![1, 1, 1]) pair_moved
      0).cells = (pair_moved 0).cells := by
  have hs : SameHalo (exchange_ghost (grid_env ![2, 1, 1] 1) (cells_of_grid ![1, 1, 1])
      pair_world 0) (pair_moved 0) := with_pos_sameHalo _ _ _
  have H : ∀ m : Int, RecvListed (cells_of_grid ![1, 1, 1]) (pair_moved 0) m →
      (pair_moved 0).n_particles ≤ m := by
    intro m hm
    rw [hs.2.1]
    exact (update_ghost_pos_frame (grid_env ![2, 1, 1] 1) (cells_of_grid ![1, 1, 1])).2
      {0, 1} (by decide) (cells_of_grid_haloCells ![1, 1, 1] (by decide)) pair_world
      (by decide!) 0 (by decide) m (recvListed_cells _ _ _ hs.1 m hm)
  obtain ⟨h1, _, h3, h4, _⟩ := (update_ghost_pos_frame (grid_env ![2, 1, 1] 1)
    (cells_of_grid ![1, 1, 1])).1 pair_moved 0 H
  have e : (pair_moved 0).n_particles = 1 := by decide!
  exact ⟨h1 0 (by rw [e]; decide), h3 1, h4⟩

theorem wrap_int_of_isInt (x : Int) (h : IsInt x) : wrap_int x = x := by
  obtain ⟨h1, h2⟩ := h
  unfold wrap_int
  omega

theorem isInt_wrap_int (x : Int) : IsInt (wrap_int x) := by
  unfold IsInt wrap_int
  omega

/-- Without overflow the `int` variable `size` holds the number of points of the box. -/
theorem sub_grid_size_int_eq (lc hc gs : Fin 3 → Int) (hv : BoxValid lc hc gs)
    (hgs : ∀ i : Fin 3, IsInt (gs i)) (hsz : boxSize lc hc ≤ 2147483647) :
    sub_grid_size_int lc hc = boxSize lc hc := by
  have f : ∀ i : Fin 3, wrap_int (wrap_int (hc i + 1) - lc i) = hc i + 1 - lc i ∧
      1 ≤ hc i + 1 - lc i := by
    intro i
    obtain ⟨a, b, c⟩ := hv i
    obtain ⟨_, d⟩ := hgs i
    rw [wrap_int_of_isInt (hc i + 1) ⟨by omega, by omega⟩,
      wrap_int_of_isInt _ ⟨by omega, by omega⟩]
    exact ⟨rfl, by omega⟩
  obtain ⟨f0, p0⟩ := f 0
  obtain ⟨f1, p1⟩ := f 1
  obtain ⟨f2, p2⟩ := f 2
  unfold boxSize at hsz ⊢
  have h01 : 1 ≤ (hc 0 + 1 - lc 0) * (hc 1 + 1 - lc 1) := one_le_mul_of_one_le_of_one_le p0 p1
  have h01b : (hc 0 + 1 - lc 0) * (hc 1 + 1 - lc 1) ≤
      (hc 0 + 1 - lc 0) * (hc 1 + 1 - lc 1) * (hc 2 + 1 - lc 2) :=
    le_mul_of_one_le_right (by omega) p2
  simp only [sub_grid_size_int, List.foldl, f0, f1, f2]
  rw [wrap_int_of_isInt ((hc 0 + 1 - lc 0) * (hc 1 + 1 - lc 1)) ⟨by omega, by omega⟩,
    wrap_int_of_isInt _ ⟨by omega, by omega⟩]

/-- One store with the cursor below `INT_MAX` is the store of exact arithmetic. -/
theorem sub_grid_body_sameFill (gli : Int → Int → Int → Int → Int → Int → Int) (max : Int)
    (gs : Fin 3 → Int) (p0 p1 p2 : Int) :
    SameFill 1 (sub_grid_body gli max gs p0 p1 p2) (sub_grid_body_int gli max gs p0 p1 p2) := by
  intro t h0 h1
  unfold sub_grid_body sub_grid_body_int
  rw [wrap_int_of_isInt (t.i + 1) ⟨by omega, h1⟩]
  exact ⟨rfl, rfl⟩

/-- A loop of writers that agree on `m` entries each agrees on all their entries. -/
theorem forLoop_sameFill (lo hi m : Int) (hm : 0 ≤ m) (f g : Int → FillState → FillState)
    (hf : ∀ x : Int, lo ≤ x → x < hi → SameFill m (f x) (g x)) (hle : lo ≤ hi) :
    SameFill ((hi - lo) * m) (forLoop lo hi f) (forLoop lo hi g) := by
  intro t ht0 ht1
  have key := forLoop_induct lo hi g t
    (fun x s => s = forLoop lo x f t ∧ s.i = t.i + (x - lo) * m)
    ⟨(forLoop_empty _ _ _ _ (le_refl _)).symm, by simp⟩
    (by
      rintro x s hx0 hx1 ⟨h1, h2⟩
      have hdone : 0 ≤ (x - lo) * m := mul_nonneg (by omega) hm
      have hrest : 0 ≤ (hi - (x + 1)) * m := mul_nonneg (by omega) hm
      have hsplit : (hi - lo) * m = (x - lo) * m + m + (hi - (x + 1)) * m := by ring
      obtain ⟨q1, q2⟩ := hf x hx0 hx1 s (by rw [h2]; omega) (by rw [h2]; omega)
      refine ⟨?_, ?_⟩
      · rw [q1, forLoop_succ _ _ _ _ hx0, ← h1]
      · rw [q1, q2, h2]
        ring)
    hle
  obtain ⟨k1, k2⟩ := key
  exact ⟨k1, by rw [← k1, k2]⟩

/-- The 32-bit `sub_grid_indices` is the one of exact arithmetic on every call in which
no value leaves the range of `int`: `int` grid sizes and `start`, and a box with at most
`INT_MAX` points that ends at or below `INT_MAX`. -/
theorem sub_grid_indices_int_exact (gli : Int → Int → Int → Int → Int → Int → Int)
    (list : Int → Int) (start max : Int) (lc hc gs : Fin 3 → Int)
    (hgs : ∀ i : Fin 3, IsInt (gs i)) (hstart : IsInt start)
    (hsz : boxSize lc hc ≤ 2147483647) (hend : start + boxSize lc hc ≤ 2147483647) :
    sub_grid_indices_int gli list start max lc hc gs =
      sub_grid_indices gli list start max lc hc gs := by
  by_cases hins : ([0, 1, 2] : List (Fin 3)).any (sub_grid_insane lc hc gs) = true
  · simp only [sub_grid_indices_int, sub_grid_indices, if_pos hins]
  · have hv : BoxValid lc hc gs := by
      by_contra hnv
      exact hins ((sub_grid_insane_iff lc hc gs).2 hnv)
    have h0 := (hv 0).2.1
    have h1 := (hv 1).2.1
    have h2 := (hv 2).2.1
    have hpos : 1 ≤ boxSize lc hc := by
      unfold boxSize
      exact one_le_mul_of_one_le_of_one_le
        (one_le_mul_of_one_le_of_one_le (by omega) (by omega)) (by omega)
    have hsum : wrap_int (boxSize lc hc + start) = boxSize lc hc + start :=
      wrap_int_of_isInt _ ⟨by have := hstart.1; omega, by omega⟩
    simp only [sub_grid_indices_int, sub_grid_indices, if_neg hins,
      sub_grid_size_int_eq lc hc gs hv hgs hsz, sub_grid_size_eq, hsum]
    split_ifs with hbig
    · rfl
    · have q2 : ∀ p0 p1 : Int, SameFill ((hc 2 + 1 - lc 2) * 1)
          (forLoop (lc 2) (hc 2 + 1) (fun p2 => sub_grid_body gli max gs p0 p1 p2))
          (forLoop (lc 2) (hc 2 + 1) (fun p2 => sub_grid_body_int gli max gs p0 p1 p2)) :=
        fun p0 p1 => forLoop_sameFill _ _ 1 (by omega) _ _
          (fun p2 _ _ => sub_grid_body_sameFill gli max gs p0 p1 p2) (by omega)
      have q1 : ∀ p0 : Int, SameFill ((hc 1 + 1 - lc 1) * ((hc 2 + 1 - lc 2) * 1))
          (forLoop (lc 1) (hc 1 + 1) (fun p1 =>
            forLoop (lc 2) (hc 2 + 1) (fun p2 => sub_grid_body gli max gs p0 p1 p2)))
          (forLoop (lc 1) (hc 1 + 1) (fun p1 =>
            forLoop (lc 2) (hc 2 + 1) (fun p2 => sub_grid_body_int gli max gs p0 p1 p2))) :=
        fun p0 => forLoop_sameFill _ _ _ (by omega) _ _ (fun p1 _ _ => q2 p0 p1) (by omega)
      have q0 := forLoop_sameFill (lc 0) (hc 0 + 1) _
        (mul_nonneg (show 0 ≤ hc 1 + 1 - lc 1 by omega) (show 0 ≤ (hc 2 + 1 - lc 2) * 1 by omega))
        (fun p0 => forLoop (lc 1) (hc 1 + 1) (fun p1 =>
          forLoop (lc 2) (hc 2 + 1) (fun p2 => sub_grid_body gli max gs p0 p1 p2)))
        (fun p0 => forLoop (lc 1) (hc 1 + 1) (fun p1 =>
          forLoop (lc 2) (hc 2 + 1) (fun p2 => sub_grid_body_int gli max gs p0 p1 p2)))
        (fun p0 _ _ => q1 p0) (by omega)
      have hbs : (hc 0 + 1 - lc 0) * ((hc 1 + 1 - lc 1) * ((hc 2 + 1 - lc 2) * 1)) =
          boxSize lc hc := by simp [boxSize]; ring
      have e := (q0 { i := start, list := list, overflow := [] } hstart.1
        (by dsimp only; rw [hbs]; exact hend)).1
      rw [e]

/-- The error paths of the 32-bit `sub_grid_indices`: it returns 0 and writes nothing when
some bound is out of range or `lc[i] > hc[i]`, and a positive result needs valid bounds;
on a call in which no value leaves the range of `int` it returns -1 and writes nothing
when `start + size > max`, and a positive result needs a box that fits. -/
theorem sub_grid_indices_int_errors (gli : Int → Int → Int → Int → Int → Int → Int)
    (list : Int → Int) (start max : Int) (lc hc gs : Fin 3 → Int) :
    ((∃ i : Fin 3, lc i < 0 ∨ gs i ≤ lc i ∨ hc i < 0 ∨ gs i ≤ hc i ∨ hc i < lc i) →
        (sub_grid_indices_int gli list start max lc hc gs).ret = 0 ∧
        (sub_grid_indices_int gli list start max lc hc gs).list = list) ∧
    ((sub_grid_indices_int gli list start max lc hc gs).ret > 0 → BoxValid lc hc gs) ∧
    ((∀ i : Fin 3, IsInt (gs i)) → IsInt start → boxSize lc hc ≤ 2147483647 →
      start + boxSize lc hc ≤ 2147483647 →
        (BoxValid lc hc gs → start + boxSize lc hc > max →
          (sub_grid_indices_int gli list start max lc hc gs).ret = -1 ∧
          (sub_grid_indices_int gli list start max lc hc gs).list = list) ∧
        ((sub_grid_indices_int gli list start max lc hc gs).ret > 0 →
          start + boxSize lc hc ≤ max)) := by
  refine ⟨?_, ?_, ?_⟩
  · intro h
    have hins : ([0, 1, 2] : List (Fin 3)).any (sub_grid_insane lc hc gs) = true := by
      rw [sub_grid_insane_iff, not_boxValid_iff]; exact h
    simp only [sub_grid_indices_int, if_pos hins, and_self]
  · intro hpos
    by_contra hnv
    have hins : ([0, 1, 2] : List (Fin 3)).any (sub_grid_insane lc hc gs) = true :=
      (sub_grid_insane_iff lc hc gs).2 hnv
    simp only [sub_grid_indices_int, if_pos hins] at hpos
    omega
  · intro hgs hstart hsz hend
    rw [sub_grid_indices_int_exact gli list start max lc hc gs hgs hstart hsz hend]
    obtain ⟨_, e2, e3⟩ := sub_grid_indices_errors gli list start max lc hc gs
    exact ⟨e2, fun hpos => (e3 hpos).2⟩

/-- A loop is its first part followed by the rest. -/
theorem forLoop_split {σ : Type} (lo mid hi : Int) (body : Int → σ → σ) (s : σ)
    (h1 : lo ≤ mid) (h2 : mid ≤ hi) :
    forLoop lo hi body s = forLoop mid hi body (forLoop lo mid body s) := by
  have key := forLoop_induct mid hi body (forLoop lo mid body s)
    (fun x t => t = forLoop lo x body s) rfl
    (fun x t hx0 _ ht => by
      dsimp only at ht ⊢
      rw [ht, forLoop_succ lo x body s (by omega)]) h2
  exact key.symm

/-- A store of `sub_grid_indices` removes no "Array overflow" line. -/
theorem sub_grid_body_int_printed (gli : Int → Int → Int → Int → Int → Int → Int)
    (max : Int) (gs : Fin 3 → Int) (p0 p1 p2 : Int) (t : FillState) (h : t.overflow ≠ []) :
    (sub_grid_body_int gli max gs p0 p1 p2 t).overflow ≠ [] := by
  unfold sub_grid_body_int
  dsimp only
  split_ifs
  · simp
  · exact h

/-- With valid bounds and a passed size test, the 32-bit `sub_grid_indices` prints an
"Array overflow" line as soon as the rows `lc[1] .. k-1` of the first plane print one. -/
theorem sub_grid_indices_int_prints (gli : Int → Int → Int → Int → Int → Int → Int)
    (list : Int → Int) (start max : Int) (lc hc gs : Fin 3 → Int) (hv : BoxValid lc hc gs)
    (hfit : ¬ wrap_int (sub_grid_size_int lc hc + start) > max) (k : Int) (hk0 : lc 1 ≤ k)
    (hk1 : k ≤ hc 1 + 1)
    (hpre : (forLoop (lc 1) k (fun p1 => forLoop (lc 2) (hc 2 + 1) (fun p2 =>
      sub_grid_body_int gli max gs (lc 0) p1 p2))
      { i := start, list := list, overflow := [] }).overflow ≠ []) :
    (sub_grid_indices_int gli list start max lc hc gs).ret = sub_grid_size_int lc hc ∧
    (sub_grid_indices_int gli list start max lc hc gs).overflow ≠ [] := by
  have hsane : ¬ (([0, 1, 2] : List (Fin 3)).any (sub_grid_insane lc hc gs) = true) := by
    rw [sub_grid_insane_iff]; exact fun h => h hv
  have h0 := (hv 0).2.1
  simp only [sub_grid_indices_int, if_neg hsane, if_neg hfit, true_and]
  have rows : ∀ (p0 : Int) (t : FillState), t.overflow ≠ [] →
      (forLoop (lc 1) (hc 1 + 1) (fun p1 => forLoop (lc 2) (hc 2 + 1) (fun p2 =>
        sub_grid_body_int gli max gs p0 p1 p2)) t).overflow ≠ [] :=
    fun p0 t ht => forLoop_preserve _ _ _ _ (fun (u : FillState) => u.overflow ≠ []) ht
      (fun p1 u hu => forLoop_preserve _ _ _ _ (fun (u1 : FillState) => u1.overflow ≠ []) hu
        (fun p2 u1 hu1 => sub_grid_body_int_printed gli max gs p0 p1 p2 u1 hu1))
  rw [forLoop_split (lc 0) (lc 0 + 1) (hc 0 + 1) _ _ (by omega) (by omega),
    forLoop_succ _ _ _ _ (le_refl _), forLoop_empty _ _ _ _ (le_refl _),
    forLoop_split (lc 1) k (hc 1 + 1) _ _ hk0 hk1]
  refine forLoop_preserve _ _ _ _ (fun (u : FillState) => u.overflow ≠ []) ?_
    (fun p0 u hu => rows p0 u hu)
  exact forLoop_preserve _ _ _ _ (fun (u : FillState) => u.overflow ≠ []) hpre
    (fun p1 u hu => forLoop_preserve _ _ _ _ (fun (u1 : FillState) => u1.overflow ≠ []) hu
      (fun p2 u1 hu1 => sub_grid_body_int_printed gli max gs _ p1 p2 u1 hu1))

end Ghosts
